import Mathlib

/-!
# The llvm-mc assembly parser and the matcher table emitter

A shallow embedding of `AsmParser` (`tools/llvm-mc/AsmParser.cpp`) and of the
collaborators it drives: the token stream, the expression tree, the symbol
table and the streamer.  The parser's methods are Lean functions over an
explicit parser state; a `bool` return value of `true` (error) is the
`Result.error` outcome and `false` is `Result.ok`.  Recursive methods take a
fuel argument, and `Result.outOfFuel` is a third outcome that is shown not to
occur when the fuel covers the length of the token stream.

The second part embeds the matcher table emitter
(`utils/TableGen/DAGISelMatcherEmitter.cpp`): the text it writes is a
sequence of array elements and comments, and its methods are functions over
the emitter state.

The third part embeds the matrix of the interference graph
(`lib/CodeGen/RegAlloc/InterferenceGraph.cpp`) and the templates that round
the size of a small pointer set up to a power of two
(`include/llvm/ADT/SmallPtrSet.h`).
-/

set_option autoImplicit false

/-! ## Tokens -/

/-- Modelled from the spec: the token kinds of `AsmToken::TokenKind`
(`AsmLexer.h` is not among the sources); the list is the one of the
lexer section. -/
inductive AsmToken.TokenKind where
  | EndOfStatement | Eof | Identifier | String | Integer | Real | Register
  | LParen | RParen | LBrac | RBrac | LCurly | RCurly | Comma | Colon | Equal
  | Plus | Minus | Tilde | Exclaim | Star | Slash | Percent
  | Pipe | PipePipe | Caret | Amp | AmpAmp
  | Less | LessLess | LessEqual | LessGreater
  | Greater | GreaterGreater | GreaterEqual | EqualEqual | ExclaimEqual
  deriving DecidableEq, Repr

/-- Modelled from the spec: a token `(kind, lexeme_slice, source_location)`;
`IntVal` is the value `getIntVal()` gives for an `Integer` token. -/
structure AsmToken where
  Kind : AsmToken.TokenKind
  Str : String
  IntVal : Int
  Loc : Nat
  deriving DecidableEq, Repr

/-- Modelled from the spec: a source location `SMLoc`; a default-constructed
one is not valid. -/
abbrev SMLoc := Option Nat

/-! ## Expressions -/

/-- Opcodes of `AsmUnaryExpr`. -/
inductive AsmUnaryExpr.Opcode where
  | LNot | Minus | Not | Plus
  deriving DecidableEq, Repr

/-- Opcodes of `AsmBinaryExpr`. -/
inductive AsmBinaryExpr.Opcode where
  | Add | And | Div | EQ | GT | GTE | LAnd | LOr | LT | LTE
  | Mod | Mul | NE | Or | Shl | Shr | Sub | Xor
  deriving DecidableEq, Repr

/-- Expression trees: `AsmConstantExpr`, `AsmSymbolRefExpr`, `AsmUnaryExpr`
and `AsmBinaryExpr`.  A symbol is named by its interned name. -/
inductive AsmExpr where
  | Constant (Value : Int)
  | SymbolRef (Sym : String)
  | Unary (Op : AsmUnaryExpr.Opcode) (Sub : AsmExpr)
  | Binary (Op : AsmBinaryExpr.Opcode) (LHS RHS : AsmExpr)
  deriving DecidableEq, Repr

/-- The function `getBinOpPrecedence` of `AsmParser.cpp`: the precedence of a
token as a binary operator (0 when it is none) and the value of the
reference parameter `Kind` on return. -/
def getBinOpPrecedence (K : AsmToken.TokenKind) (Kind : AsmBinaryExpr.Opcode) :
    Nat × AsmBinaryExpr.Opcode :=
  match K with
  -- Lowest Precedence: &&, ||
  | .AmpAmp => (1, .LAnd)
  | .PipePipe => (1, .LOr)
  -- Low Precedence: +, -, ==, !=, <>, <, <=, >, >=
  | .Plus => (2, .Add)
  | .Minus => (2, .Sub)
  | .EqualEqual => (2, .EQ)
  | .ExclaimEqual => (2, .NE)
  | .LessGreater => (2, .NE)
  | .Less => (2, .LT)
  | .LessEqual => (2, .LTE)
  | .Greater => (2, .GT)
  | .GreaterEqual => (2, .GTE)
  -- Intermediate Precedence: |, &, ^
  | .Pipe => (3, .Or)
  | .Caret => (3, .Xor)
  | .Amp => (3, .And)
  -- Highest Precedence: *, /, %, <<, >>
  | .Star => (4, .Mul)
  | .Slash => (4, .Div)
  | .Percent => (4, .Mod)
  | .LessLess => (4, .Shl)
  | .GreaterGreater => (4, .Shr)
  | _ => (0, Kind)

/-! ## Relocatable values and their evaluation -/

/-- Modelled from the spec: the relocatable value `MCValue`, a triple
`(constant, plus_sym, minus_sym)` meaning `constant + &plus_sym - &minus_sym`
(`MCValue.h` is not among the sources). -/
structure MCValue where
  Cst : Int
  SymA : Option String
  SymB : Option String
  deriving DecidableEq, Repr

/-- Modelled from the spec: the absolute value `MCValue::get(Val)`, both
symbol slots empty. -/
def MCValue.get (Val : Int) : MCValue := ⟨Val, none, none⟩

/-- Modelled from the spec: `MCValue::isAbsolute()`, whether both symbol
slots are empty. -/
def MCValue.isAbsolute (V : MCValue) : Bool := V.SymA.isNone && V.SymB.isNone

/-- Reduction of an integer to the 64-bit two's-complement range of
`int64_t`. -/
def wrap64 (x : Int) : Int := (x + 2 ^ 63) % 2 ^ 64 - 2 ^ 63

/-- Modelled from the spec: the rule that `A - A` cancels, as the removal
from the added and the subtracted symbols of those that occur in both, one
occurrence against one. -/
def cancelSyms : List String → List String → List String × List String
  | [], Minus => ([], Minus)
  | p :: Plus, Minus =>
    if p ∈ Minus then cancelSyms Plus (Minus.erase p)
    else ((cancelSyms Plus Minus).1.cons p, (cancelSyms Plus Minus).2)

/-- Modelled from the spec: the sum of two relocatable values.  Constants
combine, `A - A` cancels, and a sum that would need more than one added or
more than one subtracted symbol is rejected. -/
def MCValue.add (L R : MCValue) : Option MCValue :=
  let c := cancelSyms (L.SymA.toList ++ R.SymA.toList) (L.SymB.toList ++ R.SymB.toList)
  if c.1.length ≤ 1 ∧ c.2.length ≤ 1 then
    some ⟨wrap64 (L.Cst + R.Cst), c.1.head?, c.2.head?⟩
  else none

/-- Modelled from the spec: the negation of a relocatable value, which swaps
the added and the subtracted symbol. -/
def MCValue.neg (V : MCValue) : MCValue := ⟨wrap64 (-V.Cst), V.SymB, V.SymA⟩

/-- Modelled from the spec: a binary operator on two absolute operands in
64-bit two's-complement arithmetic; division and modulo by zero fail.  The
spec gives no meaning to a shift count outside 0..63; the model fails
there. -/
def evalAbsoluteBinary (Op : AsmBinaryExpr.Opcode) (a b : Int) : Option Int :=
  match Op with
  | .Add => some (wrap64 (a + b))
  | .Sub => some (wrap64 (a - b))
  | .Mul => some (wrap64 (a * b))
  | .Div => if b = 0 then none else some (wrap64 (Int.tdiv a b))
  | .Mod => if b = 0 then none else some (wrap64 (Int.tmod a b))
  | .And => some (Int.land a b)
  | .Or => some (Int.lor a b)
  | .Xor => some (Int.xor a b)
  | .Shl => if 0 ≤ b ∧ b < 64 then some (wrap64 (a * 2 ^ b.toNat)) else none
  | .Shr => if 0 ≤ b ∧ b < 64 then some (a / 2 ^ b.toNat) else none
  | .EQ => some (if a = b then 1 else 0)
  | .NE => some (if a = b then 0 else 1)
  | .LT => some (if a < b then 1 else 0)
  | .LTE => some (if a ≤ b then 1 else 0)
  | .GT => some (if b < a then 1 else 0)
  | .GTE => some (if b ≤ a then 1 else 0)
  | .LAnd => some (if a ≠ 0 ∧ b ≠ 0 then 1 else 0)
  | .LOr => some (if a ≠ 0 ∨ b ≠ 0 then 1 else 0)

/-- Modelled from the spec: `AsmExpr::EvaluateAsRelocatable` (`AsmExpr.cpp`
is not among the sources).  The expression folds to
`(const, +sym?, -sym?)`: a constant is absolute, a symbol reference is
`(0, +sym, none)`, `+` and `-` combine constants and symbols with `A - A`
cancelling, and any other operator needs absolute operands. -/
def AsmExpr.EvaluateAsRelocatable : AsmExpr → Option MCValue
  | .Constant v => some (MCValue.get v)
  | .SymbolRef s => some ⟨0, some s, none⟩
  | .Unary Op e =>
    match e.EvaluateAsRelocatable with
    | none => none
    | some V =>
      match Op with
      | .Plus => some V
      | .Minus => some V.neg
      | .LNot => if V.isAbsolute then some (MCValue.get (if V.Cst = 0 then 1 else 0)) else none
      | .Not => if V.isAbsolute then some (MCValue.get (wrap64 (-V.Cst - 1))) else none
  | .Binary Op l r =>
    match l.EvaluateAsRelocatable, r.EvaluateAsRelocatable with
    | some L, some R =>
      match Op with
      | .Add => L.add R
      | .Sub => L.add R.neg
      | _ =>
        if L.isAbsolute ∧ R.isAbsolute then
          (evalAbsoluteBinary Op L.Cst R.Cst).map MCValue.get
        else none
    | _, _ => none

/-- Modelled from the spec: `AsmExpr::EvaluateAsAbsolute`, which succeeds
when the expression folds to a value with both symbol slots empty. -/
def AsmExpr.EvaluateAsAbsolute (e : AsmExpr) : Option Int :=
  match e.EvaluateAsRelocatable with
  | some V => if V.isAbsolute then some V.Cst else none
  | none => none

/-! ## Symbol table, streamer and parser state -/

/-- Modelled from the spec: the symbol table of `MCContext` together with
the per-symbol state of `MCSymbol` (neither header is among the sources).
A symbol is identified by its interned name; one that was never touched is
undefined: it has no section, is not external and has no value, which is
also the state `GetOrCreateSymbol` gives a new symbol.  `Sections` are the
sections `GetSection` can find. -/
structure MCContext where
  Section : String → Option String
  External : String → Bool
  SymbolValue : String → Option MCValue
  Sections : List String

/-- Modelled from the spec: `Sym->getSection()`, the section a symbol is
defined in, none (a null pointer) when it is not defined. -/
def MCContext.getSection (Ctx : MCContext) (Sym : String) : Option String := Ctx.Section Sym

/-- Modelled from the spec: `Sym->isExternal()`, the external flag of a
symbol. -/
def MCContext.isExternal (Ctx : MCContext) (Sym : String) : Bool := Ctx.External Sym

/-- Modelled from the spec: `Ctx.GetSymbolValue(Sym)`, the value assigned to
a symbol, none (a null pointer) when it has none. -/
def MCContext.GetSymbolValue (Ctx : MCContext) (Sym : String) : Option MCValue :=
  Ctx.SymbolValue Sym

/-- Modelled from the spec: the update `Sym->setExternal(Value)`. -/
def MCContext.setExternal (Ctx : MCContext) (Sym : String) (Value : Bool) : MCContext :=
  { Ctx with External := Function.update Ctx.External Sym Value }

/-- Modelled from the spec: the update `Sym->setSection(S)`. -/
def MCContext.setSection (Ctx : MCContext) (Sym : String) (S : String) : MCContext :=
  { Ctx with Section := Function.update Ctx.Section Sym (some S) }

/-- Modelled from the spec: the update `Ctx.SetSymbolValue(Sym, Value)`. -/
def MCContext.SetSymbolValue (Ctx : MCContext) (Sym : String) (Value : MCValue) : MCContext :=
  { Ctx with SymbolValue := Function.update Ctx.SymbolValue Sym (some Value) }

/-- Modelled from the spec: the lookup `Ctx.GetSection(Name)`, the section
of that name if it was created, none (a null pointer) otherwise. -/
def MCContext.GetSection (Ctx : MCContext) (Name : String) : Option String :=
  if Name ∈ Ctx.Sections then some Name else none

/-- Modelled from the spec: the registration done by
`MCSection::Create(Name, Ctx)`. -/
def MCContext.CreateSection (Ctx : MCContext) (Name : String) : MCContext :=
  { Ctx with Sections := Ctx.Sections ++ [Name] }

/-- Modelled from the spec: the symbol attributes `MCStreamer::SymbolAttr`,
as the streamer contract lists them. -/
inductive MCStreamer.SymbolAttr where
  | Global | Hidden | IndirectSymbol | Internal | LazyReference | NoDeadStrip
  | PrivateExtern | Protected | Reference | Weak | WeakDefinition | WeakReference
  deriving DecidableEq, Repr

/-- Modelled from the spec: the assembler flags
`MCStreamer::AssemblerFlag`. -/
inductive MCStreamer.AssemblerFlag where
  | SubsectionsViaSymbols
  deriving DecidableEq, Repr

/-- Modelled from the spec: a machine instruction `MCInst` as the target
parser returns it (`MCInst.h` is not among the sources); the parser core
only hands it on to the streamer. -/
structure MCInst where
  Opcode : String
  Operands : List Int
  deriving DecidableEq, Repr

/-- Modelled from the spec: one call of a method of the streamer contract
(`MCStreamer.h` is not among the sources).  `EmitZerofill` called with the
section alone has no symbol, size 0 and alignment 0. -/
inductive StreamerCall where
  | SwitchSection (Section : String)
  | EmitLabel (Sym : String)
  | EmitAssignment (Sym : String) (Value : MCValue) (IsDotSet : Bool)
  | EmitSymbolAttribute (Sym : String) (Attr : MCStreamer.SymbolAttr)
  | EmitSymbolDesc (Sym : String) (DescValue : Int)
  | EmitCommonSymbol (Sym : String) (Size Pow2Alignment : Int) (IsLocal : Bool)
  | EmitZerofill (Section : Option String) (Sym : Option String) (Size Pow2Alignment : Int)
  | EmitLocalSymbol (Sym : String) (Value : MCValue)
  | EmitBytes (Data : String)
  | EmitValue (Value : MCValue) (Size : Int)
  | EmitValueToAlignment (ByteAlignment Value : Int) (ValueSize : Nat) (MaxBytesToFill : Int)
  | EmitValueToOffset (Offset : MCValue) (Value : Int)
  | EmitInstruction (Inst : MCInst)
  | EmitAssemblerFlag (Flag : MCStreamer.AssemblerFlag)
  deriving DecidableEq, Repr

/-- Modelled from the spec: a recording streamer, the calls it received in
order and its current section (the unnamed initial section before the first
switch). -/
structure MCStreamer where
  Calls : List StreamerCall
  CurSection : String
  deriving DecidableEq, Repr

/-- Modelled from the spec: a diagnostic printed by
`Lexer.PrintMessage(Loc, Msg, Kind)`: a location, a message and a severity
("warning" or "error"). -/
structure Diag where
  Loc : SMLoc
  Msg : String
  Kind : String
  deriving DecidableEq, Repr

/-- What a call of the target hook `ParseInstruction(Name, Inst)` did.  The
hook reaches the parser state only through the lexer, the diagnostics and
the expression parser, so its effect is: an error flag, the instruction,
the number of tokens it consumed, the messages it printed and the symbols
its operand expressions referenced. -/
structure TargetResult where
  Failed : Bool
  Inst : MCInst
  Consumed : Nat
  Diags : List Diag
  Referenced : List String

/-- The target instruction parser `TargetAsmParser`, an external
collaborator: a function of the mnemonic and of the tokens that follow it. -/
structure TargetAsmParser where
  ParseInstruction : String → List AsmToken → TargetResult

/-- The state of an `AsmParser`: the tokens the lexer has still to deliver
(the head is the current token), the context, the streamer, the messages
printed so far, the target parser, and the token streams of the files that
`.include` can find. -/
structure AsmParser where
  Lexer : List AsmToken
  Ctx : MCContext
  Out : MCStreamer
  Diags : List Diag
  TargetParser : TargetAsmParser
  IncludeFiles : String → Option (List AsmToken)

/-- Outcome of a parser method: `ok` when it returned false, `error` when
it returned true, `outOfFuel` when the model ran out of fuel. -/
inductive Result (α : Type) where
  | ok (Res : α) (P : AsmParser)
  | error (P : AsmParser)
  | outOfFuel

/-- The pattern `if (Parse...(Res)) return true; ...`: continue with the
result on success, hand an error on unchanged. -/
def Result.andThen {α β : Type} (r : Result α) (k : α → AsmParser → Result β) : Result β :=
  match r with
  | .ok Res P => k Res P
  | .error P => .error P
  | .outOfFuel => .outOfFuel

namespace AsmParser

/-- Modelled from the spec: the current token `Lexer.getTok()`; past the end
of the stream the lexer delivers `Eof`. -/
def getTok (P : AsmParser) : AsmToken :=
  match P.Lexer with
  | [] => ⟨.Eof, "", 0, 0⟩
  | T :: _ => T

/-- Modelled from the spec: the kind of the current token,
`Lexer.getKind()`. -/
def getKind (P : AsmParser) : AsmToken.TokenKind := P.getTok.Kind

/-- Modelled from the spec: the test `Lexer.is(K)` on the current token. -/
def is (P : AsmParser) (K : AsmToken.TokenKind) : Bool := P.getKind = K

/-- Modelled from the spec: the test `Lexer.isNot(K)` on the current
token. -/
def isNot (P : AsmParser) (K : AsmToken.TokenKind) : Bool := P.getKind ≠ K

/-- Modelled from the spec: the location of the current token,
`Lexer.getLoc()`. -/
def getLoc (P : AsmParser) : SMLoc := some P.getTok.Loc

/-- Modelled from the spec: `Lexer.Lex()`, which advances to the next
token; once at `Eof` the lexer stays there. -/
def Lex (P : AsmParser) : AsmParser :=
  match P.Lexer with
  | [] => P
  | T :: Rest => if T.Kind = .Eof then P else { P with Lexer := Rest }

/-- The method `AsmParser::Warning`. -/
def Warning (P : AsmParser) (L : SMLoc) (Msg : String) : AsmParser :=
  { P with Diags := P.Diags ++ [⟨L, Msg, "warning"⟩] }

/-- The method `AsmParser::Error`: prints the message; its return value is
always true. -/
def Error (P : AsmParser) (L : SMLoc) (Msg : String) : AsmParser :=
  { P with Diags := P.Diags ++ [⟨L, Msg, "error"⟩] }

/-- The method `AsmParser::TokError`: an error at the current token. -/
def TokError (P : AsmParser) (Msg : String) : AsmParser :=
  { P with Diags := P.Diags ++ [⟨P.getLoc, Msg, "error"⟩] }

/-- The marking `Sym->setExternal(true)`. -/
def setExternal (P : AsmParser) (Sym : String) : AsmParser :=
  { P with Ctx := P.Ctx.setExternal Sym true }

/-- The code `if (!Sym->getSection() && !Ctx.GetSymbolValue(Sym))
Sym->setExternal(true)`: a use of an undefined symbol marks it external. -/
def markUse (P : AsmParser) (Sym : String) : AsmParser :=
  if (P.Ctx.getSection Sym).isNone && (P.Ctx.GetSymbolValue Sym).isNone then
    P.setExternal Sym
  else P

/-- Modelled from the spec: a streamer method that only emits; the call is
recorded. -/
def emit (P : AsmParser) (C : StreamerCall) : AsmParser :=
  { P with Out := { P.Out with Calls := P.Out.Calls ++ [C] } }

/-- Modelled from the spec: `Out.SwitchSection(S)` records the call and
makes `S` the current section. -/
def SwitchSection (P : AsmParser) (S : String) : AsmParser :=
  { P with Out := { Calls := P.Out.Calls ++ [.SwitchSection S], CurSection := S } }

/-- Modelled from the spec: `Out.EmitLabel(Sym)` records the call and moves
the symbol to the state defined-in-current-section, which leaves the state
external. -/
def EmitLabel (P : AsmParser) (Sym : String) : AsmParser :=
  { P with
    Out := { P.Out with Calls := P.Out.Calls ++ [.EmitLabel Sym] }
    Ctx := (P.Ctx.setSection Sym P.Out.CurSection).setExternal Sym false }

/-- Modelled from the spec: `Out.EmitAssignment(Sym, Value, IsDotSet)`
records the call and moves the symbol to the state assigned. -/
def EmitAssignment (P : AsmParser) (Sym : String) (Value : MCValue) (IsDotSet : Bool) :
    AsmParser :=
  { P with
    Out := { P.Out with Calls := P.Out.Calls ++ [.EmitAssignment Sym Value IsDotSet] }
    Ctx := P.Ctx.SetSymbolValue Sym Value }

/-! ## Expression parsing -/

mutual

/-- The method `AsmParser::ParseParenExpr`; the leading parenthesis has
already been consumed. -/
def ParseParenExpr : Nat → AsmParser → Result AsmExpr
  | 0, _ => .outOfFuel
  | fuel + 1, P =>
    (ParseExpression fuel P).andThen fun Res P =>
      if P.isNot .RParen then
        .error (P.TokError "expected ')' in parentheses expression")
      else .ok Res P.Lex

/-- The method `AsmParser::ParsePrimaryExpr`. -/
def ParsePrimaryExpr : Nat → AsmParser → Result AsmExpr
  | 0, _ => .outOfFuel
  | fuel + 1, P =>
    match P.getKind with
    | .Exclaim =>
      (ParsePrimaryExpr fuel P.Lex).andThen fun Res P => .ok (.Unary .LNot Res) P
    | .Identifier =>
      -- This is a label, this should be parsed as part of an expression.
      let Sym := P.getTok.Str
      -- If this is use of an undefined symbol then mark it external.
      .ok (.SymbolRef Sym) (P.markUse Sym).Lex
    | .Integer => .ok (.Constant P.getTok.IntVal) P.Lex
    | .LParen => ParseParenExpr fuel P.Lex
    | .Minus =>
      (ParsePrimaryExpr fuel P.Lex).andThen fun Res P => .ok (.Unary .Minus Res) P
    | .Plus =>
      (ParsePrimaryExpr fuel P.Lex).andThen fun Res P => .ok (.Unary .Plus Res) P
    | .Tilde =>
      (ParsePrimaryExpr fuel P.Lex).andThen fun Res P => .ok (.Unary .Not Res) P
    | _ => .error (P.TokError "unknown token in expression")

/-- The method `AsmParser::ParseExpression`. -/
def ParseExpression : Nat → AsmParser → Result AsmExpr
  | 0, _ => .outOfFuel
  | fuel + 1, P =>
    (ParsePrimaryExpr fuel P).andThen fun Res P => ParseBinOpRHS fuel 1 Res P

/-- The method `AsmParser::ParseBinOpRHS`: each round of its loop is one
unfolding; `Res` holds the left-hand side on entry. -/
def ParseBinOpRHS : Nat → Nat → AsmExpr → AsmParser → Result AsmExpr
  | 0, _, _, _ => .outOfFuel
  | fuel + 1, Precedence, Res, P =>
    let TokPrec := (getBinOpPrecedence P.getKind .Add).1
    let Kind := (getBinOpPrecedence P.getKind .Add).2
    -- If the next token is lower precedence than we are allowed to eat,
    -- return successfully with what we ate already.
    if TokPrec < Precedence then .ok Res P
    else
      -- Eat the next primary expression.
      (ParsePrimaryExpr fuel P.Lex).andThen fun RHS P =>
        -- If BinOp binds less tightly with RHS than the operator after RHS,
        -- let the pending operator take RHS as its LHS.
        let NextTokPrec := (getBinOpPrecedence P.getKind .Add).1
        (if TokPrec < NextTokPrec then ParseBinOpRHS fuel (Precedence + 1) RHS P
          else .ok RHS P).andThen fun RHS P =>
          -- Merge LHS and RHS according to operator.
          ParseBinOpRHS fuel Precedence (.Binary Kind Res RHS) P

end


/-- The method `AsmParser::ParseAbsoluteExpression`. -/
def ParseAbsoluteExpression (fuel : Nat) (P : AsmParser) : Result Int :=
  let StartLoc := P.getLoc
  (ParseExpression fuel P).andThen fun Expr P =>
    match Expr.EvaluateAsAbsolute with
    | none => .error (P.Error StartLoc "expected absolute expression")
    | some Res => .ok Res P

/-- The method `AsmParser::ParseRelocatableExpression`. -/
def ParseRelocatableExpression (fuel : Nat) (P : AsmParser) : Result MCValue :=
  let StartLoc := P.getLoc
  (ParseExpression fuel P).andThen fun Expr P =>
    match Expr.EvaluateAsRelocatable with
    | none => .error (P.Error StartLoc "expected relocatable expression")
    | some Res => .ok Res P

/-- The method `AsmParser::ParseParenRelocatableExpression`. -/
def ParseParenRelocatableExpression (fuel : Nat) (P : AsmParser) : Result MCValue :=
  let StartLoc := P.getLoc
  (ParseParenExpr fuel P).andThen fun Expr P =>
    match Expr.EvaluateAsRelocatable with
    | none => .error (P.Error StartLoc "expected relocatable expression")
    | some Res => .ok Res P

/-! ## Statements and directives -/

/-- The loop of `AsmParser::EatToEndOfStatement` on the token stream. -/
def eatLoop : List AsmToken → List AsmToken
  | [] => []
  | T :: Rest =>
    if T.Kind ≠ .EndOfStatement ∧ T.Kind ≠ .Eof then eatLoop Rest else T :: Rest

/-- The method `AsmParser::EatToEndOfStatement`: throw away the rest of the
line, then eat the end of line. -/
def EatToEndOfStatement (P : AsmParser) : AsmParser :=
  let P := { P with Lexer := eatLoop P.Lexer }
  if P.is .EndOfStatement then P.Lex else P

/-- The method `AsmParser::ParseAssignment`. -/
def ParseAssignment (fuel : Nat) (Name : String) (IsDotSet : Bool) (P : AsmParser) :
    Result Unit :=
  let EqualLoc := P.getLoc
  (ParseRelocatableExpression fuel P).andThen fun Value P =>
    if P.isNot .EndOfStatement then
      .error (P.TokError "unexpected token in assignment")
    else
      -- Eat the end of statement marker.
      let P := P.Lex
      -- Diagnose assignment to a label.
      let Sym := Name
      if (P.Ctx.getSection Sym).isSome then
        .error (P.Error EqualLoc "invalid assignment to symbol emitted as a label")
      else if P.Ctx.isExternal Sym then
        .error (P.Error EqualLoc "invalid assignment to external symbol")
      else
        -- Do the assignment.
        .ok () (P.EmitAssignment Sym Value IsDotSet)

/-- The method `AsmParser::ParseDirectiveSet`. -/
def ParseDirectiveSet (fuel : Nat) (P : AsmParser) : Result Unit :=
  if P.isNot .Identifier then
    .error (P.TokError "expected identifier after '.set' directive")
  else
    let Name := P.getTok.Str
    let P := P.Lex
    if P.isNot .Comma then .error (P.TokError "unexpected token in '.set'")
    else ParseAssignment fuel Name true P.Lex

/-- The section `Ctx.GetSection(Section)`, created when it does not exist,
is made current: the tail of the two section directives. -/
def switchToSection (P : AsmParser) (Section : String) : AsmParser :=
  let P :=
    if (P.Ctx.GetSection Section).isNone then { P with Ctx := P.Ctx.CreateSection Section }
    else P
  P.SwitchSection Section

/-- The loop of `ParseDirectiveDarwinSection` that accepts a comma separated
list of modifiers. -/
def ParseDirectiveDarwinSectionLoop : Nat → String → AsmParser → Result String
  | 0, _, _ => .outOfFuel
  | fuel + 1, Section, P =>
    if P.is .Comma then
      let P := P.Lex
      if P.isNot .Identifier then
        .error (P.TokError "expected identifier in '.section' directive")
      else
        ParseDirectiveDarwinSectionLoop fuel (Section ++ "," ++ P.getTok.Str) P.Lex
    else .ok Section P

/-- The method `AsmParser::ParseDirectiveDarwinSection`. -/
def ParseDirectiveDarwinSection (fuel : Nat) (P : AsmParser) : Result Unit :=
  if P.isNot .Identifier then
    .error (P.TokError "expected identifier after '.section' directive")
  else
    let Section := P.getTok.Str
    (ParseDirectiveDarwinSectionLoop fuel Section P.Lex).andThen fun Section P =>
      if P.isNot .EndOfStatement then
        .error (P.TokError "unexpected token in '.section' directive")
      else .ok () (P.Lex.switchToSection Section)

/-- The method `AsmParser::ParseDirectiveSectionSwitch`.  The string built
from `Directives` is not used by the method; an absent `Directives` is the
empty string. -/
def ParseDirectiveSectionSwitch (Section : String) (_Directives : String) (P : AsmParser) :
    Result Unit :=
  if P.isNot .EndOfStatement then
    .error (P.TokError "unexpected token in section switching directive")
  else .ok () (P.Lex.switchToSection Section)

/-- The slice `Str.substr(1, Str.size() - 2)`: the text without its first
and last character. -/
def stripQuotes (Str : String) : String :=
  String.mk ((Str.data.drop 1).take (Str.data.length - 2))

/-- The loop of `ParseDirectiveAscii` over the string operands. -/
def ParseDirectiveAsciiLoop : Nat → Bool → AsmParser → Result Unit
  | 0, _, _ => .outOfFuel
  | fuel + 1, ZeroTerminated, P =>
    if P.isNot .String then
      .error (P.TokError "expected string in '.ascii' or '.asciz' directive")
    else
      let Str := P.getTok.Str
      let P := P.emit (.EmitBytes (stripQuotes Str))
      let P := if ZeroTerminated then P.emit (.EmitBytes (String.mk [Char.ofNat 0])) else P
      let P := P.Lex
      if P.is .EndOfStatement then .ok () P
      else if P.isNot .Comma then
        .error (P.TokError "unexpected token in '.ascii' or '.asciz' directive")
      else ParseDirectiveAsciiLoop fuel ZeroTerminated P.Lex

/-- The method `AsmParser::ParseDirectiveAscii`. -/
def ParseDirectiveAscii (fuel : Nat) (ZeroTerminated : Bool) (P : AsmParser) : Result Unit :=
  if P.isNot .EndOfStatement then
    (ParseDirectiveAsciiLoop fuel ZeroTerminated P).andThen fun _ P => .ok () P.Lex
  else .ok () P.Lex

/-- The loop of `ParseDirectiveValue` over the operands. -/
def ParseDirectiveValueLoop : Nat → Nat → AsmParser → Result Unit
  | 0, _, _ => .outOfFuel
  | fuel + 1, Size, P =>
    (ParseRelocatableExpression fuel P).andThen fun Expr P =>
      let P := P.emit (.EmitValue Expr Size)
      if P.is .EndOfStatement then .ok () P
      else if P.isNot .Comma then .error (P.TokError "unexpected token in directive")
      else ParseDirectiveValueLoop fuel Size P.Lex

/-- The method `AsmParser::ParseDirectiveValue`. -/
def ParseDirectiveValue (fuel : Nat) (Size : Nat) (P : AsmParser) : Result Unit :=
  if P.isNot .EndOfStatement then
    (ParseDirectiveValueLoop fuel Size P).andThen fun _ P => .ok () P.Lex
  else .ok () P.Lex

/-- The loop `for (uint64_t i = 0, e = N; i != e; ++i) Out.EmitValue(...)`:
the count is the 64-bit unsigned reading of `N`. -/
def emitValues (P : AsmParser) (N : Int) (Value : MCValue) (Size : Int) : AsmParser :=
  { P with Out := { P.Out with
      Calls := P.Out.Calls ++ List.replicate (N % 2 ^ 64).toNat (.EmitValue Value Size) } }

/-- The method `AsmParser::ParseDirectiveSpace`. -/
def ParseDirectiveSpace (fuel : Nat) (P : AsmParser) : Result Unit :=
  (ParseAbsoluteExpression fuel P).andThen fun NumBytes P =>
    (if P.isNot .EndOfStatement then
      if P.isNot .Comma then
        .error (P.TokError "unexpected token in '.space' directive")
      else
        (ParseAbsoluteExpression fuel P.Lex).andThen fun FillExpr P =>
          if P.isNot .EndOfStatement then
            .error (P.TokError "unexpected token in '.space' directive")
          else .ok FillExpr P
    else .ok 0 P).andThen fun FillExpr P =>
      let P := P.Lex
      if NumBytes ≤ 0 then
        .error (P.TokError "invalid number of bytes in '.space' directive")
      else .ok () (P.emitValues NumBytes (MCValue.get FillExpr) 1)

/-- The method `AsmParser::ParseDirectiveFill`. -/
def ParseDirectiveFill (fuel : Nat) (P : AsmParser) : Result Unit :=
  (ParseAbsoluteExpression fuel P).andThen fun NumValues P =>
    if P.isNot .Comma then .error (P.TokError "unexpected token in '.fill' directive")
    else
      (ParseAbsoluteExpression fuel P.Lex).andThen fun FillSize P =>
        if P.isNot .Comma then .error (P.TokError "unexpected token in '.fill' directive")
        else
          (ParseAbsoluteExpression fuel P.Lex).andThen fun FillExpr P =>
            if P.isNot .EndOfStatement then
              .error (P.TokError "unexpected token in '.fill' directive")
            else
              let P := P.Lex
              if FillSize ≠ 1 ∧ FillSize ≠ 2 ∧ FillSize ≠ 4 then
                .error (P.TokError "invalid '.fill' size, expected 1, 2, or 4")
              else .ok () (P.emitValues NumValues (MCValue.get FillExpr) FillSize)

/-- The method `AsmParser::ParseDirectiveOrg`. -/
def ParseDirectiveOrg (fuel : Nat) (P : AsmParser) : Result Unit :=
  (ParseRelocatableExpression fuel P).andThen fun Offset P =>
    -- Parse optional fill expression.
    (if P.isNot .EndOfStatement then
      if P.isNot .Comma then .error (P.TokError "unexpected token in '.org' directive")
      else
        (ParseAbsoluteExpression fuel P.Lex).andThen fun FillExpr P =>
          if P.isNot .EndOfStatement then
            .error (P.TokError "unexpected token in '.org' directive")
          else .ok FillExpr P
    else .ok 0 P).andThen fun FillExpr P =>
      .ok () (P.Lex.emit (.EmitValueToOffset Offset FillExpr))

/-- The shift `1LL << Alignment`.  C++ defines it for a count in 0..62,
where the model is exact.  At 63 the result does not fit and for any other
count the C++ shift is undefined; the model then takes the count modulo 64
and wraps the result to 64 bits, as the shift instruction of x86-64 does,
which is a choice of the model and not a property of the source. -/
def shiftLeftOne (Alignment : Int) : Int := wrap64 (2 ^ (Alignment % 64).toNat)

/-- The operands of an alignment directive after the alignment itself:
fill expression seen, fill expression, place of the max-bytes operand (not
valid when there is none) and max bytes. -/
structure AlignOperands where
  HasFillExpr : Bool
  FillExpr : Int
  MaxBytesLoc : SMLoc
  MaxBytesToFill : Int

/-- The method `AsmParser::ParseDirectiveAlign`. -/
def ParseDirectiveAlign (fuel : Nat) (IsPow2 : Bool) (ValueSize : Nat) (P : AsmParser) :
    Result Unit :=
  (ParseAbsoluteExpression fuel P).andThen fun Alignment P =>
    (if P.isNot .EndOfStatement then
      if P.isNot .Comma then .error (P.TokError "unexpected token in directive")
      else
        let P := P.Lex
        -- The fill expression can be omitted while specifying a maximum
        -- number of alignment bytes, e.g:  .align 3,,4
        (if P.isNot .Comma then
          (ParseAbsoluteExpression fuel P).andThen fun FillExpr P =>
            .ok (true, FillExpr) P
        else .ok (false, 0) P).andThen fun Fill P =>
          if P.isNot .EndOfStatement then
            if P.isNot .Comma then .error (P.TokError "unexpected token in directive")
            else
              let P := P.Lex
              let MaxBytesLoc := P.getLoc
              (ParseAbsoluteExpression fuel P).andThen fun MaxBytesToFill P =>
                if P.isNot .EndOfStatement then
                  .error (P.TokError "unexpected token in directive")
                else .ok (AlignOperands.mk Fill.1 Fill.2 MaxBytesLoc MaxBytesToFill) P
          else .ok (AlignOperands.mk Fill.1 Fill.2 none 0) P
    else .ok (AlignOperands.mk false 0 none 0) P).andThen fun Ops P =>
      let P := P.Lex
      let FillExpr := if !Ops.HasFillExpr then 0 else Ops.FillExpr
      -- Compute alignment in bytes.
      let Alignment := if IsPow2 then shiftLeftOne Alignment else Alignment
      -- Diagnose non-sensical max bytes to fill.
      if Ops.MaxBytesLoc.isSome ∧ Ops.MaxBytesToFill < 1 then
        .ok () (P.Warning Ops.MaxBytesLoc
          "alignment directive can never be satisfied in this many bytes, ignoring")
      else
        let Exceeds : Bool := Ops.MaxBytesLoc.isSome ∧ Ops.MaxBytesToFill ≥ Alignment
        let P :=
          if Exceeds then
            P.Warning Ops.MaxBytesLoc
              "maximum bytes expression exceeds alignment and has no effect"
          else P
        let MaxBytesToFill := if Exceeds then 0 else Ops.MaxBytesToFill
        .ok () (P.emit (.EmitValueToAlignment Alignment FillExpr ValueSize MaxBytesToFill))

/-- The loop of `ParseDirectiveSymbolAttribute` over the symbols. -/
def ParseDirectiveSymbolAttributeLoop :
    Nat → MCStreamer.SymbolAttr → AsmParser → Result Unit
  | 0, _, _ => .outOfFuel
  | fuel + 1, Attr, P =>
    if P.isNot .Identifier then .error (P.TokError "expected identifier in directive")
    else
      let Sym := P.getTok.Str
      let P := P.Lex
      -- If this is use of an undefined symbol then mark it external.
      let P := P.markUse Sym
      let P := P.emit (.EmitSymbolAttribute Sym Attr)
      if P.is .EndOfStatement then .ok () P
      else if P.isNot .Comma then .error (P.TokError "unexpected token in directive")
      else ParseDirectiveSymbolAttributeLoop fuel Attr P.Lex

/-- The method `AsmParser::ParseDirectiveSymbolAttribute`. -/
def ParseDirectiveSymbolAttribute (fuel : Nat) (Attr : MCStreamer.SymbolAttr)
    (P : AsmParser) : Result Unit :=
  if P.isNot .EndOfStatement then
    (ParseDirectiveSymbolAttributeLoop fuel Attr P).andThen fun _ P => .ok () P.Lex
  else .ok () P.Lex

/-- The method `AsmParser::ParseDirectiveDarwinSymbolDesc`. -/
def ParseDirectiveDarwinSymbolDesc (fuel : Nat) (P : AsmParser) : Result Unit :=
  if P.isNot .Identifier then .error (P.TokError "expected identifier in directive")
  else
    -- handle the identifier as the key symbol.
    let Sym := P.getTok.Str
    let P := P.Lex
    if P.isNot .Comma then .error (P.TokError "unexpected token in '.desc' directive")
    else
      (ParseAbsoluteExpression fuel P.Lex).andThen fun DescValue P =>
        if P.isNot .EndOfStatement then
          .error (P.TokError "unexpected token in '.desc' directive")
        else
          -- Set the n_desc field of this Symbol to this DescValue
          .ok () (P.Lex.emit (.EmitSymbolDesc Sym DescValue))

/-- The optional `, align_expression` of `.comm`, `.lcomm` and `.zerofill`:
the alignment (0 when absent) and its place. -/
def ParseOptionalPow2Alignment (fuel : Nat) (P : AsmParser) : Result (Int × SMLoc) :=
  if P.is .Comma then
    let P := P.Lex
    let Pow2AlignmentLoc := P.getLoc
    (ParseAbsoluteExpression fuel P).andThen fun Pow2Alignment P =>
      .ok (Pow2Alignment, Pow2AlignmentLoc) P
  else .ok (0, none) P

/-- The method `AsmParser::ParseDirectiveComm`. -/
def ParseDirectiveComm (fuel : Nat) (IsLocal : Bool) (P : AsmParser) : Result Unit :=
  if P.isNot .Identifier then .error (P.TokError "expected identifier in directive")
  else
    -- handle the identifier as the key symbol.
    let IDLoc := P.getLoc
    let Sym := P.getTok.Str
    let P := P.Lex
    if P.isNot .Comma then .error (P.TokError "unexpected token in directive")
    else
      let P := P.Lex
      let SizeLoc := P.getLoc
      (ParseAbsoluteExpression fuel P).andThen fun Size P =>
        (ParseOptionalPow2Alignment fuel P).andThen fun Align P =>
          if P.isNot .EndOfStatement then
            .error (P.TokError "unexpected token in '.comm' or '.lcomm' directive")
          else
            let P := P.Lex
            if Size < 0 then
              .error (P.Error SizeLoc
                "invalid '.comm' or '.lcomm' directive size, can't be less than zero")
            else if Align.1 < 0 then
              .error (P.Error Align.2
                "invalid '.comm' or '.lcomm' directive alignment, can't be less than zero")
            else if (P.Ctx.getSection Sym).isSome || (P.Ctx.GetSymbolValue Sym).isSome then
              .error (P.Error IDLoc "invalid symbol redefinition")
            else
              -- Create the Symbol as a common or local common
              .ok () (P.emit (.EmitCommonSymbol Sym Size Align.1 IsLocal))

/-- The method `AsmParser::ParseDirectiveDarwinZerofill`. -/
def ParseDirectiveDarwinZerofill (fuel : Nat) (P : AsmParser) : Result Unit :=
  if P.isNot .Identifier then
    .error (P.TokError "expected segment name after '.zerofill' directive")
  else
    let Section := P.getTok.Str
    let P := P.Lex
    if P.isNot .Comma then .error (P.TokError "unexpected token in directive")
    else
      let Section := Section ++ ","
      let P := P.Lex
      if P.isNot .Identifier then
        .error (P.TokError "expected section name after comma in '.zerofill' directive")
      else
        let Section := Section ++ P.getTok.Str
        let P := P.Lex
        -- If this is the end of the line all that was wanted was to create
        -- the section but with no symbol.
        if P.is .EndOfStatement then
          .ok () (P.emit (.EmitZerofill (P.Ctx.GetSection Section) none 0 0))
        else if P.isNot .Comma then .error (P.TokError "unexpected token in directive")
        else
          let P := P.Lex
          if P.isNot .Identifier then .error (P.TokError "expected identifier in directive")
          else
            -- handle the identifier as the key symbol.
            let IDLoc := P.getLoc
            let Sym := P.getTok.Str
            let P := P.Lex
            if P.isNot .Comma then .error (P.TokError "unexpected token in directive")
            else
              let P := P.Lex
              let SizeLoc := P.getLoc
              (ParseAbsoluteExpression fuel P).andThen fun Size P =>
                (ParseOptionalPow2Alignment fuel P).andThen fun Align P =>
                  if P.isNot .EndOfStatement then
                    .error (P.TokError "unexpected token in '.zerofill' directive")
                  else
                    let P := P.Lex
                    if Size < 0 then
                      .error (P.Error SizeLoc
                        "invalid '.zerofill' directive size, can't be less than zero")
                    else if Align.1 < 0 then
                      .error (P.Error Align.2
                        "invalid '.zerofill' directive alignment, can't be less than zero")
                    else if (P.Ctx.getSection Sym).isSome ||
                        (P.Ctx.GetSymbolValue Sym).isSome then
                      .error (P.Error IDLoc "invalid symbol redefinition")
                    else
                      -- Create the zerofill Symbol with Size and Pow2Alignment
                      .ok () (P.emit
                        (.EmitZerofill (P.Ctx.GetSection Section) (some Sym) Size Align.1))

/-- The method `AsmParser::ParseDirectiveDarwinSubsectionsViaSymbols`. -/
def ParseDirectiveDarwinSubsectionsViaSymbols (P : AsmParser) : Result Unit :=
  if P.isNot .EndOfStatement then
    .error (P.TokError "unexpected token in '.subsections_via_symbols' directive")
  else .ok () (P.Lex.emit (.EmitAssemblerFlag .SubsectionsViaSymbols))

/-- The method `AsmParser::ParseDirectiveAbort`. -/
def ParseDirectiveAbort (P : AsmParser) : Result Unit :=
  let Loc := P.getLoc
  (if P.isNot .EndOfStatement then
    if P.isNot .String then
      (.error (P.TokError "expected string in '.abort' directive") : Result String)
    else .ok P.getTok.Str P.Lex
  else .ok "" P).andThen fun Str P =>
    if P.isNot .EndOfStatement then
      .error (P.TokError "unexpected token in '.abort' directive")
    else
      let P := P.Lex
      if Str.isEmpty then .ok () (P.Error Loc ".abort detected. Assembly stopping.")
      else .ok () (P.Error Loc (".abort '" ++ Str ++ "' detected. Assembly stopping."))

/-- The method `AsmParser::ParseDirectiveDarwinLsym`. -/
def ParseDirectiveDarwinLsym (fuel : Nat) (P : AsmParser) : Result Unit :=
  if P.isNot .Identifier then .error (P.TokError "expected identifier in directive")
  else
    -- handle the identifier as the key symbol.
    let Sym := P.getTok.Str
    let P := P.Lex
    if P.isNot .Comma then .error (P.TokError "unexpected token in '.lsym' directive")
    else
      (ParseRelocatableExpression fuel P.Lex).andThen fun Expr P =>
        if P.isNot .EndOfStatement then
          .error (P.TokError "unexpected token in '.lsym' directive")
        else
          -- Create the Sym with the value of the Expr
          .ok () (P.Lex.emit (.EmitLocalSymbol Sym Expr))

/-- Modelled from the spec: `Lexer.EnterIncludeFile(Filename)`.  When the
file is found the lexer switches to it: its tokens come after the current
token and before the rest of the including buffer, which resumes when the
file ends.  The outcome none is the failure to find the file. -/
def EnterIncludeFile (P : AsmParser) (Filename : String) : Option AsmParser :=
  match P.IncludeFiles Filename with
  | none => none
  | some Toks =>
    match P.Lexer with
    | [] => some { P with Lexer := Toks }
    | T :: Rest => some { P with Lexer := T :: (Toks ++ Rest) }

/-- The method `AsmParser::ParseDirectiveInclude`. -/
def ParseDirectiveInclude (P : AsmParser) : Result Unit :=
  if P.isNot .String then .error (P.TokError "expected string in '.include' directive")
  else
    let Filename := P.getTok.Str
    let IncludeLoc := P.getLoc
    let P := P.Lex
    if P.isNot .EndOfStatement then
      .error (P.TokError "unexpected token in '.include' directive")
    else
      -- Strip the quotes.
      let Filename := stripQuotes Filename
      -- Attempt to switch the lexer to the included file before consuming
      -- the end of statement to avoid losing it when we switch.
      match P.EnterIncludeFile Filename with
      | none =>
        .error (P.Error IncludeLoc ("Could not find include file '" ++ Filename ++ "'"))
      | some P => .ok () P

/-- The method `AsmParser::ParseDirectiveDarwinDumpOrLoad`. -/
def ParseDirectiveDarwinDumpOrLoad (IDLoc : SMLoc) (IsDump : Bool) (P : AsmParser) :
    Result Unit :=
  if P.isNot .String then
    .error (P.TokError "expected string in '.dump' or '.load' directive")
  else
    let P := P.Lex
    if P.isNot .EndOfStatement then
      .error (P.TokError "unexpected token in '.dump' or '.load' directive")
    else
      let P := P.Lex
      if IsDump then .ok () (P.Warning IDLoc "ignoring directive .dump for now")
      else .ok () (P.Warning IDLoc "ignoring directive .load for now")

/-- The effect of the target hook on the parser state: the tokens it
consumed are gone, its messages are printed and the symbols it referenced
went through the use marking of the expression parser. -/
def applyTarget (P : AsmParser) (R : TargetResult) : AsmParser :=
  let P := R.Referenced.foldl markUse P
  let P := { P with Diags := P.Diags ++ R.Diags }
  Nat.iterate Lex R.Consumed P

/-- The tail of `AsmParser::ParseStatement` for an identifier that is
neither a label nor an assignment and does not start with a dot: an
instruction, parsed by the target. -/
def ParseInstructionStatement (IDVal : String) (P : AsmParser) : Result Unit :=
  let R := P.TargetParser.ParseInstruction IDVal P.Lexer
  let P := P.applyTarget R
  if R.Failed then .error P
  else if P.isNot .EndOfStatement then
    .error (P.TokError "unexpected token in argument list")
  else
    -- Eat the end of statement marker, then process the instruction.
    .ok () (P.Lex.emit (.EmitInstruction R.Inst))

/-- The directive dispatch of `AsmParser::ParseStatement`: the chain of
comparisons of `IDVal` that is entered when `IDVal[0] == '.'`. -/
def ParseDirective (fuel : Nat) (IDVal : String) (IDLoc : SMLoc) (P : AsmParser) :
    Result Unit :=
  if IDVal = ".section" then ParseDirectiveDarwinSection fuel P
  else if IDVal = ".text" then
    ParseDirectiveSectionSwitch "__TEXT,__text" "regular,pure_instructions" P
  else if IDVal = ".const" then ParseDirectiveSectionSwitch "__TEXT,__const" "" P
  else if IDVal = ".static_const" then
    ParseDirectiveSectionSwitch "__TEXT,__static_const" "" P
  else if IDVal = ".cstring" then
    ParseDirectiveSectionSwitch "__TEXT,__cstring" "cstring_literals" P
  else if IDVal = ".literal4" then
    ParseDirectiveSectionSwitch "__TEXT,__literal4" "4byte_literals" P
  else if IDVal = ".literal8" then
    ParseDirectiveSectionSwitch "__TEXT,__literal8" "8byte_literals" P
  else if IDVal = ".literal16" then
    ParseDirectiveSectionSwitch "__TEXT,__literal16" "16byte_literals" P
  else if IDVal = ".constructor" then
    ParseDirectiveSectionSwitch "__TEXT,__constructor" "" P
  else if IDVal = ".destructor" then
    ParseDirectiveSectionSwitch "__TEXT,__destructor" "" P
  else if IDVal = ".fvmlib_init0" then
    ParseDirectiveSectionSwitch "__TEXT,__fvmlib_init0" "" P
  else if IDVal = ".fvmlib_init1" then
    ParseDirectiveSectionSwitch "__TEXT,__fvmlib_init1" "" P
  else if IDVal = ".symbol_stub" then
    ParseDirectiveSectionSwitch "__IMPORT,__jump_table,symbol_stubs"
      "self_modifying_code+pure_instructions,5" P
  else if IDVal = ".data" then ParseDirectiveSectionSwitch "__DATA,__data" "" P
  else if IDVal = ".static_data" then
    ParseDirectiveSectionSwitch "__DATA,__static_data" "" P
  else if IDVal = ".non_lazy_symbol_pointer" then
    ParseDirectiveSectionSwitch "__DATA,__nl_symbol_pointer" "non_lazy_symbol_pointers" P
  else if IDVal = ".lazy_symbol_pointer" then
    ParseDirectiveSectionSwitch "__DATA,__la_symbol_pointer" "lazy_symbol_pointers" P
  else if IDVal = ".dyld" then ParseDirectiveSectionSwitch "__DATA,__dyld" "" P
  else if IDVal = ".mod_init_func" then
    ParseDirectiveSectionSwitch "__DATA,__mod_init_func" "mod_init_funcs" P
  else if IDVal = ".mod_term_func" then
    ParseDirectiveSectionSwitch "__DATA,__mod_term_func" "mod_term_funcs" P
  else if IDVal = ".const_data" then
    ParseDirectiveSectionSwitch "__DATA,__const" "regular" P
  else if IDVal = ".objc_class" then ParseDirectiveSectionSwitch "__OBJC,__class" "" P
  else if IDVal = ".objc_meta_class" then
    ParseDirectiveSectionSwitch "__OBJC,__meta_class" "" P
  else if IDVal = ".objc_cat_cls_meth" then
    ParseDirectiveSectionSwitch "__OBJC,__cat_cls_meth" "" P
  else if IDVal = ".objc_cat_inst_meth" then
    ParseDirectiveSectionSwitch "__OBJC,__cat_inst_meth" "" P
  else if IDVal = ".objc_protocol" then
    ParseDirectiveSectionSwitch "__OBJC,__protocol" "" P
  else if IDVal = ".objc_string_object" then
    ParseDirectiveSectionSwitch "__OBJC,__string_object" "" P
  else if IDVal = ".objc_cls_meth" then
    ParseDirectiveSectionSwitch "__OBJC,__cls_meth" "" P
  else if IDVal = ".objc_inst_meth" then
    ParseDirectiveSectionSwitch "__OBJC,__inst_meth" "" P
  else if IDVal = ".objc_cls_refs" then
    ParseDirectiveSectionSwitch "__OBJC,__cls_refs" "" P
  else if IDVal = ".objc_message_refs" then
    ParseDirectiveSectionSwitch "__OBJC,__message_refs" "" P
  else if IDVal = ".objc_symbols" then
    ParseDirectiveSectionSwitch "__OBJC,__symbols" "" P
  else if IDVal = ".objc_category" then
    ParseDirectiveSectionSwitch "__OBJC,__category" "" P
  else if IDVal = ".objc_class_vars" then
    ParseDirectiveSectionSwitch "__OBJC,__class_vars" "" P
  else if IDVal = ".objc_instance_vars" then
    ParseDirectiveSectionSwitch "__OBJC,__instance_vars" "" P
  else if IDVal = ".objc_module_info" then
    ParseDirectiveSectionSwitch "__OBJC,__module_info" "" P
  else if IDVal = ".objc_class_names" then
    ParseDirectiveSectionSwitch "__TEXT,__cstring" "cstring_literals" P
  else if IDVal = ".objc_meth_var_types" then
    ParseDirectiveSectionSwitch "__TEXT,__cstring" "cstring_literals" P
  else if IDVal = ".objc_meth_var_names" then
    ParseDirectiveSectionSwitch "__TEXT,__cstring" "cstring_literals" P
  else if IDVal = ".objc_selector_strs" then
    ParseDirectiveSectionSwitch "__OBJC,__selector_strs" "" P
  -- Assembler features
  else if IDVal = ".set" then ParseDirectiveSet fuel P
  -- Data directives
  else if IDVal = ".ascii" then ParseDirectiveAscii fuel false P
  else if IDVal = ".asciz" then ParseDirectiveAscii fuel true P
  else if IDVal = ".byte" then ParseDirectiveValue fuel 1 P
  else if IDVal = ".short" then ParseDirectiveValue fuel 2 P
  else if IDVal = ".long" then ParseDirectiveValue fuel 4 P
  else if IDVal = ".quad" then ParseDirectiveValue fuel 8 P
  else if IDVal = ".align" then ParseDirectiveAlign fuel true 1 P
  else if IDVal = ".align32" then ParseDirectiveAlign fuel true 4 P
  else if IDVal = ".balign" then ParseDirectiveAlign fuel false 1 P
  else if IDVal = ".balignw" then ParseDirectiveAlign fuel false 2 P
  else if IDVal = ".balignl" then ParseDirectiveAlign fuel false 4 P
  else if IDVal = ".p2align" then ParseDirectiveAlign fuel true 1 P
  else if IDVal = ".p2alignw" then ParseDirectiveAlign fuel true 2 P
  else if IDVal = ".p2alignl" then ParseDirectiveAlign fuel true 4 P
  else if IDVal = ".org" then ParseDirectiveOrg fuel P
  else if IDVal = ".fill" then ParseDirectiveFill fuel P
  else if IDVal = ".space" then ParseDirectiveSpace fuel P
  -- Symbol attribute directives
  else if IDVal = ".globl" ∨ IDVal = ".global" then
    ParseDirectiveSymbolAttribute fuel .Global P
  else if IDVal = ".hidden" then ParseDirectiveSymbolAttribute fuel .Hidden P
  else if IDVal = ".indirect_symbol" then
    ParseDirectiveSymbolAttribute fuel .IndirectSymbol P
  else if IDVal = ".internal" then ParseDirectiveSymbolAttribute fuel .Internal P
  else if IDVal = ".lazy_reference" then
    ParseDirectiveSymbolAttribute fuel .LazyReference P
  else if IDVal = ".no_dead_strip" then ParseDirectiveSymbolAttribute fuel .NoDeadStrip P
  else if IDVal = ".private_extern" then
    ParseDirectiveSymbolAttribute fuel .PrivateExtern P
  else if IDVal = ".protected" then ParseDirectiveSymbolAttribute fuel .Protected P
  else if IDVal = ".reference" then ParseDirectiveSymbolAttribute fuel .Reference P
  else if IDVal = ".weak" then ParseDirectiveSymbolAttribute fuel .Weak P
  else if IDVal = ".weak_definition" then
    ParseDirectiveSymbolAttribute fuel .WeakDefinition P
  else if IDVal = ".weak_reference" then
    ParseDirectiveSymbolAttribute fuel .WeakReference P
  else if IDVal = ".comm" then ParseDirectiveComm fuel false P
  else if IDVal = ".lcomm" then ParseDirectiveComm fuel true P
  else if IDVal = ".zerofill" then ParseDirectiveDarwinZerofill fuel P
  else if IDVal = ".desc" then ParseDirectiveDarwinSymbolDesc fuel P
  else if IDVal = ".lsym" then ParseDirectiveDarwinLsym fuel P
  else if IDVal = ".subsections_via_symbols" then
    ParseDirectiveDarwinSubsectionsViaSymbols P
  else if IDVal = ".abort" then ParseDirectiveAbort P
  else if IDVal = ".include" then ParseDirectiveInclude P
  else if IDVal = ".dump" then ParseDirectiveDarwinDumpOrLoad IDLoc true P
  else if IDVal = ".load" then ParseDirectiveDarwinDumpOrLoad IDLoc false P
  else
    .ok () (P.Warning IDLoc "ignoring directive for now").EatToEndOfStatement

/-- The method `AsmParser::ParseStatement`. -/
def ParseStatement : Nat → AsmParser → Result Unit
  | 0, _ => .outOfFuel
  | fuel + 1, P =>
    match P.getKind with
    | .EndOfStatement => .ok () P.Lex
    | .Identifier =>
      -- If we have an identifier, handle it as the key symbol.
      let ID := P.getTok
      let IDLoc : SMLoc := some ID.Loc
      let IDVal := ID.Str
      -- Consume the identifier, see what is after it.
      let P := P.Lex
      match P.getKind with
      | .Colon =>
        -- identifier ':'   -> Label.
        let P := P.Lex
        -- Diagnose attempt to use a variable as a label.
        let Sym := IDVal
        if (P.Ctx.getSection Sym).isSome then
          .error (P.Error IDLoc "invalid symbol redefinition")
        else if (P.Ctx.GetSymbolValue Sym).isSome then
          .error (P.Error IDLoc "symbol already used as assembler variable")
        else
          -- Since we saw a label, create a symbol and emit it.
          ParseStatement fuel (P.EmitLabel Sym)
      | .Equal =>
        -- identifier '=' ... -> assignment statement
        ParseAssignment fuel IDVal false P.Lex
      | _ =>
        -- Otherwise, we have a normal instruction or directive.
        if IDVal.front = '.' then ParseDirective fuel IDVal IDLoc P
        else ParseInstructionStatement IDVal P
    | _ => .error (P.TokError "unexpected token at start of statement")

/-- The loop of `AsmParser::Run`: while there is input, parse each
statement; on an error remember it and skip to the next line. -/
def RunLoop : Nat → Bool → AsmParser → Result Bool
  | 0, _, _ => .outOfFuel
  | fuel + 1, HadError, P =>
    if P.isNot .Eof then
      match ParseStatement fuel P with
      | .ok _ P => RunLoop fuel HadError P
      | .error P => RunLoop fuel true P.EatToEndOfStatement
      | .outOfFuel => .outOfFuel
    else .ok HadError P

/-- The method `AsmParser::Run`.  The head of `Lexer` is the token that the
priming call `Lexer.Lex()` makes current; the result carries `HadError`. -/
def Run (fuel : Nat) (P : AsmParser) : Result Bool :=
  RunLoop fuel false P

end AsmParser

/-! ## Initial states -/

/-- A context in which no symbol was touched and no section exists. -/
def MCContext.empty : MCContext :=
  { Section := fun _ => none, External := fun _ => false, SymbolValue := fun _ => none,
    Sections := [] }

/-- A target parser that accepts no instruction. -/
def TargetAsmParser.none : TargetAsmParser :=
  { ParseInstruction := fun _ _ => ⟨true, ⟨"", []⟩, 0, [], []⟩ }

/-- A parser on a token stream, with a fresh context, a streamer that has
received no call, and no file for `.include` to find. -/
def AsmParser.start (Toks : List AsmToken) : AsmParser :=
  { Lexer := Toks, Ctx := MCContext.empty, Out := ⟨[], ""⟩, Diags := [],
    TargetParser := TargetAsmParser.none, IncludeFiles := fun _ => Option.none }

/-! ## Token streams for concrete inputs -/

/-- The lexeme of a token kind whose text is fixed. -/
def AsmToken.text : AsmToken.TokenKind → String
  | .EndOfStatement => "\n" | .LParen => "(" | .RParen => ")" | .LBrac => "["
  | .RBrac => "]" | .LCurly => "\x7b" | .RCurly => "\x7d" | .Comma => "," | .Colon => ":"
  | .Equal => "=" | .Plus => "+" | .Minus => "-" | .Tilde => "~" | .Exclaim => "!"
  | .Star => "*" | .Slash => "/" | .Percent => "%" | .Pipe => "|" | .PipePipe => "||"
  | .Caret => "^" | .Amp => "&" | .AmpAmp => "&&" | .Less => "<" | .LessLess => "<<"
  | .LessEqual => "<=" | .LessGreater => "<>" | .Greater => ">" | .GreaterGreater => ">>"
  | .GreaterEqual => ">=" | .EqualEqual => "==" | .ExclaimEqual => "!="
  | _ => ""

/-- An identifier token. -/
def AsmToken.ident (Str : String) : AsmToken := ⟨.Identifier, Str, 0, 0⟩

/-- An integer token with its text and its value. -/
def AsmToken.int (Str : String) (Val : Int) : AsmToken := ⟨.Integer, Str, Val, 0⟩

/-- A string token; the text includes the quotes. -/
def AsmToken.string (Str : String) : AsmToken := ⟨.String, Str, 0, 0⟩

/-- A token of a kind with fixed text. -/
def AsmToken.punct (K : AsmToken.TokenKind) : AsmToken := ⟨K, AsmToken.text K, 0, 0⟩

/-- The end of a statement. -/
def AsmToken.eol : AsmToken := AsmToken.punct .EndOfStatement

/-- The tokens with their positions in the stream as locations. -/
def AsmToken.stream (Toks : List AsmToken) : List AsmToken :=
  Toks.enum.map fun T => { T.2 with Loc := T.1 }

/-- The tokens `Toks` are a list of operands separated by commas: one token
that is an operand, or an operand, a comma and such a list.  `Ops` are the
operand tokens in order. -/
inductive AsmToken.IsList (IsOperand : AsmToken → Prop) :
    List AsmToken → List AsmToken → Prop where
  | one (T : AsmToken) : IsOperand T → AsmToken.IsList IsOperand [T] [T]
  | more (T C : AsmToken) (Toks Ops : List AsmToken) : IsOperand T → C.Kind = .Comma →
      AsmToken.IsList IsOperand Toks Ops →
      AsmToken.IsList IsOperand (T :: C :: Toks) (T :: Ops)

/-! ## Relations between parser states

The relations and invariants the theorems below are stated with. -/

/-- The streamer calls that define a symbol. -/
def StreamerCall.isDefinition : StreamerCall → Bool
  | .EmitLabel _ => true
  | .EmitAssignment _ _ _ => true
  | _ => false

/-- The state `Q` comes from `P` by steps that define no symbol: the calls
of `P` are extended by calls that are no definitions, sections and values
of the symbols are those of `P`, external flags were only set, messages were
only added, and the tokens left are a suffix of those of `P`. -/
structure Frame (P Q : AsmParser) : Prop where
  calls : ∃ Extra, Q.Out.Calls = P.Out.Calls ++ Extra ∧ ∀ C ∈ Extra, C.isDefinition = false
  sect : Q.Ctx.Section = P.Ctx.Section
  value : Q.Ctx.SymbolValue = P.Ctx.SymbolValue
  ext : ∀ S, P.Ctx.External S = true → Q.Ctx.External S = true
  inc : Q.IncludeFiles = P.IncludeFiles
  target : Q.TargetParser = P.TargetParser
  diags : P.Diags <+: Q.Diags
  lexer : Q.Lexer <:+ P.Lexer

/-- A result is fine relative to the state `P` it was computed from: a
returned state is a frame extension of `P`, and fuel ran out only when
there was not `Enough` of it. -/
def Result.Fine {α : Type} (r : Result α) (P : AsmParser) (Enough : Prop) : Prop :=
  match r with
  | .ok _ Q => Frame P Q
  | .error Q => Frame P Q
  | .outOfFuel => ¬ Enough

/-- No file can be found by `.include`. -/
def AsmParser.NoInclude (P : AsmParser) : Prop := ∀ F, P.IncludeFiles F = none

/-- The calls received by the streamer agree with the symbol table: a symbol
got at most one `EmitLabel`, a symbol that got one is defined in a section,
a symbol that got an `EmitAssignment` has a value, and no symbol is both
defined in a section and the holder of a value. -/
structure AsmParser.Inv (P : AsmParser) : Prop where
  labelOnce : ∀ S, P.Out.Calls.count (.EmitLabel S) ≤ 1
  labelDefined : ∀ S, .EmitLabel S ∈ P.Out.Calls → (P.Ctx.Section S).isSome
  assignValued : ∀ S V D, .EmitAssignment S V D ∈ P.Out.Calls → (P.Ctx.SymbolValue S).isSome
  exclusive : ∀ S, (P.Ctx.Section S).isSome → (P.Ctx.SymbolValue S).isSome → False

/-- The state `Q` comes from `P` by parser steps: the invariant is kept, a
symbol defined in a section stays defined there, a symbol with a value keeps
having one, a symbol that is external stays so until it is defined in a
section, calls and messages were only added, and as long as no file can
be included the tokens left are a suffix of those of `P`. -/
structure Step (P Q : AsmParser) : Prop where
  inv : P.Inv → Q.Inv
  sect : ∀ S, (P.Ctx.Section S).isSome → Q.Ctx.Section S = P.Ctx.Section S
  value : ∀ S, (P.Ctx.SymbolValue S).isSome → (Q.Ctx.SymbolValue S).isSome
  marked : ∀ S, P.Ctx.External S = true ∨ (P.Ctx.Section S).isSome →
    Q.Ctx.External S = true ∨ (Q.Ctx.Section S).isSome
  calls : P.Out.Calls <+: Q.Out.Calls
  diags : P.Diags <+: Q.Diags
  inc : Q.IncludeFiles = P.IncludeFiles
  target : Q.TargetParser = P.TargetParser
  lexer : P.NoInclude → Q.Lexer <:+ P.Lexer

/-- A result is a step from the state `P` it was computed from, and fuel ran
out only when there was not `Enough` of it. -/
def Result.Steps {α : Type} (r : Result α) (P : AsmParser) (Enough : Prop) : Prop :=
  match r with
  | .ok _ Q => Step P Q
  | .error Q => Step P Q
  | .outOfFuel => ¬ Enough

/-- What `ParseStatement` with the given fuel did from `P`: a step, which
on success consumed a token unless a file was included; fuel ran out only
when there was less than `3 * length + 1` of it. -/
def Result.StmtSteps (r : Result Unit) (P : AsmParser) (fuel : Nat) : Prop :=
  match r with
  | .ok _ Q => Step P Q ∧ (P.NoInclude → Q.Lexer.length < P.Lexer.length)
  | .error Q => Step P Q
  | .outOfFuel => ¬ (3 * P.Lexer.length + 1 ≤ fuel)

/-- What `RunLoop` with the given fuel did from `P`: it returns at `Eof`
after steps from `P`, keeps an error flag that was set, never returns an
error of its own, and runs out of fuel only when a file can be included or
there was less than `3 * length + 2` of it. -/
def Result.RunSteps (r : Result Bool) (P : AsmParser) (HadError : Bool) (fuel : Nat) : Prop :=
  match r with
  | .ok b Q => Step P Q ∧ (HadError = true → b = true) ∧ Q.getKind = .Eof
  | .error _ => False
  | .outOfFuel => ¬ (P.NoInclude ∧ 3 * P.Lexer.length + 2 ≤ fuel)

/-- A result left the streamer as it was in `P`. -/
def Result.Quiet {α : Type} (r : Result α) (P : AsmParser) : Prop :=
  match r with
  | .ok _ Q => Q.Out = P.Out
  | .error Q => Q.Out = P.Out
  | .outOfFuel => True

/-- A result that is an error left the streamer as it was in `P`. -/
def Result.Silent {α : Type} (r : Result α) (P : AsmParser) : Prop :=
  match r with
  | .error Q => Q.Out = P.Out
  | _ => True

/-- The names of the directives that take a list of operands and call the
streamer once per operand: the data directives and the symbol attribute
directives. -/
def AsmParser.listDirectives : List String :=
  [".ascii", ".asciz", ".byte", ".short", ".long", ".quad",
    ".globl", ".global", ".hidden", ".indirect_symbol", ".internal", ".lazy_reference",
    ".no_dead_strip", ".private_extern", ".protected", ".reference", ".weak",
    ".weak_definition", ".weak_reference"]

/-- The state `Q` comes from `P` by streamer calls that are all `Allowed`,
with the current section kept. -/
def AsmParser.EmitsOnly (P Q : AsmParser) (Allowed : StreamerCall → Prop) : Prop :=
  Q.Out.CurSection = P.Out.CurSection ∧
    ∃ Extra, Q.Out.Calls = P.Out.Calls ++ Extra ∧ ∀ C ∈ Extra, Allowed C

/-- Whatever a result returned, its state comes from `P` by streamer calls
that are all `Allowed`. -/
def Result.Emits {α : Type} (r : Result α) (P : AsmParser) (Allowed : StreamerCall → Prop) :
    Prop :=
  match r with
  | .ok _ Q => P.EmitsOnly Q Allowed
  | .error Q => P.EmitsOnly Q Allowed
  | .outOfFuel => True

/-- The symbol attribute directives: the directive names that the dispatch
of `ParseStatement` hands to `ParseDirectiveSymbolAttribute`, each with the
attribute that the dispatch passes. -/
def AsmParser.symbolAttributeDirectives : List (String × MCStreamer.SymbolAttr) :=
  [(".globl", .Global), (".global", .Global), (".hidden", .Hidden),
    (".indirect_symbol", .IndirectSymbol), (".internal", .Internal),
    (".lazy_reference", .LazyReference), (".no_dead_strip", .NoDeadStrip),
    (".private_extern", .PrivateExtern), (".protected", .Protected),
    (".reference", .Reference), (".weak", .Weak), (".weak_definition", .WeakDefinition),
    (".weak_reference", .WeakReference)]

/-- The left-nested tree over a first operand and the operators that follow
it, each with its right operand:
`(...((E op₁ E₁) op₂ E₂)... opₙ Eₙ)`. -/
def AsmExpr.leftNest (E : AsmExpr) (Ops : List (AsmBinaryExpr.Opcode × AsmExpr)) : AsmExpr :=
  Ops.foldl (fun LHS Op => .Binary Op.1 LHS Op.2) E

/-- From the state `P` on, the tokens are binary operators of the precedence
`Prec`, each followed by a primary expression: `Ops` are the opcodes of the
operators with the expressions that `ParsePrimaryExpr` returns for the
operands, and `Q` is the state after the last operand. -/
inductive AsmParser.OperatorChain (Prec : Nat) :
    AsmParser → List (AsmBinaryExpr.Opcode × AsmExpr) → AsmParser → Prop where
  | done (P : AsmParser) : AsmParser.OperatorChain Prec P [] P
  | next (fuel : Nat) (P P₁ Q : AsmParser) (Op : AsmBinaryExpr.Opcode) (E : AsmExpr)
      (Ops : List (AsmBinaryExpr.Opcode × AsmExpr)) :
      getBinOpPrecedence P.getKind .Add = (Prec, Op) →
      AsmParser.ParsePrimaryExpr fuel P.Lex = .ok E P₁ →
      AsmParser.OperatorChain Prec P₁ Ops Q →
      AsmParser.OperatorChain Prec P ((Op, E) :: Ops) Q

/-- From the state `P` on, the tokens are binary operators of a precedence
of at least `Prec`, each followed by a primary expression: `Ops` are the
opcodes of the operators with the expressions that `ParsePrimaryExpr` returns
for the operands, in the order of the tokens, and `Q` is the state after the
last operand. -/
inductive AsmParser.OperatorSequence (Prec : Nat) :
    AsmParser → List (AsmBinaryExpr.Opcode × AsmExpr) → AsmParser → Prop where
  | done (P : AsmParser) : AsmParser.OperatorSequence Prec P [] P
  | next (fuel : Nat) (P P₁ Q : AsmParser) (Op : AsmBinaryExpr.Opcode) (E : AsmExpr)
      (Ops : List (AsmBinaryExpr.Opcode × AsmExpr)) :
      Prec ≤ (getBinOpPrecedence P.getKind .Add).1 →
      (getBinOpPrecedence P.getKind .Add).2 = Op →
      AsmParser.ParsePrimaryExpr fuel P.Lex = .ok E P₁ →
      AsmParser.OperatorSequence Prec P₁ Ops Q →
      AsmParser.OperatorSequence Prec P ((Op, E) :: Ops) Q

/-- The expression is a tree of binary operators over the operand `First`
followed by the operators and operands `Ops`, in this order from left to
right: either it is `First` and `Ops` is empty, or it is `Binary Op L R`
where `L` is such a tree over `First` and the part of `Ops` before `Op`, and
`R` is one over the operand of `Op` and the part after it. -/
inductive AsmExpr.Brackets :
    AsmExpr → AsmExpr → List (AsmBinaryExpr.Opcode × AsmExpr) → Prop where
  | leaf (E : AsmExpr) : AsmExpr.Brackets E E []
  | node (Op : AsmBinaryExpr.Opcode) (L R First E : AsmExpr)
      (A B : List (AsmBinaryExpr.Opcode × AsmExpr)) :
      AsmExpr.Brackets L First A → AsmExpr.Brackets R E B →
      AsmExpr.Brackets (.Binary Op L R) First (A ++ (Op, E) :: B)

/-- The state `Q` is reached from `P` by the loop of `Run`: by any number of
statements, each a `ParseStatement` that returns, followed after an error by
`EatToEndOfStatement`. -/
inductive AsmParser.Reaches : AsmParser → AsmParser → Prop where
  | here (P : AsmParser) : AsmParser.Reaches P P
  | ok (fuel : Nat) (P Q R : AsmParser) :
      AsmParser.ParseStatement fuel P = .ok () Q → AsmParser.Reaches Q R →
      AsmParser.Reaches P R
  | error (fuel : Nat) (P Q R : AsmParser) :
      AsmParser.ParseStatement fuel P = .error Q →
      AsmParser.Reaches Q.EatToEndOfStatement R → AsmParser.Reaches P R

/-- The directive names that the dispatch of `AsmParser::ParseStatement`
compares `IDVal` with, in the order of the comparisons. -/
def AsmParser.directiveNames : List String :=
  [".section", ".text", ".const", ".static_const", ".cstring", ".literal4", ".literal8",
    ".literal16", ".constructor", ".destructor", ".fvmlib_init0", ".fvmlib_init1",
    ".symbol_stub", ".data", ".static_data", ".non_lazy_symbol_pointer",
    ".lazy_symbol_pointer", ".dyld", ".mod_init_func", ".mod_term_func", ".const_data",
    ".objc_class", ".objc_meta_class", ".objc_cat_cls_meth", ".objc_cat_inst_meth",
    ".objc_protocol", ".objc_string_object", ".objc_cls_meth", ".objc_inst_meth",
    ".objc_cls_refs", ".objc_message_refs", ".objc_symbols", ".objc_category",
    ".objc_class_vars", ".objc_instance_vars", ".objc_module_info", ".objc_class_names",
    ".objc_meth_var_types", ".objc_meth_var_names", ".objc_selector_strs",
    ".set",
    ".ascii", ".asciz", ".byte", ".short", ".long", ".quad",
    ".align", ".align32", ".balign", ".balignw", ".balignl", ".p2align", ".p2alignw",
    ".p2alignl", ".org", ".fill", ".space",
    ".globl", ".global", ".hidden", ".indirect_symbol", ".internal", ".lazy_reference",
    ".no_dead_strip", ".private_extern", ".protected", ".reference", ".weak",
    ".weak_definition", ".weak_reference",
    ".comm", ".lcomm", ".zerofill", ".desc", ".lsym",
    ".subsections_via_symbols", ".abort", ".include", ".dump", ".load"]

/-- No token of the stream is the identifier `.include`. -/
def AsmToken.NoIncludeDirective (Toks : List AsmToken) : Prop :=
  ∀ T ∈ Toks, T.Kind = .Identifier → T.Str ≠ ".include"

/-- Whatever a result returned, the tokens left are a suffix of those of `P`,
and fuel ran out only when there was not `Enough` of it. -/
def Result.Consumes {α : Type} (r : Result α) (P : AsmParser) (Enough : Prop) : Prop :=
  match r with
  | .ok _ Q => Q.Lexer <:+ P.Lexer
  | .error Q => Q.Lexer <:+ P.Lexer
  | .outOfFuel => ¬ Enough

/-- What `ParseStatement` with the given fuel did to the tokens of `P`: the
tokens left are a suffix, on success a proper one; fuel ran out only when
there was less than `3 * length + 1` of it. -/
def Result.StmtConsumes (r : Result Unit) (P : AsmParser) (fuel : Nat) : Prop :=
  match r with
  | .ok _ Q => Q.Lexer <:+ P.Lexer ∧ Q.Lexer.length < P.Lexer.length
  | .error Q => Q.Lexer <:+ P.Lexer
  | .outOfFuel => ¬ (3 * P.Lexer.length + 1 ≤ fuel)

/-! ## The matcher table emitter (`utils/TableGen/DAGISelMatcherEmitter.cpp`)

The emitter writes the C++ source of the array `MatcherTable`.  The text it
writes is kept as the sequence of the pieces written: array elements and
comments, in order; white space (padding and line ends) is not recorded.
Counts of type `unsigned` are natural numbers: a table is far shorter than
`2 ^ 32` elements. -/

/-- The conversion `int8_t(Val)` of a 64-bit value: the low 8 bits, sign
extended. -/
def castInt8 (Val : Int) : Int := (Val + 2 ^ 7) % 2 ^ 8 - 2 ^ 7

/-- The conversion `int16_t(Val)`: the low 16 bits, sign extended. -/
def castInt16 (Val : Int) : Int := (Val + 2 ^ 15) % 2 ^ 16 - 2 ^ 15

/-- The conversion `int32_t(Val)`: the low 32 bits, sign extended. -/
def castInt32 (Val : Int) : Int := (Val + 2 ^ 31) % 2 ^ 32 - 2 ^ 31

/-- The value `(int)(unsigned char)(Val >> Shift)`: the byte of `Val` that
starts at bit `Shift` (the shift of a signed value is arithmetic). -/
def byteAt (Val : Int) (Shift : Nat) : Nat := ((Val / 2 ^ Shift) % 256).toNat

/-- The function `ClassifyInt`: classify an integer by size, return '1',
'2', '4', '8' if this fits in 1, 2, 4, or 8 sign extended bytes. -/
def ClassifyInt (Val : Int) : Char :=
  if Val = castInt8 Val then '1'
  else if Val = castInt16 Val then '2'
  else if Val = castInt32 Val then '4'
  else '8'

/-- The number that a digit character stands for. -/
def digitValue (C : Char) : Nat := C.toNat - '0'.toNat

/-- One piece of text written to the table stream: an opcode name followed
by a comma, a number followed by a comma, any other array element followed
by a comma (an enumerator, a register name, a flag expression), the macro
call `TARGET_OPCODE(Name),`, or a comment. -/
inductive TableItem where
  | Opcode (Name : String)
  | Num (Val : Nat)
  | Name (Text : String)
  | TargetOpcode (Name : String)
  | Comment (Text : String)
  deriving DecidableEq, Repr

/-- The array elements a written piece stands for.  A comment is none; the
macro call is two, by the definition `#define TARGET_OPCODE(X) X & 255,
unsigned(X) >> 8` that `EmitMatcherTable` writes in front of the table. -/
def TableItem.elements : TableItem → List TableItem
  | .Comment _ => []
  | .TargetOpcode X => [.Name (X ++ " & 255"), .Name ("unsigned(" ++ X ++ ") >> 8")]
  | I => [I]

/-- The array `MatcherTable` that the written text declares: its elements
in order. -/
def tableOf (OS : List TableItem) : List TableItem := OS.flatMap TableItem.elements

/-- The hexadecimal digits written by `OS.write_hex(Val)`, which takes the
value as an unsigned 64-bit number. -/
def writeHex (Val : Int) : String := String.mk (Nat.toDigits 16 (Val % 2 ^ 64).toNat)

/-- The function `EmitInt`: emit the specified integer, returning the number
of bytes emitted.  The stream is given as the text written so far. -/
def EmitInt (Val : Int) (OS : List TableItem) : Nat × List TableItem :=
  let BytesEmitted := 1
  let OS := OS ++ [.Num (byteAt Val 0)]
  if Val = castInt8 Val then (BytesEmitted, OS)
  else
    let OS := OS ++ [.Num (byteAt Val 8)]
    let BytesEmitted := BytesEmitted + 1
    let R :=
      if Val ≠ castInt16 Val then
        let OS := OS ++ [.Num (byteAt Val 16), .Num (byteAt Val 24)]
        let BytesEmitted := BytesEmitted + 2
        if Val ≠ castInt32 Val then
          (BytesEmitted + 4,
            OS ++ [.Num (byteAt Val 32), .Num (byteAt Val 40), .Num (byteAt Val 48),
              .Num (byteAt Val 56)])
        else (BytesEmitted, OS)
      else (BytesEmitted, OS)
    (R.1, R.2 ++ [.Comment (toString Val ++ " aka 0x" ++ writeHex Val)])

/-- Modelled from the spec: a complex pattern, the host-defined matcher of
the glossary, as far as the emitter reads it (`CodeGenDAGPatterns.h` is not
among the sources): its select function, its number of operands and whether
it has the property `SDNPHasChain`.  `Addr` stands for the address of the
object, by which `ComplexPatternMap` is keyed. -/
structure ComplexPattern where
  Addr : Nat
  SelectFunc : String
  NumOperands : Nat
  HasChain : Bool
  deriving DecidableEq, Repr

/-- Modelled from the spec: a TableGen record, as far as the emitter reads
it (`Record.h` is not among the sources): its name; the qualified name of a
register record is taken to be that name.  `Addr` stands for the address of
the object, by which `NodeXFormMap` is keyed. -/
structure Record where
  Addr : Nat
  Name : String
  deriving DecidableEq, Repr

/-- Modelled from the spec: the matcher-node hierarchy as a closed sum type
with one variant per kind (`DAGISelMatcher.h` is not among the sources), here
the kinds other than `Push`, each with what the emitter reads from it through
the accessors it calls.  A value type is given by its enumerator name
`getEnumName(VT)`; `NumFixedArityOperands` is -1 for a node that is not
variadic. -/
inductive SimpleMatcherNode where
  | RecordNode (WhatFor : String)
  | RecordMemRef
  | CaptureFlagInput
  | MoveChild (ChildNo : Nat)
  | MoveParent
  | CheckSame (MatchNumber : Nat)
  | CheckPatternPredicate (Predicate : String)
  | CheckPredicate (PredicateName : String)
  | CheckOpcode (OpcodeName : String)
  | CheckType (VT : String)
  | CheckInteger (Value : Int)
  | CheckCondCode (CondCodeName : String)
  | CheckValueType (TypeName : String)
  | CheckComplexPat (Pattern : ComplexPattern)
  | CheckAndImm (Value : Int)
  | CheckOrImm (Value : Int)
  | CheckFoldableChainNode
  | CheckChainCompatible (PreviousOp : Nat)
  | EmitInteger (Value : Int) (VT : String)
  | EmitStringInteger (Value : String) (VT : String)
  | EmitRegister (VT : String) (Reg : Option Record)
  | EmitConvertToTarget (Slot : Nat)
  | EmitMergeInputChains (Nodes : List Nat)
  | EmitCopyToReg (SrcSlot : Nat) (DestPhysReg : Record)
  | EmitNodeXForm (Slot : Nat) (NodeXForm : Record)
  | EmitNode (OpcodeName : String) (VTs : List String) (Operands : List Nat)
      (HasChain HasFlag HasMemRefs : Bool) (NumFixedArityOperands : Int)
  | PatternMarker (SrcPattern DstPattern : String)
  deriving DecidableEq, Repr

/-- Whether a node is of the kind `EmitNode`. -/
def SimpleMatcherNode.isEmitNode : SimpleMatcherNode → Bool
  | .EmitNode _ _ _ _ _ _ _ => true
  | _ => false

/-- Modelled from the spec: a pointer `const MatcherNode *`
(`DAGISelMatcher.h` is not among the sources): null, a `Push` node with its
child `getNext()` and its alternative `getFailure()`, or a node of another
kind with its successor `getNext()`. -/
inductive MatcherNode where
  | null
  | Push (Next Failure : MatcherNode)
  | Node (Data : SimpleMatcherNode) (Next : MatcherNode)
  deriving DecidableEq, Repr

/-- The state of a `MatcherTableEmitter`: the text written to `OS`, the four
interning maps with their vectors (an absent key of a map reads as 0), and
the messages written to `errs()`. -/
structure MatcherTableEmitter where
  OS : List TableItem
  NodePredicateMap : String → Nat
  PatternPredicateMap : String → Nat
  NodePredicates : List String
  PatternPredicates : List String
  ComplexPatternMap : ComplexPattern → Nat
  ComplexPatterns : List ComplexPattern
  NodeXFormMap : Record → Nat
  NodeXForms : List Record
  Errs : List String

namespace MatcherTableEmitter

/-- The insertions `OS << ...`. -/
def write (E : MatcherTableEmitter) (Items : List TableItem) : MatcherTableEmitter :=
  { E with OS := E.OS ++ Items }

/-- The method `getNodePredicate`. -/
def getNodePredicate (E : MatcherTableEmitter) (PredName : String) :
    Nat × MatcherTableEmitter :=
  let Entry := E.NodePredicateMap PredName
  if Entry = 0 then
    let NodePredicates := E.NodePredicates ++ [PredName]
    let Entry := NodePredicates.length
    (Entry - 1, { E with
      NodePredicates := NodePredicates
      NodePredicateMap := Function.update E.NodePredicateMap PredName Entry })
  else (Entry - 1, E)

/-- The method `getPatternPredicate`. -/
def getPatternPredicate (E : MatcherTableEmitter) (PredName : String) :
    Nat × MatcherTableEmitter :=
  let Entry := E.PatternPredicateMap PredName
  if Entry = 0 then
    let PatternPredicates := E.PatternPredicates ++ [PredName]
    let Entry := PatternPredicates.length
    (Entry - 1, { E with
      PatternPredicates := PatternPredicates
      PatternPredicateMap := Function.update E.PatternPredicateMap PredName Entry })
  else (Entry - 1, E)

/-- The method `getComplexPat`. -/
def getComplexPat (E : MatcherTableEmitter) (P : ComplexPattern) :
    Nat × MatcherTableEmitter :=
  let Entry := E.ComplexPatternMap P
  if Entry = 0 then
    let ComplexPatterns := E.ComplexPatterns ++ [P]
    let Entry := ComplexPatterns.length
    (Entry - 1, { E with
      ComplexPatterns := ComplexPatterns
      ComplexPatternMap := Function.update E.ComplexPatternMap P Entry })
  else (Entry - 1, E)

/-- The method `getNodeXFormID`. -/
def getNodeXFormID (E : MatcherTableEmitter) (Rec : Record) : Nat × MatcherTableEmitter :=
  let Entry := E.NodeXFormMap Rec
  if Entry = 0 then
    let NodeXForms := E.NodeXForms ++ [Rec]
    let Entry := NodeXForms.length
    (Entry - 1, { E with
      NodeXForms := NodeXForms
      NodeXFormMap := Function.update E.NodeXFormMap Rec Entry })
  else (Entry - 1, E)

/-- The method `MatcherTableEmitter::EmitMatcher`: emit bytes for the
specified matcher and return the number of bytes emitted.  The case `Push`
is handled by the caller. -/
def EmitMatcher (E : MatcherTableEmitter) (N : SimpleMatcherNode) (_Indent : Nat) :
    Nat × MatcherTableEmitter :=
  match N with
  | .RecordNode WhatFor => (1, E.write [.Opcode "OPC_RecordNode", .Comment WhatFor])
  | .RecordMemRef => (1, E.write [.Opcode "OPC_RecordMemRef"])
  | .CaptureFlagInput => (1, E.write [.Opcode "OPC_CaptureFlagInput"])
  | .MoveChild ChildNo => (2, E.write [.Opcode "OPC_MoveChild", .Num ChildNo])
  | .MoveParent => (1, E.write [.Opcode "OPC_MoveParent"])
  | .CheckSame MatchNumber => (2, E.write [.Opcode "OPC_CheckSame", .Num MatchNumber])
  | .CheckPatternPredicate Pred =>
    let R := E.getPatternPredicate Pred
    (2, R.2.write [.Opcode "OPC_CheckPatternPredicate", .Num R.1, .Comment Pred])
  | .CheckPredicate Pred =>
    let R := E.getNodePredicate Pred
    (2, R.2.write [.Opcode "OPC_CheckPredicate", .Num R.1, .Comment Pred])
  | .CheckOpcode OpcodeName => (2, E.write [.Opcode "OPC_CheckOpcode", .Name OpcodeName])
  | .CheckType VT => (2, E.write [.Opcode "OPC_CheckType", .Name VT])
  | .CheckInteger Val =>
    let E := E.write [.Opcode ("OPC_CheckInteger" ++ String.singleton (ClassifyInt Val))]
    let R := EmitInt Val E.OS
    (R.1 + 1, { E with OS := R.2 })
  | .CheckCondCode CondCodeName =>
    (2, E.write [.Opcode "OPC_CheckCondCode", .Name ("ISD::" ++ CondCodeName)])
  | .CheckValueType TypeName =>
    (2, E.write [.Opcode "OPC_CheckValueType", .Name ("MVT::" ++ TypeName)])
  | .CheckComplexPat Pattern =>
    let R := E.getComplexPat Pattern
    (2, R.2.write [.Opcode "OPC_CheckComplexPat", .Num R.1,
      .Comment (Pattern.SelectFunc ++ ": " ++ toString Pattern.NumOperands ++ " operands" ++
        (if Pattern.HasChain then " + chain result and input" else ""))])
  | .CheckAndImm Val =>
    let E := E.write [.Opcode ("OPC_CheckAndImm" ++ String.singleton (ClassifyInt Val))]
    let R := EmitInt Val E.OS
    (R.1 + 1, { E with OS := R.2 })
  | .CheckOrImm Val =>
    let E := E.write [.Opcode ("OPC_CheckOrImm" ++ String.singleton (ClassifyInt Val))]
    let R := EmitInt Val E.OS
    (R.1 + 1, { E with OS := R.2 })
  | .CheckFoldableChainNode => (1, E.write [.Opcode "OPC_CheckFoldableChainNode"])
  | .CheckChainCompatible PreviousOp =>
    (2, E.write [.Opcode "OPC_CheckChainCompatible", .Num PreviousOp])
  | .EmitInteger Val VT =>
    let E := E.write [.Opcode ("OPC_EmitInteger" ++ String.singleton (ClassifyInt Val)),
      .Name VT]
    let R := EmitInt Val E.OS
    (R.1 + 2, { E with OS := R.2 })
  | .EmitStringInteger Val VT =>
    -- These should always fit into one byte.
    (3, E.write [.Opcode "OPC_EmitInteger1", .Name VT, .Name Val])
  | .EmitRegister VT Reg =>
    let E := E.write [.Opcode "OPC_EmitRegister", .Name VT]
    match Reg with
    | some R => (3, E.write [.Name R.Name])
    | none => (3, E.write [.Num 0, .Comment "zero_reg"])
  | .EmitConvertToTarget Slot => (2, E.write [.Opcode "OPC_EmitConvertToTarget", .Num Slot])
  | .EmitMergeInputChains Nodes =>
    let E := E.write [.Opcode "OPC_EmitMergeInputChains", .Num Nodes.length]
    let E := E.write (Nodes.map .Num)
    (2 + Nodes.length, E)
  | .EmitCopyToReg SrcSlot DestPhysReg =>
    (3, E.write [.Opcode "OPC_EmitCopyToReg", .Num SrcSlot, .Name DestPhysReg.Name])
  | .EmitNodeXForm Slot NodeXForm =>
    let R := E.getNodeXFormID NodeXForm
    (3, R.2.write [.Opcode "OPC_EmitNodeXForm", .Num R.1, .Num Slot, .Comment NodeXForm.Name])
  | .EmitNode OpcodeName VTs Operands HasChain HasFlag HasMemRefs NumFixedArityOperands =>
    let E := E.write [.Opcode "OPC_EmitNode", .TargetOpcode OpcodeName,
      .Name ("0" ++ (if HasChain then "|OPFL_Chain" else "") ++
        (if HasFlag then "|OPFL_Flag" else "") ++
        (if HasMemRefs then "|OPFL_MemRefs" else "") ++
        (if NumFixedArityOperands ≠ -1 then
          "|OPFL_Variadic" ++ toString NumFixedArityOperands else ""))]
    let E := E.write [.Num VTs.length, .Comment "#VTs"]
    let E := E.write (VTs.map .Name)
    let E := E.write [.Num Operands.length, .Comment "#Ops"]
    let E := E.write (Operands.map .Num)
    (5 + VTs.length + Operands.length, E)
  | .PatternMarker SrcPattern DstPattern =>
    (0, E.write [.Comment ("Src: " ++ SrcPattern), .Comment ("Dst: " ++ DstPattern)])

/-- The loop of `MatcherTableEmitter::EmitMatcherList`, with `Size` as it
stands when the loop tests `N`.  In the case `Push` the stream `FOS` over
`TmpBuf` is local to the block and nothing is written to it: the recursive
call is the method of the same emitter and writes to the member `OS`. -/
def EmitMatcherListLoop :
    MatcherNode → Nat → Nat → MatcherTableEmitter → Nat × MatcherTableEmitter
  | .null, _, Size, E => (Size, E)
  | .Push Next Failure, Indent, Size, E =>
    -- We need to encode the child and the offset of the failure code before
    -- emitting either of them.  Handle this by buffering the output into a
    -- string while we get the size.
    let TmpBuf : List TableItem := []
    let R := EmitMatcherListLoop Next (Indent + 1) 0 E
    let NextSize := R.1
    let E := R.2
    let E :=
      if NextSize > 255 then
        { E with Errs := E.Errs ++
            ["Tblgen internal error: can't handle predicate this complex yet\n"] }
      else E
    let E := E.write [.Opcode "OPC_Push", .Num NextSize]
    let E := E.write TmpBuf
    EmitMatcherListLoop Failure Indent (Size + (2 + NextSize)) E
  | .Node Data Next, Indent, Size, E =>
    let R := E.EmitMatcher Data Indent
    -- If there are other nodes in this list, iterate to them, otherwise
    -- we're done.
    EmitMatcherListLoop Next Indent (Size + R.1) R.2

/-- The method `MatcherTableEmitter::EmitMatcherList`: emit the bytes for
the specified matcher subtree. -/
def EmitMatcherList (E : MatcherTableEmitter) (N : MatcherNode) (Indent : Nat) :
    Nat × MatcherTableEmitter :=
  EmitMatcherListLoop N Indent 0 E

/-- An emitter that has written nothing: `MatcherTableEmitter(os)` on an
empty stream. -/
def new : MatcherTableEmitter :=
  { OS := [], NodePredicateMap := fun _ => 0, PatternPredicateMap := fun _ => 0,
    NodePredicates := [], PatternPredicates := [], ComplexPatternMap := fun _ => 0,
    ComplexPatterns := [], NodeXFormMap := fun _ => 0, NodeXForms := [], Errs := [] }

end MatcherTableEmitter

/-- The table part of `llvm::EmitMatcherTable`: the matcher list at indent 2
and the terminating `0`, with the comment that gives the total size. -/
def EmitMatcherTable (Matcher : MatcherNode) : MatcherTableEmitter :=
  let R := MatcherTableEmitter.new.EmitMatcherList Matcher 2
  R.2.write [.Num 0, .Comment ("Total Array size is " ++ toString (R.1 + 1) ++ " bytes")]

/-- Modelled from the spec: the number that bytes stand for when they are
read as a little-endian integer, the first byte the least significant. -/
def decodeLittleEndian : List Nat → Int
  | [] => 0
  | B :: Rest => B + 256 * decodeLittleEndian Rest

/-- Modelled from the spec: the sign extension of the low `Bits` bits of
`X`: the number in `-2 ^ (Bits - 1) .. 2 ^ (Bits - 1) - 1` that agrees with
`X` modulo `2 ^ Bits`. -/
def signExtend (Bits : Nat) (X : Int) : Int :=
  (X + 2 ^ (Bits - 1)) % 2 ^ Bits - 2 ^ (Bits - 1)

/-- A list of `Count` matcher nodes of the same kind, linked by `getNext()`
and ended by a null pointer. -/
def MatcherNode.chain (Data : SimpleMatcherNode) : Nat → MatcherNode
  | 0 => .null
  | Count + 1 => .Node Data (MatcherNode.chain Data Count)

/-- The keys of a sequence in the order of their first occurrence. -/
def firstOccurrences {κ : Type} [DecidableEq κ] (Keys : List κ) : List κ :=
  Keys.foldl (fun Seen k => if k ∈ Seen then Seen else Seen ++ [k]) []

/-- A map and a vector intern the keys of the vector: the vector has no key
twice, the map gives a key of the vector its position plus one, and it gives
every other key 0. -/
def Interns {κ : Type} [DecidableEq κ] (Map : κ → Nat) (Vec : List κ) : Prop :=
  Vec.Nodup ∧ ∀ k, Map k = if k ∈ Vec then Vec.indexOf k + 1 else 0

namespace MatcherTableEmitter

/-- A sequence of calls of a method of the emitter that returns a number:
the numbers returned, in the order of the calls, and the emitter after the
last call. -/
def calls {κ : Type} (get : MatcherTableEmitter → κ → Nat × MatcherTableEmitter) :
    MatcherTableEmitter → List κ → List Nat × MatcherTableEmitter
  | E, [] => ([], E)
  | E, k :: Keys =>
    let R := get E k
    let S := calls get R.2 Keys
    (R.1 :: S.1, S.2)

/-- The loop of `EmitPredicateFunctions` over `PatternPredicates`: the text
that each round writes. -/
def PatternPredicateCases (E : MatcherTableEmitter) : List String :=
  E.PatternPredicates.enum.map fun P =>
    "  case " ++ toString P.1 ++ ": return " ++ P.2 ++ ";\n"

/-- The loop of `EmitPredicateFunctions` over `NodePredicates`: the text that
each round writes. -/
def NodePredicateCases (E : MatcherTableEmitter) : List String :=
  E.NodePredicates.enum.map fun P =>
    "  case " ++ toString P.1 ++ ": return " ++ P.2 ++ "(N);\n"

/-- The loop of `EmitPredicateFunctions` over `ComplexPatterns`: the text
that each round writes. -/
def ComplexPatternCases (E : MatcherTableEmitter) : List String :=
  E.ComplexPatterns.enum.map fun P =>
    let NumOps := P.2.NumOperands + (if P.2.HasChain then 1 else 0)
    "  case " ++ toString P.1 ++ ":\n" ++
    "    Result.resize(Result.size()+" ++ toString NumOps ++ ");\n" ++
    "    return " ++ P.2.SelectFunc ++ (if P.2.HasChain then "XXX" else "") ++ "(Root, N" ++
    String.join ((List.range NumOps).map fun i =>
      ", Result[Result.size()-" ++ toString (NumOps - i) ++ "]") ++
    ");\n"

/-- The loop of `EmitPredicateFunctions` over `NodeXForms`: the text that
each round writes. -/
def NodeXFormCases (E : MatcherTableEmitter) : List String :=
  E.NodeXForms.enum.map fun P =>
    "  case " ++ toString P.1 ++ ": return Transform_" ++ P.2.Name ++ "(V.getNode());\n"

/-- The method `MatcherTableEmitter::EmitPredicateFunctions`: the pieces of
text that it writes to `OS`, in order. -/
def EmitPredicateFunctions (E : MatcherTableEmitter) : List String :=
  -- Emit pattern predicates.
  ["bool CheckPatternPredicate(unsigned PredNo) const \x7b\n",
    "  switch (PredNo) \x7b\n",
    "  default: assert(0 && \"Invalid predicate in table?\");\n"] ++
  E.PatternPredicateCases ++
  ["  \x7d\n", "\x7d\n\n"] ++
  -- Emit Node predicates.
  ["bool CheckNodePredicate(SDNode *N, unsigned PredNo) const \x7b\n",
    "  switch (PredNo) \x7b\n",
    "  default: assert(0 && \"Invalid predicate in table?\");\n"] ++
  E.NodePredicateCases ++
  ["  \x7d\n", "\x7d\n\n"] ++
  -- Emit CompletePattern matchers.
  ["bool CheckComplexPattern(SDNode *Root, SDValue N,\n",
    "      unsigned PatternNo, SmallVectorImpl<SDValue> &Result) \x7b\n",
    "  switch (PatternNo) \x7b\n",
    "  default: assert(0 && \"Invalid pattern # in table?\");\n"] ++
  E.ComplexPatternCases ++
  ["  \x7d\n", "\x7d\n\n"] ++
  -- Emit SDNodeXForm handlers.
  ["SDValue RunSDNodeXForm(SDValue V, unsigned XFormNo) \x7b\n",
    "  switch (XFormNo) \x7b\n",
    "  default: assert(0 && \"Invalid xform # in table?\");\n"] ++
  E.NodeXFormCases ++
  ["  \x7d\n", "\x7d\n\n"]

/-- The four maps of the emitter intern the keys of their vectors. -/
structure Interned (E : MatcherTableEmitter) : Prop where
  node : Interns E.NodePredicateMap E.NodePredicates
  pattern : Interns E.PatternPredicateMap E.PatternPredicates
  complex : Interns E.ComplexPatternMap E.ComplexPatterns
  xform : Interns E.NodeXFormMap E.NodeXForms

/-- The vectors of `F` begin with those of `E`: entries were only added
at their ends. -/
structure Extends (E F : MatcherTableEmitter) : Prop where
  node : E.NodePredicates <+: F.NodePredicates
  pattern : E.PatternPredicates <+: F.PatternPredicates
  complex : E.ComplexPatterns <+: F.ComplexPatterns
  xform : E.NodeXForms <+: F.NodeXForms

end MatcherTableEmitter

/-- A matcher whose nodes use the predicate `isA` twice. -/
def MatcherNode.internExample : MatcherNode :=
  .Node (.CheckPredicate "isA") (.Node (.CheckPatternPredicate "HasX")
    (.Node (.CheckPredicate "isB") (.Node (.CheckPredicate "isA")
      (.Node (.CheckComplexPat ⟨7, "SelectAddr", 2, true⟩)
        (.Node (.EmitNodeXForm 3 ⟨9, "XF"⟩) .null)))))

/-! ## The interference graph (`lib/CodeGen/RegAlloc/InterferenceGraph.cpp`)

The graph is a square matrix of `char` of which the lower triangle is used,
and every node keeps the list of its neighbours.  Objects on the heap are
known by their addresses, which are natural numbers; a read outside the
matrix and a failed assertion give none. -/

/-- Modelled from the spec: the header `LiveRange.h` is not among the sources.
A live range as `InterferenceGraph.cpp` uses it: its address, which
`LR1 != LR2` compares, and the address that `getUserIGNode()` returns, none for
a null pointer. -/
structure LiveRange where
  Addr : Nat
  UserIGNode : Option Nat
deriving DecidableEq, Repr

/-- Modelled from the spec: the header `IGNode.h` is not among the sources.
A node as `InterferenceGraph.cpp` uses it: the index that
`new IGNode(LR, IGNodeList.size())` gives it and `getIndex()` returns, and the
addresses of its neighbours. -/
structure IGNode where
  Index : Nat
  AdjList : List Nat
deriving DecidableEq, Repr

/-- Modelled from the spec: `addAdjIGNode` adds a neighbour at the end of the
list of the node. -/
def IGNode.addAdjIGNode (N : IGNode) (AdjNode : Nat) : IGNode :=
  { N with AdjList := N.AdjList ++ [AdjNode] }

/-- The fields of `InterferenceGraph`: the matrix `IG`, none before
`createGraph`, the number `Size` of its rows and columns, and the addresses in
`IGNodeList`. -/
structure InterferenceGraph where
  IG : Option (List (List Nat))
  Size : Nat
  IGNodeList : List (Option Nat)
deriving DecidableEq, Repr

namespace InterferenceGraph

/-- The read `IG[r][c]`, none outside the matrix. -/
def cell (IG : List (List Nat)) (r c : Nat) : Option Nat :=
  (IG[r]?).bind fun Row => Row[c]?

/-- The write `IG[r][c] = v`. -/
def setCell (IG : List (List Nat)) (r c v : Nat) : List (List Nat) :=
  IG.set r ((IG.getD r []).set c v)

/-- The constructor: no matrix, `Size = 0` and an empty `IGNodeList`. -/
def new : InterferenceGraph := { IG := none, Size := 0, IGNodeList := [] }

/-- The method `createGraph`: a matrix of `IGNodeList.size()` rows and columns
with 0 everywhere. -/
def createGraph (G : InterferenceGraph) : InterferenceGraph :=
  let Size := G.IGNodeList.length
  { G with Size := Size, IG := some (List.replicate Size (List.replicate Size 0)) }

/-- The method `setInterference`, on the graph and the nodes on the heap:
`val` is the cell `IG[row][col]` when `row > col` and `IG[col][row]`
otherwise, and only when it holds 0 it is set to 1 and each node is added to
the neighbours of the other. -/
def setInterference (G : InterferenceGraph) (Nodes : Nat → Option IGNode)
    (LR1 LR2 : LiveRange) : Option (InterferenceGraph × (Nat → Option IGNode)) :=
  if LR1.Addr = LR2.Addr then none
  else
    match LR1.UserIGNode, LR2.UserIGNode with
    | some IGNode1, some IGNode2 =>
      match Nodes IGNode1, Nodes IGNode2, G.IG with
      | some N1, some N2, some IG =>
        let row := N1.Index
        let col := N2.Index
        let r := if row > col then row else col
        let c := if row > col then col else row
        match cell IG r c with
        | none => none
        | some val =>
          if val = 0 then
            let Nodes₁ := Function.update Nodes IGNode1 (some (N1.addAdjIGNode IGNode2))
            match Nodes₁ IGNode2 with
            | some N2 =>
              some ({ G with IG := some (setCell IG r c 1) },
                Function.update Nodes₁ IGNode2 (some (N2.addAdjIGNode IGNode1)))
            | none => none
          else some (G, Nodes)
      | _, _, _ => none
    | _, _ => none

/-- The method `getInterference`: the cell `IG[row][col]` when `row > col` and
`IG[col][row]` otherwise. -/
def getInterference (G : InterferenceGraph) (Nodes : Nat → Option IGNode)
    (LR1 LR2 : LiveRange) : Option Nat :=
  if LR1.Addr = LR2.Addr then none
  else
    match LR1.UserIGNode, LR2.UserIGNode with
    | some IGNode1, some IGNode2 =>
      match Nodes IGNode1, Nodes IGNode2, G.IG with
      | some N1, some N2, some IG =>
        let row := N1.Index
        let col := N2.Index
        if row > col then cell IG row col else cell IG col row
      | _, _, _ => none
    | _, _ => none

/-- The matrix has `Size` rows of `Size` cells, and every cell holds 0 or 1. -/
def WellFormed (G : InterferenceGraph) : Prop :=
  ∃ IG, G.IG = some IG ∧ IG.length = G.Size ∧
    ∀ Row ∈ IG, Row.length = G.Size ∧ ∀ v ∈ Row, v ≤ 1

/-- The node of the live range is on the heap and its index is in the
matrix. -/
def InGraph (G : InterferenceGraph) (Nodes : Nat → Option IGNode) (LR : LiveRange) : Prop :=
  ∃ p N, LR.UserIGNode = some p ∧ Nodes p = some N ∧ N.Index < G.Size

end InterferenceGraph

/-- A graph of three nodes, at the addresses 10, 11 and 12, after
`createGraph`. -/
def InterferenceGraph.threeNodes : InterferenceGraph :=
  InterferenceGraph.createGraph
    { IG := none, Size := 0, IGNodeList := [some 10, some 11, some 12] }

/-- The heap with the three nodes of `InterferenceGraph.threeNodes`, of the
indices 0, 1 and 2 and without neighbours. -/
def IGNode.threeNodes (p : Nat) : Option IGNode :=
  if p = 10 then some ⟨0, []⟩ else if p = 11 then some ⟨1, []⟩
  else if p = 12 then some ⟨2, []⟩ else none

/-! ## The size of a small pointer set (`include/llvm/ADT/SmallPtrSet.h`)

The templates that round the size of a `SmallPtrSet` up to a power of two.
A template argument of type `unsigned` is a natural number below `2 ^ 32`,
and the arithmetic on it is modulo `2 ^ 32`. -/

/-- The value `N - 1` in the type `unsigned`: the difference modulo
`2 ^ 32`. -/
def unsignedPred (N : Nat) : Nat := (N + (2 ^ 32 - 1)) % 2 ^ 32

/-- The enumerator `NextVal = (N|(N-1)) + 1` of `NextPowerOfTwoH<N, false>`,
in the arithmetic of `unsigned`. -/
def NextPowerOfTwoH.NextVal (N : Nat) : Nat := ((N ||| unsignedPred N) + 1) % 2 ^ 32

/-- The enumerator `Val` of `NextPowerOfTwo<N>`, with `NextPowerOfTwoH`
unfolded: `N` when `(N&(N-1)) == 0`, and `NextPowerOfTwo<NextVal>::Val`
otherwise.  One instantiation of `NextPowerOfTwo` takes one unit of fuel, and
the result is none when the fuel runs out. -/
def NextPowerOfTwo : Nat → Nat → Option Nat
  | 0, _ => none
  | fuel + 1, N =>
    if (N &&& unsignedPred N) = 0 then some N
    else NextPowerOfTwo fuel (NextPowerOfTwoH.NextVal N)

/-- The constructor `SmallPtrSetImpl(SmallSize)`: the value it gives
`CurArraySize`, none when the assertion `SmallSize && (SmallSize &
(SmallSize-1)) == 0` fails. -/
def SmallPtrSetImpl.new (SmallSize : Nat) : Option Nat :=
  if SmallSize ≠ 0 ∧ (SmallSize &&& unsignedPred SmallSize) = 0 then some SmallSize else none

/-- The constructor of `SmallPtrSet<PtrType, SmallSize>`: it passes
`NextPowerOfTwo<SmallSizePowTwo>::Val` to `SmallPtrSetImpl`, where
`SmallSizePowTwo` is `NextPowerOfTwo<SmallSize>::Val`. -/
def SmallPtrSet.new (fuel : Nat) (SmallSize : Nat) : Option Nat :=
  (NextPowerOfTwo fuel SmallSize).bind fun SmallSizePowTwo =>
    (NextPowerOfTwo fuel SmallSizePowTwo).bind SmallPtrSetImpl.new

/-! ## Frame conditions

Every parser method except the label and assignment paths leaves the
definition state of the symbols alone, records only calls that define no
symbol, and moves the lexer forward. -/

theorem Frame.refl (P : AsmParser) : Frame P P :=
  ⟨⟨[], by simp⟩, rfl, rfl, fun _ h => h, rfl, rfl, List.prefix_refl _, List.suffix_refl _⟩

theorem Frame.trans {P Q R : AsmParser} (h₁ : Frame P Q) (h₂ : Frame Q R) : Frame P R := by
  obtain ⟨E₁, hE₁, hd₁⟩ := h₁.calls
  obtain ⟨E₂, hE₂, hd₂⟩ := h₂.calls
  refine ⟨⟨E₁ ++ E₂, ?_, ?_⟩, h₂.sect.trans h₁.sect, h₂.value.trans h₁.value,
    fun S h => h₂.ext S (h₁.ext S h), h₂.inc.trans h₁.inc, h₂.target.trans h₁.target,
    h₁.diags.trans h₂.diags, h₂.lexer.trans h₁.lexer⟩
  · rw [hE₂, hE₁, List.append_assoc]
  · intro C hC
    rcases List.mem_append.1 hC with h | h
    · exact hd₁ C h
    · exact hd₂ C h

theorem AsmParser.Lex_suffix (P : AsmParser) : P.Lex.Lexer <:+ P.Lexer := by
  unfold AsmParser.Lex
  split
  · simp_all
  · split
    · exact List.suffix_refl _
    · rename_i T Rest h _
      simp only [h]
      exact List.suffix_cons T Rest

theorem AsmParser.Lex_length (P : AsmParser) (h : P.getKind ≠ .Eof) :
    P.Lex.Lexer.length + 1 = P.Lexer.length := by
  unfold AsmParser.Lex
  unfold AsmParser.getKind AsmParser.getTok at h
  split
  · simp_all
  · rename_i T Rest hl
    simp only [hl] at h
    simp [h, hl]

theorem AsmParser.frame_Lex (P : AsmParser) : Frame P P.Lex := by
  refine ⟨⟨[], ?_⟩, ?_, ?_, ?_, ?_, ?_, ?_, P.Lex_suffix⟩ <;>
    (unfold AsmParser.Lex; split <;> try split) <;> simp

theorem AsmParser.frame_Warning (P : AsmParser) (L : SMLoc) (Msg : String) :
    Frame P (P.Warning L Msg) :=
  ⟨⟨[], by simp [AsmParser.Warning]⟩, rfl, rfl, fun _ h => h, rfl, rfl,
    List.prefix_append _ _, List.suffix_refl _⟩

theorem AsmParser.frame_Error (P : AsmParser) (L : SMLoc) (Msg : String) :
    Frame P (P.Error L Msg) :=
  ⟨⟨[], by simp [AsmParser.Error]⟩, rfl, rfl, fun _ h => h, rfl, rfl,
    List.prefix_append _ _, List.suffix_refl _⟩

theorem AsmParser.frame_TokError (P : AsmParser) (Msg : String) :
    Frame P (P.TokError Msg) :=
  ⟨⟨[], by simp [AsmParser.TokError]⟩, rfl, rfl, fun _ h => h, rfl, rfl,
    List.prefix_append _ _, List.suffix_refl _⟩

theorem AsmParser.frame_markUse (P : AsmParser) (Sym : String) : Frame P (P.markUse Sym) := by
  unfold AsmParser.markUse
  split
  · refine ⟨⟨[], by simp [AsmParser.setExternal]⟩, rfl, rfl, ?_, rfl, rfl,
      List.prefix_refl _, List.suffix_refl _⟩
    intro S h
    simp only [AsmParser.setExternal, MCContext.setExternal, Function.update_apply]
    split <;> simp [h]
  · exact Frame.refl P

theorem AsmParser.frame_emit (P : AsmParser) (C : StreamerCall)
    (h : C.isDefinition = false) : Frame P (P.emit C) :=
  ⟨⟨[C], by simp [AsmParser.emit, h]⟩, rfl, rfl, fun _ h => h, rfl, rfl,
    List.prefix_refl _, List.suffix_refl _⟩

theorem AsmParser.frame_emitValues (P : AsmParser) (N : Int) (V : MCValue) (Size : Int) :
    Frame P (P.emitValues N V Size) := by
  refine ⟨⟨_, rfl, ?_⟩, rfl, rfl, fun _ h => h, rfl, rfl, List.prefix_refl _,
    List.suffix_refl _⟩
  intro C hC
  rw [List.eq_of_mem_replicate hC]
  rfl

theorem AsmParser.frame_switchToSection (P : AsmParser) (Section : String) :
    Frame P (P.switchToSection Section) := by
  unfold AsmParser.switchToSection AsmParser.SwitchSection
  refine ⟨⟨[.SwitchSection Section], ?_, ?_⟩, ?_, ?_, ?_, ?_, ?_, ?_, ?_⟩
  · split <;> simp
  · intro C hC
    rw [List.mem_singleton.1 hC]
    rfl
  · split <;> simp [MCContext.CreateSection]
  · split <;> simp [MCContext.CreateSection]
  · intro S h
    split <;> simpa [MCContext.CreateSection] using h
  · split <;> simp
  · split <;> simp
  · split <;> simp
  · split <;> simp

theorem AsmParser.eatLoop_suffix (L : List AsmToken) : AsmParser.eatLoop L <:+ L := by
  induction L with
  | nil => exact List.suffix_refl _
  | cons T Rest ih =>
    unfold AsmParser.eatLoop
    split
    · exact ih.trans (List.suffix_cons T Rest)
    · exact List.suffix_refl _

theorem AsmParser.frame_EatToEndOfStatement (P : AsmParser) :
    Frame P P.EatToEndOfStatement := by
  have h : Frame P { P with Lexer := AsmParser.eatLoop P.Lexer } :=
    ⟨⟨[], by simp⟩, rfl, rfl, fun _ h => h, rfl, rfl, List.prefix_refl _, AsmParser.eatLoop_suffix _⟩
  unfold AsmParser.EatToEndOfStatement
  simp only
  split
  · exact h.trans (AsmParser.frame_Lex _)
  · exact h

theorem AsmParser.frame_iterate_Lex (P : AsmParser) (n : Nat) :
    Frame P (Nat.iterate AsmParser.Lex n P) := by
  induction n with
  | zero => exact Frame.refl P
  | succ n ih =>
    rw [Function.iterate_succ_apply']
    exact ih.trans (AsmParser.frame_Lex _)

theorem AsmParser.frame_foldl_markUse (Syms : List String) (P : AsmParser) :
    Frame P (Syms.foldl AsmParser.markUse P) := by
  induction Syms generalizing P with
  | nil => exact Frame.refl P
  | cons S Rest ih => exact (P.frame_markUse S).trans (ih _)

theorem AsmParser.frame_applyTarget (P : AsmParser) (R : TargetResult) :
    Frame P (P.applyTarget R) := by
  unfold AsmParser.applyTarget
  refine ((AsmParser.frame_foldl_markUse R.Referenced P).trans ?_).trans
    (AsmParser.frame_iterate_Lex _ _)
  exact ⟨⟨[], by simp⟩, rfl, rfl, fun _ h => h, rfl, rfl, List.prefix_append _ _,
    List.suffix_refl _⟩

theorem Result.Fine.andThen {α β : Type} {r : Result α} {k : α → AsmParser → Result β}
    {P : AsmParser} {E : Prop} (h : r.Fine P E)
    (hk : ∀ a Q, Frame P Q → (k a Q).Fine P E) : (r.andThen k).Fine P E := by
  cases r with
  | ok a Q => exact hk a Q h
  | error Q => exact h
  | outOfFuel => exact h

theorem Result.Fine.bind {α β : Type} {r : Result α} {k : α → AsmParser → Result β}
    {P B : AsmParser} {E G : Prop} (h : r.Fine B G) (hf : Frame P B) (he : E → G)
    (hk : ∀ a Q, Frame B Q → (k a Q).Fine P E) : (r.andThen k).Fine P E := by
  cases r with
  | ok a Q => exact hk a Q h
  | error Q => exact hf.trans h
  | outOfFuel => exact fun e => h (he e)

theorem Result.Fine.mono {α : Type} {r : Result α} {P Q : AsmParser} {E E' : Prop}
    (h : r.Fine Q E') (hf : Frame P Q) (he : E → E') : r.Fine P E := by
  cases r with
  | ok a R => exact hf.trans h
  | error R => exact hf.trans h
  | outOfFuel => exact fun e => h (he e)

theorem Frame.length_le {P Q : AsmParser} (h : Frame P Q) :
    Q.Lexer.length ≤ P.Lexer.length := h.lexer.length_le

theorem Frame.Lex {P Q : AsmParser} (h : Frame P Q) : Frame P Q.Lex :=
  h.trans (AsmParser.frame_Lex Q)

theorem Frame.TokError {P Q : AsmParser} (h : Frame P Q) (Msg : String) :
    Frame P (Q.TokError Msg) :=
  h.trans (AsmParser.frame_TokError Q Msg)

theorem Frame.Error {P Q : AsmParser} (h : Frame P Q) (L : SMLoc) (Msg : String) :
    Frame P (Q.Error L Msg) :=
  h.trans (AsmParser.frame_Error Q L Msg)

theorem Frame.Warning {P Q : AsmParser} (h : Frame P Q) (L : SMLoc) (Msg : String) :
    Frame P (Q.Warning L Msg) :=
  h.trans (AsmParser.frame_Warning Q L Msg)

theorem Frame.markUse {P Q : AsmParser} (h : Frame P Q) (Sym : String) :
    Frame P (Q.markUse Sym) :=
  h.trans (AsmParser.frame_markUse Q Sym)

theorem Frame.emit {P Q : AsmParser} (h : Frame P Q) (C : StreamerCall)
    (hC : C.isDefinition = false) : Frame P (Q.emit C) :=
  h.trans (AsmParser.frame_emit Q C hC)

theorem getBinOpPrecedence_Eof (K : AsmBinaryExpr.Opcode) :
    (getBinOpPrecedence .Eof K).1 = 0 := rfl

theorem AsmParser.expr_fine (fuel : Nat) :
    (∀ P, (ParsePrimaryExpr fuel P).Fine P (3 * P.Lexer.length + 1 ≤ fuel)) ∧
    (∀ P, (ParseParenExpr fuel P).Fine P (3 * P.Lexer.length + 3 ≤ fuel)) ∧
    (∀ P, (ParseExpression fuel P).Fine P (3 * P.Lexer.length + 2 ≤ fuel)) ∧
    (∀ Prec Res P, 0 < Prec →
      (ParseBinOpRHS fuel Prec Res P).Fine P (3 * P.Lexer.length + 1 ≤ fuel)) := by
  induction fuel with
  | zero =>
    refine ⟨?_, ?_, ?_, ?_⟩ <;> intros <;>
      simp [ParsePrimaryExpr, ParseParenExpr, ParseExpression, ParseBinOpRHS, Result.Fine]
  | succ fuel ih =>
    obtain ⟨ihP, ihPP, ihE, ihB⟩ := ih
    have unary : ∀ (P : AsmParser) (Op : AsmUnaryExpr.Opcode), P.getKind ≠ .Eof →
        ((ParsePrimaryExpr fuel P.Lex).andThen fun Res P =>
          Result.ok (AsmExpr.Unary Op Res) P).Fine P (3 * P.Lexer.length + 1 ≤ fuel + 1) := by
      intro P Op hk
      have hl := P.Lex_length hk
      exact Result.Fine.andThen
        (Result.Fine.mono (ihP P.Lex) (AsmParser.frame_Lex P) (fun _ => by omega))
        (fun _ _ hQ => hQ)
    refine ⟨?_, ?_, ?_, ?_⟩
    · intro P
      unfold ParsePrimaryExpr
      split
      · exact unary P _ (by simp_all)
      · exact ((AsmParser.frame_markUse P _).Lex : Frame P _)
      · exact (AsmParser.frame_Lex P : Frame P _)
      · rename_i hk
        have hl := P.Lex_length (by simp [hk])
        exact Result.Fine.mono (ihPP P.Lex) (AsmParser.frame_Lex P) (fun _ => by omega)
      · exact unary P _ (by simp_all)
      · exact unary P _ (by simp_all)
      · exact unary P _ (by simp_all)
      · exact (AsmParser.frame_TokError P _ : Frame P _)
    · intro P
      unfold ParseParenExpr
      refine Result.Fine.andThen (Result.Fine.mono (ihE P) (Frame.refl P) (fun _ => by omega)) ?_
      intro Res Q hQ
      split
      · exact (hQ.TokError _ : Frame P _)
      · exact (hQ.Lex : Frame P _)
    · intro P
      unfold ParseExpression
      refine Result.Fine.andThen (Result.Fine.mono (ihP P) (Frame.refl P) (fun _ => by omega)) ?_
      intro Res Q hQ
      have := hQ.length_le
      exact Result.Fine.mono (ihB 1 Res Q Nat.one_pos) hQ (fun _ => by omega)
    · intro Prec Res P hPrec
      unfold ParseBinOpRHS
      simp only
      split
      · exact (Frame.refl P : Frame P _)
      · rename_i hlt
        have hk : P.getKind ≠ .Eof := by
          intro h
          rw [h, getBinOpPrecedence_Eof] at hlt
          omega
        have hl := P.Lex_length hk
        refine Result.Fine.bind (ihP P.Lex) (AsmParser.frame_Lex P) (fun _ => by omega) ?_
        intro RHS Q hQ
        have hQl := hQ.length_le
        have hPQ : Frame P Q := (AsmParser.frame_Lex P).trans hQ
        refine Result.Fine.bind (B := Q) (G := 3 * Q.Lexer.length + 1 ≤ fuel) ?_ hPQ
          (fun _ => by omega) ?_
        · split
          · exact ihB _ _ _ (Nat.succ_pos _)
          · exact (Frame.refl Q : Frame Q _)
        · intro RHS' R hR
          have hRl := hR.length_le
          exact Result.Fine.mono (ihB _ _ _ hPrec) (hPQ.trans hR) (fun _ => by omega)

@[simp] theorem Result.fine_ok {α : Type} (a : α) (P Q : AsmParser) (E : Prop) :
    (Result.ok a Q).Fine P E ↔ Frame P Q := Iff.rfl

@[simp] theorem Result.fine_error {α : Type} (P Q : AsmParser) (E : Prop) :
    (Result.error Q : Result α).Fine P E ↔ Frame P Q := Iff.rfl

theorem Frame.emitValues {P Q : AsmParser} (h : Frame P Q) (N : Int) (V : MCValue)
    (Size : Int) : Frame P (Q.emitValues N V Size) :=
  h.trans (AsmParser.frame_emitValues Q N V Size)

theorem Frame.switchToSection {P Q : AsmParser} (h : Frame P Q) (Section : String) :
    Frame P (Q.switchToSection Section) :=
  h.trans (AsmParser.frame_switchToSection Q Section)

theorem Frame.EatToEndOfStatement {P Q : AsmParser} (h : Frame P Q) :
    Frame P Q.EatToEndOfStatement :=
  h.trans (AsmParser.frame_EatToEndOfStatement Q)

theorem Frame.applyTarget {P Q : AsmParser} (h : Frame P Q) (R : TargetResult) :
    Frame P (Q.applyTarget R) :=
  h.trans (AsmParser.frame_applyTarget Q R)

attribute [simp] Frame.refl Frame.Lex Frame.TokError Frame.Error Frame.Warning Frame.markUse
  Frame.emit Frame.emitValues Frame.switchToSection Frame.EatToEndOfStatement
  Frame.applyTarget StreamerCall.isDefinition

/-- The sequencing rule for methods that need fuel for `3 * length + c`. -/
theorem Result.Fine.seq {α β : Type} {r : Result α} {k : α → AsmParser → Result β}
    {P B : AsmParser} {fuel c d : Nat}
    (h : r.Fine B (3 * B.Lexer.length + d ≤ fuel)) (hf : Frame P B) (hc : d ≤ c)
    (hk : ∀ a Q, Frame P Q → (k a Q).Fine P (3 * P.Lexer.length + c ≤ fuel)) :
    (r.andThen k).Fine P (3 * P.Lexer.length + c ≤ fuel) := by
  have := hf.length_le
  exact Result.Fine.bind h hf (fun _ => by omega) (fun a Q hQ => hk a Q (hf.trans hQ))

namespace AsmParser

theorem ParseAbsoluteExpression_fine (fuel : Nat) (P : AsmParser) :
    (ParseAbsoluteExpression fuel P).Fine P (3 * P.Lexer.length + 2 ≤ fuel) := by
  unfold ParseAbsoluteExpression
  refine Result.Fine.seq ((expr_fine fuel).2.2.1 P) (Frame.refl P) (le_refl _) ?_
  intro Expr Q hQ
  split <;> simp [*]

theorem ParseRelocatableExpression_fine (fuel : Nat) (P : AsmParser) :
    (ParseRelocatableExpression fuel P).Fine P (3 * P.Lexer.length + 2 ≤ fuel) := by
  unfold ParseRelocatableExpression
  refine Result.Fine.seq ((expr_fine fuel).2.2.1 P) (Frame.refl P) (le_refl _) ?_
  intro Expr Q hQ
  split <;> simp [*]

theorem ParseParenRelocatableExpression_fine (fuel : Nat) (P : AsmParser) :
    (ParseParenRelocatableExpression fuel P).Fine P (3 * P.Lexer.length + 3 ≤ fuel) := by
  unfold ParseParenRelocatableExpression
  refine Result.Fine.seq ((expr_fine fuel).2.1 P) (Frame.refl P) (le_refl _) ?_
  intro Expr Q hQ
  split <;> simp [*]

theorem isNot_Eof_of_is {P : AsmParser} {K : AsmToken.TokenKind} (h : P.is K = true)
    (hK : K ≠ .Eof) : P.getKind ≠ .Eof := by
  simp only [AsmParser.is, decide_eq_true_eq] at h
  rw [h]
  exact hK

theorem getKind_of_isNot {P : AsmParser} {K : AsmToken.TokenKind}
    (h : ¬ P.isNot K = true) : P.getKind = K := by
  simpa [AsmParser.isNot] using h

theorem ParseDirectiveDarwinSectionLoop_fine (fuel : Nat) (Section : String)
    (P : AsmParser) :
    (ParseDirectiveDarwinSectionLoop fuel Section P).Fine P
      (3 * P.Lexer.length + 1 ≤ fuel) := by
  induction fuel generalizing Section P with
  | zero => simp [ParseDirectiveDarwinSectionLoop, Result.Fine]
  | succ fuel ih =>
    unfold ParseDirectiveDarwinSectionLoop
    split
    · rename_i hc
      have hl := P.Lex_length (isNot_Eof_of_is hc (by decide))
      simp only
      split
      · simp
      · have := (frame_Lex P.Lex).length_le
        exact Result.Fine.mono (ih _ _) (by simp) (fun _ => by omega)
    · simp

theorem ParseDirectiveDarwinSection_fine (fuel : Nat) (P : AsmParser) :
    (ParseDirectiveDarwinSection fuel P).Fine P (3 * P.Lexer.length + 3 ≤ fuel) := by
  unfold ParseDirectiveDarwinSection
  repeat' first
    | (refine Result.Fine.seq (ParseDirectiveDarwinSectionLoop_fine fuel _ _) (by simp [*])
        (by omega) ?_; intro _ _ _)
    | split
    | simp [*]

theorem ParseDirectiveSectionSwitch_fine (Section Directives : String) (P : AsmParser)
    (E : Prop) : (ParseDirectiveSectionSwitch Section Directives P).Fine P E := by
  unfold ParseDirectiveSectionSwitch
  split <;> simp

theorem Lex_length_of_Lexer_eq {P Q : AsmParser} (h : Q.Lexer = P.Lexer)
    (hk : P.getKind ≠ .Eof) : Q.Lex.Lexer.length + 1 = P.Lexer.length := by
  have hQ : Q.getKind = P.getKind := by simp [AsmParser.getKind, AsmParser.getTok, h]
  rw [← h]
  exact Q.Lex_length (hQ ▸ hk)

theorem ParseDirectiveAsciiLoop_fine (fuel : Nat) (Z : Bool) (P : AsmParser) :
    (ParseDirectiveAsciiLoop fuel Z P).Fine P (3 * P.Lexer.length + 1 ≤ fuel) := by
  induction fuel generalizing P with
  | zero => simp [ParseDirectiveAsciiLoop, Result.Fine]
  | succ fuel ih =>
    unfold ParseDirectiveAsciiLoop
    split
    · simp
    · rename_i hs
      have hk : P.getKind ≠ .Eof := by rw [getKind_of_isNot hs]; decide
      simp only
      generalize hQ : (if Z = true then
          (P.emit (.EmitBytes (stripQuotes P.getTok.Str))).emit
            (.EmitBytes (String.mk [Char.ofNat 0]))
          else P.emit (.EmitBytes (stripQuotes P.getTok.Str))) = Q
      have hf : Frame P Q := by
        rw [← hQ]; split <;> simp
      have hL : Q.Lexer = P.Lexer := by
        rw [← hQ]; split <;> rfl
      have hl := Lex_length_of_Lexer_eq hL hk
      have := (frame_Lex Q.Lex).length_le
      split
      · simp [*]
      · split
        · simp [*]
        · exact Result.Fine.mono (ih _) (by simp [*]) (fun _ => by omega)

theorem ParseDirectiveAscii_fine (fuel : Nat) (Z : Bool) (P : AsmParser) :
    (ParseDirectiveAscii fuel Z P).Fine P (3 * P.Lexer.length + 3 ≤ fuel) := by
  unfold ParseDirectiveAscii
  repeat' first
    | (refine Result.Fine.seq (ParseDirectiveAsciiLoop_fine fuel _ _) (by simp [*])
        (by omega) ?_; intro _ _ _)
    | split
    | simp [*]

theorem ParseDirectiveValueLoop_fine (fuel : Nat) (Size : Nat) (P : AsmParser) :
    (ParseDirectiveValueLoop fuel Size P).Fine P (3 * P.Lexer.length + 3 ≤ fuel) := by
  induction fuel generalizing P with
  | zero => simp [ParseDirectiveValueLoop, Result.Fine]
  | succ fuel ih =>
    unfold ParseDirectiveValueLoop
    refine Result.Fine.bind (ParseRelocatableExpression_fine fuel P) (Frame.refl P)
      (fun _ => by omega) ?_
    intro Expr Q hQ
    simp only
    split
    · simp [*]
    · split
      · simp [*]
      · rename_i hc
        have hl := Lex_length_of_Lexer_eq (P := Q) (Q := Q.emit (.EmitValue Expr Size)) rfl
          (by
            have := getKind_of_isNot hc
            rw [show Q.getKind = (Q.emit (.EmitValue Expr Size)).getKind from rfl, this]
            decide)
        have := hQ.length_le
        exact Result.Fine.mono (ih _) (by simp [*]) (fun _ => by omega)

theorem ParseDirectiveValue_fine (fuel : Nat) (Size : Nat) (P : AsmParser) :
    (ParseDirectiveValue fuel Size P).Fine P (3 * P.Lexer.length + 3 ≤ fuel) := by
  unfold ParseDirectiveValue
  repeat' first
    | (refine Result.Fine.seq (ParseDirectiveValueLoop_fine fuel _ _) (by simp [*])
        (by omega) ?_; intro _ _ _)
    | split
    | simp [*]

theorem ParseDirectiveSpace_fine (fuel : Nat) (P : AsmParser) :
    (ParseDirectiveSpace fuel P).Fine P (3 * P.Lexer.length + 3 ≤ fuel) := by
  unfold ParseDirectiveSpace
  refine Result.Fine.seq (ParseAbsoluteExpression_fine fuel _) (by simp) (by omega) ?_
  intro NumBytes Q hQ
  refine Result.Fine.seq (B := Q) (d := 2) ?_ hQ (by omega) ?_
  · repeat' first
      | (refine Result.Fine.seq (ParseAbsoluteExpression_fine fuel _) (by simp [*])
          (by omega) ?_; intro _ _ _)
      | split
      | simp [*]
  · intro _ _ _
    split <;> simp [*]

theorem ParseDirectiveFill_fine (fuel : Nat) (P : AsmParser) :
    (ParseDirectiveFill fuel P).Fine P (3 * P.Lexer.length + 3 ≤ fuel) := by
  unfold ParseDirectiveFill
  repeat' first
    | (refine Result.Fine.seq (ParseAbsoluteExpression_fine fuel _) (by simp [*])
        (by omega) ?_; intro _ _ _)
    | split
    | simp [*]

theorem ParseDirectiveOrg_fine (fuel : Nat) (P : AsmParser) :
    (ParseDirectiveOrg fuel P).Fine P (3 * P.Lexer.length + 3 ≤ fuel) := by
  unfold ParseDirectiveOrg
  refine Result.Fine.seq (ParseRelocatableExpression_fine fuel _) (by simp) (by omega) ?_
  intro Offset Q hQ
  refine Result.Fine.seq (B := Q) (d := 2) ?_ hQ (by omega) ?_
  · repeat' first
      | (refine Result.Fine.seq (ParseAbsoluteExpression_fine fuel _) (by simp [*])
          (by omega) ?_; intro _ _ _)
      | split
      | simp [*]
  · intro _ _ _
    simp [*]

end AsmParser

theorem Result.Fine.ite {α : Type} {c : Prop} [Decidable c] {a b : Result α}
    {P : AsmParser} {E : Prop} (ha : c → a.Fine P E) (hb : ¬ c → b.Fine P E) :
    (if c then a else b).Fine P E := by
  split
  · exact ha ‹_›
  · exact hb ‹_›

theorem Result.Fine.ok {α : Type} {a : α} {P Q : AsmParser} {E : Prop} (h : Frame P Q) :
    (Result.ok a Q).Fine P E := h

theorem Result.Fine.error {α : Type} {P Q : AsmParser} {E : Prop} (h : Frame P Q) :
    (Result.error Q : Result α).Fine P E := h

namespace AsmParser

theorem ParseDirectiveAlign_fine (fuel : Nat) (IsPow2 : Bool) (ValueSize : Nat)
    (P : AsmParser) :
    (ParseDirectiveAlign fuel IsPow2 ValueSize P).Fine P (3 * P.Lexer.length + 3 ≤ fuel) := by
  unfold ParseDirectiveAlign
  refine Result.Fine.seq (ParseAbsoluteExpression_fine fuel _) (Frame.refl P) (by omega) ?_
  intro Alignment Q hQ
  refine Result.Fine.seq (B := Q) (d := 2) ?_ hQ (by omega) ?_
  · split
    · split
      · simp
      · refine Result.Fine.seq (B := Q.Lex) (d := 2) ?_ (by simp) (by omega) ?_
        · split
          · refine Result.Fine.seq (ParseAbsoluteExpression_fine fuel _) (by simp)
              (by omega) ?_
            intro _ _ _
            simp [*]
          · simp
        · intro Fill R hR
          repeat' first
            | refine Result.Fine.seq (ParseAbsoluteExpression_fine fuel _) ?_ ?_ (fun _ _ _ => ?_)
            | refine Result.Fine.ite (fun _ => ?_) (fun _ => ?_)
            | refine Result.Fine.ok ?_
            | refine Result.Fine.error ?_
            | decide
            | apply_rules [Frame.refl, Frame.Lex, Frame.TokError, Frame.Error, Frame.Warning,
              Frame.markUse, Frame.emit, Frame.emitValues, Frame.switchToSection,
              Frame.EatToEndOfStatement, Frame.applyTarget]
    · simp
  · intro Ops R hR
    simp only
    have hW : Frame P (R.Lex.Warning Ops.MaxBytesLoc
        "maximum bytes expression exceeds alignment and has no effect") := by simp [*]
    have hL : Frame P R.Lex := by simp [*]
    repeat' split
    all_goals first
      | exact hL.Warning _ _
      | exact hW.emit _ rfl
      | exact hL.emit _ rfl

theorem ParseDirectiveSymbolAttributeLoop_fine (fuel : Nat) (Attr : MCStreamer.SymbolAttr)
    (P : AsmParser) :
    (ParseDirectiveSymbolAttributeLoop fuel Attr P).Fine P
      (3 * P.Lexer.length + 1 ≤ fuel) := by
  induction fuel generalizing P with
  | zero => simp [ParseDirectiveSymbolAttributeLoop, Result.Fine]
  | succ fuel ih =>
    unfold ParseDirectiveSymbolAttributeLoop
    split
    · simp
    · rename_i hs
      have hk : P.getKind ≠ .Eof := by rw [getKind_of_isNot hs]; decide
      have hl := P.Lex_length hk
      simp only
      generalize hQ : (P.Lex.markUse P.getTok.Str).emit
        (.EmitSymbolAttribute P.getTok.Str Attr) = Q
      have hf : Frame P.Lex Q := by rw [← hQ]; simp
      have h1 := hf.length_le
      have h2 := (frame_Lex Q).length_le
      have hfP : Frame P Q := (frame_Lex P).trans hf
      split
      · simp [*]
      · split
        · simp [*]
        · exact Result.Fine.mono (ih _) (by simp [*]) (fun _ => by omega)

theorem ParseDirectiveSymbolAttribute_fine (fuel : Nat) (Attr : MCStreamer.SymbolAttr)
    (P : AsmParser) :
    (ParseDirectiveSymbolAttribute fuel Attr P).Fine P (3 * P.Lexer.length + 3 ≤ fuel) := by
  unfold ParseDirectiveSymbolAttribute
  repeat' first
    | refine Result.Fine.seq (ParseDirectiveSymbolAttributeLoop_fine fuel _ _) ?_ ?_ (fun _ _ _ => ?_)
    | refine Result.Fine.ite (fun _ => ?_) (fun _ => ?_)
    | refine Result.Fine.ok ?_
    | refine Result.Fine.error ?_
    | decide
    | apply_rules [Frame.refl, Frame.Lex, Frame.TokError, Frame.Error, Frame.Warning,
      Frame.markUse, Frame.emit, Frame.emitValues, Frame.switchToSection,
      Frame.EatToEndOfStatement, Frame.applyTarget]

theorem ParseDirectiveDarwinSymbolDesc_fine (fuel : Nat) (P : AsmParser) :
    (ParseDirectiveDarwinSymbolDesc fuel P).Fine P (3 * P.Lexer.length + 3 ≤ fuel) := by
  unfold ParseDirectiveDarwinSymbolDesc
  repeat' first
    | refine Result.Fine.seq (ParseAbsoluteExpression_fine fuel _) ?_ ?_ (fun _ _ _ => ?_)
    | refine Result.Fine.ite (fun _ => ?_) (fun _ => ?_)
    | refine Result.Fine.ok ?_
    | refine Result.Fine.error ?_
    | decide
    | apply_rules [Frame.refl, Frame.Lex, Frame.TokError, Frame.Error, Frame.Warning,
      Frame.markUse, Frame.emit, Frame.emitValues, Frame.switchToSection,
      Frame.EatToEndOfStatement, Frame.applyTarget]

theorem ParseOptionalPow2Alignment_fine (fuel : Nat) (P : AsmParser) :
    (ParseOptionalPow2Alignment fuel P).Fine P (3 * P.Lexer.length + 2 ≤ fuel) := by
  unfold ParseOptionalPow2Alignment
  repeat' first
    | refine Result.Fine.seq (ParseAbsoluteExpression_fine fuel _) ?_ ?_ (fun _ _ _ => ?_)
    | refine Result.Fine.ite (fun _ => ?_) (fun _ => ?_)
    | refine Result.Fine.ok ?_
    | refine Result.Fine.error ?_
    | decide
    | apply_rules [Frame.refl, Frame.Lex, Frame.TokError, Frame.Error, Frame.Warning,
      Frame.markUse, Frame.emit, Frame.emitValues, Frame.switchToSection,
      Frame.EatToEndOfStatement, Frame.applyTarget]

theorem ParseDirectiveComm_fine (fuel : Nat) (IsLocal : Bool) (P : AsmParser) :
    (ParseDirectiveComm fuel IsLocal P).Fine P (3 * P.Lexer.length + 3 ≤ fuel) := by
  unfold ParseDirectiveComm
  repeat' first
    | refine Result.Fine.seq (ParseAbsoluteExpression_fine fuel _) ?_ ?_ (fun _ _ _ => ?_)
    | refine Result.Fine.seq (ParseOptionalPow2Alignment_fine fuel _) ?_ ?_ (fun _ _ _ => ?_)
    | refine Result.Fine.ite (fun _ => ?_) (fun _ => ?_)
    | refine Result.Fine.ok ?_
    | refine Result.Fine.error ?_
    | decide
    | apply_rules [Frame.refl, Frame.Lex, Frame.TokError, Frame.Error, Frame.Warning,
      Frame.markUse, Frame.emit, Frame.emitValues, Frame.switchToSection,
      Frame.EatToEndOfStatement, Frame.applyTarget]

theorem ParseDirectiveDarwinZerofill_fine (fuel : Nat) (P : AsmParser) :
    (ParseDirectiveDarwinZerofill fuel P).Fine P (3 * P.Lexer.length + 3 ≤ fuel) := by
  unfold ParseDirectiveDarwinZerofill
  repeat' first
    | refine Result.Fine.seq (ParseAbsoluteExpression_fine fuel _) ?_ ?_ (fun _ _ _ => ?_)
    | refine Result.Fine.seq (ParseOptionalPow2Alignment_fine fuel _) ?_ ?_ (fun _ _ _ => ?_)
    | refine Result.Fine.ite (fun _ => ?_) (fun _ => ?_)
    | refine Result.Fine.ok ?_
    | refine Result.Fine.error ?_
    | decide
    | apply_rules [Frame.refl, Frame.Lex, Frame.TokError, Frame.Error, Frame.Warning,
      Frame.markUse, Frame.emit, Frame.emitValues, Frame.switchToSection,
      Frame.EatToEndOfStatement, Frame.applyTarget]

theorem ParseDirectiveDarwinSubsectionsViaSymbols_fine (P : AsmParser) (E : Prop) :
    (ParseDirectiveDarwinSubsectionsViaSymbols P).Fine P E := by
  unfold ParseDirectiveDarwinSubsectionsViaSymbols
  split <;> simp

theorem ParseDirectiveAbort_fine (P : AsmParser) (E : Prop) :
    (ParseDirectiveAbort P).Fine P E := by
  unfold ParseDirectiveAbort
  refine Result.Fine.bind (B := P) (G := E) ?_ (Frame.refl P) id ?_
  · split
    · split <;> simp
    · simp
  · intro Str Q hQ
    repeat' first
      | refine Result.Fine.ite (fun _ => ?_) (fun _ => ?_)
      | refine Result.Fine.ok ?_
      | refine Result.Fine.error ?_
      | decide
      | apply_rules [Frame.refl, Frame.Lex, Frame.TokError, Frame.Error, Frame.Warning,
        Frame.markUse, Frame.emit, Frame.emitValues, Frame.switchToSection,
        Frame.EatToEndOfStatement, Frame.applyTarget]

theorem ParseDirectiveDarwinLsym_fine (fuel : Nat) (P : AsmParser) :
    (ParseDirectiveDarwinLsym fuel P).Fine P (3 * P.Lexer.length + 3 ≤ fuel) := by
  unfold ParseDirectiveDarwinLsym
  repeat' first
    | refine Result.Fine.seq (ParseRelocatableExpression_fine fuel _) ?_ ?_ (fun _ _ _ => ?_)
    | refine Result.Fine.ite (fun _ => ?_) (fun _ => ?_)
    | refine Result.Fine.ok ?_
    | refine Result.Fine.error ?_
    | decide
    | apply_rules [Frame.refl, Frame.Lex, Frame.TokError, Frame.Error, Frame.Warning,
      Frame.markUse, Frame.emit, Frame.emitValues, Frame.switchToSection,
      Frame.EatToEndOfStatement, Frame.applyTarget]

theorem ParseDirectiveDarwinDumpOrLoad_fine (IDLoc : SMLoc) (IsDump : Bool) (P : AsmParser)
    (E : Prop) : (ParseDirectiveDarwinDumpOrLoad IDLoc IsDump P).Fine P E := by
  unfold ParseDirectiveDarwinDumpOrLoad
  repeat' first
    | refine Result.Fine.ite (fun _ => ?_) (fun _ => ?_)
    | refine Result.Fine.ok ?_
    | refine Result.Fine.error ?_
    | decide
    | apply_rules [Frame.refl, Frame.Lex, Frame.TokError, Frame.Error, Frame.Warning,
      Frame.markUse, Frame.emit, Frame.emitValues, Frame.switchToSection,
      Frame.EatToEndOfStatement, Frame.applyTarget]

theorem ParseInstructionStatement_fine (IDVal : String) (P : AsmParser) (E : Prop) :
    (ParseInstructionStatement IDVal P).Fine P E := by
  unfold ParseInstructionStatement
  repeat' first
    | refine Result.Fine.ite (fun _ => ?_) (fun _ => ?_)
    | refine Result.Fine.ok ?_
    | refine Result.Fine.error ?_
    | decide
    | apply_rules [Frame.refl, Frame.Lex, Frame.TokError, Frame.Error, Frame.Warning,
      Frame.markUse, Frame.emit, Frame.emitValues, Frame.switchToSection,
      Frame.EatToEndOfStatement, Frame.applyTarget]

end AsmParser

/-! ## The definition invariant -/

theorem Step.stepRefl (P : AsmParser) : Step P P :=
  ⟨id, fun _ _ => rfl, fun _ h => h, fun _ h => h, List.prefix_refl _, List.prefix_refl _,
    rfl, rfl, fun _ => List.suffix_refl _⟩

theorem Step.noInclude {P Q : AsmParser} (h : Step P Q) (hP : P.NoInclude) : Q.NoInclude := by
  intro F
  rw [h.inc]
  exact hP F

theorem Step.stepTrans {P Q R : AsmParser} (h₁ : Step P Q) (h₂ : Step Q R) : Step P R := by
  refine ⟨fun h => h₂.inv (h₁.inv h), ?_, fun S h => h₂.value S (h₁.value S h),
    fun S h => h₂.marked S (h₁.marked S h), h₁.calls.trans h₂.calls, h₁.diags.trans h₂.diags, h₂.inc.trans h₁.inc,
    h₂.target.trans h₁.target, fun hP => (h₂.lexer (h₁.noInclude hP)).trans (h₁.lexer hP)⟩
  intro S hS
  have h := h₁.sect S hS
  rw [h₂.sect S (h ▸ hS), h]

theorem StreamerCall.not_mem_of_not_isDefinition {Extra : List StreamerCall}
    (h : ∀ C ∈ Extra, C.isDefinition = false) (D : StreamerCall) (hD : D.isDefinition = true) :
    D ∉ Extra := by
  intro hmem
  rw [h D hmem] at hD
  exact Bool.false_ne_true hD

theorem Frame.inv {P Q : AsmParser} (h : Frame P Q) (hP : P.Inv) : Q.Inv := by
  obtain ⟨Extra, hE, hd⟩ := h.calls
  have hno : ∀ D : StreamerCall, D.isDefinition = true → (D ∈ Q.Out.Calls ↔ D ∈ P.Out.Calls) := by
    intro D hD
    rw [hE, List.mem_append]
    exact ⟨fun h' => h'.resolve_right (StreamerCall.not_mem_of_not_isDefinition hd D hD),
      Or.inl⟩
  refine ⟨?_, ?_, ?_, ?_⟩
  · intro S
    rw [hE, List.count_append,
      List.count_eq_zero.2 (StreamerCall.not_mem_of_not_isDefinition hd (.EmitLabel S) rfl)]
    exact hP.labelOnce S
  · intro S hS
    rw [h.sect]
    exact hP.labelDefined S ((hno (.EmitLabel S) rfl).1 hS)
  · intro S V D hS
    rw [h.value]
    exact hP.assignValued S V D ((hno (.EmitAssignment S V D) rfl).1 hS)
  · intro S
    rw [h.sect, h.value]
    exact hP.exclusive S

theorem Frame.step {P Q : AsmParser} (h : Frame P Q) : Step P Q := by
  obtain ⟨Extra, hE, _⟩ := h.calls
  refine ⟨h.inv, fun S _ => by rw [h.sect], fun S hS => by rw [h.value]; exact hS, ?_,
    ⟨Extra, hE.symm⟩, h.diags, h.inc, h.target, fun _ => h.lexer⟩
  intro S hS
  rw [h.sect]
  exact hS.imp (h.ext S) id

theorem AsmParser.step_EmitLabel (P : AsmParser) (Sym : String)
    (h₁ : (P.Ctx.getSection Sym).isSome = false)
    (h₂ : (P.Ctx.GetSymbolValue Sym).isSome = false) : Step P (P.EmitLabel Sym) := by
  simp only [MCContext.getSection, MCContext.GetSymbolValue] at h₁ h₂
  refine ⟨?_, ?_, fun S hS => hS, ?_, ⟨_, rfl⟩, List.prefix_refl _, rfl, rfl,
    fun _ => List.suffix_refl _⟩
  · intro hP
    have hnot : StreamerCall.EmitLabel Sym ∉ P.Out.Calls := by
      intro hmem
      have := hP.labelDefined Sym hmem
      simp [h₁] at this
    refine ⟨?_, ?_, ?_, ?_⟩
    · intro S
      simp only [AsmParser.EmitLabel, List.count_append]
      by_cases hS : S = Sym
      · subst hS
        rw [List.count_eq_zero.2 hnot]
        simp
      · have := hP.labelOnce S
        simp [List.count_singleton, hS]
        exact this
    · intro S hS
      simp only [AsmParser.EmitLabel, MCContext.setExternal, MCContext.setSection,
        Function.update_apply, List.mem_append, List.mem_singleton] at hS ⊢
      split
      · rfl
      · rename_i hne
        rcases hS with hS | hS
        · exact hP.labelDefined S hS
        · exact absurd (by simpa using hS) hne
    · intro S V D hS
      simp only [AsmParser.EmitLabel, List.mem_append, List.mem_singleton] at hS
      rcases hS with hS | hS
      · exact hP.assignValued S V D hS
      · cases hS
    · intro S hS hV
      simp only [AsmParser.EmitLabel, MCContext.setExternal, MCContext.setSection,
        Function.update_apply] at hS hV
      by_cases hSS : S = Sym
      · subst hSS
        simp [h₂] at hV
      · simp only [hSS, if_false] at hS
        exact hP.exclusive S hS hV
  · intro S hS
    simp only [AsmParser.EmitLabel, MCContext.setExternal, MCContext.setSection,
      Function.update_apply]
    split
    · rename_i hSS
      subst hSS
      simp [h₁] at hS
    · rfl
  · intro S hS
    simp only [AsmParser.EmitLabel, MCContext.setExternal, MCContext.setSection,
      Function.update_apply]
    split
    · exact Or.inr rfl
    · exact hS

theorem AsmParser.step_EmitAssignment (P : AsmParser) (Sym : String) (Value : MCValue)
    (IsDotSet : Bool) (h₁ : (P.Ctx.getSection Sym).isSome = false) :
    Step P (P.EmitAssignment Sym Value IsDotSet) := by
  simp only [MCContext.getSection] at h₁
  refine ⟨?_, fun S _ => rfl, ?_, fun _ h => h, ⟨_, rfl⟩, List.prefix_refl _, rfl, rfl,
    fun _ => List.suffix_refl _⟩
  · intro hP
    refine ⟨?_, ?_, ?_, ?_⟩
    · intro S
      have := hP.labelOnce S
      simpa [AsmParser.EmitAssignment, List.count_append, List.count_singleton] using this
    · intro S hS
      simp only [AsmParser.EmitAssignment, List.mem_append, List.mem_singleton] at hS
      rcases hS with hS | hS
      · exact hP.labelDefined S hS
      · cases hS
    · intro S V D hS
      simp only [AsmParser.EmitAssignment, MCContext.SetSymbolValue, Function.update_apply,
        List.mem_append, List.mem_singleton] at hS ⊢
      split
      · rfl
      · rename_i hne
        rcases hS with hS | hS
        · exact hP.assignValued S V D hS
        · exact absurd (by simp at hS; exact hS.1) hne
    · intro S hS hV
      simp only [AsmParser.EmitAssignment, MCContext.SetSymbolValue,
        Function.update_apply] at hS hV
      by_cases hSS : S = Sym
      · subst hSS
        simp [h₁] at hS
      · simp only [hSS, if_false] at hV
        exact hP.exclusive S hS hV
  · intro S hS
    simp only [AsmParser.EmitAssignment, MCContext.SetSymbolValue, Function.update_apply]
    split
    · rfl
    · exact hS

theorem Result.Fine.steps {α : Type} {r : Result α} {P : AsmParser} {E E' : Prop}
    (h : r.Fine P E') (he : E → E') : r.Steps P E := by
  cases r with
  | ok a Q => exact Frame.step h
  | error Q => exact Frame.step h
  | outOfFuel => exact fun e => h (he e)

theorem Result.Steps.stepsMono {α : Type} {r : Result α} {P Q : AsmParser} {E E' : Prop}
    (h : r.Steps Q E') (hs : Step P Q) (he : E → E') : r.Steps P E := by
  cases r with
  | ok a R => exact hs.stepTrans h
  | error R => exact hs.stepTrans h
  | outOfFuel => exact fun e => h (he e)

theorem Result.Steps.stepsIte {α : Type} {c : Prop} [Decidable c] {a b : Result α}
    {P : AsmParser} {E : Prop} (ha : c → a.Steps P E) (hb : ¬ c → b.Steps P E) :
    (if c then a else b).Steps P E := by
  split
  · exact ha ‹_›
  · exact hb ‹_›

theorem Result.Steps.stepsOk {α : Type} {a : α} {P Q : AsmParser} {E : Prop} (h : Step P Q) :
    (Result.ok a Q).Steps P E := h

theorem Result.Steps.stepsError {α : Type} {P Q : AsmParser} {E : Prop} (h : Step P Q) :
    (Result.error Q : Result α).Steps P E := h

namespace AsmParser

theorem ParseAssignment_steps (fuel : Nat) (Name : String) (IsDotSet : Bool)
    (P : AsmParser) :
    (ParseAssignment fuel Name IsDotSet P).Steps P (3 * P.Lexer.length + 2 ≤ fuel) := by
  unfold ParseAssignment
  have h := ParseRelocatableExpression_fine fuel P
  cases hr : ParseRelocatableExpression fuel P with
  | outOfFuel =>
    rw [hr] at h
    exact h
  | error Q =>
    rw [hr] at h
    exact Frame.step h
  | ok Value Q =>
    rw [hr] at h
    have hQ : Frame P Q := h
    simp only [Result.andThen]
    split
    · exact (hQ.TokError _).step
    · split
      · exact (hQ.Lex.Error _ _).step
      · split
        · exact (hQ.Lex.Error _ _).step
        · rename_i hs _
          exact hQ.Lex.step.stepTrans (step_EmitAssignment _ _ _ _ (by simpa using hs))

theorem ParseDirectiveSet_steps (fuel : Nat) (P : AsmParser) :
    (ParseDirectiveSet fuel P).Steps P (3 * P.Lexer.length + 3 ≤ fuel) := by
  unfold ParseDirectiveSet
  split
  · exact (frame_TokError P _).step
  · simp only
    split
    · exact ((frame_Lex P).TokError _).step
    · have hf : Frame P P.Lex.Lex := (frame_Lex P).Lex
      have := hf.length_le
      exact Result.Steps.stepsMono (ParseAssignment_steps fuel _ _ _) hf.step (fun _ => by omega)

theorem ParseDirectiveInclude_steps (P : AsmParser) (E : Prop) :
    (ParseDirectiveInclude P).Steps P E := by
  unfold ParseDirectiveInclude
  split
  · exact (frame_TokError P _).step
  · simp only
    split
    · exact ((frame_Lex P).TokError _).step
    · split
      · exact ((frame_Lex P).Error _ _).step
      · rename_i Q hQ
        refine (frame_Lex P).step.stepTrans ?_
        unfold EnterIncludeFile at hQ
        split at hQ
        · cases hQ
        · rename_i Toks hT
          have hno : ¬ P.Lex.NoInclude := fun h => by simp [h _] at hT
          have hinv : ∀ L, Step P.Lex { P.Lex with Lexer := L } := fun L =>
            ⟨fun h => ⟨h.labelOnce, h.labelDefined, h.assignValued, h.exclusive⟩,
              fun _ _ => rfl, fun _ h => h, fun _ h => h, List.prefix_refl _,
              List.prefix_refl _, rfl, rfl, fun h => absurd h hno⟩
          split at hQ <;> cases hQ <;> exact hinv _

theorem ParseDirective_steps (fuel : Nat) (IDVal : String) (IDLoc : SMLoc) (P : AsmParser) :
    (ParseDirective fuel IDVal IDLoc P).Steps P (3 * P.Lexer.length + 3 ≤ fuel) := by
  unfold ParseDirective
  with_reducible repeat' first
    | refine Result.Steps.stepsIte (fun _ => ?_) (fun _ => ?_)
    | exact (ParseDirectiveSectionSwitch_fine _ _ _ _).steps id
    | exact (ParseDirectiveSymbolAttribute_fine _ _ _).steps id
    | exact (ParseDirectiveAlign_fine _ _ _ _).steps id
    | exact (ParseDirectiveValue_fine _ _ _).steps id
    | exact (ParseDirectiveAscii_fine _ _ _).steps id
    | exact (ParseDirectiveDarwinSection_fine _ _).steps id
    | exact ParseDirectiveSet_steps _ _
    | exact (ParseDirectiveOrg_fine _ _).steps id
    | exact (ParseDirectiveFill_fine _ _).steps id
    | exact (ParseDirectiveSpace_fine _ _).steps id
    | exact (ParseDirectiveComm_fine _ _ _).steps id
    | exact (ParseDirectiveDarwinZerofill_fine _ _).steps id
    | exact (ParseDirectiveDarwinSymbolDesc_fine _ _).steps id
    | exact (ParseDirectiveDarwinLsym_fine _ _).steps id
    | exact (ParseDirectiveDarwinSubsectionsViaSymbols_fine _ _).steps id
    | exact (ParseDirectiveAbort_fine _ _).steps id
    | exact ParseDirectiveInclude_steps _ _
    | exact (ParseDirectiveDarwinDumpOrLoad_fine _ _ _ _).steps id
    | exact Result.Steps.stepsOk ((frame_Warning P _ _).EatToEndOfStatement).step

end AsmParser

theorem Result.Steps.stmtSteps {r : Result Unit} {P Q : AsmParser} {E : Prop} {fuel : Nat}
    (h : r.Steps Q E) (hs : Step P Q) (hlt : Q.Lexer.length < P.Lexer.length)
    (he : 3 * P.Lexer.length + 1 ≤ fuel → E) : r.StmtSteps P fuel := by
  cases r with
  | ok a R =>
    refine ⟨hs.stepTrans h, fun hP => ?_⟩
    have := (Step.lexer h (hs.noInclude hP)).length_le
    omega
  | error R => exact hs.stepTrans h
  | outOfFuel => exact fun e => h (he e)

namespace AsmParser

theorem ParseStatement_steps (fuel : Nat) (P : AsmParser) :
    (ParseStatement fuel P).StmtSteps P fuel := by
  induction fuel generalizing P with
  | zero => simp [ParseStatement, Result.StmtSteps]
  | succ fuel ih =>
    unfold ParseStatement
    split
    · rename_i hk
      have hl := P.Lex_length (by rw [hk]; decide)
      exact ⟨(frame_Lex P).step, fun _ => by omega⟩
    · rename_i hk
      have hl := P.Lex_length (by rw [hk]; decide)
      have h2 := (frame_Lex P.Lex).length_le
      simp only
      split
      · split
        · exact ((frame_Lex P).Lex.Error _ _).step
        · split
          · exact ((frame_Lex P).Lex.Error _ _).step
          · rename_i hs hv
            have hR : Step P (P.Lex.Lex.EmitLabel P.getTok.Str) :=
              (frame_Lex P).Lex.step.stepTrans
                (step_EmitLabel _ _ (by simpa using hs) (by simpa using hv))
            have := ih (P.Lex.Lex.EmitLabel P.getTok.Str)
            have hlen : (P.Lex.Lex.EmitLabel P.getTok.Str).Lexer.length
                = P.Lex.Lex.Lexer.length := rfl
            cases hr : ParseStatement fuel (P.Lex.Lex.EmitLabel P.getTok.Str) with
            | ok a Q =>
              rw [hr] at this
              refine ⟨hR.stepTrans this.1, fun hP => ?_⟩
              have := this.2 (hR.noInclude hP)
              omega
            | error Q =>
              rw [hr] at this
              exact hR.stepTrans this
            | outOfFuel =>
              rw [hr] at this
              exact fun e => this (by rw [hlen]; omega)
      · exact Result.Steps.stmtSteps (ParseAssignment_steps fuel _ _ _) (frame_Lex P).Lex.step
          (by omega) (fun _ => by omega)
      · split
        · exact Result.Steps.stmtSteps (ParseDirective_steps fuel _ _ _) (frame_Lex P).step
            (by omega) (fun _ => by omega)
        · exact Result.Steps.stmtSteps
            ((ParseInstructionStatement_fine _ _ True).steps id) (frame_Lex P).step
            (by omega) (fun _ => trivial)
    · exact (frame_TokError P _).step

theorem getKind_eq_of_Lexer_eq {P Q : AsmParser} (h : Q.Lexer = P.Lexer) :
    Q.getKind = P.getKind := by
  simp [getKind, getTok, h]

theorem EatToEndOfStatement_length_lt (P : AsmParser) (h : P.getKind ≠ .Eof) :
    P.EatToEndOfStatement.Lexer.length < P.Lexer.length := by
  unfold EatToEndOfStatement
  have hP := P.Lex_length h
  cases hL : P.Lexer with
  | nil => simp [getKind, getTok, hL] at h
  | cons T Rest =>
    have hT : T.Kind ≠ .Eof := by simpa [getKind, getTok, hL] using h
    simp only [eatLoop]
    by_cases hE : T.Kind = .EndOfStatement
    · simp [hE, AsmParser.is, getKind, getTok, Lex]
    · have hs := (eatLoop_suffix Rest).length_le
      simp only [hE, hT, ne_eq, not_false_eq_true, and_self, if_true]
      split
      · have := (frame_Lex { P with Lexer := eatLoop Rest }).length_le
        simp only [List.length_cons]
        simp only at this
        omega
      · simp only [List.length_cons]
        omega

end AsmParser

theorem Result.RunSteps.runMono {r : Result Bool} {P Q : AsmParser} {b b' : Bool} {fuel fuel' : Nat}
    (h : r.RunSteps Q b' fuel') (hs : Step P Q) (hb : b = true → b' = true)
    (he : P.NoInclude → 3 * P.Lexer.length + 2 ≤ fuel → 3 * Q.Lexer.length + 2 ≤ fuel') :
    r.RunSteps P b fuel := by
  cases r with
  | ok a R => exact ⟨hs.stepTrans h.1, fun e => h.2.1 (hb e), h.2.2⟩
  | error R => exact h
  | outOfFuel => exact fun e => h ⟨hs.noInclude e.1, he e.1 e.2⟩

theorem AsmParser.RunLoop_steps (fuel : Nat) (HadError : Bool) (P : AsmParser) :
    (RunLoop fuel HadError P).RunSteps P HadError fuel := by
  induction fuel generalizing HadError P with
  | zero => simp [RunLoop, Result.RunSteps]
  | succ fuel ih =>
    unfold RunLoop
    split
    · rename_i hk
      have hk' : P.getKind ≠ .Eof := by simpa [isNot] using hk
      have hS := ParseStatement_steps fuel P
      split
      · rename_i u Q hr
        rw [hr] at hS
        exact Result.RunSteps.runMono (ih _ _) hS.1 id (fun hP _ => by have := hS.2 hP; omega)
      · rename_i Q hr
        rw [hr] at hS
        have hS' : Step P Q := hS
        refine Result.RunSteps.runMono (ih _ _)
          (hS'.stepTrans (frame_EatToEndOfStatement Q).step) (fun _ => rfl) (fun hP _ => ?_)
        have hsuf := hS'.lexer hP
        have hle := hsuf.length_le
        have hE := (frame_EatToEndOfStatement Q).length_le
        by_cases hQ : Q.getKind = .Eof
        · have hne : Q.Lexer.length ≠ P.Lexer.length := by
            intro hlen
            exact hk' ((getKind_eq_of_Lexer_eq (hsuf.eq_of_length hlen)).symm.trans hQ)
          omega
        · have := EatToEndOfStatement_length_lt Q hQ
          omega
      · rename_i hr
        rw [hr] at hS
        exact fun e => hS (by omega)
    · rename_i hk
      exact ⟨Step.stepRefl P, id, by simpa [isNot] using hk⟩

theorem Result.Quiet.quietBind {α β : Type} {r : Result α} {k : α → AsmParser → Result β}
    {P B : AsmParser} (h : r.Quiet B) (h₀ : B.Out = P.Out)
    (hk : ∀ a Q, Q.Out = P.Out → (k a Q).Quiet P) : (r.andThen k).Quiet P := by
  cases r with
  | ok a Q => exact hk a Q (Eq.trans h h₀)
  | error Q => exact Eq.trans h h₀
  | outOfFuel => trivial

theorem Result.Quiet.quietMono {α : Type} {r : Result α} {P B : AsmParser} (h : r.Quiet B)
    (h₀ : B.Out = P.Out) : r.Quiet P := by
  cases r with
  | ok a Q => exact Eq.trans h h₀
  | error Q => exact Eq.trans h h₀
  | outOfFuel => trivial

@[simp] theorem AsmParser.Lex_Out (P : AsmParser) : P.Lex.Out = P.Out := by
  unfold AsmParser.Lex
  split
  · rfl
  · split <;> rfl

@[simp] theorem AsmParser.markUse_Out (P : AsmParser) (Sym : String) :
    (P.markUse Sym).Out = P.Out := by
  unfold AsmParser.markUse
  split <;> rfl

@[simp] theorem AsmParser.TokError_Out (P : AsmParser) (Msg : String) :
    (P.TokError Msg).Out = P.Out := rfl

@[simp] theorem AsmParser.Error_Out (P : AsmParser) (L : SMLoc) (Msg : String) :
    (P.Error L Msg).Out = P.Out := rfl

theorem AsmParser.expr_quiet (fuel : Nat) :
    (∀ P, (ParsePrimaryExpr fuel P).Quiet P) ∧
    (∀ P, (ParseParenExpr fuel P).Quiet P) ∧
    (∀ P, (ParseExpression fuel P).Quiet P) ∧
    (∀ Prec Res P, (ParseBinOpRHS fuel Prec Res P).Quiet P) := by
  induction fuel with
  | zero =>
    refine ⟨?_, ?_, ?_, ?_⟩ <;> intros <;>
      simp [ParsePrimaryExpr, ParseParenExpr, ParseExpression, ParseBinOpRHS, Result.Quiet]
  | succ fuel ih =>
    obtain ⟨ihP, ihPP, ihE, ihB⟩ := ih
    have unary : ∀ (P : AsmParser) (Op : AsmUnaryExpr.Opcode),
        ((ParsePrimaryExpr fuel P.Lex).andThen fun Res P =>
          Result.ok (AsmExpr.Unary Op Res) P).Quiet P := fun P Op =>
      Result.Quiet.quietBind (ihP P.Lex) P.Lex_Out (fun _ _ h => h)
    refine ⟨?_, ?_, ?_, ?_⟩
    · intro P
      unfold ParsePrimaryExpr
      split
      · exact unary P _
      · simp [Result.Quiet]
      · simp [Result.Quiet]
      · exact Result.Quiet.quietMono (ihPP P.Lex) P.Lex_Out
      · exact unary P _
      · exact unary P _
      · exact unary P _
      · simp [Result.Quiet]
    · intro P
      unfold ParseParenExpr
      refine Result.Quiet.quietBind (ihE P) rfl ?_
      intro Res Q hQ
      split <;> simp [Result.Quiet, hQ]
    · intro P
      unfold ParseExpression
      refine Result.Quiet.quietBind (ihP P) rfl ?_
      intro Res Q hQ
      exact Result.Quiet.quietMono (ihB 1 Res Q) hQ
    · intro Prec Res P
      unfold ParseBinOpRHS
      simp only
      split
      · simp [Result.Quiet]
      · refine Result.Quiet.quietBind (ihP P.Lex) P.Lex_Out ?_
        intro RHS Q hQ
        refine Result.Quiet.quietBind (B := Q) ?_ hQ ?_
        · split
          · exact ihB _ _ _
          · simp [Result.Quiet]
        · intro RHS' R hR
          exact Result.Quiet.quietMono (ihB _ _ _) hR

theorem AsmParser.ParseRelocatableExpression_quiet (fuel : Nat) (P : AsmParser) :
    (ParseRelocatableExpression fuel P).Quiet P := by
  unfold ParseRelocatableExpression
  refine Result.Quiet.quietBind ((expr_quiet fuel).2.2.1 P) rfl ?_
  intro Expr Q hQ
  split <;> simp [Result.Quiet, hQ]

theorem AsmParser.ParseAbsoluteExpression_quiet (fuel : Nat) (P : AsmParser) :
    (ParseAbsoluteExpression fuel P).Quiet P := by
  unfold ParseAbsoluteExpression
  refine Result.Quiet.quietBind ((expr_quiet fuel).2.2.1 P) rfl ?_
  intro Expr Q hQ
  split <;> simp [Result.Quiet, hQ]

theorem AsmParser.RunLoop_error_flag (fuel : Nat) (HadError : Bool) (P : AsmParser)
    (hk : P.getKind ≠ .Eof) (Q : AsmParser) (hQ : ∀ n, ParseStatement (n + 1) P = .error Q) :
    (∀ b R, RunLoop fuel HadError P = .ok b R → b = true) ∧
    (P.NoInclude → 3 * P.Lexer.length + 2 ≤ fuel →
      ∃ R, RunLoop fuel HadError P = .ok true R) := by
  have key : ∀ b R, RunLoop fuel HadError P = .ok b R → b = true := by
    intro b R h
    match fuel with
    | 0 => simp [RunLoop] at h
    | 1 => simp [RunLoop, isNot, hk, ParseStatement] at h
    | n + 2 =>
      unfold RunLoop at h
      simp only [isNot, hk, ne_eq, not_false_eq_true, decide_True, if_true, hQ n] at h
      have := RunLoop_steps (n + 1) true Q.EatToEndOfStatement
      rw [h] at this
      exact this.2.1 rfl
  refine ⟨key, fun hP hf => ?_⟩
  have := RunLoop_steps fuel HadError P
  cases hr : RunLoop fuel HadError P with
  | ok b R =>
    have hb := key b R hr
    exact ⟨R, by rw [hb]⟩
  | error R =>
    rw [hr] at this
    exact this.elim
  | outOfFuel =>
    rw [hr] at this
    exact (this ⟨hP, hf⟩).elim

@[simp] theorem AsmParser.Lex_Ctx (P : AsmParser) : P.Lex.Ctx = P.Ctx := by
  unfold AsmParser.Lex
  split
  · rfl
  · split <;> rfl

@[simp] theorem AsmParser.Lex_Diags (P : AsmParser) : P.Lex.Diags = P.Diags := by
  unfold AsmParser.Lex
  split
  · rfl
  · split <;> rfl

@[simp] theorem AsmParser.EatToEndOfStatement_Out (P : AsmParser) :
    P.EatToEndOfStatement.Out = P.Out := by
  unfold AsmParser.EatToEndOfStatement
  simp only
  split <;> simp

@[simp] theorem AsmParser.EatToEndOfStatement_Diags (P : AsmParser) :
    P.EatToEndOfStatement.Diags = P.Diags := by
  unfold AsmParser.EatToEndOfStatement
  simp only
  split <;> simp

theorem AsmParser.start_inv (Toks : List AsmToken) : (AsmParser.start Toks).Inv :=
  ⟨fun _ => by simp [AsmParser.start], fun _ h => by simp [AsmParser.start] at h,
    fun _ _ _ h => by simp [AsmParser.start] at h,
    fun _ h => by simp [AsmParser.start, MCContext.empty] at h⟩

theorem AsmParser.label_rejected (P : AsmParser) (Id Colon : AsmToken)
    (Rest : List AsmToken) (hL : P.Lexer = Id :: Colon :: Rest) (hId : Id.Kind = .Identifier)
    (hColon : Colon.Kind = .Colon) (fuel : Nat) :
    ((P.Ctx.getSection Id.Str).isSome = true →
      ParseStatement (fuel + 1) P =
        .error (P.Lex.Lex.Error (some Id.Loc) "invalid symbol redefinition")) ∧
    ((P.Ctx.getSection Id.Str).isSome = false → (P.Ctx.GetSymbolValue Id.Str).isSome = true →
      ParseStatement (fuel + 1) P =
        .error (P.Lex.Lex.Error (some Id.Loc) "symbol already used as assembler variable")) := by
  obtain ⟨L, Ctx, Out, Diags, TP, Inc⟩ := P
  simp only at hL
  subst hL
  constructor
  · intro hDef
    simp [AsmParser.ParseStatement, AsmParser.getKind, AsmParser.getTok, AsmParser.Lex, hId,
      hColon, hDef]
  · intro hDef hVal
    simp [AsmParser.ParseStatement, AsmParser.getKind, AsmParser.getTok, AsmParser.Lex, hId,
      hColon, hDef, hVal]

theorem AsmParser.assignment_cases (fuel : Nat) (Name : String) (IsDotSet : Bool)
    (P Q : AsmParser) (Value : MCValue)
    (hParse : ParseRelocatableExpression fuel P = .ok Value Q)
    (hEol : Q.is .EndOfStatement = true) :
    ParseAssignment fuel Name IsDotSet P =
      (if (P.Ctx.getSection Name).isSome then
        .error (Q.Lex.Error P.getLoc "invalid assignment to symbol emitted as a label")
      else if Q.Ctx.isExternal Name then
        .error (Q.Lex.Error P.getLoc "invalid assignment to external symbol")
      else .ok () (Q.Lex.EmitAssignment Name Value IsDotSet)) ∧
    Q.Lex.Out = P.Out := by
  have hF := ParseRelocatableExpression_fine fuel P
  have hQ := ParseRelocatableExpression_quiet fuel P
  rw [hParse] at hF hQ
  have hF : Frame P Q := hF
  have hQ : Q.Out = P.Out := hQ
  have hn : Q.isNot .EndOfStatement = false := by
    simp only [AsmParser.is, decide_eq_true_eq] at hEol
    simp [AsmParser.isNot, hEol]
  refine ⟨?_, by simp [hQ]⟩
  unfold ParseAssignment
  simp only [hParse, Result.andThen, hn, Bool.false_eq_true, if_false, Lex_Ctx,
    MCContext.getSection, MCContext.isExternal, hF.sect]

theorem AsmParser.assignment_rejected (fuel : Nat) (Name : String) (IsDotSet : Bool)
    (P : AsmParser)
    (hMark : (P.Ctx.getSection Name).isSome = true ∨ P.Ctx.isExternal Name = true)
    (hf : 3 * P.Lexer.length + 2 ≤ fuel) :
    ∃ Q, ParseAssignment fuel Name IsDotSet P = .error Q ∧ Q.Out = P.Out := by
  have hF := ParseRelocatableExpression_fine fuel P
  have hQ := ParseRelocatableExpression_quiet fuel P
  unfold ParseAssignment
  cases hr : ParseRelocatableExpression fuel P with
  | outOfFuel =>
    rw [hr] at hF
    exact (hF hf).elim
  | error Q =>
    rw [hr] at hQ
    exact ⟨Q, rfl, hQ⟩
  | ok Value Q =>
    rw [hr] at hF hQ
    have hF : Frame P Q := hF
    have hQ : Q.Out = P.Out := hQ
    simp only [Result.andThen]
    split
    · exact ⟨_, rfl, by simp [hQ]⟩
    · split
      · exact ⟨_, rfl, by simp [hQ]⟩
      · split
        · exact ⟨_, rfl, by simp [hQ]⟩
        · rename_i hs he
          exfalso
          simp only [Lex_Ctx, MCContext.getSection, MCContext.isExternal, hF.sect] at hs he
          rcases hMark with h | h
          · exact hs h
          · exact he (hF.ext Name h)

/-! ## Errors and the streamer

Which methods can have called the streamer when they return an error. -/

theorem AsmParser.isNot_of_is {P : AsmParser} {K K' : AsmToken.TokenKind}
    (h : P.is K = true) (hne : K ≠ K') : P.isNot K' = true := by
  simp only [AsmParser.is, decide_eq_true_eq] at h
  simp [AsmParser.isNot, h, hne]

theorem AsmParser.isNot_eq_false_of_is {P : AsmParser} {K : AsmToken.TokenKind}
    (h : P.is K = true) : P.isNot K = false := by
  simp only [AsmParser.is, decide_eq_true_eq] at h
  simp [AsmParser.isNot, h]

theorem AsmParser.shiftLeftOne_eq (n : Int) (h₀ : 0 ≤ n) (h₁ : n ≤ 62) :
    AsmParser.shiftLeftOne n = 2 ^ n.toNat := by
  obtain ⟨k, rfl⟩ := Int.eq_ofNat_of_zero_le h₀
  have hk : k ≤ 62 := by omega
  simp only [AsmParser.shiftLeftOne, Int.toNat_ofNat]
  interval_cases k <;> simp [wrap64]

theorem AsmParser.ParseAbsoluteExpression_Out {fuel : Nat} {P Q : AsmParser} {v : Int}
    (h : AsmParser.ParseAbsoluteExpression fuel P = .ok v Q) : Q.Out = P.Out := by
  have := AsmParser.ParseAbsoluteExpression_quiet fuel P
  rw [h] at this
  exact this

theorem Result.Quiet.quietIte {α : Type} {c : Prop} [Decidable c] {a b : Result α}
    {P : AsmParser} (ha : c → a.Quiet P) (hb : ¬ c → b.Quiet P) :
    (if c then a else b).Quiet P := by
  split
  · exact ha ‹_›
  · exact hb ‹_›

theorem Result.Quiet.quietOk {α : Type} {a : α} {P Q : AsmParser} (h : Q.Out = P.Out) :
    (Result.ok a Q).Quiet P := h

theorem Result.Quiet.quietError {α : Type} {P Q : AsmParser} (h : Q.Out = P.Out) :
    (Result.error Q : Result α).Quiet P := h

theorem Result.Quiet.quietSeq {α β : Type} {r : Result α} {k : α → AsmParser → Result β}
    {P : AsmParser} (h : r.Quiet P)
    (hk : ∀ a Q, Q.Out = P.Out → (k a Q).Quiet P) : (r.andThen k).Quiet P :=
  Result.Quiet.quietBind h rfl hk

theorem Result.Silent.silentSeq {α β : Type} {r : Result α} {k : α → AsmParser → Result β}
    {P : AsmParser} (h : r.Quiet P)
    (hk : ∀ a Q, Q.Out = P.Out → (k a Q).Silent P) : (r.andThen k).Silent P := by
  cases r with
  | ok a Q => exact hk a Q h
  | error Q => exact h
  | outOfFuel => trivial

theorem Result.Silent.silentIte {α : Type} {c : Prop} [Decidable c] {a b : Result α}
    {P : AsmParser} (ha : c → a.Silent P) (hb : ¬ c → b.Silent P) :
    (if c then a else b).Silent P := by
  split
  · exact ha ‹_›
  · exact hb ‹_›

theorem Result.Silent.silentOk {α : Type} {a : α} {P Q : AsmParser} :
    (Result.ok a Q).Silent P := trivial

theorem Result.Silent.silentError {α : Type} {P Q : AsmParser} (h : Q.Out = P.Out) :
    (Result.error Q : Result α).Silent P := h

theorem Result.Quiet.silent {α : Type} {r : Result α} {P : AsmParser} (h : r.Quiet P) :
    r.Silent P := by
  cases r with
  | ok a Q => trivial
  | error Q => exact h
  | outOfFuel => trivial

theorem Result.Silent.silentMono {α : Type} {r : Result α} {P B : AsmParser}
    (h : r.Silent B) (h₀ : B.Out = P.Out) : r.Silent P := by
  cases r with
  | ok a Q => trivial
  | error Q => exact Eq.trans h h₀
  | outOfFuel => trivial

namespace AsmParser

theorem ParseAbsoluteExpression_quietAt (fuel : Nat) {P B : AsmParser} (h : B.Out = P.Out) :
    (ParseAbsoluteExpression fuel B).Quiet P :=
  Result.Quiet.quietMono (ParseAbsoluteExpression_quiet fuel B) h

theorem ParseRelocatableExpression_quietAt (fuel : Nat) {P B : AsmParser}
    (h : B.Out = P.Out) : (ParseRelocatableExpression fuel B).Quiet P :=
  Result.Quiet.quietMono (ParseRelocatableExpression_quiet fuel B) h

theorem ParseOptionalPow2Alignment_quietAt (fuel : Nat) {P B : AsmParser}
    (h : B.Out = P.Out) : (ParseOptionalPow2Alignment fuel B).Quiet P := by
  unfold ParseOptionalPow2Alignment
  repeat' first
    | refine ParseAbsoluteExpression_quietAt fuel ?_
    | refine Result.Quiet.quietSeq ?_ (fun _ _ _ => ?_)
    | refine Result.Quiet.quietIte (fun _ => ?_) (fun _ => ?_)
    | refine Result.Quiet.quietOk ?_
    | simp [*]

theorem ParseDirectiveDarwinSectionLoop_quietAt (fuel : Nat) (Section : String)
    {P B : AsmParser} (h : B.Out = P.Out) :
    (ParseDirectiveDarwinSectionLoop fuel Section B).Quiet P := by
  induction fuel generalizing Section B with
  | zero => trivial
  | succ fuel ih =>
    unfold ParseDirectiveDarwinSectionLoop
    repeat' first
      | refine ih _ ?_
      | refine Result.Quiet.quietIte (fun _ => ?_) (fun _ => ?_)
      | refine Result.Quiet.quietOk ?_
      | refine Result.Quiet.quietError ?_
      | simp [*]

theorem ParseAssignment_silent (fuel : Nat) (Name : String) (IsDotSet : Bool) (P : AsmParser) :
    (ParseAssignment fuel Name IsDotSet P).Silent P := by
  unfold ParseAssignment
  repeat' first
    | exact Result.Silent.silentOk
    | refine ParseAbsoluteExpression_quietAt fuel ?_
    | refine ParseRelocatableExpression_quietAt fuel ?_
    | refine ParseOptionalPow2Alignment_quietAt fuel ?_
    | refine ParseDirectiveDarwinSectionLoop_quietAt fuel _ ?_
    | refine Result.Silent.silentSeq ?_ (fun _ _ _ => ?_)
    | refine Result.Quiet.quietSeq ?_ (fun _ _ _ => ?_)
    | refine Result.Silent.silentIte (fun _ => ?_) (fun _ => ?_)
    | refine Result.Quiet.quietIte (fun _ => ?_) (fun _ => ?_)
    | refine Result.Silent.silentError ?_
    | refine Result.Quiet.quietOk ?_
    | refine Result.Quiet.quietError ?_
    | simp [*]

theorem ParseDirectiveDarwinSection_silent (fuel : Nat) (P : AsmParser) :
    (ParseDirectiveDarwinSection fuel P).Silent P := by
  unfold ParseDirectiveDarwinSection
  repeat' first
    | exact Result.Silent.silentOk
    | refine ParseAbsoluteExpression_quietAt fuel ?_
    | refine ParseRelocatableExpression_quietAt fuel ?_
    | refine ParseOptionalPow2Alignment_quietAt fuel ?_
    | refine ParseDirectiveDarwinSectionLoop_quietAt fuel _ ?_
    | refine Result.Silent.silentSeq ?_ (fun _ _ _ => ?_)
    | refine Result.Quiet.quietSeq ?_ (fun _ _ _ => ?_)
    | refine Result.Silent.silentIte (fun _ => ?_) (fun _ => ?_)
    | refine Result.Quiet.quietIte (fun _ => ?_) (fun _ => ?_)
    | refine Result.Silent.silentError ?_
    | refine Result.Quiet.quietOk ?_
    | refine Result.Quiet.quietError ?_
    | simp [*]

theorem ParseDirectiveSectionSwitch_silent (Section Directives : String) (P : AsmParser) :
    (ParseDirectiveSectionSwitch Section Directives P).Silent P := by
  unfold ParseDirectiveSectionSwitch
  repeat' first
    | exact Result.Silent.silentOk
    | refine Result.Silent.silentSeq ?_ (fun _ _ _ => ?_)
    | refine Result.Quiet.quietSeq ?_ (fun _ _ _ => ?_)
    | refine Result.Silent.silentIte (fun _ => ?_) (fun _ => ?_)
    | refine Result.Quiet.quietIte (fun _ => ?_) (fun _ => ?_)
    | refine Result.Silent.silentError ?_
    | refine Result.Quiet.quietOk ?_
    | refine Result.Quiet.quietError ?_
    | simp [*]

theorem ParseDirectiveSpace_silent (fuel : Nat) (P : AsmParser) :
    (ParseDirectiveSpace fuel P).Silent P := by
  unfold ParseDirectiveSpace
  repeat' first
    | exact Result.Silent.silentOk
    | refine ParseAbsoluteExpression_quietAt fuel ?_
    | refine ParseRelocatableExpression_quietAt fuel ?_
    | refine ParseOptionalPow2Alignment_quietAt fuel ?_
    | refine ParseDirectiveDarwinSectionLoop_quietAt fuel _ ?_
    | refine Result.Silent.silentSeq ?_ (fun _ _ _ => ?_)
    | refine Result.Quiet.quietSeq ?_ (fun _ _ _ => ?_)
    | refine Result.Silent.silentIte (fun _ => ?_) (fun _ => ?_)
    | refine Result.Quiet.quietIte (fun _ => ?_) (fun _ => ?_)
    | refine Result.Silent.silentError ?_
    | refine Result.Quiet.quietOk ?_
    | refine Result.Quiet.quietError ?_
    | simp [*]

theorem ParseDirectiveFill_silent (fuel : Nat) (P : AsmParser) :
    (ParseDirectiveFill fuel P).Silent P := by
  unfold ParseDirectiveFill
  repeat' first
    | exact Result.Silent.silentOk
    | refine ParseAbsoluteExpression_quietAt fuel ?_
    | refine ParseRelocatableExpression_quietAt fuel ?_
    | refine ParseOptionalPow2Alignment_quietAt fuel ?_
    | refine ParseDirectiveDarwinSectionLoop_quietAt fuel _ ?_
    | refine Result.Silent.silentSeq ?_ (fun _ _ _ => ?_)
    | refine Result.Quiet.quietSeq ?_ (fun _ _ _ => ?_)
    | refine Result.Silent.silentIte (fun _ => ?_) (fun _ => ?_)
    | refine Result.Quiet.quietIte (fun _ => ?_) (fun _ => ?_)
    | refine Result.Silent.silentError ?_
    | refine Result.Quiet.quietOk ?_
    | refine Result.Quiet.quietError ?_
    | simp [*]

theorem ParseDirectiveOrg_silent (fuel : Nat) (P : AsmParser) :
    (ParseDirectiveOrg fuel P).Silent P := by
  unfold ParseDirectiveOrg
  repeat' first
    | exact Result.Silent.silentOk
    | refine ParseAbsoluteExpression_quietAt fuel ?_
    | refine ParseRelocatableExpression_quietAt fuel ?_
    | refine ParseOptionalPow2Alignment_quietAt fuel ?_
    | refine ParseDirectiveDarwinSectionLoop_quietAt fuel _ ?_
    | refine Result.Silent.silentSeq ?_ (fun _ _ _ => ?_)
    | refine Result.Quiet.quietSeq ?_ (fun _ _ _ => ?_)
    | refine Result.Silent.silentIte (fun _ => ?_) (fun _ => ?_)
    | refine Result.Quiet.quietIte (fun _ => ?_) (fun _ => ?_)
    | refine Result.Silent.silentError ?_
    | refine Result.Quiet.quietOk ?_
    | refine Result.Quiet.quietError ?_
    | simp [*]

theorem ParseDirectiveAlign_silent (fuel : Nat) (IsPow2 : Bool) (ValueSize : Nat) (P : AsmParser) :
    (ParseDirectiveAlign fuel IsPow2 ValueSize P).Silent P := by
  unfold ParseDirectiveAlign
  repeat' first
    | exact Result.Silent.silentOk
    | refine ParseAbsoluteExpression_quietAt fuel ?_
    | refine ParseRelocatableExpression_quietAt fuel ?_
    | refine ParseOptionalPow2Alignment_quietAt fuel ?_
    | refine ParseDirectiveDarwinSectionLoop_quietAt fuel _ ?_
    | refine Result.Silent.silentSeq ?_ (fun _ _ _ => ?_)
    | refine Result.Quiet.quietSeq ?_ (fun _ _ _ => ?_)
    | refine Result.Silent.silentIte (fun _ => ?_) (fun _ => ?_)
    | refine Result.Quiet.quietIte (fun _ => ?_) (fun _ => ?_)
    | refine Result.Silent.silentError ?_
    | refine Result.Quiet.quietOk ?_
    | refine Result.Quiet.quietError ?_
    | simp [*]

theorem ParseDirectiveDarwinSymbolDesc_silent (fuel : Nat) (P : AsmParser) :
    (ParseDirectiveDarwinSymbolDesc fuel P).Silent P := by
  unfold ParseDirectiveDarwinSymbolDesc
  repeat' first
    | exact Result.Silent.silentOk
    | refine ParseAbsoluteExpression_quietAt fuel ?_
    | refine ParseRelocatableExpression_quietAt fuel ?_
    | refine ParseOptionalPow2Alignment_quietAt fuel ?_
    | refine ParseDirectiveDarwinSectionLoop_quietAt fuel _ ?_
    | refine Result.Silent.silentSeq ?_ (fun _ _ _ => ?_)
    | refine Result.Quiet.quietSeq ?_ (fun _ _ _ => ?_)
    | refine Result.Silent.silentIte (fun _ => ?_) (fun _ => ?_)
    | refine Result.Quiet.quietIte (fun _ => ?_) (fun _ => ?_)
    | refine Result.Silent.silentError ?_
    | refine Result.Quiet.quietOk ?_
    | refine Result.Quiet.quietError ?_
    | simp [*]

theorem ParseDirectiveComm_silent (fuel : Nat) (IsLocal : Bool) (P : AsmParser) :
    (ParseDirectiveComm fuel IsLocal P).Silent P := by
  unfold ParseDirectiveComm
  repeat' first
    | exact Result.Silent.silentOk
    | refine ParseAbsoluteExpression_quietAt fuel ?_
    | refine ParseRelocatableExpression_quietAt fuel ?_
    | refine ParseOptionalPow2Alignment_quietAt fuel ?_
    | refine ParseDirectiveDarwinSectionLoop_quietAt fuel _ ?_
    | refine Result.Silent.silentSeq ?_ (fun _ _ _ => ?_)
    | refine Result.Quiet.quietSeq ?_ (fun _ _ _ => ?_)
    | refine Result.Silent.silentIte (fun _ => ?_) (fun _ => ?_)
    | refine Result.Quiet.quietIte (fun _ => ?_) (fun _ => ?_)
    | refine Result.Silent.silentError ?_
    | refine Result.Quiet.quietOk ?_
    | refine Result.Quiet.quietError ?_
    | simp [*]

theorem ParseDirectiveDarwinZerofill_silent (fuel : Nat) (P : AsmParser) :
    (ParseDirectiveDarwinZerofill fuel P).Silent P := by
  unfold ParseDirectiveDarwinZerofill
  repeat' first
    | exact Result.Silent.silentOk
    | refine ParseAbsoluteExpression_quietAt fuel ?_
    | refine ParseRelocatableExpression_quietAt fuel ?_
    | refine ParseOptionalPow2Alignment_quietAt fuel ?_
    | refine ParseDirectiveDarwinSectionLoop_quietAt fuel _ ?_
    | refine Result.Silent.silentSeq ?_ (fun _ _ _ => ?_)
    | refine Result.Quiet.quietSeq ?_ (fun _ _ _ => ?_)
    | refine Result.Silent.silentIte (fun _ => ?_) (fun _ => ?_)
    | refine Result.Quiet.quietIte (fun _ => ?_) (fun _ => ?_)
    | refine Result.Silent.silentError ?_
    | refine Result.Quiet.quietOk ?_
    | refine Result.Quiet.quietError ?_
    | simp [*]

theorem ParseDirectiveDarwinSubsectionsViaSymbols_silent  (P : AsmParser) :
    (ParseDirectiveDarwinSubsectionsViaSymbols  P).Silent P := by
  unfold ParseDirectiveDarwinSubsectionsViaSymbols
  repeat' first
    | exact Result.Silent.silentOk
    | refine Result.Silent.silentSeq ?_ (fun _ _ _ => ?_)
    | refine Result.Quiet.quietSeq ?_ (fun _ _ _ => ?_)
    | refine Result.Silent.silentIte (fun _ => ?_) (fun _ => ?_)
    | refine Result.Quiet.quietIte (fun _ => ?_) (fun _ => ?_)
    | refine Result.Silent.silentError ?_
    | refine Result.Quiet.quietOk ?_
    | refine Result.Quiet.quietError ?_
    | simp [*]

theorem ParseDirectiveAbort_silent  (P : AsmParser) :
    (ParseDirectiveAbort  P).Silent P := by
  unfold ParseDirectiveAbort
  repeat' first
    | exact Result.Silent.silentOk
    | refine Result.Silent.silentSeq ?_ (fun _ _ _ => ?_)
    | refine Result.Quiet.quietSeq ?_ (fun _ _ _ => ?_)
    | refine Result.Silent.silentIte (fun _ => ?_) (fun _ => ?_)
    | refine Result.Quiet.quietIte (fun _ => ?_) (fun _ => ?_)
    | refine Result.Silent.silentError ?_
    | refine Result.Quiet.quietOk ?_
    | refine Result.Quiet.quietError ?_
    | simp [*]

theorem ParseDirectiveDarwinLsym_silent (fuel : Nat) (P : AsmParser) :
    (ParseDirectiveDarwinLsym fuel P).Silent P := by
  unfold ParseDirectiveDarwinLsym
  repeat' first
    | exact Result.Silent.silentOk
    | refine ParseAbsoluteExpression_quietAt fuel ?_
    | refine ParseRelocatableExpression_quietAt fuel ?_
    | refine ParseOptionalPow2Alignment_quietAt fuel ?_
    | refine ParseDirectiveDarwinSectionLoop_quietAt fuel _ ?_
    | refine Result.Silent.silentSeq ?_ (fun _ _ _ => ?_)
    | refine Result.Quiet.quietSeq ?_ (fun _ _ _ => ?_)
    | refine Result.Silent.silentIte (fun _ => ?_) (fun _ => ?_)
    | refine Result.Quiet.quietIte (fun _ => ?_) (fun _ => ?_)
    | refine Result.Silent.silentError ?_
    | refine Result.Quiet.quietOk ?_
    | refine Result.Quiet.quietError ?_
    | simp [*]

theorem ParseDirectiveDarwinDumpOrLoad_silent (IDLoc : SMLoc) (IsDump : Bool) (P : AsmParser) :
    (ParseDirectiveDarwinDumpOrLoad IDLoc IsDump P).Silent P := by
  unfold ParseDirectiveDarwinDumpOrLoad
  repeat' first
    | exact Result.Silent.silentOk
    | refine Result.Silent.silentSeq ?_ (fun _ _ _ => ?_)
    | refine Result.Quiet.quietSeq ?_ (fun _ _ _ => ?_)
    | refine Result.Silent.silentIte (fun _ => ?_) (fun _ => ?_)
    | refine Result.Quiet.quietIte (fun _ => ?_) (fun _ => ?_)
    | refine Result.Silent.silentError ?_
    | refine Result.Quiet.quietOk ?_
    | refine Result.Quiet.quietError ?_
    | simp [*]

theorem ParseDirectiveSet_silent (fuel : Nat) (P : AsmParser) :
    (ParseDirectiveSet fuel P).Silent P := by
  unfold ParseDirectiveSet
  refine Result.Silent.silentIte (fun _ => Result.Silent.silentError (by simp)) (fun _ => ?_)
  refine Result.Silent.silentIte (fun _ => Result.Silent.silentError (by simp)) (fun _ => ?_)
  exact Result.Silent.silentMono (ParseAssignment_silent fuel _ _ _) (by simp)

theorem ParseDirectiveInclude_silent (P : AsmParser) :
    (ParseDirectiveInclude P).Silent P := by
  unfold ParseDirectiveInclude
  refine Result.Silent.silentIte (fun _ => Result.Silent.silentError (by simp)) (fun _ => ?_)
  refine Result.Silent.silentIte (fun _ => Result.Silent.silentError (by simp)) (fun _ => ?_)
  simp only
  split
  · exact Result.Silent.silentError (by simp)
  · exact Result.Silent.silentOk

theorem ParseDirective_silent (fuel : Nat) (IDVal : String) (IDLoc : SMLoc) (P : AsmParser)
    (hID : IDVal ∉ listDirectives) : (ParseDirective fuel IDVal IDLoc P).Silent P := by
  simp only [listDirectives, List.mem_cons, List.mem_singleton, not_or, List.not_mem_nil,
    not_false_eq_true, and_true] at hID
  unfold ParseDirective
  repeat' first
    | exact Result.Silent.silentOk
    | with_reducible exact ParseDirectiveSectionSwitch_silent _ _ _
    | with_reducible exact ParseDirectiveDarwinSection_silent _ _
    | with_reducible exact ParseDirectiveSet_silent _ _
    | with_reducible exact ParseDirectiveAlign_silent _ _ _ _
    | with_reducible exact ParseDirectiveOrg_silent _ _
    | with_reducible exact ParseDirectiveFill_silent _ _
    | with_reducible exact ParseDirectiveSpace_silent _ _
    | with_reducible exact ParseDirectiveComm_silent _ _ _
    | with_reducible exact ParseDirectiveDarwinZerofill_silent _ _
    | with_reducible exact ParseDirectiveDarwinSymbolDesc_silent _ _
    | with_reducible exact ParseDirectiveDarwinLsym_silent _ _
    | with_reducible exact ParseDirectiveDarwinSubsectionsViaSymbols_silent _
    | with_reducible exact ParseDirectiveAbort_silent _
    | with_reducible exact ParseDirectiveInclude_silent _
    | with_reducible exact ParseDirectiveDarwinDumpOrLoad_silent _ _ _
    | with_reducible refine Result.Silent.silentIte (fun _ => ?_) (fun _ => ?_)
    | (exfalso; simp_all)

end AsmParser

theorem AsmParser.EmitsOnly.same {P Q : AsmParser} {A : StreamerCall → Prop} (h : Q.Out = P.Out) :
    P.EmitsOnly Q A :=
  ⟨by rw [h], [], by simp [h], by simp⟩

theorem AsmParser.EmitsOnly.emitsTrans {P Q R : AsmParser} {A : StreamerCall → Prop}
    (h₁ : P.EmitsOnly Q A) (h₂ : Q.EmitsOnly R A) : P.EmitsOnly R A := by
  obtain ⟨c₁, E₁, e₁, a₁⟩ := h₁
  obtain ⟨c₂, E₂, e₂, a₂⟩ := h₂
  refine ⟨c₂.trans c₁, E₁ ++ E₂, by rw [e₂, e₁, List.append_assoc], ?_⟩
  intro C hC
  rcases List.mem_append.mp hC with h | h
  · exact a₁ C h
  · exact a₂ C h

theorem AsmParser.EmitsOnly.emitsCall (P : AsmParser) {A : StreamerCall → Prop} {C : StreamerCall}
    (h : A C) : P.EmitsOnly (P.emit C) A :=
  ⟨rfl, [C], rfl, by simpa using h⟩

theorem Result.Emits.emitsMono {α : Type} {r : Result α} {P B : AsmParser}
    {A : StreamerCall → Prop} (h : r.Emits B A) (h₀ : P.EmitsOnly B A) : r.Emits P A := by
  cases r with
  | ok a Q => exact h₀.emitsTrans h
  | error Q => exact h₀.emitsTrans h
  | outOfFuel => trivial

theorem Result.Quiet.emits {α : Type} {r : Result α} {P : AsmParser}
    {A : StreamerCall → Prop} (h : r.Quiet P) : r.Emits P A := by
  cases r with
  | ok a Q => exact AsmParser.EmitsOnly.same h
  | error Q => exact AsmParser.EmitsOnly.same h
  | outOfFuel => trivial

theorem Result.Emits.emitsSeq {α β : Type} {r : Result α} {k : α → AsmParser → Result β}
    {P : AsmParser} {A : StreamerCall → Prop} (h : r.Quiet P)
    (hk : ∀ a Q, Q.Out = P.Out → (k a Q).Emits Q A) : (r.andThen k).Emits P A := by
  cases r with
  | ok a Q => exact (hk a Q h).emitsMono (AsmParser.EmitsOnly.same h)
  | error Q => exact AsmParser.EmitsOnly.same h
  | outOfFuel => trivial

namespace AsmParser

theorem ParseDirectiveValueLoop_emits (fuel : Nat) (Size : Nat) (P : AsmParser) :
    (ParseDirectiveValueLoop fuel Size P).Emits P (fun C => ∃ V, C = .EmitValue V Size) := by
  induction fuel generalizing P with
  | zero => trivial
  | succ fuel ih =>
    unfold ParseDirectiveValueLoop
    refine Result.Emits.emitsSeq (ParseRelocatableExpression_quiet fuel P) ?_
    intro V Q _
    have hE : Q.EmitsOnly (Q.emit (.EmitValue V Size)) (fun C => ∃ V, C = .EmitValue V Size) :=
      EmitsOnly.emitsCall Q ⟨V, rfl⟩
    simp only
    split
    · exact hE
    · split
      · exact hE.emitsTrans (EmitsOnly.same (by simp))
      · exact (ih _).emitsMono (hE.emitsTrans (EmitsOnly.same (by simp)))

theorem ParseDirectiveValue_emits (fuel : Nat) (Size : Nat) (P : AsmParser) :
    (ParseDirectiveValue fuel Size P).Emits P (fun C => ∃ V, C = .EmitValue V Size) := by
  unfold ParseDirectiveValue
  split
  · have h := ParseDirectiveValueLoop_emits fuel Size P
    cases hr : ParseDirectiveValueLoop fuel Size P with
    | ok a Q =>
      rw [hr] at h
      exact EmitsOnly.emitsTrans h (EmitsOnly.same (by simp))
    | error Q =>
      rw [hr] at h
      exact h
    | outOfFuel => trivial
  · exact EmitsOnly.same (by simp)

theorem ParseDirectiveAsciiLoop_emits (fuel : Nat) (Z : Bool) (P : AsmParser) :
    (ParseDirectiveAsciiLoop fuel Z P).Emits P (fun C => ∃ D, C = .EmitBytes D) := by
  induction fuel generalizing P with
  | zero => trivial
  | succ fuel ih =>
    have h₁ : P.EmitsOnly (P.emit (.EmitBytes (stripQuotes P.getTok.Str)))
        (fun C => ∃ D, C = .EmitBytes D) := EmitsOnly.emitsCall P ⟨_, rfl⟩
    have h₂ := h₁.emitsTrans (EmitsOnly.emitsCall (A := fun C => ∃ D, C = .EmitBytes D)
      (P.emit (.EmitBytes (stripQuotes P.getTok.Str)))
      ⟨String.mk [Char.ofNat 0], rfl⟩)
    unfold ParseDirectiveAsciiLoop
    split
    · exact EmitsOnly.same (by simp)
    · cases Z
      · simp only [Bool.false_eq_true, if_false]
        split
        · exact h₁.emitsTrans (EmitsOnly.same (by simp))
        · split
          · exact h₁.emitsTrans (EmitsOnly.same (by simp))
          · exact (ih _).emitsMono (h₁.emitsTrans (EmitsOnly.same (by simp)))
      · simp only [if_true]
        split
        · exact h₂.emitsTrans (EmitsOnly.same (by simp))
        · split
          · exact h₂.emitsTrans (EmitsOnly.same (by simp))
          · exact (ih _).emitsMono (h₂.emitsTrans (EmitsOnly.same (by simp)))

theorem ParseDirectiveAscii_emits (fuel : Nat) (Z : Bool) (P : AsmParser) :
    (ParseDirectiveAscii fuel Z P).Emits P (fun C => ∃ D, C = .EmitBytes D) := by
  unfold ParseDirectiveAscii
  split
  · have h := ParseDirectiveAsciiLoop_emits fuel Z P
    cases hr : ParseDirectiveAsciiLoop fuel Z P with
    | ok a Q =>
      rw [hr] at h
      exact EmitsOnly.emitsTrans h (EmitsOnly.same (by simp))
    | error Q =>
      rw [hr] at h
      exact h
    | outOfFuel => trivial
  · exact EmitsOnly.same (by simp)

theorem ParseDirectiveSymbolAttributeLoop_emits (fuel : Nat) (Attr : MCStreamer.SymbolAttr)
    (P : AsmParser) :
    (ParseDirectiveSymbolAttributeLoop fuel Attr P).Emits P
      (fun C => ∃ S, C = .EmitSymbolAttribute S Attr) := by
  induction fuel generalizing P with
  | zero => trivial
  | succ fuel ih =>
    unfold ParseDirectiveSymbolAttributeLoop
    split
    · exact EmitsOnly.same (by simp)
    · have hE : P.EmitsOnly
          ((P.Lex.markUse P.getTok.Str).emit (.EmitSymbolAttribute P.getTok.Str Attr))
          (fun C => ∃ S, C = .EmitSymbolAttribute S Attr) :=
        EmitsOnly.emitsTrans (EmitsOnly.same (by simp)) (EmitsOnly.emitsCall _ ⟨_, rfl⟩)
      simp only
      split
      · exact hE
      · split
        · exact hE.emitsTrans (EmitsOnly.same (by simp))
        · exact (ih _).emitsMono (hE.emitsTrans (EmitsOnly.same (by simp)))

theorem ParseDirectiveSymbolAttribute_emits (fuel : Nat) (Attr : MCStreamer.SymbolAttr)
    (P : AsmParser) :
    (ParseDirectiveSymbolAttribute fuel Attr P).Emits P
      (fun C => ∃ S, C = .EmitSymbolAttribute S Attr) := by
  unfold ParseDirectiveSymbolAttribute
  split
  · have h := ParseDirectiveSymbolAttributeLoop_emits fuel Attr P
    cases hr : ParseDirectiveSymbolAttributeLoop fuel Attr P with
    | ok a Q =>
      rw [hr] at h
      exact EmitsOnly.emitsTrans h (EmitsOnly.same (by simp))
    | error Q =>
      rw [hr] at h
      exact h
    | outOfFuel => trivial
  · exact EmitsOnly.same (by simp)

end AsmParser

/-! ## Operand lists

What the list directives do on a list of literal operands. -/

@[simp] theorem AsmParser.emit_is (P : AsmParser) (C : StreamerCall)
    (K : AsmToken.TokenKind) : (P.emit C).is K = P.is K := rfl

@[simp] theorem AsmParser.emit_isNot (P : AsmParser) (C : StreamerCall)
    (K : AsmToken.TokenKind) : (P.emit C).isNot K = P.isNot K := rfl

namespace AsmParser

@[simp] theorem emit_Lex (P : AsmParser) (C : StreamerCall) :
    (P.emit C).Lex = P.Lex.emit C := by
  obtain ⟨L, Ctx, Out, Diags, TP, Inc⟩ := P
  cases L with
  | nil => rfl
  | cons T Rest => by_cases hT : T.Kind = .Eof <;> simp [AsmParser.Lex, AsmParser.emit, hT]

@[simp] theorem emit_getKind (P : AsmParser) (C : StreamerCall) :
    (P.emit C).getKind = P.getKind := rfl

@[simp] theorem emit_Lexer (P : AsmParser) (C : StreamerCall) :
    (P.emit C).Lexer = P.Lexer := rfl

@[simp] theorem emit_Diags (P : AsmParser) (C : StreamerCall) :
    (P.emit C).Diags = P.Diags := rfl

@[simp] theorem emit_Calls (P : AsmParser) (C : StreamerCall) :
    (P.emit C).Out.Calls = P.Out.Calls ++ [C] := rfl

theorem Lex_cons (P : AsmParser) (T : AsmToken) (Rest : List AsmToken)
    (h : P.Lexer = T :: Rest) (hk : T.Kind ≠ .Eof) : P.Lex.Lexer = Rest := by
  unfold AsmParser.Lex
  rw [h]
  simp [hk]

theorem getKind_cons (P : AsmParser) (T : AsmToken) (Rest : List AsmToken)
    (h : P.Lexer = T :: Rest) : P.getKind = T.Kind ∧ P.getTok = T := by
  simp [AsmParser.getKind, AsmParser.getTok, h]

@[simp] theorem markUse_Lexer (P : AsmParser) (Sym : String) :
    (P.markUse Sym).Lexer = P.Lexer := by
  unfold AsmParser.markUse
  split <;> rfl

@[simp] theorem markUse_Diags (P : AsmParser) (Sym : String) :
    (P.markUse Sym).Diags = P.Diags := by
  unfold AsmParser.markUse
  split <;> rfl

end AsmParser


/-- The slice taken by `stripQuotes` is what stands between the first and
the last character, character for character. -/
theorem AsmParser.stripQuotes_mk (q q' : Char) (cs : List Char) :
    AsmParser.stripQuotes (String.mk (q :: (cs ++ [q']))) = String.mk cs := by
  simp [AsmParser.stripQuotes]

/-! ## Directives and their calls

The dispatch of a statement to its directive, and what the directives that
the claims below are about leave in the context. -/

namespace AsmParser

/-- A statement that starts with an identifier with a leading dot and goes
on with a token that is neither a colon nor an equal sign is dispatched as a
directive. -/
theorem ParseStatement_directive (fuel : Nat) (P : AsmParser)
    (hId : P.getKind = .Identifier) (hDot : P.getTok.Str.front = '.')
    (hColon : P.Lex.getKind ≠ .Colon) (hEqual : P.Lex.getKind ≠ .Equal) :
    ParseStatement (fuel + 1) P = ParseDirective fuel P.getTok.Str (some P.getTok.Loc) P.Lex := by
  unfold ParseStatement
  simp only [hId]
  cases hK : P.Lex.getKind <;> simp_all

theorem markUse_Section (P : AsmParser) (Sym : String) :
    (P.markUse Sym).Ctx.Section = P.Ctx.Section := by
  unfold markUse
  split <;> rfl

theorem markUse_SymbolValue (P : AsmParser) (Sym : String) :
    (P.markUse Sym).Ctx.SymbolValue = P.Ctx.SymbolValue := by
  unfold markUse
  split <;> rfl

/-- The use marking sets the external flag of the symbol when it has neither
a section nor a value, and no other flag. -/
theorem markUse_External (P : AsmParser) (Sym S : String) :
    (P.markUse Sym).Ctx.External S = true ↔
      P.Ctx.External S = true ∨
        (S = Sym ∧ P.Ctx.Section S = none ∧ P.Ctx.SymbolValue S = none) := by
  unfold markUse
  split
  · rename_i h
    simp only [MCContext.getSection, MCContext.GetSymbolValue, Bool.and_eq_true,
      Option.isNone_iff_eq_none] at h
    simp only [setExternal, MCContext.setExternal, Function.update_apply]
    by_cases hS : S = Sym
    · subst hS
      simp [h.1, h.2]
    · simp [hS]
  · rename_i h
    simp only [MCContext.getSection, MCContext.GetSymbolValue, Bool.and_eq_true,
      Option.isNone_iff_eq_none] at h
    constructor
    · exact Or.inl
    · rintro (h' | ⟨rfl, h₁, h₂⟩)
      · exact h'
      · exact (h ⟨h₁, h₂⟩).elim

@[simp] theorem emit_Ctx (P : AsmParser) (C : StreamerCall) : (P.emit C).Ctx = P.Ctx := rfl

/-- The loop of `ParseDirectiveSymbolAttribute` on a list of identifiers that
the end of the statement follows: one call per identifier in order, and the
identifiers that have neither a section nor a value are marked external. -/
theorem ParseDirectiveSymbolAttributeLoop_marks (Attr : MCStreamer.SymbolAttr)
    (Toks Ops : List AsmToken)
    (hList : AsmToken.IsList (fun T => T.Kind = .Identifier) Toks Ops) :
    ∀ (fuel : Nat) (P : AsmParser) (Eol : AsmToken) (Rest : List AsmToken),
      P.Lexer = Toks ++ Eol :: Rest → Eol.Kind = .EndOfStatement → Ops.length ≤ fuel →
      ∃ Q, ParseDirectiveSymbolAttributeLoop fuel Attr P = .ok () Q ∧ Q.Lexer = Eol :: Rest ∧
        Q.Out.Calls = P.Out.Calls ++
          Ops.map (fun T => StreamerCall.EmitSymbolAttribute T.Str Attr) ∧
        Q.Diags = P.Diags ∧
        Q.Ctx.Section = P.Ctx.Section ∧ Q.Ctx.SymbolValue = P.Ctx.SymbolValue ∧
        ∀ S, Q.Ctx.External S = true ↔
          P.Ctx.External S = true ∨
            (S ∈ Ops.map (fun T => T.Str) ∧ P.Ctx.Section S = none ∧
              P.Ctx.SymbolValue S = none) := by
  induction hList with
  | one T hT =>
    intro fuel P Eol Rest hL hE hf
    obtain ⟨f, rfl⟩ : ∃ f, fuel = f + 1 := ⟨fuel - 1, by simp at hf; omega⟩
    have hL' : P.Lexer = T :: Eol :: Rest := by simpa using hL
    have hk := getKind_cons P T _ hL'
    have hLx : P.Lex.Lexer = Eol :: Rest := Lex_cons P T _ hL' (by simp [hT])
    have hk' : ((P.Lex.markUse T.Str).emit (.EmitSymbolAttribute T.Str Attr)).getKind =
        Eol.Kind := (getKind_cons _ Eol Rest (by simpa using hLx)).1
    refine ⟨(P.Lex.markUse T.Str).emit (.EmitSymbolAttribute T.Str Attr), ?_, ?_, ?_, ?_, ?_,
      ?_, ?_⟩
    · unfold ParseDirectiveSymbolAttributeLoop
      simp only [AsmParser.isNot, AsmParser.is, hk.1, hk.2, hT, hk', hE]
      simp
    · simpa using hLx
    · simp
    · simp
    · simp [markUse_Section, Lex_Ctx]
    · simp [markUse_SymbolValue, Lex_Ctx]
    · intro S
      simp [markUse_External, Lex_Ctx]
  | more T C Toks Ops hT hC _ ih =>
    intro fuel P Eol Rest hL hE hf
    obtain ⟨f, rfl⟩ : ∃ f, fuel = f + 1 := ⟨fuel - 1, by simp at hf; omega⟩
    have hL' : P.Lexer = T :: C :: (Toks ++ Eol :: Rest) := by simpa using hL
    have hk := getKind_cons P T _ hL'
    have hLx : P.Lex.Lexer = C :: (Toks ++ Eol :: Rest) := Lex_cons P T _ hL' (by simp [hT])
    have hLx' : ((P.Lex.markUse T.Str).emit (.EmitSymbolAttribute T.Str Attr)).Lexer =
        C :: (Toks ++ Eol :: Rest) := by simpa using hLx
    have hk' := (getKind_cons _ C _ hLx').1
    have hLxx := Lex_cons _ C _ hLx' (by simp [hC])
    obtain ⟨Q, hQ, hQL, hQC, hQD, hQS, hQV, hQE⟩ := ih f
      (((P.Lex.markUse T.Str).emit (.EmitSymbolAttribute T.Str Attr)).Lex) Eol Rest
      hLxx hE (by simp at hf ⊢; omega)
    refine ⟨Q, ?_, hQL, ?_, ?_, ?_, ?_, ?_⟩
    · unfold ParseDirectiveSymbolAttributeLoop
      simp only [AsmParser.isNot, AsmParser.is, hk.1, hk.2, hT, hk', hC]
      simpa using hQ
    · rw [hQC]
      simp
    · rw [hQD]
      simp
    · rw [hQS]
      simp [markUse_Section, Lex_Ctx]
    · rw [hQV]
      simp [markUse_SymbolValue, Lex_Ctx]
    · intro S
      rw [hQE]
      simp only [Lex_Ctx, emit_Ctx, markUse_External, markUse_Section, markUse_SymbolValue,
        List.map_cons, List.mem_cons]
      tauto

theorem ParseAbsoluteExpression_frame {fuel : Nat} {P Q : AsmParser} {v : Int}
    (h : ParseAbsoluteExpression fuel P = .ok v Q) : Frame P Q := by
  have := ParseAbsoluteExpression_fine fuel P
  rw [h] at this
  exact this

/-- A relocatable expression that parses has the value that the evaluation
of the parsed expression gives. -/
theorem ParseRelocatableExpression_ok {fuel : Nat} {P Q : AsmParser} {Value : MCValue}
    (h : ParseRelocatableExpression fuel P = .ok Value Q) :
    ∃ E, ParseExpression fuel P = .ok E Q ∧ E.EvaluateAsRelocatable = some Value := by
  unfold ParseRelocatableExpression at h
  cases hE : ParseExpression fuel P with
  | ok E R =>
    rw [hE] at h
    simp only [Result.andThen] at h
    cases hv : E.EvaluateAsRelocatable with
    | none => simp [hv] at h
    | some V =>
      simp only [hv] at h
      cases h
      exact ⟨E, rfl, hv⟩
  | error R => simp [hE, Result.andThen] at h
  | outOfFuel => simp [hE, Result.andThen] at h

/-- A successful `ParseAssignment` parsed a relocatable expression up to the
end of the statement and made the one call `EmitAssignment`. -/
theorem ParseAssignment_ok {fuel : Nat} {Name : String} {IsDotSet : Bool} {P Q : AsmParser}
    (h : ParseAssignment fuel Name IsDotSet P = .ok () Q) :
    ∃ Value P₁, ParseRelocatableExpression fuel P = .ok Value P₁ ∧
      P₁.is .EndOfStatement = true ∧ Q = P₁.Lex.EmitAssignment Name Value IsDotSet := by
  unfold ParseAssignment at h
  cases hr : ParseRelocatableExpression fuel P with
  | ok Value P₁ =>
    rw [hr] at h
    simp only [Result.andThen] at h
    split at h
    · cases h
    · rename_i hE
      split at h
      · cases h
      · split at h
        · cases h
        · cases h
          refine ⟨Value, P₁, rfl, ?_, rfl⟩
          simpa [AsmParser.isNot, AsmParser.is] using hE
  | error R => simp [hr, Result.andThen] at h
  | outOfFuel => simp [hr, Result.andThen] at h

end AsmParser

/-! ## Fuel and the expression parser

A result of the expression parser that is not the lack of fuel is the same
with more fuel. -/

theorem Result.andThen_fuel {α β : Type} {r r' : Result α} {k k' : α → AsmParser → Result β}
    (h : r = .outOfFuel ∨ r = r') (hk : ∀ a Q, k a Q = .outOfFuel ∨ k a Q = k' a Q) :
    r.andThen k = .outOfFuel ∨ r.andThen k = r'.andThen k' := by
  rcases h with h | h
  · subst h
    exact Or.inl rfl
  · subst h
    cases r with
    | ok a Q => exact hk a Q
    | error Q => exact Or.inr rfl
    | outOfFuel => exact Or.inl rfl

namespace AsmParser

/-- One more unit of fuel does not change a result of the expression parser
that is not the lack of fuel. -/
theorem expr_fuel_succ (fuel : Nat) :
    (∀ P, ParsePrimaryExpr fuel P = .outOfFuel ∨
      ParsePrimaryExpr fuel P = ParsePrimaryExpr (fuel + 1) P) ∧
    (∀ P, ParseParenExpr fuel P = .outOfFuel ∨
      ParseParenExpr fuel P = ParseParenExpr (fuel + 1) P) ∧
    (∀ P, ParseExpression fuel P = .outOfFuel ∨
      ParseExpression fuel P = ParseExpression (fuel + 1) P) ∧
    (∀ Prec Res P, ParseBinOpRHS fuel Prec Res P = .outOfFuel ∨
      ParseBinOpRHS fuel Prec Res P = ParseBinOpRHS (fuel + 1) Prec Res P) := by
  induction fuel with
  | zero =>
    refine ⟨?_, ?_, ?_, ?_⟩ <;> intros <;> left <;>
      simp [ParsePrimaryExpr, ParseParenExpr, ParseExpression, ParseBinOpRHS]
  | succ fuel ih =>
    obtain ⟨ihP, ihPP, ihE, ihB⟩ := ih
    refine ⟨?_, ?_, ?_, ?_⟩
    · intro P
      rw [ParsePrimaryExpr, ParsePrimaryExpr]
      split
      · exact Result.andThen_fuel (ihP _) (fun _ _ => Or.inr rfl)
      · exact Or.inr rfl
      · exact Or.inr rfl
      · exact ihPP _
      · exact Result.andThen_fuel (ihP _) (fun _ _ => Or.inr rfl)
      · exact Result.andThen_fuel (ihP _) (fun _ _ => Or.inr rfl)
      · exact Result.andThen_fuel (ihP _) (fun _ _ => Or.inr rfl)
      · exact Or.inr rfl
    · intro P
      rw [ParseParenExpr, ParseParenExpr]
      exact Result.andThen_fuel (ihE _) (fun _ _ => Or.inr rfl)
    · intro P
      rw [ParseExpression, ParseExpression]
      exact Result.andThen_fuel (ihP _) (fun _ _ => ihB _ _ _)
    · intro Prec Res P
      rw [ParseBinOpRHS, ParseBinOpRHS]
      simp only
      split
      · exact Or.inr rfl
      · refine Result.andThen_fuel (ihP _) (fun RHS Q => ?_)
        refine Result.andThen_fuel ?_ (fun _ _ => ihB _ _ _)
        split
        · exact ihB _ _ _
        · exact Or.inr rfl

/-- More fuel does not change a result of the expression parser that is
not the lack of fuel. -/
theorem expr_fuel_le {fuel fuel' : Nat} (h : fuel ≤ fuel') :
    (∀ P, ParsePrimaryExpr fuel P = .outOfFuel ∨
      ParsePrimaryExpr fuel P = ParsePrimaryExpr fuel' P) ∧
    (∀ P, ParseExpression fuel P = .outOfFuel ∨
      ParseExpression fuel P = ParseExpression fuel' P) ∧
    (∀ Prec Res P, ParseBinOpRHS fuel Prec Res P = .outOfFuel ∨
      ParseBinOpRHS fuel Prec Res P = ParseBinOpRHS fuel' Prec Res P) := by
  induction h with
  | refl => exact ⟨fun _ => Or.inr rfl, fun _ => Or.inr rfl, fun _ _ _ => Or.inr rfl⟩
  | @step m _ ih =>
    obtain ⟨ihP, ihE, ihB⟩ := ih
    obtain ⟨sP, -, sE, sB⟩ := expr_fuel_succ m
    refine ⟨fun P => ?_, fun P => ?_, fun Prec Res P => ?_⟩
    · rcases ihP P with h | h
      · exact Or.inl h
      · rcases sP P with h' | h'
        · exact Or.inl (h.trans h')
        · exact Or.inr (h.trans h')
    · rcases ihE P with h | h
      · exact Or.inl h
      · rcases sE P with h' | h'
        · exact Or.inl (h.trans h')
        · exact Or.inr (h.trans h')
    · rcases ihB Prec Res P with h | h
      · exact Or.inl h
      · rcases sB Prec Res P with h' | h'
        · exact Or.inl (h.trans h')
        · exact Or.inr (h.trans h')

theorem ParsePrimaryExpr_fuel {fuel fuel' : Nat} {P Q : AsmParser} {E : AsmExpr}
    (h : ParsePrimaryExpr fuel P = .ok E Q) (hf : fuel ≤ fuel') :
    ParsePrimaryExpr fuel' P = .ok E Q := by
  rcases (expr_fuel_le hf).1 P with h' | h'
  · rw [h] at h'
    cases h'
  · rw [← h', h]

theorem ParseBinOpRHS_fuel {fuel fuel' Prec : Nat} {Res : AsmExpr} {P Q : AsmParser}
    {E : AsmExpr} (h : ParseBinOpRHS fuel Prec Res P = .ok E Q) (hf : fuel ≤ fuel') :
    ParseBinOpRHS fuel' Prec Res P = .ok E Q := by
  rcases (expr_fuel_le hf).2.2 Prec Res P with h' | h'
  · rw [h] at h'
    cases h'
  · rw [← h', h]

theorem ParseExpression_fuel {fuel fuel' : Nat} {P Q : AsmParser} {E : AsmExpr}
    (h : ParseExpression fuel P = .ok E Q) (hf : fuel ≤ fuel') :
    ParseExpression fuel' P = .ok E Q := by
  rcases (expr_fuel_le hf).2.1 P with h' | h'
  · rw [h] at h'
    cases h'
  · rw [← h', h]

/-- The loop of `ParseBinOpRHS` on operators of one precedence: each
operator takes what was parsed so far as its left operand. -/
theorem ParseBinOpRHS_chain {k : Nat} {P Q : AsmParser}
    {Ops : List (AsmBinaryExpr.Opcode × AsmExpr)} (hChain : OperatorChain k P Ops Q) :
    ∀ (Prec : Nat) (Res : AsmExpr), Prec ≤ k →
      (getBinOpPrecedence Q.getKind .Add).1 < Prec →
      ∃ fuel, ParseBinOpRHS fuel Prec Res P = .ok (Res.leftNest Ops) Q := by
  induction hChain with
  | done P =>
    intro Prec Res _ hQ
    exact ⟨1, by simp [ParseBinOpRHS, hQ, AsmExpr.leftNest]⟩
  | next f P P₁ Q Op E Ops hOp hE hRest ih =>
    intro Prec Res hk hQ
    obtain ⟨g, hg⟩ := ih Prec (.Binary Op Res E) hk hQ
    have hNext : ¬ k < (getBinOpPrecedence P₁.getKind .Add).1 := by
      cases hRest with
      | done => omega
      | next _ _ _ _ _ _ _ hOp' _ _ => simp [hOp']
    refine ⟨max f g + 1, ?_⟩
    rw [ParseBinOpRHS]
    simp only [hOp, not_lt.mpr hk, if_false,
      ParsePrimaryExpr_fuel hE (le_max_left f g), Result.andThen, hNext]
    exact ParseBinOpRHS_fuel hg (le_max_right f g)

/-- When `ParseBinOpRHS` returns successfully, the current token is not a
binary operator of the precedence asked for or of a higher one. -/
theorem ParseBinOpRHS_stops (fuel : Nat) :
    ∀ (Prec : Nat) (Res : AsmExpr) (P : AsmParser) (E : AsmExpr) (Q : AsmParser),
      ParseBinOpRHS fuel Prec Res P = .ok E Q →
      (getBinOpPrecedence Q.getKind .Add).1 < Prec := by
  induction fuel with
  | zero =>
    intro Prec Res P E Q h
    simp [ParseBinOpRHS] at h
  | succ fuel ih =>
    intro Prec Res P E Q h
    rw [ParseBinOpRHS] at h
    simp only at h
    split at h
    · rename_i hlt
      cases h
      exact hlt
    · cases h₁ : ParsePrimaryExpr fuel P.Lex with
      | ok RHS P₁ =>
        rw [h₁] at h
        simp only [Result.andThen] at h
        split at h
        · exact ih _ _ _ _ _ h
        · cases h
        · cases h
      | error R => simp [h₁, Result.andThen] at h
      | outOfFuel => simp [h₁, Result.andThen] at h

end AsmParser

/-! ## What the emitter writes -/

theorem EmitInt_spec (Val : Int) (OS : List TableItem) :
    (EmitInt Val OS).1 = digitValue (ClassifyInt Val) ∧
    ∃ (Bytes : List Nat) (Note : List TableItem),
      (EmitInt Val OS).2 = OS ++ Bytes.map TableItem.Num ++ Note ∧
      Bytes.length = digitValue (ClassifyInt Val) ∧ tableOf Note = [] := by
  by_cases h8 : Val = castInt8 Val
  · refine ⟨?_, [byteAt Val 0], [], ?_, ?_, rfl⟩
    · simp [EmitInt, ClassifyInt, ← h8]; decide
    · simp [EmitInt, ← h8]
    · simp [ClassifyInt, ← h8]; decide
  · by_cases h16 : Val = castInt16 Val
    · refine ⟨?_, [byteAt Val 0, byteAt Val 8],
        [.Comment (toString Val ++ " aka 0x" ++ writeHex Val)], ?_, ?_, rfl⟩
      · simp [EmitInt, ClassifyInt, h8, ← h16]; decide
      · simp [EmitInt, h8, ← h16]
      · simp [ClassifyInt, h8, ← h16]; decide
    · by_cases h32 : Val = castInt32 Val
      · refine ⟨?_, [byteAt Val 0, byteAt Val 8, byteAt Val 16, byteAt Val 24],
          [.Comment (toString Val ++ " aka 0x" ++ writeHex Val)], ?_, ?_, rfl⟩
        · simp [EmitInt, ClassifyInt, h8, h16, ← h32]; decide
        · simp [EmitInt, h8, h16, ← h32]
        · simp [ClassifyInt, h8, h16, ← h32]; decide
      · refine ⟨?_, [byteAt Val 0, byteAt Val 8, byteAt Val 16, byteAt Val 24,
          byteAt Val 32, byteAt Val 40, byteAt Val 48, byteAt Val 56],
          [.Comment (toString Val ++ " aka 0x" ++ writeHex Val)], ?_, ?_, rfl⟩
        · simp [EmitInt, ClassifyInt, h8, h16, h32]; decide
        · simp [EmitInt, h8, h16, h32]
        · simp [ClassifyInt, h8, h16, h32]; decide

namespace MatcherTableEmitter

@[simp] theorem write_OS (E : MatcherTableEmitter) (Items : List TableItem) :
    (E.write Items).OS = E.OS ++ Items := rfl

theorem getNodePredicate_OS (E : MatcherTableEmitter) (PredName : String) :
    (E.getNodePredicate PredName).2.OS = E.OS := by
  unfold getNodePredicate
  simp only
  split <;> rfl

theorem getPatternPredicate_OS (E : MatcherTableEmitter) (PredName : String) :
    (E.getPatternPredicate PredName).2.OS = E.OS := by
  unfold getPatternPredicate
  simp only
  split <;> rfl

theorem getComplexPat_OS (E : MatcherTableEmitter) (P : ComplexPattern) :
    (E.getComplexPat P).2.OS = E.OS := by
  unfold getComplexPat
  simp only
  split <;> rfl

theorem getNodeXFormID_OS (E : MatcherTableEmitter) (Rec : Record) :
    (E.getNodeXFormID Rec).2.OS = E.OS := by
  unfold getNodeXFormID
  simp only
  split <;> rfl

end MatcherTableEmitter

theorem tableOf_append (A B : List TableItem) : tableOf (A ++ B) = tableOf A ++ tableOf B := by
  simp [tableOf]

theorem tableOf_nums (L : List Nat) : tableOf (L.map TableItem.Num) = L.map TableItem.Num := by
  induction L with
  | nil => rfl
  | cons a L ih =>
    simp only [List.map_cons]
    rw [show (TableItem.Num a :: L.map TableItem.Num) = [TableItem.Num a] ++ L.map TableItem.Num
      from rfl, tableOf_append, ih]
    rfl

theorem tableOf_names (L : List String) :
    tableOf (L.map TableItem.Name) = L.map TableItem.Name := by
  induction L with
  | nil => rfl
  | cons a L ih =>
    simp only [List.map_cons]
    rw [show (TableItem.Name a :: L.map TableItem.Name) =
      [TableItem.Name a] ++ L.map TableItem.Name from rfl, tableOf_append, ih]
    rfl

/-- What `EmitMatcher` writes is added at the end of the stream. -/
theorem MatcherTableEmitter.EmitMatcher_written (E : MatcherTableEmitter)
    (N : SimpleMatcherNode) (Indent : Nat) :
    ∃ W, (E.EmitMatcher N Indent).2.OS = E.OS ++ W := by
  cases N with
  | CheckInteger Val =>
    obtain ⟨-, B, Nt, h, -⟩ := EmitInt_spec Val
      (E.OS ++ [.Opcode ("OPC_CheckInteger" ++ String.singleton (ClassifyInt Val))])
    exact ⟨_, by simp only [EmitMatcher, write_OS, h, List.append_assoc]; rfl⟩
  | CheckAndImm Val =>
    obtain ⟨-, B, Nt, h, -⟩ := EmitInt_spec Val
      (E.OS ++ [.Opcode ("OPC_CheckAndImm" ++ String.singleton (ClassifyInt Val))])
    exact ⟨_, by simp only [EmitMatcher, write_OS, h, List.append_assoc]; rfl⟩
  | CheckOrImm Val =>
    obtain ⟨-, B, Nt, h, -⟩ := EmitInt_spec Val
      (E.OS ++ [.Opcode ("OPC_CheckOrImm" ++ String.singleton (ClassifyInt Val))])
    exact ⟨_, by simp only [EmitMatcher, write_OS, h, List.append_assoc]; rfl⟩
  | EmitInteger Val VT =>
    obtain ⟨-, B, Nt, h, -⟩ := EmitInt_spec Val
      (E.OS ++ [.Opcode ("OPC_EmitInteger" ++ String.singleton (ClassifyInt Val)), .Name VT])
    exact ⟨_, by simp only [EmitMatcher, write_OS, h, List.append_assoc]; rfl⟩
  | EmitRegister VT Reg =>
    cases Reg <;> exact ⟨_, by simp only [EmitMatcher, write_OS, List.append_assoc]; rfl⟩
  | CheckPatternPredicate P =>
    exact ⟨_, by simp only [EmitMatcher, write_OS, getPatternPredicate_OS]; rfl⟩
  | CheckPredicate P =>
    exact ⟨_, by simp only [EmitMatcher, write_OS, getNodePredicate_OS]; rfl⟩
  | CheckComplexPat P =>
    exact ⟨_, by simp only [EmitMatcher, write_OS, getComplexPat_OS]; rfl⟩
  | EmitNodeXForm S X =>
    exact ⟨_, by simp only [EmitMatcher, write_OS, getNodeXFormID_OS]; rfl⟩
  | _ => exact ⟨_, by simp only [EmitMatcher, write_OS, List.append_assoc]; rfl⟩

/-- What `EmitMatcherList` writes is added at the end of the stream. -/
theorem MatcherTableEmitter.EmitMatcherListLoop_written (N : MatcherNode) :
    ∀ (Indent Size : Nat) (E : MatcherTableEmitter),
      ∃ W, (EmitMatcherListLoop N Indent Size E).2.OS = E.OS ++ W := by
  induction N with
  | null => exact fun _ _ E => ⟨[], by simp [EmitMatcherListLoop]⟩
  | Push Next Failure ihN ihF =>
    intro Indent Size E
    obtain ⟨W₁, h₁⟩ := ihN (Indent + 1) 0 E
    simp only [EmitMatcherListLoop]
    obtain ⟨W₂, h₂⟩ := ihF Indent (Size + (2 + (EmitMatcherListLoop Next (Indent + 1) 0 E).1))
      (((if (EmitMatcherListLoop Next (Indent + 1) 0 E).1 > 255 then
        { (EmitMatcherListLoop Next (Indent + 1) 0 E).2 with
          Errs := (EmitMatcherListLoop Next (Indent + 1) 0 E).2.Errs ++
            ["Tblgen internal error: can't handle predicate this complex yet\n"] }
        else (EmitMatcherListLoop Next (Indent + 1) 0 E).2).write
          [.Opcode "OPC_Push", .Num (EmitMatcherListLoop Next (Indent + 1) 0 E).1]).write [])
    refine ⟨W₁ ++ [.Opcode "OPC_Push", .Num (EmitMatcherListLoop Next (Indent + 1) 0 E).1] ++ W₂,
      ?_⟩
    rw [h₂]
    split <;> simp [write, h₁]
  | Node Data Next ih =>
    intro Indent Size E
    obtain ⟨W₁, h₁⟩ := E.EmitMatcher_written Data Indent
    simp only [EmitMatcherListLoop]
    obtain ⟨W₂, h₂⟩ := ih Indent (Size + (E.EmitMatcher Data Indent).1)
      (E.EmitMatcher Data Indent).2
    exact ⟨W₁ ++ W₂, by rw [h₂, h₁, List.append_assoc]⟩

/-- The value returned by `EmitMatcher` against the number of array elements
it wrote: they are equal for every kind but `EmitNode`, for which one more
element was written than is returned. -/
theorem MatcherTableEmitter.EmitMatcher_count (E : MatcherTableEmitter)
    (N : SimpleMatcherNode) (Indent : Nat) :
    ∃ W, (E.EmitMatcher N Indent).2.OS = E.OS ++ W ∧
      (tableOf W).length = (E.EmitMatcher N Indent).1 + (if N.isEmitNode then 1 else 0) := by
  have imm : ∀ (Val : Int) (Pre : List TableItem),
      ∃ W, (EmitInt Val (E.OS ++ Pre)).2 = E.OS ++ W ∧
        (tableOf W).length = (EmitInt Val (E.OS ++ Pre)).1 + (tableOf Pre).length := by
    intro Val Pre
    obtain ⟨h₁, B, Nt, h, hB, hN⟩ := EmitInt_spec Val (E.OS ++ Pre)
    refine ⟨Pre ++ B.map TableItem.Num ++ Nt, by rw [h]; simp only [List.append_assoc], ?_⟩
    rw [tableOf_append, tableOf_append, tableOf_nums, hN, h₁]
    simp [hB]
    omega
  cases N with
  | CheckInteger Val =>
    obtain ⟨W, h, hl⟩ := imm Val
      [.Opcode ("OPC_CheckInteger" ++ String.singleton (ClassifyInt Val))]
    exact ⟨W, h, by rw [hl]; rfl⟩
  | CheckAndImm Val =>
    obtain ⟨W, h, hl⟩ := imm Val
      [.Opcode ("OPC_CheckAndImm" ++ String.singleton (ClassifyInt Val))]
    exact ⟨W, h, by rw [hl]; rfl⟩
  | CheckOrImm Val =>
    obtain ⟨W, h, hl⟩ := imm Val
      [.Opcode ("OPC_CheckOrImm" ++ String.singleton (ClassifyInt Val))]
    exact ⟨W, h, by rw [hl]; rfl⟩
  | EmitInteger Val VT =>
    obtain ⟨W, h, hl⟩ := imm Val
      [.Opcode ("OPC_EmitInteger" ++ String.singleton (ClassifyInt Val)), .Name VT]
    exact ⟨W, h, by rw [hl]; rfl⟩
  | EmitRegister VT Reg =>
    cases Reg with
    | none =>
      exact ⟨[.Opcode "OPC_EmitRegister", .Name VT, .Num 0, .Comment "zero_reg"],
        by simp only [EmitMatcher, write_OS, List.append_assoc]; rfl, rfl⟩
    | some R =>
      exact ⟨[.Opcode "OPC_EmitRegister", .Name VT, .Name R.Name],
        by simp only [EmitMatcher, write_OS, List.append_assoc]; rfl, rfl⟩
  | CheckPatternPredicate P =>
    exact ⟨[.Opcode "OPC_CheckPatternPredicate", .Num (E.getPatternPredicate P).1, .Comment P],
      by simp only [EmitMatcher, write_OS, getPatternPredicate_OS], rfl⟩
  | CheckPredicate P =>
    exact ⟨[.Opcode "OPC_CheckPredicate", .Num (E.getNodePredicate P).1, .Comment P],
      by simp only [EmitMatcher, write_OS, getNodePredicate_OS], rfl⟩
  | CheckComplexPat P =>
    exact ⟨[.Opcode "OPC_CheckComplexPat", .Num (E.getComplexPat P).1, .Comment _],
      by simp only [EmitMatcher, write_OS, getComplexPat_OS]; rfl, rfl⟩
  | EmitNodeXForm S X =>
    exact ⟨[.Opcode "OPC_EmitNodeXForm", .Num (E.getNodeXFormID X).1, .Num S, .Comment X.Name],
      by simp only [EmitMatcher, write_OS, getNodeXFormID_OS], rfl⟩
  | EmitMergeInputChains Nodes =>
    refine ⟨[.Opcode "OPC_EmitMergeInputChains", .Num Nodes.length] ++ Nodes.map .Num,
      by simp only [EmitMatcher, write_OS, List.append_assoc], ?_⟩
    rw [tableOf_append, tableOf_nums]
    simp [tableOf, TableItem.elements, EmitMatcher, SimpleMatcherNode.isEmitNode]
    omega
  | EmitNode Name VTs Ops hc hf hm nf =>
    refine ⟨[.Opcode "OPC_EmitNode", .TargetOpcode Name, _] ++ [.Num VTs.length, .Comment "#VTs"]
      ++ VTs.map .Name ++ [.Num Ops.length, .Comment "#Ops"] ++ Ops.map .Num,
      by simp only [EmitMatcher, write_OS, List.append_assoc]; rfl, ?_⟩
    rw [tableOf_append, tableOf_append, tableOf_append, tableOf_append, tableOf_nums,
      tableOf_names]
    simp [tableOf, TableItem.elements, EmitMatcher, SimpleMatcherNode.isEmitNode]
    omega
  | RecordNode W => exact ⟨[.Opcode "OPC_RecordNode", .Comment W], rfl, rfl⟩
  | RecordMemRef => exact ⟨[.Opcode "OPC_RecordMemRef"], rfl, rfl⟩
  | CaptureFlagInput => exact ⟨[.Opcode "OPC_CaptureFlagInput"], rfl, rfl⟩
  | MoveChild n => exact ⟨[.Opcode "OPC_MoveChild", .Num n], rfl, rfl⟩
  | MoveParent => exact ⟨[.Opcode "OPC_MoveParent"], rfl, rfl⟩
  | CheckSame n => exact ⟨[.Opcode "OPC_CheckSame", .Num n], rfl, rfl⟩
  | CheckOpcode n => exact ⟨[.Opcode "OPC_CheckOpcode", .Name n], rfl, rfl⟩
  | CheckType n => exact ⟨[.Opcode "OPC_CheckType", .Name n], rfl, rfl⟩
  | CheckCondCode n => exact ⟨[.Opcode "OPC_CheckCondCode", .Name ("ISD::" ++ n)], rfl, rfl⟩
  | CheckValueType n => exact ⟨[.Opcode "OPC_CheckValueType", .Name ("MVT::" ++ n)], rfl, rfl⟩
  | CheckFoldableChainNode => exact ⟨[.Opcode "OPC_CheckFoldableChainNode"], rfl, rfl⟩
  | CheckChainCompatible n => exact ⟨[.Opcode "OPC_CheckChainCompatible", .Num n], rfl, rfl⟩
  | EmitStringInteger v t => exact ⟨[.Opcode "OPC_EmitInteger1", .Name t, .Name v], rfl, rfl⟩
  | EmitConvertToTarget n => exact ⟨[.Opcode "OPC_EmitConvertToTarget", .Num n], rfl, rfl⟩
  | EmitCopyToReg n r => exact ⟨[.Opcode "OPC_EmitCopyToReg", .Num n, .Name r.Name], rfl, rfl⟩
  | PatternMarker a b => exact ⟨[.Comment ("Src: " ++ a), .Comment ("Dst: " ++ b)], rfl, rfl⟩

/-- What `EmitInt` writes does not depend on what was written before. -/
theorem EmitInt_append (Val : Int) (OS : List TableItem) :
    (EmitInt Val OS).2 = OS ++ (EmitInt Val []).2 := by
  by_cases h8 : Val = castInt8 Val
  · simp [EmitInt, ← h8]
  · by_cases h16 : Val = castInt16 Val
    · simp [EmitInt, h8, ← h16]
    · by_cases h32 : Val = castInt32 Val
      · simp [EmitInt, h8, h16, ← h32]
      · simp [EmitInt, h8, h16, h32]

theorem EmitInt_bytes (Val : Int) (OS : List TableItem) :
    ∃ (Note : List TableItem), tableOf Note = [] ∧
      (EmitInt Val OS).2 = OS ++
        ((List.range (EmitInt Val OS).1).map fun i => TableItem.Num (byteAt Val (8 * i))) ++
        Note := by
  by_cases h8 : Val = castInt8 Val
  · refine ⟨[], rfl, ?_⟩
    simp [EmitInt, ← h8, List.range_succ]
  · by_cases h16 : Val = castInt16 Val
    · refine ⟨[.Comment (toString Val ++ " aka 0x" ++ writeHex Val)], rfl, ?_⟩
      simp [EmitInt, h8, ← h16, List.range_succ]
    · by_cases h32 : Val = castInt32 Val
      · refine ⟨[.Comment (toString Val ++ " aka 0x" ++ writeHex Val)], rfl, ?_⟩
        simp [EmitInt, h8, h16, ← h32, List.range_succ]
      · refine ⟨[.Comment (toString Val ++ " aka 0x" ++ writeHex Val)], rfl, ?_⟩
        simp [EmitInt, h8, h16, h32, List.range_succ]

theorem emod_mul_split (v m : Int) (hm : 0 < m) :
    v % (256 * m) = v % 256 + 256 * (v / 256 % m) := by
  have h₁ := Int.emod_add_ediv v 256
  have h₂ := Int.emod_add_ediv (v / 256) m
  have h₃ := Int.emod_nonneg v (show (256 : Int) ≠ 0 by decide)
  have h₄ := Int.emod_lt_of_pos v (show (0 : Int) < 256 by decide)
  have h₅ := Int.emod_nonneg (v / 256) (ne_of_gt hm)
  have h₆ := Int.emod_lt_of_pos (v / 256) hm
  have hv : v = (v % 256 + 256 * (v / 256 % m)) + 256 * m * (v / 256 / m) := by
    linear_combination -h₁ - 256 * h₂
  conv_lhs => rw [hv]
  rw [Int.add_mul_emod_self_left]
  exact Int.emod_eq_of_lt (by nlinarith) (by nlinarith)

theorem ediv_mul_split (v m : Int) (hm : 0 < m) : v / (256 * m) = v / 256 / m := by
  have h₁ := Int.emod_add_ediv v (256 * m)
  have h₂ := Int.emod_add_ediv v 256
  have h₃ := Int.emod_add_ediv (v / 256) m
  have h₄ := emod_mul_split v m hm
  have h₅ : 256 * m * (v / (256 * m)) = 256 * m * (v / 256 / m) := by
    linear_combination h₁ - h₂ - 256 * h₃ - h₄
  exact mul_left_cancel₀ (by positivity) h₅

theorem byteAt_succ (v : Int) (i : Nat) : byteAt v (8 * (i + 1)) = byteAt (v / 256) (8 * i) := by
  simp only [byteAt]
  rw [show 8 * (i + 1) = 8 + 8 * i by ring, pow_add, show (2 : Int) ^ 8 = 256 by norm_num,
    ediv_mul_split v _ (by positivity)]

/-- The bytes that `EmitInt` takes from a value, read as a little-endian
integer, are the value modulo `2 ^ (8 * w)`. -/
theorem decodeLittleEndian_bytes (w : Nat) : ∀ v : Int,
    decodeLittleEndian ((List.range w).map fun i => byteAt v (8 * i)) = v % 2 ^ (8 * w) := by
  induction w with
  | zero => intro v; simp [decodeLittleEndian, Int.emod_one]
  | succ w ih =>
    intro v
    rw [List.range_succ_eq_map, List.map_cons, List.map_map, decodeLittleEndian]
    have : ((fun i => byteAt v (8 * i)) ∘ Nat.succ) = fun i => byteAt (v / 256) (8 * i) := by
      funext i
      exact byteAt_succ v i
    rw [this, ih (v / 256), show 8 * (w + 1) = 8 + 8 * w by ring, pow_add]
    have hb : ((byteAt v (8 * 0) : Nat) : Int) = v % 256 := by
      simp only [byteAt]
      norm_num
      exact Int.emod_nonneg v (show (256 : Int) ≠ 0 by decide)
    rw [hb]
    have := emod_mul_split v (2 ^ (8 * w)) (by positivity)
    norm_num at this ⊢
    rw [this]

theorem EmitInt_decode (Val : Int) (OS : List TableItem)
    (hLo : -2 ^ 63 ≤ Val) (hHi : Val < 2 ^ 63) :
    signExtend (8 * (EmitInt Val OS).1)
      (decodeLittleEndian ((List.range (EmitInt Val OS).1).map fun i => byteAt Val (8 * i))) =
      Val := by
  rw [decodeLittleEndian_bytes]
  by_cases h8 : Val = castInt8 Val
  · have hw : (EmitInt Val OS).1 = 1 := by simp [EmitInt, ← h8]
    simp only [castInt8] at h8
    rw [hw]
    simp only [signExtend]
    norm_num
    omega
  · by_cases h16 : Val = castInt16 Val
    · have hw : (EmitInt Val OS).1 = 2 := by simp [EmitInt, h8, ← h16]
      simp only [castInt16] at h16
      rw [hw]
      simp only [signExtend]
      norm_num
      omega
    · by_cases h32 : Val = castInt32 Val
      · have hw : (EmitInt Val OS).1 = 4 := by simp [EmitInt, h8, h16, ← h32]
        simp only [castInt32] at h32
        rw [hw]
        simp only [signExtend]
        norm_num
        omega
      · have hw : (EmitInt Val OS).1 = 8 := by simp [EmitInt, h8, h16, h32]
        rw [hw]
        simp only [signExtend]
        norm_num
        omega

namespace MatcherTableEmitter

/-- A list of `MoveParent` nodes is written as one opcode each, and each
counts for one byte. -/
theorem EmitMatcherListLoop_chain (Count : Nat) :
    ∀ (Indent Size : Nat) (E : MatcherTableEmitter),
      EmitMatcherListLoop (MatcherNode.chain .MoveParent Count) Indent Size E =
        (Size + Count,
          E.write (List.replicate Count (.Opcode "OPC_MoveParent"))) := by
  induction Count with
  | zero =>
    intro Indent Size E
    simp [MatcherNode.chain, EmitMatcherListLoop, write]
  | succ Count ih =>
    intro Indent Size E
    simp only [MatcherNode.chain, EmitMatcherListLoop, EmitMatcher, ih]
    refine Prod.ext (by simp; omega) ?_
    simp [write, List.replicate_succ]

/-- What the case `Push` of `EmitMatcherList` does: the success branch is
emitted, a message is printed when its size is over 255, and the opcode and
the size are written whatever the size is. -/
theorem EmitMatcherListLoop_Push (Next Failure : MatcherNode) (Indent Size : Nat)
    (E : MatcherTableEmitter) :
    ∃ E₁ : MatcherTableEmitter,
      E₁.OS = (EmitMatcherListLoop Next (Indent + 1) 0 E).2.OS ++
        [.Opcode "OPC_Push", .Num (EmitMatcherListLoop Next (Indent + 1) 0 E).1] ∧
      E₁.Errs = (EmitMatcherListLoop Next (Indent + 1) 0 E).2.Errs ++
        (if (EmitMatcherListLoop Next (Indent + 1) 0 E).1 > 255 then
          ["Tblgen internal error: can't handle predicate this complex yet\n"] else []) ∧
      EmitMatcherListLoop (.Push Next Failure) Indent Size E =
        EmitMatcherListLoop Failure Indent
          (Size + (2 + (EmitMatcherListLoop Next (Indent + 1) 0 E).1)) E₁ := by
  refine ⟨((if (EmitMatcherListLoop Next (Indent + 1) 0 E).1 > 255 then
      { (EmitMatcherListLoop Next (Indent + 1) 0 E).2 with
        Errs := (EmitMatcherListLoop Next (Indent + 1) 0 E).2.Errs ++
          ["Tblgen internal error: can't handle predicate this complex yet\n"] }
      else (EmitMatcherListLoop Next (Indent + 1) 0 E).2).write
        [.Opcode "OPC_Push", .Num (EmitMatcherListLoop Next (Indent + 1) 0 E).1]).write [],
    ?_, ?_, ?_⟩
  · split <;> simp [write]
  · split <;> simp [write]
  · simp only [EmitMatcherListLoop]

end MatcherTableEmitter

/-! ## Strings, unknown directives and termination

What the loop of `ParseDirectiveAscii` does on a list of strings, the fall
through of the directive dispatch, and the tokens that a statement
consumes when no `.include` is in the stream. -/

namespace AsmParser

/-- A name that the dispatch does not compare with falls through to the
warning. -/
theorem ParseDirective_unknown (fuel : Nat) (IDVal : String) (IDLoc : SMLoc) (P : AsmParser)
    (h : IDVal ∉ directiveNames) :
    ParseDirective fuel IDVal IDLoc P =
      .ok () (P.Warning IDLoc "ignoring directive for now").EatToEndOfStatement := by
  simp only [directiveNames, List.mem_cons, List.mem_singleton, not_or, List.mem_nil_iff,
    not_false_eq_true, and_true] at h
  unfold ParseDirective
  simp only [h, if_false, or_self]

/-- A pass of the loop of `Run` over a statement that succeeds keeps the
error flag. -/
theorem RunLoop_ok (fuel : Nat) (HadError : Bool) (P Q : AsmParser)
    (hk : P.isNot .Eof = true) (h : ParseStatement fuel P = .ok () Q) :
    RunLoop (fuel + 1) HadError P = RunLoop fuel HadError Q := by
  rw [RunLoop]
  simp only [hk, if_true, h]

/-- The loop of `EatToEndOfStatement` over tokens that do not end the
statement stops at the token that does. -/
theorem eatLoop_append (Toks : List AsmToken) (Eol : AsmToken) (Rest : List AsmToken)
    (hT : ∀ T ∈ Toks, T.Kind ≠ .EndOfStatement ∧ T.Kind ≠ .Eof)
    (hE : Eol.Kind = .EndOfStatement) : eatLoop (Toks ++ Eol :: Rest) = Eol :: Rest := by
  induction Toks with
  | nil => simp [eatLoop, hE]
  | cons T Toks ih =>
    have h := hT T (List.mem_cons_self _ _)
    simp only [List.cons_append, eatLoop, h.1, h.2, ne_eq, not_false_eq_true, and_self, if_true]
    exact ih (fun T hT' => hT T (List.mem_cons_of_mem _ hT'))

/-- `EatToEndOfStatement` consumes the tokens through the end of the
statement. -/
theorem EatToEndOfStatement_append (P : AsmParser) (Toks : List AsmToken) (Eol : AsmToken)
    (Rest : List AsmToken) (hL : P.Lexer = Toks ++ Eol :: Rest)
    (hT : ∀ T ∈ Toks, T.Kind ≠ .EndOfStatement ∧ T.Kind ≠ .Eof)
    (hE : Eol.Kind = .EndOfStatement) : P.EatToEndOfStatement.Lexer = Rest := by
  unfold EatToEndOfStatement
  rw [hL, eatLoop_append Toks Eol Rest hT hE]
  simp [AsmParser.is, getKind, getTok, hE, Lex]

theorem EatToEndOfStatement_Ctx (P : AsmParser) : P.EatToEndOfStatement.Ctx = P.Ctx := by
  unfold EatToEndOfStatement
  simp only
  split
  · unfold Lex
    split
    · rfl
    · split <;> rfl
  · rfl

/-- The loop of `ParseDirectiveAscii` over string operands separated by
commas: one call with the contents of each operand, followed for `.asciz` by
one call with a zero byte. -/
theorem ParseDirectiveAsciiLoop_strings (Z : Bool) (Toks Ops : List AsmToken)
    (hList : AsmToken.IsList (fun T => T.Kind = .String) Toks Ops) :
    ∀ (fuel : Nat) (P : AsmParser) (Eol : AsmToken) (Rest : List AsmToken),
      P.Lexer = Toks ++ Eol :: Rest → Eol.Kind = .EndOfStatement → Ops.length ≤ fuel →
      ∃ Q, ParseDirectiveAsciiLoop fuel Z P = .ok () Q ∧ Q.Lexer = Eol :: Rest ∧
        Q.Out.Calls = P.Out.Calls ++
          Ops.flatMap (fun T => StreamerCall.EmitBytes (stripQuotes T.Str) ::
            (if Z then [StreamerCall.EmitBytes (String.mk [Char.ofNat 0])] else [])) ∧
        Q.Diags = P.Diags := by
  induction hList with
  | one T hT =>
    intro fuel P Eol Rest hL hE hf
    obtain ⟨f, rfl⟩ : ∃ f, fuel = f + 1 := ⟨fuel - 1, by simp at hf; omega⟩
    have hL' : P.Lexer = T :: Eol :: Rest := by simpa using hL
    have hk := getKind_cons P T _ hL'
    have hLx : P.Lex.Lexer = Eol :: Rest := Lex_cons P T _ hL' (by simp [hT])
    have hk' := (getKind_cons P.Lex Eol Rest hLx).1
    cases Z
    · refine ⟨P.Lex.emit (.EmitBytes (stripQuotes T.Str)), ?_, ?_, ?_, ?_⟩
      · unfold ParseDirectiveAsciiLoop
        simp [AsmParser.isNot, AsmParser.is, hk.1, hk.2, hT, hk', hE]
      · simpa using hLx
      · simp [Lex_Out]
      · simp [Lex_Diags]
    · refine ⟨(P.Lex.emit (.EmitBytes (stripQuotes T.Str))).emit
          (.EmitBytes (String.mk [Char.ofNat 0])), ?_, ?_, ?_, ?_⟩
      · unfold ParseDirectiveAsciiLoop
        simp [AsmParser.isNot, AsmParser.is, hk.1, hk.2, hT, hk', hE]
      · simpa using hLx
      · simp [Lex_Out]
      · simp [Lex_Diags]
  | more T C Toks Ops hT hC _ ih =>
    intro fuel P Eol Rest hL hE hf
    obtain ⟨f, rfl⟩ : ∃ f, fuel = f + 1 := ⟨fuel - 1, by simp at hf; omega⟩
    have hL' : P.Lexer = T :: C :: (Toks ++ Eol :: Rest) := by simpa using hL
    have hk := getKind_cons P T _ hL'
    have hLx : P.Lex.Lexer = C :: (Toks ++ Eol :: Rest) := Lex_cons P T _ hL' (by simp [hT])
    have hk' := (getKind_cons P.Lex C _ hLx).1
    have hLxx : P.Lex.Lex.Lexer = Toks ++ Eol :: Rest := Lex_cons P.Lex C _ hLx (by simp [hC])
    cases Z
    · obtain ⟨Q, hQ, hQL, hQC, hQD⟩ := ih f
        ((P.Lex.emit (.EmitBytes (stripQuotes T.Str))).Lex) Eol Rest
        (by simpa using hLxx) hE (by simp at hf ⊢; omega)
      refine ⟨Q, ?_, hQL, ?_, ?_⟩
      · unfold ParseDirectiveAsciiLoop
        simp only [AsmParser.isNot, AsmParser.is, hk.1, hk.2, hT]
        simp [hk', hC]
        simpa using hQ
      · rw [hQC]
        simp [Lex_Out]
      · rw [hQD]
        simp [Lex_Diags]
    · obtain ⟨Q, hQ, hQL, hQC, hQD⟩ := ih f
        (((P.Lex.emit (.EmitBytes (stripQuotes T.Str))).emit
          (.EmitBytes (String.mk [Char.ofNat 0]))).Lex) Eol Rest
        (by simpa using hLxx) hE (by simp at hf ⊢; omega)
      refine ⟨Q, ?_, hQL, ?_, ?_⟩
      · unfold ParseDirectiveAsciiLoop
        simp only [AsmParser.isNot, AsmParser.is, hk.1, hk.2, hT]
        simp [hk', hC]
        simpa using hQ
      · rw [hQC]
        simp [Lex_Out]
      · rw [hQD]
        simp [Lex_Diags]

theorem flatMap_single {α β : Type} (f : α → β) (l : List α) :
    l.flatMap (fun x => [f x]) = l.map f := by
  induction l with
  | nil => rfl
  | cons a l ih => simp [List.flatMap_cons, ih]

theorem flatMap_pair_length {α β : Type} (f g : α → β) (l : List α) :
    (l.flatMap (fun x => [f x, g x])).length = 2 * l.length := by
  induction l with
  | nil => rfl
  | cons a l ih =>
    simp only [List.flatMap_cons, List.length_append, ih, List.length_cons, List.length_nil]
    omega

end AsmParser

theorem AsmToken.NoIncludeDirective.noIncludeSuffix {L L' : List AsmToken}
    (h : AsmToken.NoIncludeDirective L) (hs : L' <:+ L) : AsmToken.NoIncludeDirective L' :=
  fun T hT => h T (hs.subset hT)

theorem Result.Fine.fineConsumes {α : Type} {r : Result α} {P : AsmParser} {E E' : Prop}
    (h : r.Fine P E') (he : E → E') : r.Consumes P E := by
  cases r with
  | ok a Q => exact Frame.lexer h
  | error Q => exact Frame.lexer h
  | outOfFuel => exact fun e => h (he e)

theorem Result.Consumes.consumesMono {α : Type} {r : Result α} {P Q : AsmParser} {E E' : Prop}
    (h : r.Consumes Q E') (hs : Q.Lexer <:+ P.Lexer) (he : E → E') : r.Consumes P E := by
  cases r with
  | ok a R => exact List.IsSuffix.trans h hs
  | error R => exact List.IsSuffix.trans h hs
  | outOfFuel => exact fun e => h (he e)

theorem Result.Consumes.consumesIte {α : Type} {c : Prop} [Decidable c] {a b : Result α}
    {P : AsmParser} {E : Prop} (ha : c → a.Consumes P E) (hb : ¬ c → b.Consumes P E) :
    (if c then a else b).Consumes P E := by
  split
  · exact ha ‹_›
  · exact hb ‹_›

theorem Result.Consumes.consumesOk {α : Type} {a : α} {P Q : AsmParser} {E : Prop}
    (h : Q.Lexer <:+ P.Lexer) : (Result.ok a Q).Consumes P E := h

theorem Result.andThen_ok_inv {α β : Type} {r : Result α} {f : α → β} {b : β}
    {Q : AsmParser}
    (h : (r.andThen fun a R => .ok (f a) R) = .ok b Q) : ∃ a, r = .ok a Q := by
  cases r with
  | ok a R =>
    simp only [Result.andThen, Result.ok.injEq] at h
    exact ⟨a, by rw [h.2]⟩
  | error R => simp [Result.andThen] at h
  | outOfFuel => simp [Result.andThen] at h

theorem Result.Consumes.stmtConsumes {r : Result Unit} {P Q : AsmParser} {E : Prop}
    {fuel : Nat} (h : r.Consumes Q E) (hs : Q.Lexer <:+ P.Lexer)
    (hlt : Q.Lexer.length < P.Lexer.length) (he : 3 * P.Lexer.length + 1 ≤ fuel → E) :
    r.StmtConsumes P fuel := by
  cases r with
  | ok a R =>
    have h' : R.Lexer <:+ Q.Lexer := h
    have := h'.length_le
    exact ⟨h'.trans hs, by omega⟩
  | error R => exact List.IsSuffix.trans h hs
  | outOfFuel => exact fun e => h (he e)

namespace AsmParser

theorem ParseAssignment_consumes (fuel : Nat) (Name : String) (IsDotSet : Bool)
    (P : AsmParser) :
    (ParseAssignment fuel Name IsDotSet P).Consumes P (3 * P.Lexer.length + 2 ≤ fuel) := by
  unfold ParseAssignment
  have h := ParseRelocatableExpression_fine fuel P
  cases hr : ParseRelocatableExpression fuel P with
  | outOfFuel =>
    rw [hr] at h
    exact h
  | error Q =>
    rw [hr] at h
    exact Frame.lexer h
  | ok Value Q =>
    rw [hr] at h
    have hQ : Frame P Q := h
    simp only [Result.andThen]
    split
    · exact (hQ.TokError _).lexer
    · split
      · exact (hQ.Lex.Error _ _).lexer
      · split
        · exact (hQ.Lex.Error _ _).lexer
        · exact hQ.Lex.lexer

theorem ParseDirectiveSet_consumes (fuel : Nat) (P : AsmParser) :
    (ParseDirectiveSet fuel P).Consumes P (3 * P.Lexer.length + 3 ≤ fuel) := by
  unfold ParseDirectiveSet
  split
  · exact (frame_TokError P _).lexer
  · simp only
    split
    · exact ((frame_Lex P).TokError _).lexer
    · have hf : Frame P P.Lex.Lex := (frame_Lex P).Lex
      have := hf.length_le
      exact Result.Consumes.consumesMono (ParseAssignment_consumes fuel _ _ _) hf.lexer
        (fun _ => by omega)

theorem ParseDirective_consumes (fuel : Nat) (IDVal : String) (IDLoc : SMLoc) (P : AsmParser)
    (hID : IDVal ≠ ".include") :
    (ParseDirective fuel IDVal IDLoc P).Consumes P (3 * P.Lexer.length + 3 ≤ fuel) := by
  unfold ParseDirective
  with_reducible repeat' first
    | refine Result.Consumes.consumesIte (fun _ => ?_) (fun _ => ?_)
    | exact absurd ‹IDVal = ".include"› hID
    | exact (ParseDirectiveSectionSwitch_fine _ _ _ _).fineConsumes id
    | exact (ParseDirectiveSymbolAttribute_fine _ _ _).fineConsumes id
    | exact (ParseDirectiveAlign_fine _ _ _ _).fineConsumes id
    | exact (ParseDirectiveValue_fine _ _ _).fineConsumes id
    | exact (ParseDirectiveAscii_fine _ _ _).fineConsumes id
    | exact (ParseDirectiveDarwinSection_fine _ _).fineConsumes id
    | exact ParseDirectiveSet_consumes _ _
    | exact (ParseDirectiveOrg_fine _ _).fineConsumes id
    | exact (ParseDirectiveFill_fine _ _).fineConsumes id
    | exact (ParseDirectiveSpace_fine _ _).fineConsumes id
    | exact (ParseDirectiveComm_fine _ _ _).fineConsumes id
    | exact (ParseDirectiveDarwinZerofill_fine _ _).fineConsumes id
    | exact (ParseDirectiveDarwinSymbolDesc_fine _ _).fineConsumes id
    | exact (ParseDirectiveDarwinLsym_fine _ _).fineConsumes id
    | exact (ParseDirectiveDarwinSubsectionsViaSymbols_fine _ _).fineConsumes id
    | exact (ParseDirectiveAbort_fine _ _).fineConsumes id
    | exact (ParseDirectiveDarwinDumpOrLoad_fine _ _ _ _).fineConsumes id
    | exact Result.Consumes.consumesOk ((frame_Warning P _ _).EatToEndOfStatement).lexer

theorem getTok_mem (P : AsmParser) (h : P.getKind ≠ .Eof) : P.getTok ∈ P.Lexer := by
  unfold getKind getTok at h
  unfold getTok
  cases hL : P.Lexer with
  | nil => simp [hL] at h
  | cons T Rest => simp

theorem ParseStatement_consumes (fuel : Nat) (P : AsmParser)
    (hN : AsmToken.NoIncludeDirective P.Lexer) :
    (ParseStatement fuel P).StmtConsumes P fuel := by
  induction fuel generalizing P with
  | zero => simp [ParseStatement, Result.StmtConsumes]
  | succ fuel ih =>
    unfold ParseStatement
    split
    · rename_i hk
      have hl := P.Lex_length (by rw [hk]; decide)
      exact ⟨P.Lex_suffix, by omega⟩
    · rename_i hk
      have hl := P.Lex_length (by rw [hk]; decide)
      have h2 := (frame_Lex P.Lex).length_le
      have hID : P.getTok.Str ≠ ".include" :=
        hN _ (getTok_mem P (by rw [hk]; decide)) hk
      simp only
      split
      · split
        · exact ((frame_Lex P).Lex.Error _ _).lexer
        · split
          · exact ((frame_Lex P).Lex.Error _ _).lexer
          · have hsuf : (P.Lex.Lex.EmitLabel P.getTok.Str).Lexer <:+ P.Lexer :=
              (frame_Lex P).Lex.lexer
            have := ih (P.Lex.Lex.EmitLabel P.getTok.Str) (hN.noIncludeSuffix hsuf)
            have hlen : (P.Lex.Lex.EmitLabel P.getTok.Str).Lexer.length
                = P.Lex.Lex.Lexer.length := rfl
            cases hr : ParseStatement fuel (P.Lex.Lex.EmitLabel P.getTok.Str) with
            | ok a Q =>
              rw [hr] at this
              exact ⟨this.1.trans hsuf, by have := this.2; omega⟩
            | error Q =>
              rw [hr] at this
              exact List.IsSuffix.trans this hsuf
            | outOfFuel =>
              rw [hr] at this
              exact fun e => this (by rw [hlen]; omega)
      · exact Result.Consumes.stmtConsumes (ParseAssignment_consumes fuel _ _ _)
          (frame_Lex P).Lex.lexer (by omega) (fun _ => by omega)
      · split
        · exact Result.Consumes.stmtConsumes (ParseDirective_consumes fuel _ _ _ hID)
            (frame_Lex P).lexer (by omega) (fun _ => by omega)
        · exact Result.Consumes.stmtConsumes
            ((ParseInstructionStatement_fine _ _ True).fineConsumes id) (frame_Lex P).lexer
            (by omega) (fun _ => trivial)
    · exact (frame_TokError P _).lexer

/-- A pass of the loop of `Run` from a state that is not at `Eof` leaves
fewer tokens, whether the statement is accepted or skipped after an error. -/
theorem RunLoop_pass (fuel : Nat) (P : AsmParser) (hN : AsmToken.NoIncludeDirective P.Lexer)
    (hk : P.getKind ≠ .Eof) :
    (∀ Q, ParseStatement fuel P = .ok () Q →
      Q.Lexer <:+ P.Lexer ∧ Q.Lexer.length < P.Lexer.length) ∧
    (∀ Q, ParseStatement fuel P = .error Q →
      Q.EatToEndOfStatement.Lexer <:+ P.Lexer ∧
        Q.EatToEndOfStatement.Lexer.length < P.Lexer.length) := by
  have hS := ParseStatement_consumes fuel P hN
  constructor
  · intro Q hr
    rw [hr] at hS
    exact hS
  · intro Q hr
    rw [hr] at hS
    have hsuf : Q.Lexer <:+ P.Lexer := hS
    have hle := hsuf.length_le
    have hE := (frame_EatToEndOfStatement Q).lexer
    refine ⟨hE.trans hsuf, ?_⟩
    have hE' := hE.length_le
    by_cases hQ : Q.getKind = .Eof
    · have hne : Q.Lexer.length ≠ P.Lexer.length := by
        intro hlen
        exact hk ((getKind_eq_of_Lexer_eq (hsuf.eq_of_length hlen)).symm.trans hQ)
      omega
    · have := EatToEndOfStatement_length_lt Q hQ
      omega

/-- The loop of `Run` returns on a stream without `.include` when the fuel is
at least `3 * length + 2`. -/
theorem RunLoop_terminates (fuel : Nat) :
    ∀ (HadError : Bool) (P : AsmParser), AsmToken.NoIncludeDirective P.Lexer →
      3 * P.Lexer.length + 2 ≤ fuel →
      ∃ b Q, RunLoop fuel HadError P = .ok b Q ∧ Q.getKind = .Eof ∧ Q.Lexer <:+ P.Lexer := by
  induction fuel with
  | zero =>
    intro HadError P _ hf
    omega
  | succ fuel ih =>
    intro HadError P hN hf
    unfold RunLoop
    split
    · rename_i hk
      have hk' : P.getKind ≠ .Eof := by simpa [isNot] using hk
      have hP := RunLoop_pass fuel P hN hk'
      have hS := ParseStatement_consumes fuel P hN
      split
      · rename_i u Q hr
        obtain ⟨hsuf, hlt⟩ := hP.1 Q hr
        obtain ⟨b, R, hR, hE, hRs⟩ := ih HadError Q (hN.noIncludeSuffix hsuf) (by omega)
        exact ⟨b, R, hR, hE, hRs.trans hsuf⟩
      · rename_i Q hr
        obtain ⟨hsuf, hlt⟩ := hP.2 Q hr
        obtain ⟨b, R, hR, hE, hRs⟩ :=
          ih true Q.EatToEndOfStatement (hN.noIncludeSuffix hsuf) (by omega)
        exact ⟨b, R, hR, hE, hRs.trans hsuf⟩
      · rename_i hr
        rw [hr] at hS
        exact absurd (by omega) hS
    · rename_i hk
      exact ⟨HadError, P, rfl, by simpa [isNot] using hk, List.suffix_refl _⟩

/-- A primary expression that parses consumed a token. -/
theorem ParsePrimaryExpr_consumes {fuel : Nat} {P Q : AsmParser} {E : AsmExpr}
    (h : ParsePrimaryExpr fuel P = .ok E Q) :
    Q.Lexer <:+ P.Lexer ∧ Q.Lexer.length < P.Lexer.length := by
  have hF := (expr_fine fuel).1 P
  rw [h] at hF
  have hF : Frame P Q := hF
  refine ⟨hF.lexer, ?_⟩
  cases fuel with
  | zero => simp [ParsePrimaryExpr] at h
  | succ fuel =>
    have hsub : ∀ E', ParsePrimaryExpr fuel P.Lex = .ok E' Q → P.getKind ≠ .Eof →
        Q.Lexer.length < P.Lexer.length := by
      intro E' h' hk
      have hF' := (expr_fine fuel).1 P.Lex
      rw [h'] at hF'
      have := (Frame.lexer hF').length_le
      have := P.Lex_length hk
      omega
    unfold ParsePrimaryExpr at h
    split at h
    · rename_i hk
      obtain ⟨E', h'⟩ := Result.andThen_ok_inv h
      exact hsub E' h' (by rw [hk]; decide)
    · rename_i hk
      simp only [Result.ok.injEq] at h
      rw [← h.2]
      have := Lex_length_of_Lexer_eq (markUse_Lexer P P.getTok.Str) (by rw [hk]; decide)
      omega
    · rename_i hk
      simp only [Result.ok.injEq] at h
      rw [← h.2]
      have := P.Lex_length (by rw [hk]; decide)
      omega
    · rename_i hk
      have hF' := (expr_fine fuel).2.1 P.Lex
      rw [h] at hF'
      have := (Frame.lexer hF').length_le
      have := P.Lex_length (by rw [hk]; decide)
      omega
    · rename_i hk
      obtain ⟨E', h'⟩ := Result.andThen_ok_inv h
      exact hsub E' h' (by rw [hk]; decide)
    · rename_i hk
      obtain ⟨E', h'⟩ := Result.andThen_ok_inv h
      exact hsub E' h' (by rw [hk]; decide)
    · rename_i hk
      obtain ⟨E', h'⟩ := Result.andThen_ok_inv h
      exact hsub E' h' (by rw [hk]; decide)
    · cases h

end AsmParser

/-! ## Interning

The maps of the emitter give a key the position of its first occurrence. -/

theorem foldl_addNew_prefix {κ : Type} [DecidableEq κ] (Keys : List κ) : ∀ (Vec : List κ),
    Vec <+: Keys.foldl (fun Seen k => if k ∈ Seen then Seen else Seen ++ [k]) Vec := by
  induction Keys with
  | nil => exact fun Vec => List.prefix_refl _
  | cons k Keys ih =>
    intro Vec
    simp only [List.foldl_cons]
    split
    · exact ih Vec
    · exact (List.prefix_append Vec [k]).trans (ih _)

theorem foldl_addNew_nodup {κ : Type} [DecidableEq κ]
    (Keys : List κ) : ∀ (Vec : List κ), Vec.Nodup →
    (Keys.foldl (fun Seen k => if k ∈ Seen then Seen else Seen ++ [k]) Vec).Nodup := by
  induction Keys with
  | nil => exact fun Vec h => h
  | cons k Keys ih =>
    intro Vec h
    simp only [List.foldl_cons]
    split
    · exact ih Vec h
    · rename_i hk
      refine ih _ ?_
      rw [List.nodup_append]
      exact ⟨h, List.nodup_singleton k, by
        intro a ha hb
        rw [List.mem_singleton] at hb
        exact hk (hb ▸ ha)⟩

theorem foldl_addNew_mem {κ : Type} [DecidableEq κ] (Keys : List κ) : ∀ (Vec : List κ) (a : κ),
    a ∈ Keys.foldl (fun Seen k => if k ∈ Seen then Seen else Seen ++ [k]) Vec ↔
      a ∈ Vec ∨ a ∈ Keys := by
  induction Keys with
  | nil => simp
  | cons k Keys ih =>
    intro Vec a
    simp only [List.foldl_cons]
    split
    · rename_i hk
      rw [ih, List.mem_cons]
      constructor
      · rintro (h | h)
        · exact Or.inl h
        · exact Or.inr (Or.inr h)
      · rintro (h | h | h)
        · exact Or.inl h
        · exact Or.inl (h ▸ hk)
        · exact Or.inr h
    · rw [ih, List.mem_append, List.mem_singleton, List.mem_cons]
      tauto

theorem firstOccurrences_nodup {κ : Type} [DecidableEq κ]
    (Keys : List κ) : (firstOccurrences Keys).Nodup :=
  foldl_addNew_nodup Keys [] List.nodup_nil

theorem mem_firstOccurrences {κ : Type} [DecidableEq κ] (Keys : List κ) (a : κ) :
    a ∈ firstOccurrences Keys ↔ a ∈ Keys := by
  simp [firstOccurrences, foldl_addNew_mem]

theorem Interns.internsEmpty {κ : Type} [DecidableEq κ] : Interns (fun _ : κ => 0) [] :=
  ⟨List.nodup_nil, fun _ => by simp⟩

/-- A key that the map gives 0 is not in the vector, and is interned at
the end of the vector. -/
theorem Interns.internsAdd {κ : Type} [DecidableEq κ]
    {Map : κ → Nat} {Vec : List κ} (h : Interns Map Vec) (k : κ)
    (hk : Map k = 0) :
    k ∉ Vec ∧ Interns (Function.update Map k (Vec.length + 1)) (Vec ++ [k]) := by
  have hnot : k ∉ Vec := by
    intro hm
    have := h.2 k
    rw [if_pos hm, hk] at this
    omega
  refine ⟨hnot, ?_, ?_⟩
  · rw [List.nodup_append]
    exact ⟨h.1, List.nodup_singleton k, by
      intro a ha hb
      rw [List.mem_singleton] at hb
      exact hnot (hb ▸ ha)⟩
  · intro k'
    by_cases hkk : k' = k
    · subst hkk
      rw [Function.update_same, if_pos (by simp), List.indexOf_append_of_not_mem hnot]
      simp
    · rw [Function.update_noteq hkk, h.2 k']
      by_cases hm : k' ∈ Vec
      · rw [if_pos hm, if_pos (List.mem_append_left _ hm), List.indexOf_append_of_mem hm]
      · rw [if_neg hm, if_neg (by simp [hm, hkk])]

/-- A key that the map does not give 0 is in the vector, at the position that
the map gives less one. -/
theorem Interns.internsFound {κ : Type} [DecidableEq κ]
    {Map : κ → Nat} {Vec : List κ} (h : Interns Map Vec) (k : κ)
    (hk : Map k ≠ 0) : k ∈ Vec ∧ Map k - 1 = Vec.indexOf k := by
  have := h.2 k
  by_cases hm : k ∈ Vec
  · rw [if_pos hm] at this
    exact ⟨hm, by omega⟩
  · rw [if_neg hm] at this
    exact absurd this hk

theorem indexOf_prefix {κ : Type} [DecidableEq κ]
    {Vec Vec' : List κ} (h : Vec <+: Vec') {k : κ} (hk : k ∈ Vec) :
    Vec'.indexOf k = Vec.indexOf k := by
  obtain ⟨T, rfl⟩ := h
  exact List.indexOf_append_of_mem hk

/-- A method that interns its key in the pair of a map and a vector of the
emitter, called on a sequence of keys: the vector becomes the old one
followed by the new keys in the order of their first occurrence, and each
number returned is the position of its key in the final vector. -/
theorem MatcherTableEmitter.calls_interned {κ : Type} [DecidableEq κ]
    (get : MatcherTableEmitter → κ → Nat × MatcherTableEmitter)
    (Map : MatcherTableEmitter → κ → Nat) (Vec : MatcherTableEmitter → List κ)
    (hget : ∀ E k, Map (get E k).2 =
        (if Map E k = 0 then Function.update (Map E) k ((Vec E).length + 1) else Map E) ∧
      Vec (get E k).2 = (if Map E k = 0 then Vec E ++ [k] else Vec E) ∧
      (get E k).1 = (if Map E k = 0 then (Vec E).length else Map E k - 1))
    (Keys : List κ) : ∀ (E : MatcherTableEmitter), Interns (Map E) (Vec E) →
      Interns (Map (calls get E Keys).2) (Vec (calls get E Keys).2) ∧
      Vec (calls get E Keys).2 =
        Keys.foldl (fun Seen k => if k ∈ Seen then Seen else Seen ++ [k]) (Vec E) ∧
      (calls get E Keys).1 = Keys.map fun k => (Vec (calls get E Keys).2).indexOf k := by
  induction Keys with
  | nil => exact fun E h => ⟨h, rfl, rfl⟩
  | cons k Keys ih =>
    intro E h
    obtain ⟨hM, hV, hI⟩ := hget E k
    have hstep : Interns (Map (get E k).2) (Vec (get E k).2) ∧
        Vec (get E k).2 = (if k ∈ Vec E then Vec E else Vec E ++ [k]) ∧
        k ∈ Vec (get E k).2 ∧ (get E k).1 = (Vec (get E k).2).indexOf k := by
      by_cases hk : Map E k = 0
      · obtain ⟨hnot, hadd⟩ := h.internsAdd k hk
        rw [if_pos hk] at hM hV hI
        rw [hM, hV, hI, if_neg hnot, List.indexOf_append_of_not_mem hnot]
        exact ⟨hadd, rfl, by simp, by simp⟩
      · obtain ⟨hm, hid⟩ := h.internsFound k hk
        rw [if_neg hk] at hM hV hI
        rw [hM, hV, hI, if_pos hm]
        exact ⟨h, rfl, hm, hid⟩
    obtain ⟨hS, hSV, hSm, hSI⟩ := hstep
    obtain ⟨h₁, h₂, h₃⟩ := ih (get E k).2 hS
    have hpre : Vec (get E k).2 <+: Vec (calls get (get E k).2 Keys).2 := by
      rw [h₂]
      exact foldl_addNew_prefix Keys _
    refine ⟨h₁, ?_, ?_⟩
    · simp only [calls, List.foldl_cons]
      rw [h₂, hSV]
    · simp only [calls, List.map_cons]
      rw [h₃, hSI, indexOf_prefix hpre hSm]

/-- One interning step, from the three equations of a method: the pair stays
interned, the vector is extended, and the number returned is the position of
the key in the new vector. -/
theorem Interns.internsStep {κ : Type} [DecidableEq κ] {Map Map' : κ → Nat} {Vec Vec' : List κ}
    {k : κ} {id : Nat} (h : Interns Map Vec)
    (hM : Map' = (if Map k = 0 then Function.update Map k (Vec.length + 1) else Map))
    (hV : Vec' = (if Map k = 0 then Vec ++ [k] else Vec))
    (hI : id = (if Map k = 0 then Vec.length else Map k - 1)) :
    Interns Map' Vec' ∧ Vec <+: Vec' ∧ k ∈ Vec' ∧ id = Vec'.indexOf k ∧
      Vec'[id]? = some k := by
  by_cases hk : Map k = 0
  · obtain ⟨hnot, hadd⟩ := h.internsAdd k hk
    rw [if_pos hk] at hM hV hI
    subst hM hV hI
    refine ⟨hadd, List.prefix_append _ _, by simp, ?_, ?_⟩
    · rw [List.indexOf_append_of_not_mem hnot]
      simp
    · simp
  · obtain ⟨hm, hid⟩ := h.internsFound k hk
    rw [if_neg hk] at hM hV hI
    subst hM hV hI
    refine ⟨h, List.prefix_refl _, hm, hid, ?_⟩
    rw [hid]
    exact List.getElem?_indexOf hm

namespace MatcherTableEmitter

theorem Extends.extendsRefl (E : MatcherTableEmitter) : Extends E E :=
  ⟨List.prefix_refl _, List.prefix_refl _, List.prefix_refl _, List.prefix_refl _⟩

theorem Extends.extendsTrans {E F G : MatcherTableEmitter} (h₁ : Extends E F)
    (h₂ : Extends F G) :
    Extends E G :=
  ⟨h₁.node.trans h₂.node, h₁.pattern.trans h₂.pattern, h₁.complex.trans h₂.complex,
    h₁.xform.trans h₂.xform⟩

theorem new_interned : MatcherTableEmitter.new.Interned :=
  ⟨Interns.internsEmpty, Interns.internsEmpty, Interns.internsEmpty, Interns.internsEmpty⟩

theorem getNodePredicate_get (E : MatcherTableEmitter) (k : String) :
    (E.getNodePredicate k).2.NodePredicateMap =
        (if E.NodePredicateMap k = 0 then
          Function.update E.NodePredicateMap k (E.NodePredicates.length + 1)
        else E.NodePredicateMap) ∧
      (E.getNodePredicate k).2.NodePredicates =
        (if E.NodePredicateMap k = 0 then E.NodePredicates ++ [k] else E.NodePredicates) ∧
      (E.getNodePredicate k).1 =
        (if E.NodePredicateMap k = 0 then E.NodePredicates.length
        else E.NodePredicateMap k - 1) := by
  unfold getNodePredicate
  by_cases h : E.NodePredicateMap k = 0 <;> simp [h]

theorem getPatternPredicate_get (E : MatcherTableEmitter) (k : String) :
    (E.getPatternPredicate k).2.PatternPredicateMap =
        (if E.PatternPredicateMap k = 0 then
          Function.update E.PatternPredicateMap k (E.PatternPredicates.length + 1)
        else E.PatternPredicateMap) ∧
      (E.getPatternPredicate k).2.PatternPredicates =
        (if E.PatternPredicateMap k = 0 then E.PatternPredicates ++ [k]
        else E.PatternPredicates) ∧
      (E.getPatternPredicate k).1 =
        (if E.PatternPredicateMap k = 0 then E.PatternPredicates.length
        else E.PatternPredicateMap k - 1) := by
  unfold getPatternPredicate
  by_cases h : E.PatternPredicateMap k = 0 <;> simp [h]

theorem getComplexPat_get (E : MatcherTableEmitter) (k : ComplexPattern) :
    (E.getComplexPat k).2.ComplexPatternMap =
        (if E.ComplexPatternMap k = 0 then
          Function.update E.ComplexPatternMap k (E.ComplexPatterns.length + 1)
        else E.ComplexPatternMap) ∧
      (E.getComplexPat k).2.ComplexPatterns =
        (if E.ComplexPatternMap k = 0 then E.ComplexPatterns ++ [k] else E.ComplexPatterns) ∧
      (E.getComplexPat k).1 =
        (if E.ComplexPatternMap k = 0 then E.ComplexPatterns.length
        else E.ComplexPatternMap k - 1) := by
  unfold getComplexPat
  by_cases h : E.ComplexPatternMap k = 0 <;> simp [h]

theorem getNodeXFormID_get (E : MatcherTableEmitter) (k : Record) :
    (E.getNodeXFormID k).2.NodeXFormMap =
        (if E.NodeXFormMap k = 0 then
          Function.update E.NodeXFormMap k (E.NodeXForms.length + 1)
        else E.NodeXFormMap) ∧
      (E.getNodeXFormID k).2.NodeXForms =
        (if E.NodeXFormMap k = 0 then E.NodeXForms ++ [k] else E.NodeXForms) ∧
      (E.getNodeXFormID k).1 =
        (if E.NodeXFormMap k = 0 then E.NodeXForms.length else E.NodeXFormMap k - 1) := by
  unfold getNodeXFormID
  by_cases h : E.NodeXFormMap k = 0 <;> simp [h]

theorem getNodePredicate_interned (E : MatcherTableEmitter) (k : String) (h : E.Interned) :
    (E.getNodePredicate k).2.Interned ∧ Extends E (E.getNodePredicate k).2 ∧
      (E.getNodePredicate k).2.NodePredicates[(E.getNodePredicate k).1]? = some k := by
  obtain ⟨hM, hV, hI⟩ := getNodePredicate_get E k
  obtain ⟨h₁, h₂, -, -, h₅⟩ := Interns.internsStep h.node hM hV hI
  have hP : (E.getNodePredicate k).2.PatternPredicateMap = E.PatternPredicateMap ∧
      (E.getNodePredicate k).2.PatternPredicates = E.PatternPredicates ∧
      (E.getNodePredicate k).2.ComplexPatternMap = E.ComplexPatternMap ∧
      (E.getNodePredicate k).2.ComplexPatterns = E.ComplexPatterns ∧
      (E.getNodePredicate k).2.NodeXFormMap = E.NodeXFormMap ∧
      (E.getNodePredicate k).2.NodeXForms = E.NodeXForms := by
    unfold getNodePredicate
    simp only
    split <;> exact ⟨rfl, rfl, rfl, rfl, rfl, rfl⟩
  obtain ⟨e₁, e₂, e₃, e₄, e₅, e₆⟩ := hP
  refine ⟨⟨h₁, ?_, ?_, ?_⟩, ⟨h₂, ?_, ?_, ?_⟩, h₅⟩
  · rw [e₁, e₂]; exact h.pattern
  · rw [e₃, e₄]; exact h.complex
  · rw [e₅, e₆]; exact h.xform
  · rw [e₂]
  · rw [e₄]
  · rw [e₆]

theorem getPatternPredicate_interned (E : MatcherTableEmitter) (k : String)
    (h : E.Interned) :
    (E.getPatternPredicate k).2.Interned ∧ Extends E (E.getPatternPredicate k).2 ∧
      (E.getPatternPredicate k).2.PatternPredicates[(E.getPatternPredicate k).1]? =
        some k := by
  obtain ⟨hM, hV, hI⟩ := getPatternPredicate_get E k
  obtain ⟨h₁, h₂, -, -, h₅⟩ := Interns.internsStep h.pattern hM hV hI
  have hP : (E.getPatternPredicate k).2.NodePredicateMap = E.NodePredicateMap ∧
      (E.getPatternPredicate k).2.NodePredicates = E.NodePredicates ∧
      (E.getPatternPredicate k).2.ComplexPatternMap = E.ComplexPatternMap ∧
      (E.getPatternPredicate k).2.ComplexPatterns = E.ComplexPatterns ∧
      (E.getPatternPredicate k).2.NodeXFormMap = E.NodeXFormMap ∧
      (E.getPatternPredicate k).2.NodeXForms = E.NodeXForms := by
    unfold getPatternPredicate
    simp only
    split <;> exact ⟨rfl, rfl, rfl, rfl, rfl, rfl⟩
  obtain ⟨e₁, e₂, e₃, e₄, e₅, e₆⟩ := hP
  refine ⟨⟨?_, h₁, ?_, ?_⟩, ⟨?_, h₂, ?_, ?_⟩, h₅⟩
  · rw [e₁, e₂]; exact h.node
  · rw [e₃, e₄]; exact h.complex
  · rw [e₅, e₆]; exact h.xform
  · rw [e₂]
  · rw [e₄]
  · rw [e₆]

theorem getComplexPat_interned (E : MatcherTableEmitter) (k : ComplexPattern)
    (h : E.Interned) :
    (E.getComplexPat k).2.Interned ∧ Extends E (E.getComplexPat k).2 ∧
      (E.getComplexPat k).2.ComplexPatterns[(E.getComplexPat k).1]? = some k := by
  obtain ⟨hM, hV, hI⟩ := getComplexPat_get E k
  obtain ⟨h₁, h₂, -, -, h₅⟩ := Interns.internsStep h.complex hM hV hI
  have hP : (E.getComplexPat k).2.NodePredicateMap = E.NodePredicateMap ∧
      (E.getComplexPat k).2.NodePredicates = E.NodePredicates ∧
      (E.getComplexPat k).2.PatternPredicateMap = E.PatternPredicateMap ∧
      (E.getComplexPat k).2.PatternPredicates = E.PatternPredicates ∧
      (E.getComplexPat k).2.NodeXFormMap = E.NodeXFormMap ∧
      (E.getComplexPat k).2.NodeXForms = E.NodeXForms := by
    unfold getComplexPat
    simp only
    split <;> exact ⟨rfl, rfl, rfl, rfl, rfl, rfl⟩
  obtain ⟨e₁, e₂, e₃, e₄, e₅, e₆⟩ := hP
  refine ⟨⟨?_, ?_, h₁, ?_⟩, ⟨?_, ?_, h₂, ?_⟩, h₅⟩
  · rw [e₁, e₂]; exact h.node
  · rw [e₃, e₄]; exact h.pattern
  · rw [e₅, e₆]; exact h.xform
  · rw [e₂]
  · rw [e₄]
  · rw [e₆]

theorem getNodeXFormID_interned (E : MatcherTableEmitter) (k : Record) (h : E.Interned) :
    (E.getNodeXFormID k).2.Interned ∧ Extends E (E.getNodeXFormID k).2 ∧
      (E.getNodeXFormID k).2.NodeXForms[(E.getNodeXFormID k).1]? = some k := by
  obtain ⟨hM, hV, hI⟩ := getNodeXFormID_get E k
  obtain ⟨h₁, h₂, -, -, h₅⟩ := Interns.internsStep h.xform hM hV hI
  have hP : (E.getNodeXFormID k).2.NodePredicateMap = E.NodePredicateMap ∧
      (E.getNodeXFormID k).2.NodePredicates = E.NodePredicates ∧
      (E.getNodeXFormID k).2.PatternPredicateMap = E.PatternPredicateMap ∧
      (E.getNodeXFormID k).2.PatternPredicates = E.PatternPredicates ∧
      (E.getNodeXFormID k).2.ComplexPatternMap = E.ComplexPatternMap ∧
      (E.getNodeXFormID k).2.ComplexPatterns = E.ComplexPatterns := by
    unfold getNodeXFormID
    simp only
    split <;> exact ⟨rfl, rfl, rfl, rfl, rfl, rfl⟩
  obtain ⟨e₁, e₂, e₃, e₄, e₅, e₆⟩ := hP
  refine ⟨⟨?_, ?_, ?_, h₁⟩, ⟨?_, ?_, ?_, h₂⟩, h₅⟩
  · rw [e₁, e₂]; exact h.node
  · rw [e₃, e₄]; exact h.pattern
  · rw [e₅, e₆]; exact h.complex
  · rw [e₂]
  · rw [e₄]
  · rw [e₆]

/-- A change of the stream and of the messages only keeps the maps and the
vectors. -/
theorem interned_of_eq {E F : MatcherTableEmitter} (h : E.Interned)
    (e₁ : F.NodePredicateMap = E.NodePredicateMap) (e₂ : F.NodePredicates = E.NodePredicates)
    (e₃ : F.PatternPredicateMap = E.PatternPredicateMap)
    (e₄ : F.PatternPredicates = E.PatternPredicates)
    (e₅ : F.ComplexPatternMap = E.ComplexPatternMap)
    (e₆ : F.ComplexPatterns = E.ComplexPatterns)
    (e₇ : F.NodeXFormMap = E.NodeXFormMap) (e₈ : F.NodeXForms = E.NodeXForms) :
    F.Interned ∧ Extends E F := by
  refine ⟨⟨?_, ?_, ?_, ?_⟩, ⟨?_, ?_, ?_, ?_⟩⟩
  · rw [e₁, e₂]; exact h.node
  · rw [e₃, e₄]; exact h.pattern
  · rw [e₅, e₆]; exact h.complex
  · rw [e₇, e₈]; exact h.xform
  · rw [e₂]
  · rw [e₄]
  · rw [e₆]
  · rw [e₈]

theorem write_interned (E : MatcherTableEmitter) (Items : List TableItem) (h : E.Interned) :
    (E.write Items).Interned ∧ Extends E (E.write Items) :=
  interned_of_eq h rfl rfl rfl rfl rfl rfl rfl rfl

theorem EmitMatcher_interned (E : MatcherTableEmitter) (N : SimpleMatcherNode) (Indent : Nat)
    (h : E.Interned) :
    (E.EmitMatcher N Indent).2.Interned ∧ Extends E (E.EmitMatcher N Indent).2 := by
  cases N with
  | CheckPatternPredicate P =>
    obtain ⟨h₁, h₂, -⟩ := getPatternPredicate_interned E P h
    obtain ⟨h₃, h₄⟩ := write_interned (E.getPatternPredicate P).2
      [.Opcode "OPC_CheckPatternPredicate", .Num (E.getPatternPredicate P).1, .Comment P] h₁
    exact ⟨h₃, h₂.extendsTrans h₄⟩
  | CheckPredicate P =>
    obtain ⟨h₁, h₂, -⟩ := getNodePredicate_interned E P h
    obtain ⟨h₃, h₄⟩ := write_interned (E.getNodePredicate P).2
      [.Opcode "OPC_CheckPredicate", .Num (E.getNodePredicate P).1, .Comment P] h₁
    exact ⟨h₃, h₂.extendsTrans h₄⟩
  | CheckComplexPat P =>
    obtain ⟨h₁, h₂, -⟩ := getComplexPat_interned E P h
    exact ⟨(write_interned _ _ h₁).1, h₂.extendsTrans (write_interned _ _ h₁).2⟩
  | EmitNodeXForm S X =>
    obtain ⟨h₁, h₂, -⟩ := getNodeXFormID_interned E X h
    exact ⟨(write_interned _ _ h₁).1, h₂.extendsTrans (write_interned _ _ h₁).2⟩
  | EmitRegister VT Reg =>
    cases Reg <;> exact interned_of_eq h rfl rfl rfl rfl rfl rfl rfl rfl
  | _ => exact interned_of_eq h rfl rfl rfl rfl rfl rfl rfl rfl

theorem EmitMatcherListLoop_interned (N : MatcherNode) :
    ∀ (Indent Size : Nat) (E : MatcherTableEmitter), E.Interned →
      (EmitMatcherListLoop N Indent Size E).2.Interned ∧
        Extends E (EmitMatcherListLoop N Indent Size E).2 := by
  induction N with
  | null => exact fun _ _ E h => ⟨h, Extends.extendsRefl E⟩
  | Push Next Failure ihN ihF =>
    intro Indent Size E h
    obtain ⟨h₁, h₂⟩ := ihN (Indent + 1) 0 E h
    simp only [EmitMatcherListLoop]
    generalize hG : (if (EmitMatcherListLoop Next (Indent + 1) 0 E).1 > 255 then
        { (EmitMatcherListLoop Next (Indent + 1) 0 E).2 with
          Errs := (EmitMatcherListLoop Next (Indent + 1) 0 E).2.Errs ++
            ["Tblgen internal error: can't handle predicate this complex yet\n"] }
        else (EmitMatcherListLoop Next (Indent + 1) 0 E).2) = G
    have hGi : G.Interned ∧ Extends (EmitMatcherListLoop Next (Indent + 1) 0 E).2 G := by
      rw [← hG]
      split
      · exact interned_of_eq h₁ rfl rfl rfl rfl rfl rfl rfl rfl
      · exact ⟨h₁, Extends.extendsRefl _⟩
    have hW := write_interned _ [.Opcode "OPC_Push",
      .Num (EmitMatcherListLoop Next (Indent + 1) 0 E).1] hGi.1
    have hW' := write_interned _ [] hW.1
    obtain ⟨h₃, h₄⟩ := ihF Indent (Size + (2 + (EmitMatcherListLoop Next (Indent + 1) 0 E).1))
      _ hW'.1
    exact ⟨h₃, ((h₂.extendsTrans hGi.2).extendsTrans
      (hW.2.extendsTrans hW'.2)).extendsTrans h₄⟩
  | Node Data Next ih =>
    intro Indent Size E h
    obtain ⟨h₁, h₂⟩ := EmitMatcher_interned E Data Indent h
    simp only [EmitMatcherListLoop]
    obtain ⟨h₃, h₄⟩ := ih Indent (Size + (E.EmitMatcher Data Indent).1) _ h₁
    exact ⟨h₃, h₂.extendsTrans h₄⟩

end MatcherTableEmitter

theorem getElem_of_prefix {α : Type} {A B : List α} (h : A <+: B) {i : Nat} {a : α}
    (ha : A[i]? = some a) : B[i]? = some a := by
  obtain ⟨T, rfl⟩ := h
  have hi : i < A.length := by
    by_contra hc
    rw [List.getElem?_eq_none (by omega)] at ha
    cases ha
  rw [List.getElem?_append_left hi]
  exact ha

theorem enum_map_getElem {α β : Type} (l : List α) (f : Nat × α → β) (i : Nat) (a : α)
    (h : l[i]? = some a) : (l.enum.map f)[i]? = some (f (i, a)) := by
  simp [List.enum, List.getElem?_enumFrom, h]

theorem MatcherTableEmitter.calls_new {κ : Type} [DecidableEq κ]
    (get : MatcherTableEmitter → κ → Nat × MatcherTableEmitter)
    (Map : MatcherTableEmitter → κ → Nat) (Vec : MatcherTableEmitter → List κ)
    (hget : ∀ E k, Map (get E k).2 =
        (if Map E k = 0 then Function.update (Map E) k ((Vec E).length + 1) else Map E) ∧
      Vec (get E k).2 = (if Map E k = 0 then Vec E ++ [k] else Vec E) ∧
      (get E k).1 = (if Map E k = 0 then (Vec E).length else Map E k - 1))
    (hnew : Interns (Map MatcherTableEmitter.new) (Vec MatcherTableEmitter.new))
    (hVec : Vec MatcherTableEmitter.new = []) (Keys : List κ) :
    Vec (calls get MatcherTableEmitter.new Keys).2 = firstOccurrences Keys ∧
      (calls get MatcherTableEmitter.new Keys).1 =
        Keys.map fun k => (firstOccurrences Keys).indexOf k := by
  obtain ⟨-, h₂, h₃⟩ := calls_interned get Map Vec hget Keys MatcherTableEmitter.new hnew
  rw [hVec] at h₂
  have h₂' : Vec (calls get MatcherTableEmitter.new Keys).2 = firstOccurrences Keys := h₂
  exact ⟨h₂', by rw [h₃, h₂']⟩

theorem firstOccurrences_ids {κ : Type} [DecidableEq κ] (Keys : List κ) :
    (firstOccurrences Keys).Nodup ∧
      (∀ k, k ∈ firstOccurrences Keys ↔ k ∈ Keys) ∧
      (∀ k ∈ Keys, ∀ k' ∈ Keys,
        (firstOccurrences Keys).indexOf k = (firstOccurrences Keys).indexOf k' ↔ k = k') ∧
      (∀ n, n < (firstOccurrences Keys).length ↔
        ∃ k ∈ Keys, (firstOccurrences Keys).indexOf k = n) ∧
      (∀ k ∈ Keys, (firstOccurrences Keys)[(firstOccurrences Keys).indexOf k]? = some k) := by
  have hm := mem_firstOccurrences Keys
  refine ⟨firstOccurrences_nodup Keys, hm, ?_, ?_, ?_⟩
  · intro k hk k' hk'
    exact List.indexOf_inj ((hm k).2 hk) ((hm k').2 hk')
  · intro n
    constructor
    · intro hn
      refine ⟨(firstOccurrences Keys)[n], (hm _).1 (List.getElem_mem _), ?_⟩
      exact List.indexOf_getElem (firstOccurrences_nodup Keys) n hn
    · rintro ⟨k, hk, rfl⟩
      exact List.indexOf_lt_length.2 ((hm k).2 hk)
  · intro k hk
    exact List.getElem?_indexOf ((hm k).2 hk)

/-! ## The interference matrix -/

namespace InterferenceGraph

theorem cell_setCell (IG : List (List Nat)) (r c v : Nat)
    (hr : r < IG.length) (hc : c < (IG.getD r []).length) :
    cell (setCell IG r c v) r c = some v := by
  have hD : IG.getD r [] = IG[r] := by simp [List.getD, List.getElem?_eq_getElem, hr]
  rw [hD] at hc
  simp only [cell, setCell, hD, List.getElem?_set_self hr, Option.some_bind,
    List.getElem?_set_self hc]

theorem cell_isSome {IG : List (List Nat)} {n r c : Nat} (hlen : IG.length = n)
    (hrow : ∀ Row ∈ IG, Row.length = n ∧ ∀ v ∈ Row, v ≤ 1) (hr : r < n) (hc : c < n) :
    ∃ v, cell IG r c = some v ∧ v ≤ 1 := by
  have hr' : r < IG.length := by omega
  have hmem : IG[r] ∈ IG := List.getElem_mem _
  obtain ⟨hl, hv⟩ := hrow _ hmem
  have hc' : c < (IG[r]).length := by omega
  refine ⟨(IG[r])[c], ?_, hv _ (List.getElem_mem _)⟩
  simp [cell, hr', hc', List.getElem?_eq_getElem]

theorem createGraph_wellFormed (G : InterferenceGraph) : G.createGraph.WellFormed := by
  refine ⟨_, rfl, by simp [createGraph], ?_⟩
  intro Row hRow
  rw [List.mem_replicate] at hRow
  obtain ⟨-, rfl⟩ := hRow
  refine ⟨by simp [createGraph], ?_⟩
  intro v hv
  rw [List.mem_replicate] at hv
  omega

theorem setCell_wellFormed {IG : List (List Nat)} {n : Nat} (r c : Nat)
    (hlen : IG.length = n) (hrow : ∀ Row ∈ IG, Row.length = n ∧ ∀ v ∈ Row, v ≤ 1) :
    (setCell IG r c 1).length = n ∧
      ∀ Row ∈ setCell IG r c 1, Row.length = n ∧ ∀ v ∈ Row, v ≤ 1 := by
  refine ⟨by simp [setCell, hlen], ?_⟩
  intro Row hRow
  rcases List.mem_or_eq_of_mem_set hRow with h | h
  · exact hrow Row h
  · subst h
    by_cases hr : r < IG.length
    · have hmem : IG[r] ∈ IG := List.getElem_mem _
      obtain ⟨hl, hv⟩ := hrow _ hmem
      have hD : IG.getD r [] = IG[r] := by
        simp [List.getD, List.getElem?_eq_getElem, hr]
      rw [hD]
      refine ⟨by simp [hl], ?_⟩
      intro v hv'
      rcases List.mem_or_eq_of_mem_set hv' with h | h
      · exact hv v h
      · omega
    · have : (IG.set r ((IG.getD r []).set c 1)) = IG := by
        apply List.set_eq_of_length_le
        omega
      rw [setCell, this] at hRow
      have hD : IG.getD r [] = [] := by
        simp [List.getD, List.getElem?_eq_none (Nat.le_of_not_lt hr)]
      rw [hD] at hRow ⊢
      exact hrow _ (by simpa using hRow)



theorem getInterference_of {G : InterferenceGraph} {Nodes : Nat → Option IGNode}
    {LR1 LR2 : LiveRange} {p₁ p₂ : Nat} {N1 N2 : IGNode} {IG : List (List Nat)}
    (hne : LR1.Addr ≠ LR2.Addr) (hp₁ : LR1.UserIGNode = some p₁)
    (hp₂ : LR2.UserIGNode = some p₂) (hn₁ : Nodes p₁ = some N1) (hn₂ : Nodes p₂ = some N2)
    (hIG : G.IG = some IG) :
    G.getInterference Nodes LR1 LR2 =
      cell IG (max N1.Index N2.Index) (min N1.Index N2.Index) := by
  simp only [getInterference, hne, if_false, hp₁, hp₂, hn₁, hn₂, hIG]
  split
  · rename_i h
    rw [max_eq_left (by omega), min_eq_right (by omega)]
  · rename_i h
    rw [max_eq_right (by omega), min_eq_left (by omega)]

theorem setInterference_of {G : InterferenceGraph} {Nodes : Nat → Option IGNode}
    {LR1 LR2 : LiveRange} {p₁ p₂ : Nat} {N1 N2 : IGNode} {IG : List (List Nat)}
    (hne : LR1.Addr ≠ LR2.Addr) (hp₁ : LR1.UserIGNode = some p₁)
    (hp₂ : LR2.UserIGNode = some p₂) (hn₁ : Nodes p₁ = some N1) (hn₂ : Nodes p₂ = some N2)
    (hIG : G.IG = some IG) :
    G.setInterference Nodes LR1 LR2 =
      match cell IG (max N1.Index N2.Index) (min N1.Index N2.Index) with
      | none => none
      | some val =>
        if val = 0 then
          match Function.update Nodes p₁ (some (N1.addAdjIGNode p₂)) p₂ with
          | some M =>
            some ({ G with IG := some (setCell IG (max N1.Index N2.Index)
                (min N1.Index N2.Index) 1) },
              Function.update (Function.update Nodes p₁ (some (N1.addAdjIGNode p₂))) p₂
                (some (M.addAdjIGNode p₁)))
          | none => none
        else some (G, Nodes) := by
  simp only [setInterference, hne, if_false, hp₁, hp₂, hn₁, hn₂, hIG]
  by_cases h : N1.Index > N2.Index
  · rw [max_eq_left (by omega), min_eq_right (by omega)]
    simp only [h, if_true]
  · rw [max_eq_right (by omega), min_eq_left (by omega)]
    simp only [h, if_false]

end InterferenceGraph

/-- For two distinct live ranges with nodes in a well-formed graph:
`getInterference` returns the same 0 or 1 in both argument orders,
`setInterference` succeeds, after it `getInterference` returns 1 in both
orders, and a second `setInterference` in either order changes nothing. -/
theorem InterferenceGraph.setInterference_spec
    (G : InterferenceGraph) (Nodes : Nat → Option IGNode) (LR1 LR2 : LiveRange)
    (hG : G.WellFormed) (hne : LR1.Addr ≠ LR2.Addr)
    (h₁ : G.InGraph Nodes LR1) (h₂ : G.InGraph Nodes LR2) :
    (∃ v, v ≤ 1 ∧ G.getInterference Nodes LR1 LR2 = some v ∧
      G.getInterference Nodes LR2 LR1 = some v) ∧
    ∃ G' Nodes', G.setInterference Nodes LR1 LR2 = some (G', Nodes') ∧
      G'.WellFormed ∧ G'.InGraph Nodes' LR1 ∧ G'.InGraph Nodes' LR2 ∧
      G'.getInterference Nodes' LR1 LR2 = some 1 ∧
      G'.getInterference Nodes' LR2 LR1 = some 1 ∧
      G'.setInterference Nodes' LR1 LR2 = some (G', Nodes') ∧
      G'.setInterference Nodes' LR2 LR1 = some (G', Nodes') := by
  obtain ⟨IG, hIG, hlen, hrow⟩ := hG
  obtain ⟨p₁, N1, hp₁, hn₁, hi₁⟩ := h₁
  obtain ⟨p₂, N2, hp₂, hn₂, hi₂⟩ := h₂
  have hmax : max N1.Index N2.Index < G.Size := max_lt hi₁ hi₂
  have hmin : min N1.Index N2.Index < G.Size := lt_of_le_of_lt (min_le_left _ _) hi₁
  obtain ⟨v, hv, hv1⟩ := InterferenceGraph.cell_isSome hlen hrow hmax hmin
  have hg₁ := InterferenceGraph.getInterference_of hne hp₁ hp₂ hn₁ hn₂ hIG
  have hg₂ := InterferenceGraph.getInterference_of (Ne.symm hne) hp₂ hp₁ hn₂ hn₁ hIG
  rw [max_comm, min_comm] at hg₂
  refine ⟨⟨v, hv1, by rw [hg₁, hv], by rw [hg₂, hv]⟩, ?_⟩
  have hs := InterferenceGraph.setInterference_of hne hp₁ hp₂ hn₁ hn₂ hIG
  rw [hv] at hs
  simp only at hs
  by_cases hv0 : v = 0
  · -- the interference was not set: the cell is written and the nodes change
    rw [if_pos hv0] at hs
    obtain ⟨M, hM, hMi⟩ : ∃ M, Function.update Nodes p₁ (some (N1.addAdjIGNode p₂)) p₂ = some M ∧
        M.Index = N2.Index := by
      by_cases hp : p₂ = p₁
      · have hN : N1 = N2 := by
          rw [hp, hn₁] at hn₂
          exact Option.some.inj hn₂
        refine ⟨N1.addAdjIGNode p₂, ?_, by rw [← hN]; rfl⟩
        rw [hp, Function.update_same]
      · exact ⟨N2, by rw [Function.update_noteq hp, hn₂], rfl⟩
    rw [hM] at hs
    simp only at hs
    obtain ⟨M₁, hM₁, hM₁i⟩ : ∃ M₁,
        Function.update (Function.update Nodes p₁ (some (N1.addAdjIGNode p₂))) p₂
          (some (M.addAdjIGNode p₁)) p₁ = some M₁ ∧ M₁.Index = N1.Index := by
      by_cases hp : p₁ = p₂
      · have hN : N1 = N2 := by
          rw [← hp, hn₁] at hn₂
          exact Option.some.inj hn₂
        refine ⟨M.addAdjIGNode p₁, ?_, by rw [hN]; exact hMi⟩
        rw [hp, Function.update_same]
      · exact ⟨N1.addAdjIGNode p₂, by rw [Function.update_noteq hp, Function.update_same],
          rfl⟩
    have hM₂ : Function.update (Function.update Nodes p₁ (some (N1.addAdjIGNode p₂))) p₂
        (some (M.addAdjIGNode p₁)) p₂ = some (M.addAdjIGNode p₁) := by simp
    have hM₂i : (M.addAdjIGNode p₁).Index = N2.Index := hMi
    have hwf := InterferenceGraph.setCell_wellFormed (max N1.Index N2.Index)
      (min N1.Index N2.Index) hlen hrow
    have hrowlen : min N1.Index N2.Index <
        (IG.getD (max N1.Index N2.Index) []).length := by
      have hr : max N1.Index N2.Index < IG.length := by omega
      have hD : IG.getD (max N1.Index N2.Index) [] = IG[max N1.Index N2.Index] := by
        simp [List.getD, List.getElem?_eq_getElem, hr]
      rw [hD, (hrow _ (List.getElem_mem _)).1]
      exact hmin
    have hcell := InterferenceGraph.cell_setCell IG _ _ 1 (by omega) hrowlen
    refine ⟨_, _, hs, ⟨_, rfl, hwf.1, hwf.2⟩, ⟨p₁, M₁, hp₁, hM₁, by rw [hM₁i]; exact hi₁⟩,
      ⟨p₂, _, hp₂, hM₂, by rw [hM₂i]; exact hi₂⟩, ?_, ?_, ?_, ?_⟩
    · rw [InterferenceGraph.getInterference_of hne hp₁ hp₂ hM₁ hM₂ rfl, hM₁i, hM₂i, hcell]
    · rw [InterferenceGraph.getInterference_of (Ne.symm hne) hp₂ hp₁ hM₂ hM₁ rfl, hM₁i, hM₂i,
        max_comm N2.Index N1.Index, min_comm N2.Index N1.Index, hcell]
    · rw [InterferenceGraph.setInterference_of hne hp₁ hp₂ hM₁ hM₂ rfl, hM₁i, hM₂i, hcell]
      rfl
    · rw [InterferenceGraph.setInterference_of (Ne.symm hne) hp₂ hp₁ hM₂ hM₁ rfl, hM₁i, hM₂i,
        max_comm N2.Index N1.Index, min_comm N2.Index N1.Index, hcell]
      rfl
  · -- the interference was set already: nothing changes
    rw [if_neg hv0] at hs
    have hv1 : v = 1 := by omega
    subst hv1
    refine ⟨G, Nodes, hs, ⟨IG, hIG, hlen, hrow⟩, ⟨p₁, N1, hp₁, hn₁, hi₁⟩,
      ⟨p₂, N2, hp₂, hn₂, hi₂⟩, by rw [hg₁, hv], by rw [hg₂, hv], hs, ?_⟩
    rw [InterferenceGraph.setInterference_of (Ne.symm hne) hp₂ hp₁ hn₂ hn₁ hIG, max_comm,
      min_comm, hv]
    rfl

theorem InterferenceGraph.getInterference_comm (G : InterferenceGraph)
    (Nodes : Nat → Option IGNode) (LR1 LR2 : LiveRange) :
    G.getInterference Nodes LR1 LR2 = G.getInterference Nodes LR2 LR1 := by
  unfold InterferenceGraph.getInterference
  by_cases hA : LR1.Addr = LR2.Addr
  · rw [if_pos hA, if_pos hA.symm]
  · rw [if_neg hA, if_neg (Ne.symm hA)]
    cases h₁ : LR1.UserIGNode with
    | none => cases h₂ : LR2.UserIGNode <;> rfl
    | some p₁ =>
      cases h₂ : LR2.UserIGNode with
      | none => rfl
      | some p₂ =>
        simp only
        cases hn₁ : Nodes p₁ with
        | none => cases hn₂ : Nodes p₂ <;> cases G.IG <;> rfl
        | some N1 =>
          cases hn₂ : Nodes p₂ with
          | none => cases G.IG <;> rfl
          | some N2 =>
            cases hIG : G.IG with
            | none => rfl
            | some IG =>
              simp only
              rcases Nat.lt_trichotomy N1.Index N2.Index with h | h | h
              · rw [if_neg (by omega), if_pos (by omega)]
              · rw [if_neg (by omega), if_neg (by omega), h]
              · rw [if_pos (by omega), if_neg (by omega)]


theorem InterferenceGraph.createGraph_zero (G : InterferenceGraph) (r c : Nat)
    (hr : r < G.createGraph.Size) (hc : c < G.createGraph.Size) :
    ∃ IG, G.createGraph.IG = some IG ∧ InterferenceGraph.cell IG r c = some 0 := by
  refine ⟨_, rfl, ?_⟩
  have hr' : r < G.IGNodeList.length := hr
  have hc' : c < G.IGNodeList.length := hc
  simp [InterferenceGraph.cell, List.getElem?_replicate, hr', hc']

/-! ## Rounding up to a power of two -/

theorem unsignedPred_eq (N : Nat) (h₀ : 1 ≤ N) (h₁ : N < 2 ^ 32) : unsignedPred N = N - 1 := by
  simp only [unsignedPred]
  norm_num at h₁ ⊢
  omega

theorem lor_pred_odd (m i : Nat) :
    ((2 * m + 1).testBit i || (2 * m).testBit i) = (2 * m + 1).testBit i := by
  cases i with
  | zero => simp
  | succ i =>
    rw [Nat.testBit_succ, Nat.testBit_succ]
    have h₁ : (2 * m + 1) / 2 = m := by omega
    have h₂ : 2 * m / 2 = m := by omega
    rw [h₁, h₂, Bool.or_self]

theorem land_pred_odd (m i : Nat) :
    ((2 * m + 1).testBit i && (2 * m).testBit i) = (2 * m).testBit i := by
  cases i with
  | zero => simp [Nat.mul_mod_right]
  | succ i =>
    rw [Nat.testBit_succ, Nat.testBit_succ]
    have h₁ : (2 * m + 1) / 2 = m := by omega
    have h₂ : 2 * m / 2 = m := by omega
    rw [h₁, h₂, Bool.and_self]

theorem pred_two_pow_mul (t m : Nat) :
    2 ^ t * (2 * m + 1) - 1 = 2 ^ t * (2 * m) + (2 ^ t - 1) := by
  have := Nat.one_le_two_pow (n := t)
  have h : 2 ^ t * (2 * m + 1) = 2 ^ t * (2 * m) + 2 ^ t := by ring
  omega

/-- The bits of `N | (N - 1)`: the zero bits at the right of `N` are set. -/
theorem lor_pred (t m : Nat) :
    (2 ^ t * (2 * m + 1)) ||| (2 ^ t * (2 * m + 1) - 1) =
      2 ^ t * (2 * m + 1) + (2 ^ t - 1) := by
  have hlt : 2 ^ t - 1 < 2 ^ t := by
    have := Nat.one_le_two_pow (n := t)
    omega
  apply Nat.eq_of_testBit_eq
  intro i
  rw [Nat.testBit_or, pred_two_pow_mul,
    Nat.testBit_mul_pow_two_add _ hlt, Nat.testBit_mul_pow_two_add _ hlt,
    Nat.testBit_mul_pow_two]
  by_cases hi : i < t
  · simp [hi]
  · simp only [hi, if_false]
    have : t ≤ i := by omega
    simp [this, lor_pred_odd]

/-- The bits of `N & (N - 1)`: the lowest one bit of `N` is cleared. -/
theorem land_pred (t m : Nat) :
    (2 ^ t * (2 * m + 1)) &&& (2 ^ t * (2 * m + 1) - 1) = 2 ^ t * (2 * m) := by
  have hlt : 2 ^ t - 1 < 2 ^ t := by
    have := Nat.one_le_two_pow (n := t)
    omega
  apply Nat.eq_of_testBit_eq
  intro i
  rw [Nat.testBit_and, pred_two_pow_mul, Nat.testBit_mul_pow_two_add _ hlt,
    Nat.testBit_mul_pow_two, Nat.testBit_mul_pow_two]
  by_cases hi : i < t
  · have : ¬ t ≤ i := by omega
    simp [hi, this]
  · have : t ≤ i := by omega
    simp [hi, this, land_pred_odd]

/-- The recursion of `NextPowerOfTwo` from a number with `t` zero bits at its
right ends at the least power of two that is at least the number, after at
most `k - t` further instantiations. -/
theorem NextPowerOfTwo_spec (fuel : Nat) :
    ∀ (N k t m : Nat), N = 2 ^ t * (2 * m + 1) → N ≤ 2 ^ k → 2 ^ k < 2 * N → k ≤ 31 →
      k < t + fuel → NextPowerOfTwo fuel N = some (2 ^ k) := by
  induction fuel with
  | zero =>
    intro N k t m hN hle hlt hk hf
    exfalso
    have h₁ : 2 ^ t ≤ N := by
      rw [hN]
      exact Nat.le_mul_of_pos_right _ (by omega)
    have h₂ : 2 ^ t ≤ 2 ^ k := le_trans h₁ hle
    have := (Nat.pow_le_pow_iff_right (a := 2) (by decide)).1 h₂
    omega
  | succ fuel ih =>
    intro N k t m hN hle hlt hk hf
    have hpos : 1 ≤ N := by
      rw [hN]
      exact Nat.mul_pos (Nat.two_pow_pos t) (by omega)
    have hk32 : (2 : Nat) ^ k ≤ 2 ^ 31 := Nat.pow_le_pow_right (by decide) hk
    have hN32 : N < 2 ^ 32 := by
      have : (2 : Nat) ^ 31 < 2 ^ 32 := by decide
      omega
    rw [NextPowerOfTwo, unsignedPred_eq N hpos hN32]
    rcases Nat.eq_zero_or_pos m with hm | hm
    · subst hm
      have hNt : N = 2 ^ t := by simpa using hN
      have hand : N &&& (N - 1) = 0 := by
        rw [hN, land_pred]
        simp
      rw [if_pos hand]
      have h₁ : 2 ^ t < 2 ^ (k + 1) := by
        rw [pow_succ]
        omega
      have h₂ : 2 ^ k < 2 ^ (t + 1) := by
        rw [pow_succ]
        omega
      have h₃ := (Nat.pow_lt_pow_iff_right (a := 2) (by decide)).1 h₁
      have h₄ := (Nat.pow_lt_pow_iff_right (a := 2) (by decide)).1 h₂
      have : t = k := by omega
      rw [hNt, this]
    · have hand : N &&& (N - 1) ≠ 0 := by
        rw [hN, land_pred]
        exact Nat.mul_ne_zero (Nat.two_pow_pos t).ne' (by omega)
      rw [if_neg hand]
      -- the odd part is at least 3, so `t < k`
      have htk : t < k := by
        have h₁ : 2 ^ t * 3 ≤ 2 ^ k := by
          calc 2 ^ t * 3 ≤ 2 ^ t * (2 * m + 1) := Nat.mul_le_mul_left _ (by omega)
            _ = N := hN.symm
            _ ≤ 2 ^ k := hle
        have h₂ : 2 ^ t < 2 ^ k := by
          have := Nat.two_pow_pos t
          omega
        exact (Nat.pow_lt_pow_iff_right (a := 2) (by decide)).1 h₂
      obtain ⟨d, hd⟩ : ∃ d, k = t + 1 + d := ⟨k - t - 1, by omega⟩
      have hkp : 2 ^ k = 2 ^ t * (2 * 2 ^ d) := by
        rw [hd, pow_add, pow_add]
        ring
      have hodd : 2 * m + 1 ≤ 2 * 2 ^ d := by
        have : 2 ^ t * (2 * m + 1) ≤ 2 ^ t * (2 * 2 ^ d) := by
          rw [← hN, ← hkp]
          exact hle
        exact Nat.le_of_mul_le_mul_left this (Nat.two_pow_pos t)
      have hm1 : m + 1 ≤ 2 ^ d := by omega
      have hNext : NextPowerOfTwoH.NextVal N = 2 ^ (t + 1) * (m + 1) := by
        have h₁ : 2 ^ t * (2 * m + 1) + (2 ^ t - 1) + 1 = 2 ^ (t + 1) * (m + 1) := by
          have := Nat.two_pow_pos t
          rw [pow_succ]
          have : 2 ^ t * (2 * m + 1) + 2 ^ t = 2 ^ t * 2 * (m + 1) := by ring
          omega
        have h₂ : 2 ^ (t + 1) * (m + 1) ≤ 2 ^ k := by
          rw [hd, pow_add 2 (t + 1) d]
          exact Nat.mul_le_mul_left _ hm1
        rw [NextPowerOfTwoH.NextVal, unsignedPred_eq N hpos hN32, hN, lor_pred, h₁]
        apply Nat.mod_eq_of_lt
        have : (2 : Nat) ^ 31 < 2 ^ 32 := by decide
        omega
      rw [hNext]
      obtain ⟨s, r, hr, hmr⟩ := Nat.exists_eq_two_pow_mul_odd (n := m + 1) (by omega)
      obtain ⟨m', rfl⟩ := hr
      have hle' : 2 ^ (t + 1) * (m + 1) ≤ 2 ^ k := by
        rw [hd, pow_add 2 (t + 1) d]
        exact Nat.mul_le_mul_left _ hm1
      have hts : t + 1 + s ≤ k := by
        have h₁ : 2 ^ (t + 1 + s) ≤ 2 ^ k := by
          calc 2 ^ (t + 1 + s) = 2 ^ (t + 1) * 2 ^ s := pow_add _ _ _
            _ ≤ 2 ^ (t + 1) * (2 ^ s * (2 * m' + 1)) :=
              Nat.mul_le_mul_left _ (Nat.le_mul_of_pos_right _ (by omega))
            _ = 2 ^ (t + 1) * (m + 1) := by rw [hmr]
            _ ≤ 2 ^ k := hle'
        exact (Nat.pow_le_pow_iff_right (a := 2) (by decide)).1 h₁
      refine ih (2 ^ (t + 1) * (m + 1)) k (t + 1 + s) m' ?_ hle' ?_ hk (by omega)
      · rw [hmr, pow_add]
        ring
      · have : N < 2 ^ (t + 1) * (m + 1) := by
          rw [hN, pow_succ]
          have := Nat.two_pow_pos t
          have : 2 ^ t * 2 * (m + 1) = 2 ^ t * (2 * m + 1) + 2 ^ t := by ring
          omega
        omega

/-! ## Operator sequences and statements of a run -/

/-- A tree over `X` whose first operand `X` is itself a tree over `Res` is a
tree over `Res`. -/
theorem AsmExpr.Brackets.bracketsTrans {E X Res : AsmExpr}
    {A B : List (AsmBinaryExpr.Opcode × AsmExpr)}
    (h₁ : AsmExpr.Brackets E X B) (h₂ : AsmExpr.Brackets X Res A) :
    AsmExpr.Brackets E Res (A ++ B) := by
  induction h₁ with
  | leaf E => simpa using h₂
  | node Op L R First E' A' B' hL hR ihL _ =>
    have := AsmExpr.Brackets.node Op L R Res E' (A ++ A') B' (ihL h₂) hR
    simpa [List.append_assoc] using this

/-- A sequence of operators of a precedence of at least `Prec'` is one of
operators of any lower bound. -/
theorem AsmParser.OperatorSequence.seqMono {Prec Prec' : Nat} {P Q : AsmParser}
    {Ops : List (AsmBinaryExpr.Opcode × AsmExpr)}
    (h : AsmParser.OperatorSequence Prec' P Ops Q) (hle : Prec ≤ Prec') :
    AsmParser.OperatorSequence Prec P Ops Q := by
  induction h with
  | done P => exact .done P
  | next fuel P P₁ Q Op E Ops hp hk hE _ ih =>
    exact .next fuel P P₁ Q Op E Ops (le_trans hle hp) hk hE ih

/-- Two sequences of operators, one after the other, are one sequence. -/
theorem AsmParser.OperatorSequence.seqAppend {Prec : Nat} {P Q R : AsmParser}
    {A B : List (AsmBinaryExpr.Opcode × AsmExpr)}
    (h₁ : AsmParser.OperatorSequence Prec P A Q) (h₂ : AsmParser.OperatorSequence Prec Q B R) :
    AsmParser.OperatorSequence Prec P (A ++ B) R := by
  induction h₁ with
  | done P => simpa using h₂
  | next fuel P P₁ Q Op E Ops hp hk hE _ ih =>
    exact .next fuel P P₁ R Op E (Ops ++ B) hp hk hE (ih h₂)

/-- A tree over no operators is the operand. -/
theorem AsmExpr.Brackets.bracketsNil {E Res : AsmExpr}
    (h : AsmExpr.Brackets E Res []) : E = Res := by
  generalize hO : ([] : List (AsmBinaryExpr.Opcode × AsmExpr)) = Ops at h
  cases h with
  | leaf E => rfl
  | node Op L R First E' A B hL hR => simp at hO

/-- A tree over one operator is the binary expression of that operator. -/
theorem AsmExpr.Brackets.bracketsSingle {E Res R : AsmExpr} {Op : AsmBinaryExpr.Opcode}
    (h : AsmExpr.Brackets E Res [(Op, R)]) : E = .Binary Op Res R := by
  generalize hO : [(Op, R)] = Ops at h
  cases h with
  | leaf E => simp at hO
  | node Op' L R' First E' A B hL hR =>
    have hA : A = [] := by
      cases A with
      | nil => rfl
      | cons a A => simp at hO
    subst hA
    simp only [List.nil_append, List.cons.injEq, Prod.mk.injEq] at hO
    obtain ⟨⟨rfl, rfl⟩, hB⟩ := hO
    subst hB
    rw [hL.bracketsNil, hR.bracketsNil]

namespace AsmParser

/-- A successful `ParseBinOpRHS` consumed a sequence of operators of a
precedence of at least `Precedence` with their operands, and returns a tree
over `Res` and that sequence. -/
theorem ParseBinOpRHS_brackets (fuel : Nat) :
    ∀ (Prec : Nat) (Res : AsmExpr) (P : AsmParser) (E : AsmExpr) (Q : AsmParser),
      ParseBinOpRHS fuel Prec Res P = .ok E Q →
      ∃ Ops, OperatorSequence Prec P Ops Q ∧ E.Brackets Res Ops := by
  induction fuel with
  | zero =>
    intro Prec Res P E Q h
    simp [ParseBinOpRHS] at h
  | succ fuel ih =>
    intro Prec Res P E Q h
    rw [ParseBinOpRHS] at h
    simp only at h
    split at h
    · simp only [Result.ok.injEq] at h
      obtain ⟨rfl, rfl⟩ := h
      exact ⟨[], .done _, .leaf _⟩
    · rename_i hp
      have hp' : Prec ≤ (getBinOpPrecedence P.getKind .Add).1 := Nat.le_of_not_lt hp
      cases hR : ParsePrimaryExpr fuel P.Lex with
      | outOfFuel => simp [hR, Result.andThen] at h
      | error R => simp [hR, Result.andThen] at h
      | ok RHS P₁ =>
        rw [hR] at h
        simp only [Result.andThen] at h
        split at h
        · rename_i RHS' P₂ hInner
          obtain ⟨Ops₂, hS₂, hB₂⟩ := ih _ _ _ _ _ h
          have hIn : ∃ Ops₁, OperatorSequence Prec P₁ Ops₁ P₂ ∧ RHS'.Brackets RHS Ops₁ := by
            split at hInner
            · obtain ⟨Ops₁, hS₁, hB₁⟩ := ih _ _ _ _ _ hInner
              exact ⟨Ops₁, hS₁.seqMono (Nat.le_succ _), hB₁⟩
            · simp only [Result.ok.injEq] at hInner
              obtain ⟨rfl, rfl⟩ := hInner
              exact ⟨[], .done _, .leaf _⟩
          obtain ⟨Ops₁, hS₁, hB₁⟩ := hIn
          refine ⟨((getBinOpPrecedence P.getKind .Add).2, RHS) :: Ops₁ ++ Ops₂, ?_, ?_⟩
          · exact .next fuel P P₁ Q _ RHS (Ops₁ ++ Ops₂) hp' rfl hR (hS₁.seqAppend hS₂)
          · have hX : AsmExpr.Brackets
                (.Binary (getBinOpPrecedence P.getKind .Add).2 Res RHS') Res
                ([] ++ ((getBinOpPrecedence P.getKind .Add).2, RHS) :: Ops₁) :=
              .node _ Res RHS' Res RHS [] Ops₁ (.leaf Res) hB₁
            have := hB₂.bracketsTrans hX
            simpa [List.append_assoc] using this
        · cases h
        · cases h

/-- A `ParseBinOpRHS` that returns an error consumed a sequence of operators
of a precedence of at least `Precedence` with their operands and one more
such operator, and the error is that of `ParsePrimaryExpr` for the operand
of that operator. -/
theorem ParseBinOpRHS_error (fuel : Nat) :
    ∀ (Prec : Nat) (Res : AsmExpr) (P : AsmParser) (Q : AsmParser),
      ParseBinOpRHS fuel Prec Res P = .error Q →
      ∃ Ops P' f, OperatorSequence Prec P Ops P' ∧
        Prec ≤ (getBinOpPrecedence P'.getKind .Add).1 ∧
        ParsePrimaryExpr f P'.Lex = .error Q := by
  induction fuel with
  | zero =>
    intro Prec Res P Q h
    simp [ParseBinOpRHS] at h
  | succ fuel ih =>
    intro Prec Res P Q h
    rw [ParseBinOpRHS] at h
    simp only at h
    split at h
    · cases h
    · rename_i hp
      have hp' : Prec ≤ (getBinOpPrecedence P.getKind .Add).1 := Nat.le_of_not_lt hp
      cases hR : ParsePrimaryExpr fuel P.Lex with
      | outOfFuel => simp [hR, Result.andThen] at h
      | error R =>
        rw [hR] at h
        simp only [Result.andThen, Result.error.injEq] at h
        subst h
        exact ⟨[], P, fuel, .done _, hp', hR⟩
      | ok RHS P₁ =>
        rw [hR] at h
        simp only [Result.andThen] at h
        split at h
        · rename_i RHS' P₂ hInner
          obtain ⟨Ops₂, P', f, hS₂, hP', hE⟩ := ih _ _ _ _ h
          have hIn : ∃ Ops₁, OperatorSequence Prec P₁ Ops₁ P₂ := by
            split at hInner
            · obtain ⟨Ops₁, hS₁, -⟩ := ParseBinOpRHS_brackets fuel _ _ _ _ _ hInner
              exact ⟨Ops₁, hS₁.seqMono (Nat.le_succ _)⟩
            · simp only [Result.ok.injEq] at hInner
              obtain ⟨-, rfl⟩ := hInner
              exact ⟨[], .done _⟩
          obtain ⟨Ops₁, hS₁⟩ := hIn
          exact ⟨((getBinOpPrecedence P.getKind .Add).2, RHS) :: Ops₁ ++ Ops₂, P', f,
            .next fuel P P₁ P' _ RHS (Ops₁ ++ Ops₂) hp' rfl hR (hS₁.seqAppend hS₂), hP', hE⟩
        · rename_i R hInner
          simp only [Result.error.injEq] at h
          subst h
          split at hInner
          · obtain ⟨Ops₁, P', f, hS₁, hP', hE⟩ := ih _ _ _ _ hInner
            exact ⟨((getBinOpPrecedence P.getKind .Add).2, RHS) :: Ops₁, P', f,
              .next fuel P P₁ P' _ RHS Ops₁ hp' rfl hR (hS₁.seqMono (Nat.le_succ _)),
              le_trans (Nat.le_succ _) hP', hE⟩
          · cases hInner
        · cases h

end AsmParser

/-- Statements are parser steps. -/
theorem AsmParser.Reaches.reachesStep {P Q : AsmParser} (h : AsmParser.Reaches P Q) :
    Step P Q := by
  induction h with
  | here P => exact Step.stepRefl P
  | ok fuel P Q R hS _ ih =>
    have h := AsmParser.ParseStatement_steps fuel P
    rw [hS] at h
    exact h.1.stepTrans ih
  | error fuel P Q R hS _ ih =>
    have h := AsmParser.ParseStatement_steps fuel P
    rw [hS] at h
    have h : Step P Q := h
    exact (h.stepTrans (AsmParser.frame_EatToEndOfStatement Q).step).stepTrans ih

/-- The state that the loop of `Run` returns is reached by statements. -/
theorem AsmParser.RunLoop_reaches (fuel : Nat) :
    ∀ (HadError : Bool) (P : AsmParser) (b : Bool) (Q : AsmParser),
      AsmParser.RunLoop fuel HadError P = .ok b Q → AsmParser.Reaches P Q := by
  induction fuel with
  | zero =>
    intro HadError P b Q h
    simp [AsmParser.RunLoop] at h
  | succ fuel ih =>
    intro HadError P b Q h
    unfold AsmParser.RunLoop at h
    split at h
    · split at h
      · rename_i u P₁ hr
        exact .ok fuel P P₁ Q hr (ih _ _ _ _ h)
      · rename_i P₁ hr
        exact .error fuel P P₁ Q hr (ih _ _ _ _ h)
      · cases h
    · simp only [Result.ok.injEq] at h
      obtain ⟨-, rfl⟩ := h
      exact .here P

/-! ## The claims -/

/-- C1: on `.fill 1, 3, 0` / newline / `.byte 1` / newline the size error of
the first line is reported only after its end of statement was consumed, at
the first token of the second line (location 7); the recovery of `Run` then
discards the second line, so no `EmitValue(1, 1)` is made: the streamer
receives no call at all. -/
theorem C1_fill_error_discards_next_statement :
    ∃ Q, AsmParser.Run 100 (AsmParser.start (AsmToken.stream
        [.ident ".fill", .int "1" 1, .punct .Comma, .int "3" 3, .punct .Comma, .int "0" 0,
          .eol, .ident ".byte", .int "1" 1, .eol])) = .ok true Q ∧
      Q.Out.Calls = [] ∧
      Q.Diags = [⟨some 7, "invalid '.fill' size, expected 1, 2, or 4", "error"⟩] ∧
      Q.Lexer = [] :=
  ⟨_, rfl, rfl, rfl, rfl⟩

/-- C2: a label statement `id:` on a symbol that is already defined in a
section reports 'invalid symbol redefinition' at the identifier, leaves the
streamer as it was (no `EmitLabel`), and makes `Run` return true: every run
that returns returns true, and a run returns when no file can be included
and the fuel covers the token stream; the same holds of the loop of `Run`
when it reaches such a statement later in a run, whatever its error flag
was.  For two successive label lines
`foo:` / `foo:` on a fresh symbol followed by further tokens, `Run` reaches
its loop at the first token after the second line with the error flag set,
with exactly the call `EmitLabel(foo)` added and the redefinition reported
at the second identifier, so every later statement is parsed from there;
and in the result of such a run `EmitLabel(foo)` occurs exactly once. -/
theorem C2_label_redefinition :
    (∀ (P : AsmParser) (Id Colon : AsmToken) (Rest : List AsmToken),
      P.Lexer = Id :: Colon :: Rest → Id.Kind = .Identifier → Colon.Kind = .Colon →
      (P.Ctx.getSection Id.Str).isSome = true →
      (∀ fuel, AsmParser.ParseStatement (fuel + 1) P =
        .error (P.Lex.Lex.Error (some Id.Loc) "invalid symbol redefinition")) ∧
      (P.Lex.Lex.Error (some Id.Loc) "invalid symbol redefinition").Out = P.Out ∧
      (∀ fuel b Q, AsmParser.Run fuel P = .ok b Q → b = true) ∧
      (P.NoInclude → ∀ fuel, 3 * P.Lexer.length + 2 ≤ fuel →
        ∃ Q, AsmParser.Run fuel P = .ok true Q) ∧
      (∀ fuel HadError b Q, AsmParser.RunLoop fuel HadError P = .ok b Q → b = true) ∧
      (P.NoInclude → ∀ fuel HadError, 3 * P.Lexer.length + 2 ≤ fuel →
        ∃ Q, AsmParser.RunLoop fuel HadError P = .ok true Q)) ∧
    (∀ (P : AsmParser) (Id₁ Colon₁ Eol₁ Id₂ Colon₂ Eol₂ : AsmToken) (Rest : List AsmToken),
      P.Lexer = Id₁ :: Colon₁ :: Eol₁ :: Id₂ :: Colon₂ :: Eol₂ :: Rest →
      Id₁.Kind = .Identifier → Colon₁.Kind = .Colon → Eol₁.Kind = .EndOfStatement →
      Id₂.Kind = .Identifier → Colon₂.Kind = .Colon → Eol₂.Kind = .EndOfStatement →
      Id₂.Str = Id₁.Str →
      (P.Ctx.getSection Id₁.Str).isSome = false →
      (P.Ctx.GetSymbolValue Id₁.Str).isSome = false →
      ∃ Mid : AsmParser,
        (∀ fuel, AsmParser.Run (fuel + 3) P = AsmParser.RunLoop (fuel + 1) true Mid) ∧
        Mid.Lexer = Rest ∧
        Mid.Out.Calls = P.Out.Calls ++ [.EmitLabel Id₁.Str] ∧
        Mid.Diags = P.Diags ++ [⟨some Id₂.Loc, "invalid symbol redefinition", "error"⟩] ∧
        (P.Inv → ∀ fuel b Q, AsmParser.Run fuel P = .ok b Q →
          b = true ∧ Q.Out.Calls.count (.EmitLabel Id₁.Str) = 1)) := by
  constructor
  · intro P Id Colon Rest hL hId hColon hDef
    have hk : P.getKind = .Identifier := by simp [AsmParser.getKind, AsmParser.getTok, hL, hId]
    have hS : ∀ fuel, AsmParser.ParseStatement (fuel + 1) P =
        .error (P.Lex.Lex.Error (some Id.Loc) "invalid symbol redefinition") := by
      intro fuel
      obtain ⟨L, Ctx, Out, Diags, TP, Inc⟩ := P
      simp only at hL
      subst hL
      simp [AsmParser.ParseStatement, AsmParser.getKind, AsmParser.getTok, AsmParser.Lex, hId,
        hColon, hDef]
    have hR := fun fuel HadError =>
      AsmParser.RunLoop_error_flag fuel HadError P (by simp [hk]) _ hS
    exact ⟨hS, by simp, fun fuel => (hR fuel false).1,
      fun hP fuel hf => (hR fuel false).2 hP hf, fun fuel HadError => (hR fuel HadError).1,
      fun hP fuel HadError hf => (hR fuel HadError).2 hP hf⟩
  · intro P Id₁ Colon₁ Eol₁ Id₂ Colon₂ Eol₂ Rest hL h₁ h₂ h₃ h₄ h₅ h₆ hStr hSec hVal
    have hStep : Step P (P.Lex.Lex.EmitLabel Id₁.Str) :=
      (AsmParser.frame_Lex P).Lex.step.stepTrans
        (AsmParser.step_EmitLabel _ _ (by simpa [AsmParser.Lex_Ctx] using hSec)
          (by simpa [AsmParser.Lex_Ctx] using hVal))
    have hMid : Step P ((((P.Lex.Lex.EmitLabel Id₁.Str).Lex).Lex.Lex.Error (some Id₂.Loc)
        "invalid symbol redefinition").EatToEndOfStatement) :=
      hStep.stepTrans (Frame.step (by
        apply_rules [Frame.refl, Frame.Lex, Frame.Error, Frame.EatToEndOfStatement]))
    refine ⟨((((P.Lex.Lex.EmitLabel Id₁.Str).Lex).Lex.Lex.Error (some Id₂.Loc)
        "invalid symbol redefinition").EatToEndOfStatement), ?_, ?_, ?_, ?_, ?_⟩
    · intro fuel
      obtain ⟨L, Ctx, Out, Diags, TP, Inc⟩ := P
      simp only at hL
      subst hL
      simp only [MCContext.getSection, MCContext.GetSymbolValue] at hSec hVal
      simp [AsmParser.Run, AsmParser.RunLoop, AsmParser.ParseStatement, AsmParser.getKind,
        AsmParser.getTok, AsmParser.Lex, AsmParser.isNot, AsmParser.EmitLabel,
        AsmParser.Error, MCContext.getSection, MCContext.GetSymbolValue,
        MCContext.setSection, MCContext.setExternal, h₁, h₂, h₃, h₄, h₅, h₆, hStr, hSec, hVal]
    · obtain ⟨L, Ctx, Out, Diags, TP, Inc⟩ := P
      simp only at hL
      subst hL
      simp [AsmParser.EatToEndOfStatement, AsmParser.eatLoop, AsmParser.getKind,
        AsmParser.getTok, AsmParser.Lex, AsmParser.is, AsmParser.EmitLabel,
        AsmParser.Error, h₁, h₂, h₃, h₄, h₅, h₆]
    · simp [AsmParser.EmitLabel]
    · simp [AsmParser.EmitLabel, AsmParser.Error]
    · intro hInv fuel b Q hRun
      have hEq : ∀ fuel, AsmParser.Run (fuel + 3) P = AsmParser.RunLoop (fuel + 1) true
          ((((P.Lex.Lex.EmitLabel Id₁.Str).Lex).Lex.Lex.Error (some Id₂.Loc)
            "invalid symbol redefinition").EatToEndOfStatement) := by
        intro fuel
        obtain ⟨L, Ctx, Out, Diags, TP, Inc⟩ := P
        simp only at hL
        subst hL
        simp only [MCContext.getSection, MCContext.GetSymbolValue] at hSec hVal
        simp [AsmParser.Run, AsmParser.RunLoop, AsmParser.ParseStatement, AsmParser.getKind,
          AsmParser.getTok, AsmParser.Lex, AsmParser.isNot, AsmParser.EmitLabel,
          AsmParser.Error, MCContext.getSection, MCContext.GetSymbolValue,
          MCContext.setSection, MCContext.setExternal, h₁, h₂, h₃, h₄, h₅, h₆, hStr, hSec,
          hVal]
      have hSmall : ∀ n, n < 3 → AsmParser.Run n P = .outOfFuel := by
        intro n hn
        obtain ⟨L, Ctx, Out, Diags, TP, Inc⟩ := P
        simp only at hL
        subst hL
        simp only [MCContext.getSection, MCContext.GetSymbolValue] at hSec hVal
        interval_cases n <;>
          simp [AsmParser.Run, AsmParser.RunLoop, AsmParser.ParseStatement,
            AsmParser.getKind, AsmParser.getTok, AsmParser.Lex, AsmParser.isNot,
            MCContext.getSection, MCContext.GetSymbolValue, h₁, h₂, hSec, hVal]
      by_cases hf : fuel < 3
      · rw [hSmall fuel hf] at hRun
        cases hRun
      · obtain ⟨n, rfl⟩ : ∃ n, fuel = n + 3 := ⟨fuel - 3, by omega⟩
        rw [hEq n] at hRun
        have hSteps := AsmParser.RunLoop_steps (n + 1) true
          ((((P.Lex.Lex.EmitLabel Id₁.Str).Lex).Lex.Lex.Error (some Id₂.Loc)
            "invalid symbol redefinition").EatToEndOfStatement)
        rw [hRun] at hSteps
        refine ⟨hSteps.2.1 rfl, le_antisymm ((hSteps.1.inv (hMid.inv hInv)).labelOnce _) ?_⟩
        obtain ⟨Extra, hE⟩ := hSteps.1.calls
        rw [← hE, List.count_append]
        have : List.count (StreamerCall.EmitLabel Id₁.Str)
            ((((P.Lex.Lex.EmitLabel Id₁.Str).Lex).Lex.Lex.Error (some Id₂.Loc)
              "invalid symbol redefinition").EatToEndOfStatement).Out.Calls ≥ 1 := by
          simp [AsmParser.EmitLabel, List.count_append]
        omega

/-- C2 at `foo:` / `foo:` / `.byte 1`: after the two label lines the loop of
`Run` stands at `.byte` with the one call `EmitLabel(foo)` and the
redefinition reported at the second `foo`, and the whole run returns true
with the calls `EmitLabel(foo)`, `EmitValue(1, 1)`. -/
theorem C2_label_redefinition_witness :
    (∃ Mid : AsmParser,
      (∀ fuel, AsmParser.Run (fuel + 3) (AsmParser.start (AsmToken.stream
          [.ident "foo", .punct .Colon, .eol, .ident "foo", .punct .Colon, .eol,
            .ident ".byte", .int "1" 1, .eol])) = AsmParser.RunLoop (fuel + 1) true Mid) ∧
      Mid.Lexer = [⟨.Identifier, ".byte", 0, 6⟩, ⟨.Integer, "1", 1, 7⟩,
        ⟨.EndOfStatement, "\n", 0, 8⟩] ∧
      Mid.Out.Calls = [] ++ [.EmitLabel "foo"] ∧
      Mid.Diags = [] ++ [⟨some 3, "invalid symbol redefinition", "error"⟩]) ∧
    ∃ Q, AsmParser.Run 100 (AsmParser.start (AsmToken.stream
        [.ident "foo", .punct .Colon, .eol, .ident "foo", .punct .Colon, .eol,
          .ident ".byte", .int "1" 1, .eol])) = .ok true Q ∧
      Q.Out.Calls = [.EmitLabel "foo", .EmitValue ⟨1, none, none⟩ 1] ∧
      Q.Diags = [⟨some 3, "invalid symbol redefinition", "error"⟩] := by
  refine ⟨?_, _, rfl, rfl, rfl⟩
  obtain ⟨Mid, h₁, h₂, h₃, h₄, _⟩ := C2_label_redefinition.2
    (AsmParser.start (AsmToken.stream
      [.ident "foo", .punct .Colon, .eol, .ident "foo", .punct .Colon, .eol,
        .ident ".byte", .int "1" 1, .eol]))
    _ _ _ _ _ _ _ rfl rfl rfl rfl rfl rfl rfl rfl rfl rfl
  exact ⟨Mid, h₁, h₂, h₃, h₄⟩

/-- C3 (counterexample): on `x = 1` / `x = 2` the second assignment to `x` is
no error: the run returns false, prints nothing, and the streamer receives
two `EmitAssignment` calls for `x`. -/
theorem C3_second_assignment_is_accepted :
    ∃ Q, AsmParser.Run 100 (AsmParser.start (AsmToken.stream
        [.ident "x", .punct .Equal, .int "1" 1, .eol,
          .ident "x", .punct .Equal, .int "2" 2, .eol])) = .ok false Q ∧
      Q.Out.Calls = [.EmitAssignment "x" ⟨1, none, none⟩ false,
        .EmitAssignment "x" ⟨2, none, none⟩ false] ∧
      Q.Diags = [] :=
  ⟨_, rfl, rfl, rfl⟩

/-- C3 (amended): definition by a label is monotonic.  From a state whose
calls agree with its symbol table (as in a fresh parser): in the result of
any run each symbol is the target of at most one `EmitLabel`, a symbol
defined in a section is still defined there and a symbol with a value still
has one, and the same holds across any single statement; a label naming a
symbol that is defined or holds a value is an error that leaves the streamer
as it was; an assignment (`=` or `.set`) naming a symbol defined in a
section is an error that leaves the streamer as it was; and a well-formed
assignment to a symbol that is neither defined in a section nor external is
accepted with one `EmitAssignment` call, whether or not the symbol already
holds a value. -/
theorem C3_label_definition_is_monotonic (P : AsmParser) (hInv : P.Inv) :
    (∀ fuel b Q, AsmParser.Run fuel P = .ok b Q →
      (∀ S, Q.Out.Calls.count (.EmitLabel S) ≤ 1) ∧
      (∀ S, (P.Ctx.getSection S).isSome = true → Q.Ctx.getSection S = P.Ctx.getSection S) ∧
      (∀ S, (P.Ctx.GetSymbolValue S).isSome = true → (Q.Ctx.GetSymbolValue S).isSome = true)) ∧
    (∀ fuel Q, AsmParser.ParseStatement fuel P = .ok () Q ∨
        AsmParser.ParseStatement fuel P = .error Q →
      (∀ S, (P.Ctx.getSection S).isSome = true → Q.Ctx.getSection S = P.Ctx.getSection S) ∧
      (∀ S, (P.Ctx.GetSymbolValue S).isSome = true → (Q.Ctx.GetSymbolValue S).isSome = true)) ∧
    (∀ (Id Colon : AsmToken) (Rest : List AsmToken), P.Lexer = Id :: Colon :: Rest →
      Id.Kind = .Identifier → Colon.Kind = .Colon →
      (P.Ctx.getSection Id.Str).isSome = true ∨ (P.Ctx.GetSymbolValue Id.Str).isSome = true →
      ∀ fuel, ∃ Q, AsmParser.ParseStatement (fuel + 1) P = .error Q ∧ Q.Out = P.Out) ∧
    (∀ fuel Name IsDotSet, (P.Ctx.getSection Name).isSome = true →
      3 * P.Lexer.length + 2 ≤ fuel →
      ∃ Q, AsmParser.ParseAssignment fuel Name IsDotSet P = .error Q ∧ Q.Out = P.Out) ∧
    (∀ fuel Name IsDotSet Value Q, AsmParser.ParseRelocatableExpression fuel P = .ok Value Q →
      Q.is .EndOfStatement = true → (P.Ctx.getSection Name).isSome = false →
      Q.Ctx.isExternal Name = false →
      AsmParser.ParseAssignment fuel Name IsDotSet P =
        .ok () (Q.Lex.EmitAssignment Name Value IsDotSet)) := by
  refine ⟨?_, ?_, ?_, ?_, ?_⟩
  · intro fuel b Q hRun
    have h := AsmParser.RunLoop_steps fuel false P
    unfold AsmParser.Run at hRun
    rw [hRun] at h
    exact ⟨(h.1.inv hInv).labelOnce, h.1.sect, h.1.value⟩
  · intro fuel Q hQ
    have h := AsmParser.ParseStatement_steps fuel P
    rcases hQ with hQ | hQ
    · rw [hQ] at h
      exact ⟨h.1.sect, h.1.value⟩
    · rw [hQ] at h
      have h : Step P Q := h
      exact ⟨h.sect, h.value⟩
  · intro Id Colon Rest hL hId hColon hDef fuel
    have h := AsmParser.label_rejected P Id Colon Rest hL hId hColon fuel
    by_cases hS : (P.Ctx.getSection Id.Str).isSome = true
    · exact ⟨_, h.1 hS, by simp⟩
    · exact ⟨_, h.2 (by simpa using hS) (hDef.resolve_left hS), by simp⟩
  · intro fuel Name IsDotSet hS hf
    exact AsmParser.assignment_rejected fuel Name IsDotSet P (Or.inl hS) hf
  · intro fuel Name IsDotSet Value Q hParse hEol hS hE
    rw [(AsmParser.assignment_cases fuel Name IsDotSet P Q Value hParse hEol).1]
    simp [hS, hE]

/-- C3 (amended) at `x:` / `x:` from a fresh parser: the run returns true
with the single call `EmitLabel(x)`. -/
theorem C3_label_definition_is_monotonic_witness :
    (AsmParser.start (AsmToken.stream [.ident "x", .punct .Colon, .eol,
        .ident "x", .punct .Colon, .eol])).Inv ∧
      ∃ Q, AsmParser.Run 100 (AsmParser.start (AsmToken.stream
          [.ident "x", .punct .Colon, .eol, .ident "x", .punct .Colon, .eol])) = .ok true Q ∧
        Q.Out.Calls = [.EmitLabel "x"] ∧
        ∀ S, Q.Out.Calls.count (.EmitLabel S) ≤ 1 := by
  refine ⟨AsmParser.start_inv _, _, rfl, rfl, ?_⟩
  exact ((C3_label_definition_is_monotonic (AsmParser.start (AsmToken.stream
    [.ident "x", .punct .Colon, .eol, .ident "x", .punct .Colon, .eol]))
    (AsmParser.start_inv _)).1 100 true _ rfl).1

/-- C4: labels and assembler variables are mutually exclusive.  From a state
whose calls agree with its symbol table (as in a fresh parser), in the
result of any run no symbol is the target of both an `EmitLabel` and an
`EmitAssignment`; a label naming a symbol that holds an assigned value is
rejected with 'symbol already used as assembler variable', and a well-formed
assignment (`=` or `.set`) naming a symbol defined by a label is rejected
with 'invalid assignment to symbol emitted as a label' (whatever its right
side, it is an error), in both cases with the streamer left as it was. -/
theorem C4_label_and_variable_exclusive (P : AsmParser) (hInv : P.Inv) :
    (∀ fuel b Q, AsmParser.Run fuel P = .ok b Q →
      ∀ S V D, StreamerCall.EmitLabel S ∈ Q.Out.Calls →
        StreamerCall.EmitAssignment S V D ∈ Q.Out.Calls → False) ∧
    (∀ (Id Colon : AsmToken) (Rest : List AsmToken), P.Lexer = Id :: Colon :: Rest →
      Id.Kind = .Identifier → Colon.Kind = .Colon →
      (P.Ctx.GetSymbolValue Id.Str).isSome = true →
      ∀ fuel, AsmParser.ParseStatement (fuel + 1) P =
          .error (P.Lex.Lex.Error (some Id.Loc) "symbol already used as assembler variable") ∧
        (P.Lex.Lex.Error (some Id.Loc) "symbol already used as assembler variable").Out
          = P.Out) ∧
    (∀ fuel Name IsDotSet Value Q, AsmParser.ParseRelocatableExpression fuel P = .ok Value Q →
      Q.is .EndOfStatement = true → (P.Ctx.getSection Name).isSome = true →
      AsmParser.ParseAssignment fuel Name IsDotSet P =
          .error (Q.Lex.Error P.getLoc "invalid assignment to symbol emitted as a label") ∧
        (Q.Lex.Error P.getLoc "invalid assignment to symbol emitted as a label").Out
          = P.Out) ∧
    (∀ fuel Name IsDotSet, (P.Ctx.getSection Name).isSome = true →
      3 * P.Lexer.length + 2 ≤ fuel →
      ∃ Q, AsmParser.ParseAssignment fuel Name IsDotSet P = .error Q ∧ Q.Out = P.Out) := by
  refine ⟨?_, ?_, ?_, ?_⟩
  · intro fuel b Q hRun S V D hL hA
    have h := AsmParser.RunLoop_steps fuel false P
    unfold AsmParser.Run at hRun
    rw [hRun] at h
    have hQ := h.1.inv hInv
    exact hQ.exclusive S (hQ.labelDefined S hL) (hQ.assignValued S V D hA)
  · intro Id Colon Rest hL hId hColon hVal fuel
    have hS : (P.Ctx.getSection Id.Str).isSome = false := by
      cases h : (P.Ctx.getSection Id.Str).isSome
      · rfl
      · exact (hInv.exclusive Id.Str h hVal).elim
    exact ⟨(AsmParser.label_rejected P Id Colon Rest hL hId hColon fuel).2 hS hVal, by simp⟩
  · intro fuel Name IsDotSet Value Q hParse hEol hS
    have h := AsmParser.assignment_cases fuel Name IsDotSet P Q Value hParse hEol
    exact ⟨by rw [h.1]; simp [hS], by simpa using h.2⟩
  · intro fuel Name IsDotSet hS hf
    exact AsmParser.assignment_rejected fuel Name IsDotSet P (Or.inl hS) hf

/-- C4 at `x = 1` / `x:` from a fresh parser: the label is rejected with
'symbol already used as assembler variable' and `x` gets its
`EmitAssignment` only. -/
theorem C4_label_and_variable_exclusive_witness :
    (AsmParser.start (AsmToken.stream [.ident "x", .punct .Equal, .int "1" 1, .eol,
        .ident "x", .punct .Colon, .eol])).Inv ∧
      ∃ Q, AsmParser.Run 100 (AsmParser.start (AsmToken.stream
          [.ident "x", .punct .Equal, .int "1" 1, .eol,
            .ident "x", .punct .Colon, .eol])) = .ok true Q ∧
        Q.Out.Calls = [.EmitAssignment "x" ⟨1, none, none⟩ false] ∧
        Q.Diags = [⟨some 4, "symbol already used as assembler variable", "error"⟩] ∧
        ∀ S V D, StreamerCall.EmitLabel S ∈ Q.Out.Calls →
          StreamerCall.EmitAssignment S V D ∈ Q.Out.Calls → False := by
  refine ⟨AsmParser.start_inv _, _, rfl, rfl, rfl, ?_⟩
  exact (C4_label_and_variable_exclusive (AsmParser.start (AsmToken.stream
    [.ident "x", .punct .Equal, .int "1" 1, .eol, .ident "x", .punct .Colon, .eol]))
    (AsmParser.start_inv _)).1 100 true _ rfl

/-- C5 (counterexample): on `.globl x` / `x:` / `x = 1` the symbol `x` is
marked external by `.globl` (it is external after that line alone), the
label then defines it, and the later assignment is rejected with 'invalid
assignment to symbol emitted as a label', not with 'invalid assignment to
external symbol'. -/
theorem C5_external_then_label_then_assignment :
    (∃ Q, AsmParser.Run 100 (AsmParser.start (AsmToken.stream
        [.ident ".globl", .ident "x", .eol])) = .ok false Q ∧
      Q.Ctx.isExternal "x" = true) ∧
    ∃ Q, AsmParser.Run 100 (AsmParser.start (AsmToken.stream
        [.ident ".globl", .ident "x", .eol, .ident "x", .punct .Colon, .eol,
          .ident "x", .punct .Equal, .int "1" 1, .eol])) = .ok true Q ∧
      Q.Out.Calls = [.EmitSymbolAttribute "x" .Global, .EmitLabel "x"] ∧
      Q.Diags = [⟨some 8, "invalid assignment to symbol emitted as a label", "error"⟩] :=
  ⟨⟨_, rfl, rfl⟩, _, rfl, rfl, rfl⟩

/-- C5 (amended): a use of a symbol that has neither a section nor a value
marks it external, and a symbol that was marked external is, after any
number of statements, still external or defined in a section (by a label).
An assignment to a symbol in one of these two states is always an error that
leaves the streamer as it was (no `EmitAssignment`), in `ParseAssignment`
and in the statements `sym = expr` and `.set sym, expr`; when the right side
parses and the statement ends there, the message is 'invalid assignment to
symbol emitted as a label' when the symbol is defined in a section and
'invalid assignment to external symbol' otherwise.  In particular `x = x + n`
on a symbol `x` with neither section nor value is rejected with 'invalid
assignment to external symbol' and no call. -/
theorem C5_assignment_to_external_symbol :
    (∀ (P Q : AsmParser) (Name : String), P.Ctx.isExternal Name = true →
      AsmParser.Reaches P Q →
      (Q.Ctx.isExternal Name = true ∨ (Q.Ctx.getSection Name).isSome = true) ∧
      ∀ fuel IsDotSet, 3 * Q.Lexer.length + 2 ≤ fuel →
        ∃ R, AsmParser.ParseAssignment fuel Name IsDotSet Q = .error R ∧ R.Out = Q.Out) ∧
    (∀ (fuel : Nat) (b : Bool) (P Q : AsmParser),
      AsmParser.Run fuel P = .ok b Q → AsmParser.Reaches P Q) ∧
    (∀ (P : AsmParser) (Name : String),
      P.Ctx.isExternal Name = true ∨ (P.Ctx.getSection Name).isSome = true →
      (∀ fuel IsDotSet, 3 * P.Lexer.length + 2 ≤ fuel →
        ∃ Q, AsmParser.ParseAssignment fuel Name IsDotSet P = .error Q ∧ Q.Out = P.Out) ∧
      (∀ fuel IsDotSet Value Q, AsmParser.ParseRelocatableExpression fuel P = .ok Value Q →
        Q.is .EndOfStatement = true →
        AsmParser.ParseAssignment fuel Name IsDotSet P =
          .error (Q.Lex.Error P.getLoc
            (if (P.Ctx.getSection Name).isSome then
              "invalid assignment to symbol emitted as a label"
            else "invalid assignment to external symbol"))) ∧
      (∀ Q, AsmParser.Reaches P Q →
        Q.Ctx.isExternal Name = true ∨ (Q.Ctx.getSection Name).isSome = true)) ∧
    (∀ (P : AsmParser), P.getKind = .Identifier → P.Lex.getKind = .Equal →
      P.Ctx.isExternal P.getTok.Str = true ∨ (P.Ctx.getSection P.getTok.Str).isSome = true →
      ∀ fuel, 3 * P.Lexer.length + 3 ≤ fuel →
        ∃ Q, AsmParser.ParseStatement fuel P = .error Q ∧ Q.Out = P.Out) ∧
    (∀ (P : AsmParser), P.getKind = .Identifier → P.getTok.Str = ".set" →
      P.Lex.getKind = .Identifier → P.Lex.Lex.getKind = .Comma →
      P.Ctx.isExternal P.Lex.getTok.Str = true ∨
        (P.Ctx.getSection P.Lex.getTok.Str).isSome = true →
      ∀ fuel, 3 * P.Lexer.length + 3 ≤ fuel →
        ∃ Q, AsmParser.ParseStatement fuel P = .error Q ∧ Q.Out = P.Out) ∧
    (∀ (P : AsmParser) (Sym : String), (P.Ctx.getSection Sym).isSome = false →
      (P.Ctx.GetSymbolValue Sym).isSome = false → (P.markUse Sym).Ctx.isExternal Sym = true) ∧
    (∀ (P : AsmParser) (Id Equal Id' Plus Num Eol : AsmToken) (Rest : List AsmToken),
      P.Lexer = Id :: Equal :: Id' :: Plus :: Num :: Eol :: Rest →
      Id.Kind = .Identifier → Equal.Kind = .Equal → Id'.Kind = .Identifier →
      Id'.Str = Id.Str → Plus.Kind = .Plus → Num.Kind = .Integer →
      Eol.Kind = .EndOfStatement →
      (P.Ctx.getSection Id.Str).isSome = false → (P.Ctx.GetSymbolValue Id.Str).isSome = false →
      ∀ fuel, ∃ Q, AsmParser.ParseStatement (fuel + 5) P = .error Q ∧ Q.Out = P.Out ∧
        Q.Diags = P.Diags ++
          [⟨some Id'.Loc, "invalid assignment to external symbol", "error"⟩] ∧
        Q.Lexer = Rest) := by
  have keep : ∀ (P Q : AsmParser) (Name : String),
      P.Ctx.isExternal Name = true ∨ (P.Ctx.getSection Name).isSome = true →
      AsmParser.Reaches P Q →
      Q.Ctx.isExternal Name = true ∨ (Q.Ctx.getSection Name).isSome = true :=
    fun P Q Name hM hR => hR.reachesStep.marked Name hM
  refine ⟨?_, ?_, ?_, ?_, ?_, ?_, ?_⟩
  · intro P Q Name hExt hR
    have hM := keep P Q Name (Or.inl hExt) hR
    exact ⟨hM, fun fuel IsDotSet hf =>
      AsmParser.assignment_rejected fuel Name IsDotSet Q hM.symm hf⟩
  · intro fuel b P Q h
    exact AsmParser.RunLoop_reaches fuel false P b Q h
  · intro P Name hM
    refine ⟨?_, ?_, fun Q => keep P Q Name hM⟩
    · intro fuel IsDotSet hf
      exact AsmParser.assignment_rejected fuel Name IsDotSet P hM.symm hf
    · intro fuel IsDotSet Value Q hParse hEol
      have hF := AsmParser.ParseRelocatableExpression_fine fuel P
      rw [hParse] at hF
      have hF : Frame P Q := hF
      rw [(AsmParser.assignment_cases fuel Name IsDotSet P Q Value hParse hEol).1]
      by_cases hS : (P.Ctx.getSection Name).isSome = true
      · simp [hS]
      · have hE : Q.Ctx.isExternal Name = true :=
          hF.ext Name (hM.resolve_right hS)
        simp [hS, hE]
  · intro P hId hEq hM fuel hf
    obtain ⟨f, rfl⟩ : ∃ f, fuel = f + 1 := ⟨fuel - 1, by omega⟩
    have hD : AsmParser.ParseStatement (f + 1) P =
        AsmParser.ParseAssignment f P.getTok.Str false P.Lex.Lex := by
      unfold AsmParser.ParseStatement
      simp only [hId, hEq]
    have h₁ := P.Lex_length (by rw [hId]; decide)
    have h₂ := P.Lex.Lex_length (by rw [hEq]; decide)
    obtain ⟨Q, hQ, hO⟩ := AsmParser.assignment_rejected f P.getTok.Str false P.Lex.Lex
      (by simpa using hM.symm) (by omega)
    exact ⟨Q, hD.trans hQ, by simpa using hO⟩
  · intro P hId hStr hId' hC hM fuel hf
    obtain ⟨f, rfl⟩ : ∃ f, fuel = f + 1 := ⟨fuel - 1, by omega⟩
    have hD : AsmParser.ParseStatement (f + 1) P =
        AsmParser.ParseAssignment f P.Lex.getTok.Str true P.Lex.Lex.Lex := by
      rw [AsmParser.ParseStatement_directive f P hId (by rw [hStr]; decide)
        (by rw [hId']; decide) (by rw [hId']; decide), hStr]
      have : AsmParser.ParseDirective f ".set" (some P.getTok.Loc) P.Lex =
          AsmParser.ParseDirectiveSet f P.Lex := rfl
      rw [this]
      simp [AsmParser.ParseDirectiveSet, AsmParser.isNot, hId', hC]
    have h₁ := P.Lex_length (by rw [hId]; decide)
    have h₂ := P.Lex.Lex_length (by rw [hId']; decide)
    have h₃ := P.Lex.Lex.Lex_length (by rw [hC]; decide)
    obtain ⟨Q, hQ, hO⟩ := AsmParser.assignment_rejected f P.Lex.getTok.Str true P.Lex.Lex.Lex
      (by simpa using hM.symm) (by omega)
    exact ⟨Q, hD.trans hQ, by simpa using hO⟩
  · intro P Sym hS hV
    simp only [MCContext.getSection, MCContext.GetSymbolValue] at hS hV
    have hS' : P.Ctx.Section Sym = none := by
      cases h : P.Ctx.Section Sym <;> simp_all
    have hV' : P.Ctx.SymbolValue Sym = none := by
      cases h : P.Ctx.SymbolValue Sym <;> simp_all
    simp [AsmParser.markUse, hS', hV', AsmParser.setExternal, MCContext.setExternal,
      MCContext.isExternal, MCContext.getSection, MCContext.GetSymbolValue]
  · intro P Id Equal Id' Plus Num Eol Rest hL h₁ h₂ h₃ hStr h₄ h₅ h₆ hS hV fuel
    obtain ⟨L, Ctx, Out, Diags, TP, Inc⟩ := P
    simp only at hL
    subst hL
    simp only [MCContext.getSection, MCContext.GetSymbolValue] at hS hV
    have hS' : Ctx.Section Id.Str = none := by
      cases h : Ctx.Section Id.Str <;> simp_all
    have hV' : Ctx.SymbolValue Id.Str = none := by
      cases h : Ctx.SymbolValue Id.Str <;> simp_all
    simp [AsmParser.ParseStatement, AsmParser.ParseAssignment,
      AsmParser.ParseRelocatableExpression, AsmParser.ParseExpression,
      AsmParser.ParsePrimaryExpr, AsmParser.ParseBinOpRHS, getBinOpPrecedence,
      Result.andThen, AsmExpr.EvaluateAsRelocatable, MCValue.add, MCValue.get, cancelSyms,
      AsmParser.getKind, AsmParser.getTok, AsmParser.getLoc, AsmParser.Lex, AsmParser.isNot,
      AsmParser.markUse, AsmParser.setExternal, AsmParser.Error, MCContext.getSection,
      MCContext.GetSymbolValue, MCContext.setExternal, MCContext.isExternal,
      h₁, h₂, h₃, h₄, h₅, h₆, hStr, hS', hV']

/-- C5 (amended) at `x = x + 1` from a fresh parser: the statement is an
error with 'invalid assignment to external symbol' at the right side, and
the streamer is left as it was. -/
theorem C5_assignment_to_external_symbol_witness :
    ∃ Q, AsmParser.ParseStatement 100 (AsmParser.start (AsmToken.stream
        [.ident "x", .punct .Equal, .ident "x", .punct .Plus, .int "1" 1, .eol])) = .error Q ∧
      Q.Out = (AsmParser.start (AsmToken.stream
        [.ident "x", .punct .Equal, .ident "x", .punct .Plus, .int "1" 1, .eol])).Out ∧
      Q.Diags = [⟨some 2, "invalid assignment to external symbol", "error"⟩] ∧
      Q.Lexer = [] :=
  C5_assignment_to_external_symbol.2.2.2.2.2.2 (AsmParser.start (AsmToken.stream
    [.ident "x", .punct .Equal, .ident "x", .punct .Plus, .int "1" 1, .eol]))
    _ _ _ _ _ _ _ rfl rfl rfl rfl rfl rfl rfl rfl rfl rfl 95

/-- C6: on `.abort` / newline the error message of `.abort` is printed and
`Run` returns false. -/
theorem C6_abort_prints_error_and_run_returns_false :
    ∃ Q, AsmParser.Run 100 (AsmParser.start (AsmToken.stream [.ident ".abort", .eol]))
        = .ok false Q ∧
      Q.Diags = [⟨some 1, ".abort detected. Assembly stopping.", "error"⟩] :=
  ⟨_, rfl, rfl⟩

/-- C7: `ParseExpression` on `a - b * c - d` gives
`Binary(Sub, a, Binary(Sub, Binary(Mul, b, c), d))`: the second `-` is taken as
an operator of the right operand of the first. -/
theorem C7_sub_mul_sub_nests_to_the_right :
    ∃ Q, AsmParser.ParseExpression 100 (AsmParser.start (AsmToken.stream
        [.ident "a", .punct .Minus, .ident "b", .punct .Star, .ident "c", .punct .Minus,
          .ident "d", .eol])) =
      .ok (.Binary .Sub (.SymbolRef "a")
        (.Binary .Sub (.Binary .Mul (.SymbolRef "b") (.SymbolRef "c")) (.SymbolRef "d"))) Q ∧
      Q.Lexer = [⟨.EndOfStatement, "\n", 0, 7⟩] :=
  ⟨_, rfl, rfl⟩

/-- C8: `getBinOpPrecedence` is the four-level table: it returns 1 exactly
for `&&` and `||`; 2 exactly for `+`, `-`, `==`, `!=`, `<>`, `<`, `<=`, `>`,
`>=`; 3 exactly for `|`, `^`, `&`; 4 exactly for `*`, `/`, `%`, `<<`, `>>`;
and for every other token kind, and only for those, it returns 0 and leaves
`Kind` as it was; `!=` and `<>` both set the opcode `NE`. -/
theorem C8_getBinOpPrecedence_table (K : AsmToken.TokenKind) (Kind : AsmBinaryExpr.Opcode) :
    ((getBinOpPrecedence K Kind).1 = 1 ↔ K ∈ [.AmpAmp, .PipePipe]) ∧
    ((getBinOpPrecedence K Kind).1 = 2 ↔
      K ∈ [.Plus, .Minus, .EqualEqual, .ExclaimEqual, .LessGreater, .Less, .LessEqual,
        .Greater, .GreaterEqual]) ∧
    ((getBinOpPrecedence K Kind).1 = 3 ↔ K ∈ [.Pipe, .Caret, .Amp]) ∧
    ((getBinOpPrecedence K Kind).1 = 4 ↔
      K ∈ [.Star, .Slash, .Percent, .LessLess, .GreaterGreater]) ∧
    (getBinOpPrecedence K Kind = (0, Kind) ↔
      K ∉ [.AmpAmp, .PipePipe, .Plus, .Minus, .EqualEqual, .ExclaimEqual, .LessGreater,
        .Less, .LessEqual, .Greater, .GreaterEqual, .Pipe, .Caret, .Amp, .Star, .Slash,
        .Percent, .LessLess, .GreaterGreater]) ∧
    (getBinOpPrecedence K Kind).1 ≤ 4 ∧
    getBinOpPrecedence .ExclaimEqual Kind = (2, .NE) ∧
    getBinOpPrecedence .LessGreater Kind = (2, .NE) ∧
    [getBinOpPrecedence .AmpAmp Kind, getBinOpPrecedence .PipePipe Kind,
      getBinOpPrecedence .Plus Kind, getBinOpPrecedence .Minus Kind,
      getBinOpPrecedence .EqualEqual Kind, getBinOpPrecedence .Less Kind,
      getBinOpPrecedence .LessEqual Kind, getBinOpPrecedence .Greater Kind,
      getBinOpPrecedence .GreaterEqual Kind, getBinOpPrecedence .Pipe Kind,
      getBinOpPrecedence .Caret Kind, getBinOpPrecedence .Amp Kind,
      getBinOpPrecedence .Star Kind, getBinOpPrecedence .Slash Kind,
      getBinOpPrecedence .Percent Kind, getBinOpPrecedence .LessLess Kind,
      getBinOpPrecedence .GreaterGreater Kind] =
      [(1, .LAnd), (1, .LOr), (2, .Add), (2, .Sub), (2, .EQ), (2, .LT), (2, .LTE), (2, .GT),
        (2, .GTE), (3, .Or), (3, .Xor), (3, .And), (4, .Mul), (4, .Div), (4, .Mod),
        (4, .Shl), (4, .Shr)] := by
  cases K <;> simp [getBinOpPrecedence]

/-- C9: on `foo:` / `bar = foo + 4` / `.byte bar` the run returns false and
the streamer receives exactly `EmitLabel(foo)`,
`EmitAssignment(bar, (4, +foo, none), false)` and `EmitValue((0, +bar, none), 1)`,
in this order. -/
theorem C9_label_assignment_byte_trace :
    ∃ Q, AsmParser.Run 100 (AsmParser.start (AsmToken.stream
        [.ident "foo", .punct .Colon, .eol,
          .ident "bar", .punct .Equal, .ident "foo", .punct .Plus, .int "4" 4, .eol,
          .ident ".byte", .ident "bar", .eol])) = .ok false Q ∧
      Q.Out.Calls = [.EmitLabel "foo", .EmitAssignment "bar" ⟨4, some "foo", none⟩ false,
        .EmitValue ⟨0, some "bar", none⟩ 1] ∧
      Q.Diags = [] :=
  ⟨_, rfl, rfl, rfl⟩

/-- C10: `ParseDirectiveAlign` does not reject a negative alignment.  It has
no test of the sign of the alignment operand: for the forms that take the
alignment in bytes (`IsPow2` false: `.balign`, `.balignw`, `.balignl`), when
the operand evaluates to a negative integer `n` and the statement ends
there, it returns success, prints nothing, and makes the one call
`EmitValueToAlignment(n, 0, ValueSize, 0)`.  The runs on `.balign -4`,
`.balignw -4` and `.balignl -8` return without an error, print nothing and
make the calls `EmitValueToAlignment(-4, 0, 1, 0)`,
`EmitValueToAlignment(-4, 0, 2, 0)` and `EmitValueToAlignment(-8, 0, 4, 0)`. -/
theorem C10_balign_negative_is_emitted :
    (∀ (fuel ValueSize : Nat) (P Q : AsmParser) (n : Int), n < 0 →
      AsmParser.ParseAbsoluteExpression fuel P = .ok n Q →
      Q.is .EndOfStatement = true →
      AsmParser.ParseDirectiveAlign fuel false ValueSize P =
        .ok () (Q.Lex.emit (.EmitValueToAlignment n 0 ValueSize 0)) ∧
      (Q.Lex.emit (.EmitValueToAlignment n 0 ValueSize 0)).Out.Calls =
        P.Out.Calls ++ [.EmitValueToAlignment n 0 ValueSize 0] ∧
      (Q.Lex.emit (.EmitValueToAlignment n 0 ValueSize 0)).Diags = Q.Diags) ∧
    (∃ Q, AsmParser.Run 100 (AsmParser.start (AsmToken.stream
        [.ident ".balign", .punct .Minus, .int "4" 4, .eol])) = .ok false Q ∧
      Q.Out.Calls = [.EmitValueToAlignment (-4) 0 1 0] ∧
      Q.Diags = []) ∧
    (∃ Q, AsmParser.Run 100 (AsmParser.start (AsmToken.stream
        [.ident ".balignw", .punct .Minus, .int "4" 4, .eol])) = .ok false Q ∧
      Q.Out.Calls = [.EmitValueToAlignment (-4) 0 2 0] ∧
      Q.Diags = []) ∧
    (∃ Q, AsmParser.Run 100 (AsmParser.start (AsmToken.stream
        [.ident ".balignl", .punct .Minus, .int "8" 8, .eol])) = .ok false Q ∧
      Q.Out.Calls = [.EmitValueToAlignment (-8) 0 4 0] ∧
      Q.Diags = []) := by
  refine ⟨?_, ⟨_, rfl, rfl, rfl⟩, ⟨_, rfl, rfl, rfl⟩, ⟨_, rfl, rfl, rfl⟩⟩
  intro fuel ValueSize P Q n _ hParse hEol
  have hn' : Q.isNot .EndOfStatement = false := by
    simp only [AsmParser.is, decide_eq_true_eq] at hEol
    simp [AsmParser.isNot, hEol]
  have hQ : Q.Out = P.Out := by
    have h := AsmParser.ParseAbsoluteExpression_quiet fuel P
    rw [hParse] at h
    exact h
  refine ⟨?_, by simp [AsmParser.emit, hQ], by simp [AsmParser.emit]⟩
  unfold AsmParser.ParseDirectiveAlign
  simp [hParse, Result.andThen, hn']

/-- C11: an alignment directive whose alignment operand evaluates to `n`
(with `0 ≤ n ≤ 62` for the power-of-two forms) makes exactly one call
`EmitValueToAlignment(A, F, ValueSize, M)`, where `A = 2 ^ n` for the
power-of-two forms and `A = n` for the others, `F` is the fill operand (0
when omitted), and `M` is 0 when the max-bytes operand is omitted or is at
least `A` (then with the warning, at the place of that operand) and is the
operand `m` when `1 ≤ m < A`.  The four shapes are: alignment alone; with a
fill; with a fill and max bytes; with max bytes and the fill omitted
(`n,,m`).  The directive names give `IsPow2` and `ValueSize` as the dispatch
of `ParseStatement` has them, and `.p2align 3, 0x90, 16` gives
`EmitValueToAlignment(8, 0x90, 1, 0)` with the warning. -/
theorem C11_alignment_directive_call (fuel : Nat) (IsPow2 : Bool) (ValueSize : Nat)
    (P P₁ : AsmParser) (n : Int)
    (hParse : AsmParser.ParseAbsoluteExpression fuel P = .ok n P₁)
    (hPow : IsPow2 = true → 0 ≤ n ∧ n ≤ 62) :
    (P₁.is .EndOfStatement = true →
      ∃ Q, AsmParser.ParseDirectiveAlign fuel IsPow2 ValueSize P = .ok () Q ∧
        Q.Out.Calls = P.Out.Calls ++
          [.EmitValueToAlignment (if IsPow2 then 2 ^ n.toNat else n) 0 ValueSize 0] ∧
        Q.Diags = P₁.Diags) ∧
    (∀ f P₂, P₁.is .Comma = true → P₁.Lex.isNot .Comma = true →
      AsmParser.ParseAbsoluteExpression fuel P₁.Lex = .ok f P₂ →
      P₂.is .EndOfStatement = true →
      ∃ Q, AsmParser.ParseDirectiveAlign fuel IsPow2 ValueSize P = .ok () Q ∧
        Q.Out.Calls = P.Out.Calls ++
          [.EmitValueToAlignment (if IsPow2 then 2 ^ n.toNat else n) f ValueSize 0] ∧
        Q.Diags = P₂.Diags) ∧
    (∀ f m P₂ P₃, P₁.is .Comma = true → P₁.Lex.isNot .Comma = true →
      AsmParser.ParseAbsoluteExpression fuel P₁.Lex = .ok f P₂ → P₂.is .Comma = true →
      AsmParser.ParseAbsoluteExpression fuel P₂.Lex = .ok m P₃ →
      P₃.is .EndOfStatement = true → 1 ≤ m →
      ∃ Q, AsmParser.ParseDirectiveAlign fuel IsPow2 ValueSize P = .ok () Q ∧
        Q.Out.Calls = P.Out.Calls ++
          [.EmitValueToAlignment (if IsPow2 then 2 ^ n.toNat else n) f ValueSize
            (if (if IsPow2 then 2 ^ n.toNat else n) ≤ m then 0 else m)] ∧
        Q.Diags = P₃.Diags ++
          (if (if IsPow2 then 2 ^ n.toNat else n) ≤ m then
            [⟨P₂.Lex.getLoc, "maximum bytes expression exceeds alignment and has no effect",
              "warning"⟩]
          else [])) ∧
    (∀ m P₃, P₁.is .Comma = true → P₁.Lex.is .Comma = true →
      AsmParser.ParseAbsoluteExpression fuel P₁.Lex.Lex = .ok m P₃ →
      P₃.is .EndOfStatement = true → 1 ≤ m →
      ∃ Q, AsmParser.ParseDirectiveAlign fuel IsPow2 ValueSize P = .ok () Q ∧
        Q.Out.Calls = P.Out.Calls ++
          [.EmitValueToAlignment (if IsPow2 then 2 ^ n.toNat else n) 0 ValueSize
            (if (if IsPow2 then 2 ^ n.toNat else n) ≤ m then 0 else m)] ∧
        Q.Diags = P₃.Diags ++
          (if (if IsPow2 then 2 ^ n.toNat else n) ≤ m then
            [⟨P₁.Lex.Lex.getLoc, "maximum bytes expression exceeds alignment and has no effect",
              "warning"⟩]
          else [])) ∧
    (∀ (g : Nat) (L : SMLoc) (R : AsmParser),
      AsmParser.ParseDirective g ".align" L R = AsmParser.ParseDirectiveAlign g true 1 R ∧
      AsmParser.ParseDirective g ".align32" L R = AsmParser.ParseDirectiveAlign g true 4 R ∧
      AsmParser.ParseDirective g ".balign" L R = AsmParser.ParseDirectiveAlign g false 1 R ∧
      AsmParser.ParseDirective g ".balignw" L R = AsmParser.ParseDirectiveAlign g false 2 R ∧
      AsmParser.ParseDirective g ".balignl" L R = AsmParser.ParseDirectiveAlign g false 4 R ∧
      AsmParser.ParseDirective g ".p2align" L R = AsmParser.ParseDirectiveAlign g true 1 R ∧
      AsmParser.ParseDirective g ".p2alignw" L R = AsmParser.ParseDirectiveAlign g true 2 R ∧
      AsmParser.ParseDirective g ".p2alignl" L R = AsmParser.ParseDirectiveAlign g true 4 R) ∧
    (∃ Q, AsmParser.Run 100 (AsmParser.start (AsmToken.stream
        [.ident ".p2align", .int "3" 3, .punct .Comma, .int "0x90" 144, .punct .Comma,
          .int "16" 16, .eol])) = .ok false Q ∧
      Q.Out.Calls = [.EmitValueToAlignment 8 144 1 0] ∧
      Q.Diags = [⟨some 5, "maximum bytes expression exceeds alignment and has no effect",
        "warning"⟩]) := by
  have hA : (if IsPow2 then AsmParser.shiftLeftOne n else n) =
      (if IsPow2 then 2 ^ n.toNat else n) := by
    cases IsPow2
    · rfl
    · simp [AsmParser.shiftLeftOne_eq n (hPow rfl).1 (hPow rfl).2]
  have h₁ := AsmParser.ParseAbsoluteExpression_Out hParse
  generalize (if IsPow2 = true then (2 : Int) ^ n.toNat else n) = A at hA ⊢
  refine ⟨?_, ?_, ?_, ?_, ?_, ⟨_, rfl, rfl, rfl⟩⟩
  · intro hE
    have hEq : AsmParser.ParseDirectiveAlign fuel IsPow2 ValueSize P = .ok ()
        (P₁.Lex.emit (.EmitValueToAlignment A 0 ValueSize 0)) := by
      unfold AsmParser.ParseDirectiveAlign
      simp [hParse, Result.andThen, AsmParser.isNot_eq_false_of_is hE,
        hA]
    exact ⟨_, hEq, by simp [AsmParser.emit, h₁], by simp [AsmParser.emit]⟩
  · intro f P₂ hC hNC hF hE
    have h₂ := AsmParser.ParseAbsoluteExpression_Out hF
    have hCE : P₁.isNot .EndOfStatement = true := AsmParser.isNot_of_is hC (by decide)
    have hEq : AsmParser.ParseDirectiveAlign fuel IsPow2 ValueSize P = .ok ()
        (P₂.Lex.emit (.EmitValueToAlignment A f ValueSize 0)) := by
      unfold AsmParser.ParseDirectiveAlign
      simp [hParse, Result.andThen, hCE,
        AsmParser.isNot_eq_false_of_is hC, hNC, hF, AsmParser.isNot_eq_false_of_is hE,
        hA]
    exact ⟨_, hEq, by simp [AsmParser.emit, h₁, h₂], by simp [AsmParser.emit]⟩
  · intro f m P₂ P₃ hC hNC hF hC₂ hM hE hm
    have h₂ := AsmParser.ParseAbsoluteExpression_Out hF
    have h₃ := AsmParser.ParseAbsoluteExpression_Out hM
    have hCE : P₁.isNot .EndOfStatement = true := AsmParser.isNot_of_is hC (by decide)
    have hCE₂ : P₂.isNot .EndOfStatement = true := AsmParser.isNot_of_is hC₂ (by decide)
    have hEq : AsmParser.ParseDirectiveAlign fuel IsPow2 ValueSize P = .ok ()
        ((if A ≤ m then
            P₃.Lex.Warning P₂.Lex.getLoc
              "maximum bytes expression exceeds alignment and has no effect"
          else P₃.Lex).emit (.EmitValueToAlignment A f
          ValueSize (if A ≤ m then 0 else m))) := by
      unfold AsmParser.ParseDirectiveAlign
      simp [hParse, Result.andThen, hCE, hCE₂,
        AsmParser.isNot_eq_false_of_is hC, hNC, hF,
        AsmParser.isNot_eq_false_of_is hC₂, hM, AsmParser.isNot_eq_false_of_is hE,
        hA, AsmParser.getLoc, not_lt.mpr hm]
    refine ⟨_, hEq, ?_, ?_⟩
    · by_cases hle : A ≤ m <;> simp [hle, AsmParser.emit, AsmParser.Warning, h₁, h₂, h₃]
    · by_cases hle : A ≤ m <;> simp [hle, AsmParser.emit, AsmParser.Warning]
  · intro m P₃ hC hC₂ hM hE hm
    have h₃ := AsmParser.ParseAbsoluteExpression_Out hM
    have hCE : P₁.isNot .EndOfStatement = true := AsmParser.isNot_of_is hC (by decide)
    have hCE₂ : P₁.Lex.isNot .EndOfStatement = true := AsmParser.isNot_of_is hC₂ (by decide)
    have hEq : AsmParser.ParseDirectiveAlign fuel IsPow2 ValueSize P = .ok ()
        ((if A ≤ m then
            P₃.Lex.Warning P₁.Lex.Lex.getLoc
              "maximum bytes expression exceeds alignment and has no effect"
          else P₃.Lex).emit (.EmitValueToAlignment A 0
          ValueSize (if A ≤ m then 0 else m))) := by
      unfold AsmParser.ParseDirectiveAlign
      simp [hParse, Result.andThen, hCE, hCE₂,
        AsmParser.isNot_eq_false_of_is hC, AsmParser.isNot_eq_false_of_is hC₂,
        hM, AsmParser.isNot_eq_false_of_is hE,
        hA, AsmParser.getLoc, not_lt.mpr hm]
    refine ⟨_, hEq, ?_, ?_⟩
    · by_cases hle : A ≤ m <;> simp [hle, AsmParser.emit, AsmParser.Warning, h₁, h₃]
    · by_cases hle : A ≤ m <;> simp [hle, AsmParser.emit, AsmParser.Warning]
  · intro g L R
    refine ⟨?_, ?_, ?_, ?_, ?_, ?_, ?_, ?_⟩ <;> rfl

/-- C11 at the operands `3, 0x90, 16` of `.p2align`: the call is
`EmitValueToAlignment(8, 0x90, 1, 0)` and the warning is at `16`. -/
theorem C11_alignment_directive_call_witness :
    AsmParser.ParseAbsoluteExpression 100 (AsmParser.start (AsmToken.stream
        [.int "3" 3, .punct .Comma, .int "0x90" 144, .punct .Comma, .int "16" 16, .eol])) =
      .ok 3 (AsmParser.start (AsmToken.stream
        [.int "3" 3, .punct .Comma, .int "0x90" 144, .punct .Comma, .int "16" 16, .eol])).Lex ∧
    ∃ Q, AsmParser.ParseDirectiveAlign 100 true 1 (AsmParser.start (AsmToken.stream
        [.int "3" 3, .punct .Comma, .int "0x90" 144, .punct .Comma, .int "16" 16, .eol])) =
        .ok () Q ∧
      Q.Out.Calls = [] ++ [.EmitValueToAlignment 8 144 1 0] ∧
      Q.Diags = [] ++
        [⟨some 4, "maximum bytes expression exceeds alignment and has no effect",
          "warning"⟩] :=
  ⟨rfl, (C11_alignment_directive_call 100 true 1
    (AsmParser.start (AsmToken.stream
      [.int "3" 3, .punct .Comma, .int "0x90" 144, .punct .Comma, .int "16" 16, .eol]))
    (AsmParser.start (AsmToken.stream
      [.int "3" 3, .punct .Comma, .int "0x90" 144, .punct .Comma, .int "16" 16, .eol])).Lex
    3 rfl (fun _ => by decide)).2.2.1 144 16
    (AsmParser.start (AsmToken.stream
      [.int "3" 3, .punct .Comma, .int "0x90" 144, .punct .Comma, .int "16" 16, .eol])).Lex.Lex.Lex
    (AsmParser.start (AsmToken.stream
      [.int "3" 3, .punct .Comma, .int "0x90" 144, .punct .Comma, .int "16" 16,
        .eol])).Lex.Lex.Lex.Lex.Lex
    rfl rfl rfl rfl rfl rfl (by decide)⟩

/-- C12: a statement `.fill n, s, v` with three absolute operands (of values
`n`, `s`, `v`, `n` a non-negative `int64_t`) followed by the end of the
statement: when `s` is 1, 2 or 4 the directive succeeds after exactly `n`
calls `EmitValue(v, s)`; for any other `s` it is an error with the message
"invalid '.fill' size, expected 1, 2, or 4" and the streamer is left as it
was. -/
theorem C12_fill_size_check (fuel : Nat) (P P₁ P₂ P₃ : AsmParser) (n s v : Int)
    (hN : AsmParser.ParseAbsoluteExpression fuel P = .ok n P₁)
    (hC₁ : P₁.is .Comma = true)
    (hS : AsmParser.ParseAbsoluteExpression fuel P₁.Lex = .ok s P₂)
    (hC₂ : P₂.is .Comma = true)
    (hV : AsmParser.ParseAbsoluteExpression fuel P₂.Lex = .ok v P₃)
    (hE : P₃.is .EndOfStatement = true)
    (hn : 0 ≤ n) (hn' : n < 2 ^ 63) :
    (s = 1 ∨ s = 2 ∨ s = 4 →
      ∃ Q, AsmParser.ParseDirectiveFill fuel P = .ok () Q ∧
        Q.Out.Calls = P.Out.Calls ++ List.replicate n.toNat (.EmitValue (MCValue.get v) s) ∧
        Q.Diags = P₃.Diags) ∧
    (¬ (s = 1 ∨ s = 2 ∨ s = 4) →
      ∃ Q, AsmParser.ParseDirectiveFill fuel P = .error Q ∧
        Q.Out = P.Out ∧
        Q.Diags = P₃.Diags ++
          [⟨P₃.Lex.getLoc, "invalid '.fill' size, expected 1, 2, or 4", "error"⟩]) := by
  have h₁ := AsmParser.ParseAbsoluteExpression_Out hN
  have h₂ := AsmParser.ParseAbsoluteExpression_Out hS
  have h₃ := AsmParser.ParseAbsoluteExpression_Out hV
  have hmod : (n % 18446744073709551616).toNat = n.toNat := by
    rw [Int.emod_eq_of_lt hn (by omega)]
  constructor
  · intro hs
    have hEq : AsmParser.ParseDirectiveFill fuel P = .ok ()
        (P₃.Lex.emitValues n (MCValue.get v) s) := by
      have hs' : ¬ (s ≠ 1 ∧ s ≠ 2 ∧ s ≠ 4) := by omega
      simp [AsmParser.ParseDirectiveFill, hN, hS, hV, Result.andThen,
        AsmParser.isNot_eq_false_of_is hC₁, AsmParser.isNot_eq_false_of_is hC₂,
        AsmParser.isNot_eq_false_of_is hE]
      intro a b
      omega
    exact ⟨_, hEq, by simp [AsmParser.emitValues, hmod, h₁, h₂, h₃],
      by simp [AsmParser.emitValues]⟩
  · intro hs
    have hEq : AsmParser.ParseDirectiveFill fuel P = .error
        (P₃.Lex.TokError "invalid '.fill' size, expected 1, 2, or 4") := by
      have hs' : s ≠ 1 ∧ s ≠ 2 ∧ s ≠ 4 := by omega
      simp [AsmParser.ParseDirectiveFill, hN, hS, hV, Result.andThen,
        AsmParser.isNot_eq_false_of_is hC₁, AsmParser.isNot_eq_false_of_is hC₂,
        AsmParser.isNot_eq_false_of_is hE, hs']
    exact ⟨_, hEq, by simp [h₁, h₂, h₃], by simp [AsmParser.TokError]⟩

/-- C12 at the operands `2, 1, 7` of `.fill`: success after the two calls
`EmitValue(7, 1)`. -/
theorem C12_fill_size_check_witness :
    ∃ Q, AsmParser.ParseDirectiveFill 100 (AsmParser.start (AsmToken.stream
      [.int "2" 2, .punct .Comma, .int "1" 1, .punct .Comma, .int "7" 7, .eol])) = .ok () Q ∧
      Q.Out.Calls = [] ++ List.replicate (2 : Int).toNat (.EmitValue (MCValue.get 7) 1) ∧
      Q.Diags = [] :=
  (C12_fill_size_check 100
    (AsmParser.start (AsmToken.stream
      [.int "2" 2, .punct .Comma, .int "1" 1, .punct .Comma, .int "7" 7, .eol]))
    (AsmParser.start (AsmToken.stream
      [.int "2" 2, .punct .Comma, .int "1" 1, .punct .Comma, .int "7" 7, .eol])).Lex
    (AsmParser.start (AsmToken.stream
      [.int "2" 2, .punct .Comma, .int "1" 1, .punct .Comma, .int "7" 7, .eol])).Lex.Lex.Lex
    (AsmParser.start (AsmToken.stream
      [.int "2" 2, .punct .Comma, .int "1" 1, .punct .Comma, .int "7" 7, .eol])).Lex.Lex.Lex.Lex.Lex
    2 1 7 rfl rfl rfl rfl rfl rfl (by decide) (by decide)).1 (Or.inl rfl)

/-- C13 (counterexample): `.byte 1 2` (missing comma) is an error, reported
at `2`, and the call `EmitValue(1, 1)` for the first operand has been made. -/
theorem C13_byte_missing_comma_emits_first_operand :
    ∃ Q, AsmParser.ParseStatement 100 (AsmParser.start (AsmToken.stream
        [.ident ".byte", .int "1" 1, .int "2" 2, .eol])) = .error Q ∧
      Q.Out.Calls = [.EmitValue ⟨1, none, none⟩ 1] ∧
      Q.Diags = [⟨some 2, "unexpected token in directive", "error"⟩] :=
  ⟨_, rfl, rfl, rfl⟩

/-- C13 (amended): for every directive other than the data directives
(`.ascii`, `.asciz`, `.byte`, `.short`, `.long`, `.quad`) and the symbol
attribute directives, a statement that returns an error has left the
streamer as it was.  A data or symbol attribute directive calls the streamer
operand by operand while it parses: when it returns an error, the calls it
made are calls of its own method only (`EmitValue` of its size, `EmitBytes`,
`EmitSymbolAttribute` of its attribute), added after the calls made before;
and when an operand of a value directive is followed by a token that is
neither a comma nor the end of the statement, the error is returned after
the call for that operand. -/
theorem C13_errors_and_streamer_calls :
    (∀ fuel IDVal IDLoc P Q, IDVal ∉ AsmParser.listDirectives →
      AsmParser.ParseDirective fuel IDVal IDLoc P = .error Q → Q.Out = P.Out) ∧
    (∀ fuel Size P Q, AsmParser.ParseDirectiveValue fuel Size P = .error Q →
      ∃ Extra, Q.Out.Calls = P.Out.Calls ++ Extra ∧
        ∀ C ∈ Extra, ∃ V, C = StreamerCall.EmitValue V Size) ∧
    (∀ fuel Z P Q, AsmParser.ParseDirectiveAscii fuel Z P = .error Q →
      ∃ Extra, Q.Out.Calls = P.Out.Calls ++ Extra ∧
        ∀ C ∈ Extra, ∃ D, C = StreamerCall.EmitBytes D) ∧
    (∀ fuel Attr P Q, AsmParser.ParseDirectiveSymbolAttribute fuel Attr P = .error Q →
      ∃ Extra, Q.Out.Calls = P.Out.Calls ++ Extra ∧
        ∀ C ∈ Extra, ∃ S, C = StreamerCall.EmitSymbolAttribute S Attr) ∧
    (∀ fuel Size P P₁ V, AsmParser.ParseRelocatableExpression fuel P = .ok V P₁ →
      P.isNot .EndOfStatement = true →
      P₁.is .EndOfStatement = false → P₁.isNot .Comma = true →
      AsmParser.ParseDirectiveValue (fuel + 1) Size P =
        .error ((P₁.emit (.EmitValue V Size)).TokError "unexpected token in directive") ∧
      ((P₁.emit (.EmitValue V Size)).TokError "unexpected token in directive").Out.Calls =
        P.Out.Calls ++ [.EmitValue V Size]) ∧
    (∀ (g : Nat) (L : SMLoc) (R : AsmParser),
      AsmParser.ParseDirective g ".ascii" L R = AsmParser.ParseDirectiveAscii g false R ∧
      AsmParser.ParseDirective g ".asciz" L R = AsmParser.ParseDirectiveAscii g true R ∧
      AsmParser.ParseDirective g ".byte" L R = AsmParser.ParseDirectiveValue g 1 R ∧
      AsmParser.ParseDirective g ".short" L R = AsmParser.ParseDirectiveValue g 2 R ∧
      AsmParser.ParseDirective g ".long" L R = AsmParser.ParseDirectiveValue g 4 R ∧
      AsmParser.ParseDirective g ".quad" L R = AsmParser.ParseDirectiveValue g 8 R ∧
      AsmParser.ParseDirective g ".globl" L R =
        AsmParser.ParseDirectiveSymbolAttribute g .Global R ∧
      AsmParser.ParseDirective g ".global" L R =
        AsmParser.ParseDirectiveSymbolAttribute g .Global R ∧
      AsmParser.ParseDirective g ".hidden" L R =
        AsmParser.ParseDirectiveSymbolAttribute g .Hidden R ∧
      AsmParser.ParseDirective g ".indirect_symbol" L R =
        AsmParser.ParseDirectiveSymbolAttribute g .IndirectSymbol R ∧
      AsmParser.ParseDirective g ".internal" L R =
        AsmParser.ParseDirectiveSymbolAttribute g .Internal R ∧
      AsmParser.ParseDirective g ".lazy_reference" L R =
        AsmParser.ParseDirectiveSymbolAttribute g .LazyReference R ∧
      AsmParser.ParseDirective g ".no_dead_strip" L R =
        AsmParser.ParseDirectiveSymbolAttribute g .NoDeadStrip R ∧
      AsmParser.ParseDirective g ".private_extern" L R =
        AsmParser.ParseDirectiveSymbolAttribute g .PrivateExtern R ∧
      AsmParser.ParseDirective g ".protected" L R =
        AsmParser.ParseDirectiveSymbolAttribute g .Protected R ∧
      AsmParser.ParseDirective g ".reference" L R =
        AsmParser.ParseDirectiveSymbolAttribute g .Reference R ∧
      AsmParser.ParseDirective g ".weak" L R =
        AsmParser.ParseDirectiveSymbolAttribute g .Weak R ∧
      AsmParser.ParseDirective g ".weak_definition" L R =
        AsmParser.ParseDirectiveSymbolAttribute g .WeakDefinition R ∧
      AsmParser.ParseDirective g ".weak_reference" L R =
        AsmParser.ParseDirectiveSymbolAttribute g .WeakReference R) := by
  refine ⟨?_, ?_, ?_, ?_, ?_, ?_⟩
  · intro fuel IDVal IDLoc P Q hID hQ
    have h := AsmParser.ParseDirective_silent fuel IDVal IDLoc P hID
    rw [hQ] at h
    exact h
  · intro fuel Size P Q hQ
    have h := AsmParser.ParseDirectiveValue_emits fuel Size P
    rw [hQ] at h
    exact h.2
  · intro fuel Z P Q hQ
    have h := AsmParser.ParseDirectiveAscii_emits fuel Z P
    rw [hQ] at h
    exact h.2
  · intro fuel Attr P Q hQ
    have h := AsmParser.ParseDirectiveSymbolAttribute_emits fuel Attr P
    rw [hQ] at h
    exact h.2
  · intro fuel Size P P₁ V hV hNE hE hC
    have hOut : P₁.Out = P.Out := by
      have h := AsmParser.ParseRelocatableExpression_quiet fuel P
      rw [hV] at h
      exact h
    constructor
    · simp [AsmParser.ParseDirectiveValue, AsmParser.ParseDirectiveValueLoop, hNE, hV,
        Result.andThen, hE, hC]
    · simp [AsmParser.emit, hOut]
  · intro g L R
    refine ⟨?_, ?_, ?_, ?_, ?_, ?_, ?_, ?_, ?_, ?_, ?_, ?_, ?_, ?_, ?_, ?_, ?_, ?_, ?_⟩ <;> rfl

/-- C14: `ParseDirectiveAscii` does no escape processing.  For `.ascii` with
the string token whose text is a quote, a backslash, the letter `n` and a
quote, `EmitBytes` receives the two characters backslash and `n`, not the
single character 0x0A.  In general, for a string operand of `.ascii` or
`.asciz` followed by the end of the statement, the bytes passed to
`EmitBytes` are the text of the string token without its first and its last
character, whatever characters stand between them (`.asciz` adds a call with
a single zero byte). -/
theorem C14_ascii_backslash_n_is_passed_unprocessed :
    (∃ Q, AsmParser.Run 100 (AsmParser.start (AsmToken.stream
        [.ident ".ascii",
          .string (String.mk [Char.ofNat 34, Char.ofNat 92, Char.ofNat 110, Char.ofNat 34]),
          .eol])) = .ok false Q ∧
      Q.Out.Calls = [.EmitBytes (String.mk [Char.ofNat 92, Char.ofNat 110])] ∧
      Q.Diags = [] ∧
      (String.mk [Char.ofNat 92, Char.ofNat 110]).length = 2 ∧
      String.mk [Char.ofNat 92, Char.ofNat 110] ≠ String.mk [Char.ofNat 10]) ∧
    (∃ Q, AsmParser.Run 100 (AsmParser.start (AsmToken.stream
        [.ident ".asciz",
          .string (String.mk [Char.ofNat 34, Char.ofNat 92, Char.ofNat 110, Char.ofNat 34]),
          .eol])) = .ok false Q ∧
      Q.Out.Calls = [.EmitBytes (String.mk [Char.ofNat 92, Char.ofNat 110]),
        .EmitBytes (String.mk [Char.ofNat 0])] ∧
      Q.Diags = []) ∧
    (∀ (P : AsmParser) (Str Eol : AsmToken) (Rest : List AsmToken) (Z : Bool) (fuel : Nat),
      P.Lexer = Str :: Eol :: Rest → Str.Kind = .String → Eol.Kind = .EndOfStatement →
      ∃ Q, AsmParser.ParseDirectiveAscii (fuel + 1) Z P = .ok () Q ∧ Q.Lexer = Rest ∧
        Q.Out.Calls = P.Out.Calls ++ [.EmitBytes (AsmParser.stripQuotes Str.Str)] ++
          (if Z then [.EmitBytes (String.mk [Char.ofNat 0])] else [])) ∧
    (∀ (q q' : Char) (cs : List Char),
      AsmParser.stripQuotes (String.mk (q :: (cs ++ [q']))) = String.mk cs) := by
  refine ⟨⟨_, rfl, rfl, rfl, rfl, by decide⟩, ⟨_, rfl, rfl, rfl⟩, ?_, AsmParser.stripQuotes_mk⟩
  intro P Str Eol Rest Z fuel hL hS hE
  have hk := AsmParser.getKind_cons P Str _ hL
  have hLx := AsmParser.Lex_cons P Str _ hL (by simp [hS])
  have hk' := AsmParser.getKind_cons P.Lex Eol _ hLx
  have hLxx := AsmParser.Lex_cons P.Lex Eol _ hLx (by simp [hE])
  cases Z
  · refine ⟨(P.Lex.emit (.EmitBytes (AsmParser.stripQuotes Str.Str))).Lex, ?_, ?_, ?_⟩
    · simp [AsmParser.ParseDirectiveAscii, AsmParser.ParseDirectiveAsciiLoop, AsmParser.isNot,
        AsmParser.is, hk.1, hk.2, hS, hk'.1, hE, Result.andThen]
    · simpa using hLxx
    · simp
  · refine ⟨((P.Lex.emit (.EmitBytes (AsmParser.stripQuotes Str.Str))).emit
        (.EmitBytes (String.mk [Char.ofNat 0]))).Lex, ?_, ?_, ?_⟩
    · simp [AsmParser.ParseDirectiveAscii, AsmParser.ParseDirectiveAsciiLoop, AsmParser.isNot,
        AsmParser.is, hk.1, hk.2, hS, hk'.1, hE, Result.andThen]
    · simpa using hLxx
    · simp

/-- C16: `ParseAbsoluteExpression` succeeds, with the evaluated value, exactly
when the expression parses and its absolute evaluation succeeds; when the
expression parses and the evaluation fails it returns an error with
'expected absolute expression' at the place where the expression starts, and
the streamer is left as it was.  An error of `ParseAbsoluteExpression` at any
absolute operand of `.align` (alignment, fill, max bytes), `.space`, `.fill`,
`.org` (fill), `.desc`, `.comm` / `.lcomm` (size, alignment) and `.zerofill`
(size, alignment) is returned by the directive as its own error, and an
error of any of these directives leaves the streamer as it was. -/
theorem C16_absolute_expression_or_error :
    (∀ fuel P v Q, AsmParser.ParseAbsoluteExpression fuel P = .ok v Q ↔
      ∃ E, AsmParser.ParseExpression fuel P = .ok E Q ∧ E.EvaluateAsAbsolute = some v) ∧
    (∀ fuel P E Q, AsmParser.ParseExpression fuel P = .ok E Q → E.EvaluateAsAbsolute = none →
      AsmParser.ParseAbsoluteExpression fuel P =
          .error (Q.Error P.getLoc "expected absolute expression") ∧
        (Q.Error P.getLoc "expected absolute expression").Out = P.Out) ∧
    (∀ fuel P Q, AsmParser.ParseAbsoluteExpression fuel P = .error Q → Q.Out = P.Out) ∧
    -- the alignment directives
    (∀ fuel IsPow2 ValueSize P Q,
      (AsmParser.ParseAbsoluteExpression fuel P = .error Q →
        AsmParser.ParseDirectiveAlign fuel IsPow2 ValueSize P = .error Q) ∧
      (∀ n P₁, AsmParser.ParseAbsoluteExpression fuel P = .ok n P₁ → P₁.is .Comma = true →
        P₁.Lex.isNot .Comma = true →
        AsmParser.ParseAbsoluteExpression fuel P₁.Lex = .error Q →
        AsmParser.ParseDirectiveAlign fuel IsPow2 ValueSize P = .error Q) ∧
      (∀ n f P₁ P₂, AsmParser.ParseAbsoluteExpression fuel P = .ok n P₁ →
        P₁.is .Comma = true → P₁.Lex.isNot .Comma = true →
        AsmParser.ParseAbsoluteExpression fuel P₁.Lex = .ok f P₂ → P₂.is .Comma = true →
        AsmParser.ParseAbsoluteExpression fuel P₂.Lex = .error Q →
        AsmParser.ParseDirectiveAlign fuel IsPow2 ValueSize P = .error Q) ∧
      (∀ n P₁, AsmParser.ParseAbsoluteExpression fuel P = .ok n P₁ → P₁.is .Comma = true →
        P₁.Lex.is .Comma = true →
        AsmParser.ParseAbsoluteExpression fuel P₁.Lex.Lex = .error Q →
        AsmParser.ParseDirectiveAlign fuel IsPow2 ValueSize P = .error Q) ∧
      (AsmParser.ParseDirectiveAlign fuel IsPow2 ValueSize P = .error Q → Q.Out = P.Out)) ∧
    -- `.space`
    (∀ fuel P Q,
      (AsmParser.ParseAbsoluteExpression fuel P = .error Q →
        AsmParser.ParseDirectiveSpace fuel P = .error Q) ∧
      (∀ n P₁, AsmParser.ParseAbsoluteExpression fuel P = .ok n P₁ → P₁.is .Comma = true →
        AsmParser.ParseAbsoluteExpression fuel P₁.Lex = .error Q →
        AsmParser.ParseDirectiveSpace fuel P = .error Q) ∧
      (AsmParser.ParseDirectiveSpace fuel P = .error Q → Q.Out = P.Out)) ∧
    -- `.fill`
    (∀ fuel P Q,
      (AsmParser.ParseAbsoluteExpression fuel P = .error Q →
        AsmParser.ParseDirectiveFill fuel P = .error Q) ∧
      (∀ n P₁, AsmParser.ParseAbsoluteExpression fuel P = .ok n P₁ → P₁.is .Comma = true →
        AsmParser.ParseAbsoluteExpression fuel P₁.Lex = .error Q →
        AsmParser.ParseDirectiveFill fuel P = .error Q) ∧
      (∀ n s P₁ P₂, AsmParser.ParseAbsoluteExpression fuel P = .ok n P₁ →
        P₁.is .Comma = true → AsmParser.ParseAbsoluteExpression fuel P₁.Lex = .ok s P₂ →
        P₂.is .Comma = true → AsmParser.ParseAbsoluteExpression fuel P₂.Lex = .error Q →
        AsmParser.ParseDirectiveFill fuel P = .error Q) ∧
      (AsmParser.ParseDirectiveFill fuel P = .error Q → Q.Out = P.Out)) ∧
    -- the fill of `.org`
    (∀ fuel P Q,
      (∀ Off P₁, AsmParser.ParseRelocatableExpression fuel P = .ok Off P₁ →
        P₁.is .Comma = true → AsmParser.ParseAbsoluteExpression fuel P₁.Lex = .error Q →
        AsmParser.ParseDirectiveOrg fuel P = .error Q) ∧
      (AsmParser.ParseDirectiveOrg fuel P = .error Q → Q.Out = P.Out)) ∧
    -- `.desc`
    (∀ fuel P Q,
      (P.is .Identifier = true → P.Lex.is .Comma = true →
        AsmParser.ParseAbsoluteExpression fuel P.Lex.Lex = .error Q →
        AsmParser.ParseDirectiveDarwinSymbolDesc fuel P = .error Q) ∧
      (AsmParser.ParseDirectiveDarwinSymbolDesc fuel P = .error Q → Q.Out = P.Out)) ∧
    -- `.comm` and `.lcomm`
    (∀ fuel IsLocal P Q,
      (P.is .Identifier = true → P.Lex.is .Comma = true →
        AsmParser.ParseAbsoluteExpression fuel P.Lex.Lex = .error Q →
        AsmParser.ParseDirectiveComm fuel IsLocal P = .error Q) ∧
      (∀ s P₁, P.is .Identifier = true → P.Lex.is .Comma = true →
        AsmParser.ParseAbsoluteExpression fuel P.Lex.Lex = .ok s P₁ → P₁.is .Comma = true →
        AsmParser.ParseAbsoluteExpression fuel P₁.Lex = .error Q →
        AsmParser.ParseDirectiveComm fuel IsLocal P = .error Q) ∧
      (AsmParser.ParseDirectiveComm fuel IsLocal P = .error Q → Q.Out = P.Out)) ∧
    -- `.zerofill`
    (∀ fuel P Q,
      (P.is .Identifier = true → P.Lex.is .Comma = true → P.Lex.Lex.is .Identifier = true →
        P.Lex.Lex.Lex.is .Comma = true → P.Lex.Lex.Lex.Lex.is .Identifier = true →
        P.Lex.Lex.Lex.Lex.Lex.is .Comma = true →
        AsmParser.ParseAbsoluteExpression fuel P.Lex.Lex.Lex.Lex.Lex.Lex = .error Q →
        AsmParser.ParseDirectiveDarwinZerofill fuel P = .error Q) ∧
      (∀ s P₁, P.is .Identifier = true → P.Lex.is .Comma = true →
        P.Lex.Lex.is .Identifier = true → P.Lex.Lex.Lex.is .Comma = true →
        P.Lex.Lex.Lex.Lex.is .Identifier = true → P.Lex.Lex.Lex.Lex.Lex.is .Comma = true →
        AsmParser.ParseAbsoluteExpression fuel P.Lex.Lex.Lex.Lex.Lex.Lex = .ok s P₁ →
        P₁.is .Comma = true → AsmParser.ParseAbsoluteExpression fuel P₁.Lex = .error Q →
        AsmParser.ParseDirectiveDarwinZerofill fuel P = .error Q) ∧
      (AsmParser.ParseDirectiveDarwinZerofill fuel P = .error Q → Q.Out = P.Out)) ∧
    -- `.space foo`, where `foo` is an undefined symbol
    (∃ Q, AsmParser.Run 100 (AsmParser.start (AsmToken.stream
        [.ident ".space", .ident "foo", .eol])) = .ok true Q ∧
      Q.Out.Calls = [] ∧
      Q.Diags = [⟨some 1, "expected absolute expression", "error"⟩]) := by
  have silent : ∀ {r : Result Unit} {P Q : AsmParser}, r.Silent P → r = .error Q →
      Q.Out = P.Out := by
    intro r P Q h hr
    rw [hr] at h
    exact h
  have ne₁ : ∀ {P : AsmParser}, P.is .Comma = true → P.isNot .EndOfStatement = true :=
    fun h => AsmParser.isNot_of_is h (by decide)
  have ne₂ : ∀ {P : AsmParser}, P.is .Comma = true → P.isNot .Comma = false :=
    fun h => AsmParser.isNot_eq_false_of_is h
  have ne₃ : ∀ {P : AsmParser}, P.is .Identifier = true → P.isNot .Identifier = false :=
    fun h => AsmParser.isNot_eq_false_of_is h
  have ne₄ : ∀ {P : AsmParser}, P.is .Comma = true → P.is .EndOfStatement = false := by
    intro P h
    simp only [AsmParser.is, decide_eq_true_eq] at h
    simp [AsmParser.is, h]
  refine ⟨?_, ?_, ?_, ?_, ?_, ?_, ?_, ?_, ?_, ?_, ⟨_, rfl, rfl, rfl⟩⟩
  · intro fuel P v Q
    unfold AsmParser.ParseAbsoluteExpression
    cases hE : AsmParser.ParseExpression fuel P with
    | ok E R =>
      cases hv : E.EvaluateAsAbsolute with
      | none => simp [Result.andThen, hv]
      | some w =>
        simp only [Result.andThen, hv]
        constructor
        · intro h
          cases h
          exact ⟨E, rfl, hv⟩
        · rintro ⟨E', hE', hv'⟩
          cases hE'
          rw [hv] at hv'
          cases hv'
          rfl
    | error R => simp [Result.andThen]
    | outOfFuel => simp [Result.andThen]
  · intro fuel P E Q hE hv
    have hq := (AsmParser.expr_quiet fuel).2.2.1 P
    rw [hE] at hq
    exact ⟨by simp [AsmParser.ParseAbsoluteExpression, hE, Result.andThen, hv],
      by simpa using hq⟩
  · intro fuel P Q hQ
    have hq := AsmParser.ParseAbsoluteExpression_quiet fuel P
    rw [hQ] at hq
    exact hq
  · intro fuel IsPow2 ValueSize P Q
    refine ⟨?_, ?_, ?_, ?_, silent (AsmParser.ParseDirectiveAlign_silent fuel IsPow2 ValueSize P)⟩
    · intro h
      simp [AsmParser.ParseDirectiveAlign, h, Result.andThen]
    · intro n P₁ h₁ hC hNC h
      simp [AsmParser.ParseDirectiveAlign, h₁, Result.andThen, ne₁ hC, ne₂ hC, hNC, h]
    · intro n f P₁ P₂ h₁ hC hNC h₂ hC₂ h
      simp [AsmParser.ParseDirectiveAlign, h₁, Result.andThen, ne₁ hC, ne₂ hC, hNC, h₂,
        ne₁ hC₂, ne₂ hC₂, h]
    · intro n P₁ h₁ hC hC₂ h
      simp [AsmParser.ParseDirectiveAlign, h₁, Result.andThen, ne₁ hC, ne₂ hC, ne₁ hC₂,
        ne₂ hC₂, h]
  · intro fuel P Q
    refine ⟨?_, ?_, silent (AsmParser.ParseDirectiveSpace_silent fuel P)⟩
    · intro h
      simp [AsmParser.ParseDirectiveSpace, h, Result.andThen]
    · intro n P₁ h₁ hC h
      simp [AsmParser.ParseDirectiveSpace, h₁, Result.andThen, ne₁ hC, ne₂ hC, h]
  · intro fuel P Q
    refine ⟨?_, ?_, ?_, silent (AsmParser.ParseDirectiveFill_silent fuel P)⟩
    · intro h
      simp [AsmParser.ParseDirectiveFill, h, Result.andThen]
    · intro n P₁ h₁ hC h
      simp [AsmParser.ParseDirectiveFill, h₁, Result.andThen, ne₂ hC, h]
    · intro n s P₁ P₂ h₁ hC h₂ hC₂ h
      simp [AsmParser.ParseDirectiveFill, h₁, Result.andThen, ne₂ hC, h₂, ne₂ hC₂, h]
  · intro fuel P Q
    refine ⟨?_, silent (AsmParser.ParseDirectiveOrg_silent fuel P)⟩
    intro Off P₁ h₁ hC h
    simp [AsmParser.ParseDirectiveOrg, h₁, Result.andThen, ne₁ hC, ne₂ hC, h]
  · intro fuel P Q
    refine ⟨?_, silent (AsmParser.ParseDirectiveDarwinSymbolDesc_silent fuel P)⟩
    intro hI hC h
    simp [AsmParser.ParseDirectiveDarwinSymbolDesc, ne₃ hI, ne₂ hC, h, Result.andThen]
  · intro fuel IsLocal P Q
    refine ⟨?_, ?_, silent (AsmParser.ParseDirectiveComm_silent fuel IsLocal P)⟩
    · intro hI hC h
      simp [AsmParser.ParseDirectiveComm, ne₃ hI, ne₂ hC, h, Result.andThen]
    · intro s P₁ hI hC h₁ hC₁ h
      simp [AsmParser.ParseDirectiveComm, AsmParser.ParseOptionalPow2Alignment, ne₃ hI, ne₂ hC,
        h₁, hC₁, h, Result.andThen]
  · intro fuel P Q
    refine ⟨?_, ?_, silent (AsmParser.ParseDirectiveDarwinZerofill_silent fuel P)⟩
    · intro hI hC hI₂ hC₂ hI₃ hC₃ h
      simp [AsmParser.ParseDirectiveDarwinZerofill, ne₃ hI, ne₂ hC, ne₃ hI₂, ne₂ hC₂, ne₄ hC₂,
        ne₃ hI₃, ne₂ hC₃, h, Result.andThen]
    · intro s P₁ hI hC hI₂ hC₂ hI₃ hC₃ h₁ hC₁ h
      simp [AsmParser.ParseDirectiveDarwinZerofill, AsmParser.ParseOptionalPow2Alignment,
        ne₃ hI, ne₂ hC, ne₃ hI₂, ne₂ hC₂, ne₄ hC₂, ne₃ hI₃, ne₂ hC₃, h₁, hC₁, h,
        Result.andThen]

/-- C17: on an identifier token `ParsePrimaryExpr` returns the reference to
the symbol of that name and consumes that token only; the symbol is marked
external exactly when it has neither a section nor an assigned value, and
otherwise the context (the flag included) is left as it was; the streamer and
the messages are not touched. -/
theorem C17_primary_identifier (fuel : Nat) (P : AsmParser) (Id : AsmToken)
    (Rest : List AsmToken) (hL : P.Lexer = Id :: Rest) (hId : Id.Kind = .Identifier) :
    ∃ Q, AsmParser.ParsePrimaryExpr (fuel + 1) P = .ok (.SymbolRef Id.Str) Q ∧
      Q.Lexer = Rest ∧ Q.Out = P.Out ∧ Q.Diags = P.Diags ∧
      Q.Ctx = (if (P.Ctx.getSection Id.Str).isNone ∧ (P.Ctx.GetSymbolValue Id.Str).isNone then
        P.Ctx.setExternal Id.Str true else P.Ctx) ∧
      ((P.Ctx.getSection Id.Str).isNone ∧ (P.Ctx.GetSymbolValue Id.Str).isNone →
        Q.Ctx.isExternal Id.Str = true) ∧
      (¬ ((P.Ctx.getSection Id.Str).isNone ∧ (P.Ctx.GetSymbolValue Id.Str).isNone) →
        Q.Ctx.isExternal Id.Str = P.Ctx.isExternal Id.Str) ∧
      (∀ S, S ≠ Id.Str → Q.Ctx.isExternal S = P.Ctx.isExternal S) ∧
      (∀ S, Q.Ctx.getSection S = P.Ctx.getSection S) ∧
      (∀ S, Q.Ctx.GetSymbolValue S = P.Ctx.GetSymbolValue S) := by
  have hk := AsmParser.getKind_cons P Id _ hL
  have hCtx : ((P.markUse Id.Str).Lex).Ctx =
      (if (P.Ctx.getSection Id.Str).isNone ∧ (P.Ctx.GetSymbolValue Id.Str).isNone then
        P.Ctx.setExternal Id.Str true else P.Ctx) := by
    rw [AsmParser.Lex_Ctx]
    unfold AsmParser.markUse
    by_cases h : (P.Ctx.getSection Id.Str).isNone ∧ (P.Ctx.GetSymbolValue Id.Str).isNone
    · simp [h, AsmParser.setExternal]
    · have h' : ¬ ((P.Ctx.getSection Id.Str).isNone && (P.Ctx.GetSymbolValue Id.Str).isNone)
          = true := by simpa using h
      simp only [h', h, if_false]
      simp
  refine ⟨(P.markUse Id.Str).Lex, ?_, ?_, by simp, by simp, hCtx, ?_, ?_, ?_, ?_, ?_⟩
  · rw [AsmParser.ParsePrimaryExpr]
    simp only [hk.1, hk.2, hId]
  · exact AsmParser.Lex_cons _ Id _ (by simpa using hL) (by simp [hId])
  · intro h
    rw [hCtx]
    simp [h, MCContext.setExternal, MCContext.isExternal]
  · intro h
    rw [hCtx, if_neg h]
  · intro S hS
    rw [hCtx]
    split
    · simp [MCContext.setExternal, MCContext.isExternal, Function.update, hS]
    · rfl
  · intro S
    rw [hCtx]
    split <;> rfl
  · intro S
    rw [hCtx]
    split <;> rfl

/-- C17 at `x` followed by the end of a line, in a fresh parser: the result
is the reference to `x`, the lexer stands at the end of the line, and `x` is
external. -/
theorem C17_primary_identifier_witness :
    ∃ Q, AsmParser.ParsePrimaryExpr 1 (AsmParser.start (AsmToken.stream [.ident "x", .eol]))
        = .ok (.SymbolRef "x") Q ∧
      Q.Lexer = [⟨.EndOfStatement, "\n", 0, 1⟩] ∧ Q.Ctx.isExternal "x" = true := by
  obtain ⟨Q, h₁, h₂, -, -, -, h₃, -⟩ := C17_primary_identifier 0
    (AsmParser.start (AsmToken.stream [.ident "x", .eol])) ⟨.Identifier, "x", 0, 0⟩
    [⟨.EndOfStatement, "\n", 0, 1⟩] rfl rfl
  exact ⟨Q, h₁, h₂, h₃ ⟨rfl, rfl⟩⟩

/-- C18: `EmitMatcherList` writes the success branch of a `Push` before the
`OPC_Push` and its offset operand, not between them and the failure
alternative. -/
theorem C18_push_is_written_after_its_success_branch :
    tableOf (MatcherTableEmitter.new.EmitMatcherList
        (.Push (.Node (.RecordNode "n") .null) (.Node .MoveParent .null)) 2).2.OS =
      [.Opcode "OPC_RecordNode", .Opcode "OPC_Push", .Num 1, .Opcode "OPC_MoveParent"] ∧
    (∀ (E : MatcherTableEmitter) (Next Failure : MatcherNode) (Indent : Nat),
      ∃ Child Fail,
        (E.EmitMatcherList Next (Indent + 1)).2.OS = E.OS ++ Child ∧
        (E.EmitMatcherList (.Push Next Failure) Indent).2.OS =
          E.OS ++ Child ++
            [.Opcode "OPC_Push", .Num (E.EmitMatcherList Next (Indent + 1)).1] ++ Fail ∧
        ∃ E₁, E₁.OS = E.OS ++ Child ++
              [.Opcode "OPC_Push", .Num (E.EmitMatcherList Next (Indent + 1)).1] ∧
          E.EmitMatcherList (.Push Next Failure) Indent =
            MatcherTableEmitter.EmitMatcherListLoop Failure Indent
              (2 + (E.EmitMatcherList Next (Indent + 1)).1) E₁ ∧
          (MatcherTableEmitter.EmitMatcherListLoop Failure Indent
              (2 + (E.EmitMatcherList Next (Indent + 1)).1) E₁).2.OS = E₁.OS ++ Fail) ∧
    (tableOf (MatcherTableEmitter.new.EmitMatcherList
        (.Push (.Node (.EmitNode "ADD" [] [] false false false (-1)) .null) .null) 2).2.OS =
      [.Opcode "OPC_EmitNode", .Name "ADD & 255", .Name "unsigned(ADD) >> 8", .Name "0",
        .Num 0, .Num 0, .Opcode "OPC_Push", .Num 5]) := by
  refine ⟨by decide, ?_, by decide⟩
  intro E Next Failure Indent
  obtain ⟨Child, hC⟩ := MatcherTableEmitter.EmitMatcherListLoop_written Next (Indent + 1) 0 E
  have hE₁ : ∃ E₁ : MatcherTableEmitter,
      E₁.OS = E.OS ++ Child ++
        [.Opcode "OPC_Push", .Num (E.EmitMatcherList Next (Indent + 1)).1] ∧
      E.EmitMatcherList (.Push Next Failure) Indent =
        MatcherTableEmitter.EmitMatcherListLoop Failure Indent
          (2 + (E.EmitMatcherList Next (Indent + 1)).1) E₁ := by
    refine ⟨((if (MatcherTableEmitter.EmitMatcherListLoop Next (Indent + 1) 0 E).1 > 255 then
        { (MatcherTableEmitter.EmitMatcherListLoop Next (Indent + 1) 0 E).2 with
          Errs := (MatcherTableEmitter.EmitMatcherListLoop Next (Indent + 1) 0 E).2.Errs ++
            ["Tblgen internal error: can't handle predicate this complex yet\n"] }
        else (MatcherTableEmitter.EmitMatcherListLoop Next (Indent + 1) 0 E).2).write
          [.Opcode "OPC_Push",
            .Num (MatcherTableEmitter.EmitMatcherListLoop Next (Indent + 1) 0 E).1]).write [],
      ?_, by
      simp only [MatcherTableEmitter.EmitMatcherList, MatcherTableEmitter.EmitMatcherListLoop,
        Nat.zero_add]⟩
    split <;> simp [MatcherTableEmitter.write, MatcherTableEmitter.EmitMatcherList, hC]
  obtain ⟨E₁, hOS, hEq⟩ := hE₁
  obtain ⟨Fail, hF⟩ := MatcherTableEmitter.EmitMatcherListLoop_written Failure Indent
    (2 + (E.EmitMatcherList Next (Indent + 1)).1) E₁
  exact ⟨Child, Fail, hC, by rw [hEq, hF, hOS], E₁, hOS, hEq, hF⟩

/-- C19: for every node kind other than `Push` and `EmitNode` the value
returned by `EmitMatcher` is the number of array elements it writes, with
the values of each kind as listed; for `EmitNode` it returns
`5 + #VTs + #Ops` and writes `6 + #VTs + #Ops` elements, one more than it
returns, since `TARGET_OPCODE(X)` is two elements. -/
theorem C19_EmitMatcher_undercounts_EmitNode :
    (∀ (E : MatcherTableEmitter) (N : SimpleMatcherNode) (Indent : Nat),
      N.isEmitNode = false →
      ∃ W, (E.EmitMatcher N Indent).2.OS = E.OS ++ W ∧
        (tableOf W).length = (E.EmitMatcher N Indent).1) ∧
    (∀ (E : MatcherTableEmitter) (Name : String) (VTs : List String) (Ops : List Nat)
      (HasChain HasFlag HasMemRefs : Bool) (NumFixed : Int) (Indent : Nat),
      (E.EmitMatcher (.EmitNode Name VTs Ops HasChain HasFlag HasMemRefs NumFixed) Indent).1 =
        5 + VTs.length + Ops.length ∧
      ∃ W, (E.EmitMatcher (.EmitNode Name VTs Ops HasChain HasFlag HasMemRefs NumFixed)
            Indent).2.OS = E.OS ++ W ∧
        (tableOf W).length = 6 + VTs.length + Ops.length) ∧
    (∀ (E : MatcherTableEmitter) (Indent : Nat),
      (∀ W, (E.EmitMatcher (.RecordNode W) Indent).1 = 1) ∧
      (E.EmitMatcher .RecordMemRef Indent).1 = 1 ∧
      (E.EmitMatcher .CaptureFlagInput Indent).1 = 1 ∧
      (E.EmitMatcher .MoveParent Indent).1 = 1 ∧
      (E.EmitMatcher .CheckFoldableChainNode Indent).1 = 1 ∧
      (∀ n, (E.EmitMatcher (.MoveChild n) Indent).1 = 2) ∧
      (∀ n, (E.EmitMatcher (.CheckSame n) Indent).1 = 2) ∧
      (∀ p, (E.EmitMatcher (.CheckPatternPredicate p) Indent).1 = 2) ∧
      (∀ p, (E.EmitMatcher (.CheckPredicate p) Indent).1 = 2) ∧
      (∀ o, (E.EmitMatcher (.CheckOpcode o) Indent).1 = 2) ∧
      (∀ t, (E.EmitMatcher (.CheckType t) Indent).1 = 2) ∧
      (∀ c, (E.EmitMatcher (.CheckCondCode c) Indent).1 = 2) ∧
      (∀ t, (E.EmitMatcher (.CheckValueType t) Indent).1 = 2) ∧
      (∀ p, (E.EmitMatcher (.CheckComplexPat p) Indent).1 = 2) ∧
      (∀ n, (E.EmitMatcher (.CheckChainCompatible n) Indent).1 = 2) ∧
      (∀ n, (E.EmitMatcher (.EmitConvertToTarget n) Indent).1 = 2) ∧
      (∀ v, (E.EmitMatcher (.CheckInteger v) Indent).1 = 1 + digitValue (ClassifyInt v)) ∧
      (∀ v, (E.EmitMatcher (.CheckAndImm v) Indent).1 = 1 + digitValue (ClassifyInt v)) ∧
      (∀ v, (E.EmitMatcher (.CheckOrImm v) Indent).1 = 1 + digitValue (ClassifyInt v)) ∧
      (∀ v t, (E.EmitMatcher (.EmitInteger v t) Indent).1 = 2 + digitValue (ClassifyInt v)) ∧
      (∀ t r, (E.EmitMatcher (.EmitRegister t r) Indent).1 = 3) ∧
      (∀ s r, (E.EmitMatcher (.EmitCopyToReg s r) Indent).1 = 3) ∧
      (∀ s x, (E.EmitMatcher (.EmitNodeXForm s x) Indent).1 = 3) ∧
      (∀ v t, (E.EmitMatcher (.EmitStringInteger v t) Indent).1 = 3) ∧
      (∀ Nodes, (E.EmitMatcher (.EmitMergeInputChains Nodes) Indent).1 = 2 + Nodes.length) ∧
      (∀ s d, (E.EmitMatcher (.PatternMarker s d) Indent).1 = 0)) ∧
    ((MatcherTableEmitter.new.EmitMatcher
        (.EmitNode "ADD" ["MVT::i32"] [0, 1] true false false (-1)) 2).1 = 8 ∧
      tableOf (MatcherTableEmitter.new.EmitMatcher
        (.EmitNode "ADD" ["MVT::i32"] [0, 1] true false false (-1)) 2).2.OS =
        [.Opcode "OPC_EmitNode", .Name "ADD & 255", .Name "unsigned(ADD) >> 8",
          .Name "0|OPFL_Chain", .Num 1, .Name "MVT::i32", .Num 2, .Num 0, .Num 1]) := by
  refine ⟨?_, ?_, ?_, by decide, by decide⟩
  · intro E N Indent hN
    obtain ⟨W, h, hl⟩ := E.EmitMatcher_count N Indent
    exact ⟨W, h, by simpa [hN] using hl⟩
  · intro E Name VTs Ops hc hf hm nf Indent
    obtain ⟨W, h, hl⟩ := E.EmitMatcher_count (.EmitNode Name VTs Ops hc hf hm nf) Indent
    have hr : (E.EmitMatcher (.EmitNode Name VTs Ops hc hf hm nf) Indent).1 =
        5 + VTs.length + Ops.length := rfl
    refine ⟨hr, W, h, ?_⟩
    rw [hl, hr]
    simp [SimpleMatcherNode.isEmitNode]
    omega
  · intro E Indent
    have imm : ∀ (v : Int) (OS : List TableItem), (EmitInt v OS).1 = digitValue (ClassifyInt v) :=
      fun v OS => (EmitInt_spec v OS).1
    refine ⟨fun _ => rfl, rfl, rfl, rfl, rfl, fun _ => rfl, fun _ => rfl, fun _ => rfl,
      fun _ => rfl, fun _ => rfl, fun _ => rfl, fun _ => rfl, fun _ => rfl, fun _ => rfl,
      fun _ => rfl, fun _ => rfl, ?_, ?_, ?_, ?_, ?_, fun _ _ => rfl, fun _ _ => rfl,
      fun _ _ => rfl, fun _ => rfl, fun _ _ => rfl⟩
    · intro v
      simp only [MatcherTableEmitter.EmitMatcher, imm]
      omega
    · intro v
      simp only [MatcherTableEmitter.EmitMatcher, imm]
      omega
    · intro v
      simp only [MatcherTableEmitter.EmitMatcher, imm]
      omega
    · intro v t
      simp only [MatcherTableEmitter.EmitMatcher, imm]
      omega
    · intro t r
      cases r <;> rfl

/-- C20: `EmitInt` returns the number that the digit of `ClassifyInt` stands
for and writes exactly that many bytes (followed by nothing but a comment),
the digit being one of '1', '2', '4', '8'; so for `CheckInteger`,
`CheckAndImm`, `CheckOrImm` and `EmitInteger` the size suffix of the opcode
name is the number of immediate bytes written after it (for `EmitInteger`,
after the value type). -/
theorem C20_EmitInt_writes_ClassifyInt_bytes (Val : Int) (OS : List TableItem) :
    (EmitInt Val OS).1 = digitValue (ClassifyInt Val) ∧
    (∃ (Bytes : List Nat) (Note : List TableItem),
      (EmitInt Val OS).2 = OS ++ Bytes.map TableItem.Num ++ Note ∧
      Bytes.length = (EmitInt Val OS).1 ∧ tableOf Note = []) ∧
    (ClassifyInt Val = '1' ∨ ClassifyInt Val = '2' ∨ ClassifyInt Val = '4' ∨
      ClassifyInt Val = '8') ∧
    (digitValue '1' = 1 ∧ digitValue '2' = 2 ∧ digitValue '4' = 4 ∧ digitValue '8' = 8) ∧
    (∀ (E : MatcherTableEmitter) (Indent : Nat),
      ∃ (Bytes : List Nat) (Note : List TableItem),
        Bytes.length = digitValue (ClassifyInt Val) ∧ tableOf Note = [] ∧
        (E.EmitMatcher (.CheckInteger Val) Indent).2.OS = E.OS ++
          [.Opcode ("OPC_CheckInteger" ++ String.singleton (ClassifyInt Val))] ++
          Bytes.map TableItem.Num ++ Note ∧
        (E.EmitMatcher (.CheckAndImm Val) Indent).2.OS = E.OS ++
          [.Opcode ("OPC_CheckAndImm" ++ String.singleton (ClassifyInt Val))] ++
          Bytes.map TableItem.Num ++ Note ∧
        (E.EmitMatcher (.CheckOrImm Val) Indent).2.OS = E.OS ++
          [.Opcode ("OPC_CheckOrImm" ++ String.singleton (ClassifyInt Val))] ++
          Bytes.map TableItem.Num ++ Note ∧
        ∀ VT, (E.EmitMatcher (.EmitInteger Val VT) Indent).2.OS = E.OS ++
          [.Opcode ("OPC_EmitInteger" ++ String.singleton (ClassifyInt Val)), .Name VT] ++
          Bytes.map TableItem.Num ++ Note) := by
  obtain ⟨h₁, B, Nt, h, hB, hN⟩ := EmitInt_spec Val OS
  refine ⟨h₁, ⟨B, Nt, h, by rw [hB, h₁], hN⟩, ?_, by decide, ?_⟩
  · unfold ClassifyInt
    split
    · exact Or.inl rfl
    · split
      · exact Or.inr (Or.inl rfl)
      · split
        · exact Or.inr (Or.inr (Or.inl rfl))
        · exact Or.inr (Or.inr (Or.inr rfl))
  · intro E Indent
    obtain ⟨-, B₀, Nt₀, h₀, hB₀, hN₀⟩ := EmitInt_spec Val []
    refine ⟨B₀, Nt₀, hB₀, hN₀, ?_, ?_, ?_, ?_⟩
    · simp only [MatcherTableEmitter.EmitMatcher, MatcherTableEmitter.write_OS]
      rw [EmitInt_append, h₀]
      simp
    · simp only [MatcherTableEmitter.EmitMatcher, MatcherTableEmitter.write_OS]
      rw [EmitInt_append, h₀]
      simp
    · simp only [MatcherTableEmitter.EmitMatcher, MatcherTableEmitter.write_OS]
      rw [EmitInt_append, h₀]
      simp
    · intro VT
      simp only [MatcherTableEmitter.EmitMatcher, MatcherTableEmitter.write_OS]
      rw [EmitInt_append, h₀]
      simp

/-- C21: for a 64-bit signed value `Val`, `EmitInt` writes the `w` bytes
`(Val >> 8 * i) mod 256` for `i = 0 .. w - 1` in this order, `w` being the
number it returns, followed by nothing but a comment; each is a byte, and
the bytes read as a little-endian integer and sign-extended from `8 * w` bits
give `Val` back. -/
theorem C21_EmitInt_round_trips (Val : Int) (OS : List TableItem)
    (hLo : -2 ^ 63 ≤ Val) (hHi : Val < 2 ^ 63) :
    ∃ (Bytes : List Nat) (Note : List TableItem),
      (EmitInt Val OS).2 = OS ++ Bytes.map TableItem.Num ++ Note ∧ tableOf Note = [] ∧
      Bytes = (List.range (EmitInt Val OS).1).map
        (fun i => ((Val / 2 ^ (8 * i)) % 256).toNat) ∧
      (∀ B ∈ Bytes, B < 256) ∧
      signExtend (8 * (EmitInt Val OS).1) (decodeLittleEndian Bytes) = Val := by
  obtain ⟨Note, hN, hW⟩ := EmitInt_bytes Val OS
  refine ⟨(List.range (EmitInt Val OS).1).map fun i => byteAt Val (8 * i), Note, ?_, hN, rfl,
    ?_, EmitInt_decode Val OS hLo hHi⟩
  · rw [hW, List.map_map]
    rfl
  · intro B hB
    simp only [List.mem_map, byteAt] at hB
    obtain ⟨i, -, rfl⟩ := hB
    omega

/-- C21 at the value -129: the two bytes 127 and 255, which read back as
-129. -/
theorem C21_EmitInt_round_trips_witness :
    ∃ (Bytes : List Nat) (Note : List TableItem),
      (EmitInt (-129) []).2 = [] ++ Bytes.map TableItem.Num ++ Note ∧ tableOf Note = [] ∧
      Bytes = (List.range (EmitInt (-129) []).1).map
        (fun i => (((-129 : Int) / 2 ^ (8 * i)) % 256).toNat) ∧
      (∀ B ∈ Bytes, B < 256) ∧
      signExtend (8 * (EmitInt (-129) []).1) (decodeLittleEndian Bytes) = -129 :=
  C21_EmitInt_round_trips (-129) [] (by decide) (by decide)

/-- C22: `ClassifyInt` returns '1' exactly for the values in -128 .. 127, '2'
exactly for those that fit in 16 bits and not in 8, '4' exactly for those
that fit in 32 bits and not in 16, and '8' for all others.  So the digit is
the smallest width: for `w` one of 1, 2, 4, 8, a value is a sign-extended
`w`-byte integer exactly when it is a 64-bit value and the digit stands for
at most `w`. -/
theorem C22_ClassifyInt_is_the_smallest_width (Val : Int) :
    (ClassifyInt Val = '1' ↔ -2 ^ 7 ≤ Val ∧ Val < 2 ^ 7) ∧
    (ClassifyInt Val = '2' ↔ (-2 ^ 15 ≤ Val ∧ Val < 2 ^ 15) ∧ ¬ (-2 ^ 7 ≤ Val ∧ Val < 2 ^ 7)) ∧
    (ClassifyInt Val = '4' ↔
      (-2 ^ 31 ≤ Val ∧ Val < 2 ^ 31) ∧ ¬ (-2 ^ 15 ≤ Val ∧ Val < 2 ^ 15)) ∧
    (ClassifyInt Val = '8' ↔ ¬ (-2 ^ 31 ≤ Val ∧ Val < 2 ^ 31)) ∧
    (∀ w : Nat, w = 1 ∨ w = 2 ∨ w = 4 ∨ w = 8 →
      (-2 ^ (8 * w - 1) ≤ Val ∧ Val < 2 ^ (8 * w - 1) ↔
        -2 ^ 63 ≤ Val ∧ Val < 2 ^ 63 ∧ digitValue (ClassifyInt Val) ≤ w)) := by
  have e8 : Val = castInt8 Val ↔ -2 ^ 7 ≤ Val ∧ Val < 2 ^ 7 := by
    simp only [castInt8]
    omega
  have e16 : Val = castInt16 Val ↔ -2 ^ 15 ≤ Val ∧ Val < 2 ^ 15 := by
    simp only [castInt16]
    omega
  have e32 : Val = castInt32 Val ↔ -2 ^ 31 ≤ Val ∧ Val < 2 ^ 31 := by
    simp only [castInt32]
    omega
  by_cases h8 : Val = castInt8 Val
  · have c : ClassifyInt Val = '1' := by simp [ClassifyInt, ← h8]
    have b := e8.1 h8
    rw [c]
    refine ⟨by simpa using b, by simp; omega, by simp; omega, by simp; omega, ?_⟩
    rintro w (rfl | rfl | rfl | rfl) <;> simp [digitValue] <;> omega
  · by_cases h16 : Val = castInt16 Val
    · have c : ClassifyInt Val = '2' := by simp [ClassifyInt, h8, ← h16]
      have b := e16.1 h16
      have nb := fun h => h8 (e8.2 h)
      rw [c]
      refine ⟨by simp; omega, by simp; omega, by simp; omega, by simp; omega, ?_⟩
      rintro w (rfl | rfl | rfl | rfl) <;> simp [digitValue] <;> omega
    · by_cases h32 : Val = castInt32 Val
      · have c : ClassifyInt Val = '4' := by simp [ClassifyInt, h8, h16, ← h32]
        have b := e32.1 h32
        have nb := fun h => h16 (e16.2 h)
        rw [c]
        refine ⟨by simp; omega, by simp; omega, by simp; omega, by simp; omega, ?_⟩
        rintro w (rfl | rfl | rfl | rfl) <;> simp [digitValue] <;> omega
      · have c : ClassifyInt Val = '8' := by simp [ClassifyInt, h8, h16, h32]
        have nb := fun h => h32 (e32.2 h)
        rw [c]
        refine ⟨by simp; omega, by simp; omega, by simp; omega, by simp; omega, ?_⟩
        rintro w (rfl | rfl | rfl | rfl) <;> simp [digitValue] <;> omega

/-- C23: the offset operand that `EmitMatcherList` writes after `OPC_Push`
is the size of the success branch whatever that size is: when it is over
255 a message is printed to `errs()` and the emitter goes on and writes the
`Push` with that operand.  A `Push` over `n` nodes `MoveParent` is written
with the operand `n`; for `n = 256` the table that `EmitMatcherTable` writes
holds `OPC_Push, 256` after the 256 opcodes of the success branch. -/
theorem C23_push_offset_exceeds_a_byte :
    (∀ (E : MatcherTableEmitter) (Next Failure : MatcherNode) (Indent : Nat),
      ∃ (E₁ : MatcherTableEmitter) (Fail : List TableItem),
        E₁.OS = (E.EmitMatcherList Next (Indent + 1)).2.OS ++
          [.Opcode "OPC_Push", .Num (E.EmitMatcherList Next (Indent + 1)).1] ∧
        E₁.Errs = (E.EmitMatcherList Next (Indent + 1)).2.Errs ++
          (if (E.EmitMatcherList Next (Indent + 1)).1 > 255 then
            ["Tblgen internal error: can't handle predicate this complex yet\n"] else []) ∧
        E.EmitMatcherList (.Push Next Failure) Indent =
          MatcherTableEmitter.EmitMatcherListLoop Failure Indent
            (2 + (E.EmitMatcherList Next (Indent + 1)).1) E₁ ∧
        (E.EmitMatcherList (.Push Next Failure) Indent).2.OS = E₁.OS ++ Fail) ∧
    (∀ (n Indent : Nat),
      (MatcherTableEmitter.new.EmitMatcherList
          (.Push (MatcherNode.chain .MoveParent n) .null) Indent).1 = 2 + n ∧
      (MatcherTableEmitter.new.EmitMatcherList
          (.Push (MatcherNode.chain .MoveParent n) .null) Indent).2.OS =
        List.replicate n (.Opcode "OPC_MoveParent") ++ [.Opcode "OPC_Push", .Num n] ∧
      (MatcherTableEmitter.new.EmitMatcherList
          (.Push (MatcherNode.chain .MoveParent n) .null) Indent).2.Errs =
        if n > 255 then ["Tblgen internal error: can't handle predicate this complex yet\n"]
        else []) ∧
    (tableOf (EmitMatcherTable (.Push (MatcherNode.chain .MoveParent 256) .null)).OS =
        List.replicate 256 (.Opcode "OPC_MoveParent") ++
          [.Opcode "OPC_Push", .Num 256, .Num 0]) := by
  have chainPush : ∀ (n Indent : Nat),
      MatcherTableEmitter.new.EmitMatcherList
          (.Push (MatcherNode.chain .MoveParent n) .null) Indent =
        (2 + n,
          (((if n > 255 then
            { (MatcherTableEmitter.new.write
                (List.replicate n (.Opcode "OPC_MoveParent"))) with
              Errs := ["Tblgen internal error: can't handle predicate this complex yet\n"] }
            else MatcherTableEmitter.new.write
              (List.replicate n (.Opcode "OPC_MoveParent"))).write
            [.Opcode "OPC_Push", .Num n]).write [])) := by
    intro n Indent
    simp only [MatcherTableEmitter.EmitMatcherList, MatcherTableEmitter.EmitMatcherListLoop,
      MatcherTableEmitter.EmitMatcherListLoop_chain, Nat.zero_add]
    rfl
  refine ⟨?_, ?_, ?_⟩
  · intro E Next Failure Indent
    obtain ⟨E₁, h₁, h₂, h₃⟩ :=
      MatcherTableEmitter.EmitMatcherListLoop_Push Next Failure Indent 0 E
    obtain ⟨Fail, hF⟩ := MatcherTableEmitter.EmitMatcherListLoop_written Failure Indent
      (0 + (2 + (MatcherTableEmitter.EmitMatcherListLoop Next (Indent + 1) 0 E).1)) E₁
    refine ⟨E₁, Fail, h₁, h₂, ?_, ?_⟩
    · simpa [MatcherTableEmitter.EmitMatcherList] using h₃
    · simp only [MatcherTableEmitter.EmitMatcherList]
      rw [h₃, hF]
  · intro n Indent
    rw [chainPush]
    refine ⟨rfl, ?_, ?_⟩
    · split <;> simp [MatcherTableEmitter.write, MatcherTableEmitter.new]
    · split <;> simp [MatcherTableEmitter.write, MatcherTableEmitter.new]
  · have hT : ∀ n : Nat, tableOf (List.replicate n (TableItem.Opcode "OPC_MoveParent")) =
        List.replicate n (TableItem.Opcode "OPC_MoveParent") := by
      intro n
      induction n with
      | zero => rfl
      | succ n ih =>
        rw [List.replicate_succ, show (TableItem.Opcode "OPC_MoveParent" ::
          List.replicate n (TableItem.Opcode "OPC_MoveParent")) =
          [TableItem.Opcode "OPC_MoveParent"] ++
            List.replicate n (TableItem.Opcode "OPC_MoveParent") from rfl, tableOf_append, ih]
        rfl
    have hOS : ∀ n : Nat, ∃ c,
        (EmitMatcherTable (.Push (MatcherNode.chain .MoveParent n) .null)).OS =
          List.replicate n (.Opcode "OPC_MoveParent") ++
            ([.Opcode "OPC_Push", .Num n] ++ [.Num 0, .Comment c]) := by
      intro n
      refine ⟨"Total Array size is " ++ toString (2 + n + 1) ++ " bytes", ?_⟩
      simp only [EmitMatcherTable, chainPush]
      split <;> simp [MatcherTableEmitter.write, MatcherTableEmitter.new]
    obtain ⟨c, hc⟩ := hOS 256
    rw [hc, tableOf_append, hT]
    rfl

/-- C25: each symbol attribute directive is dispatched to
`ParseDirectiveSymbolAttribute` with the attribute of its name.  On the end
of the statement the method makes no call; on `n` identifiers separated by
commas and followed by the end of the statement it succeeds after exactly
the `n` calls `EmitSymbolAttribute(sᵢ, Attr)` in the order of the operands,
prints nothing, and leaves every symbol with its section and its value; a
symbol is external afterwards exactly when it was before or is an operand
that has neither a section nor a value.  In each round of the loop the
marking comes first: the call is made in a state in which the operand is
marked. -/
theorem C25_symbol_attribute_directives :
    (∀ D ∈ AsmParser.symbolAttributeDirectives, ∀ (fuel : Nat) (L : SMLoc) (P : AsmParser),
      AsmParser.ParseDirective fuel D.1 L P =
        AsmParser.ParseDirectiveSymbolAttribute fuel D.2 P) ∧
    (∀ D ∈ AsmParser.symbolAttributeDirectives, ∀ (fuel : Nat) (P : AsmParser),
      P.getKind = .Identifier → P.getTok.Str = D.1 →
      P.Lex.getKind ≠ .Colon → P.Lex.getKind ≠ .Equal →
      AsmParser.ParseStatement (fuel + 1) P =
        AsmParser.ParseDirectiveSymbolAttribute fuel D.2 P.Lex) ∧
    (∀ (fuel : Nat) (Attr : MCStreamer.SymbolAttr) (P : AsmParser),
      P.is .EndOfStatement = true →
      AsmParser.ParseDirectiveSymbolAttribute fuel Attr P = .ok () P.Lex) ∧
    (∀ (fuel : Nat) (Attr : MCStreamer.SymbolAttr) (P : AsmParser) (Toks Ops : List AsmToken)
      (Eol : AsmToken) (Rest : List AsmToken),
      AsmToken.IsList (fun T => T.Kind = .Identifier) Toks Ops →
      P.Lexer = Toks ++ Eol :: Rest → Eol.Kind = .EndOfStatement → Ops.length ≤ fuel →
      ∃ Q, AsmParser.ParseDirectiveSymbolAttribute fuel Attr P = .ok () Q ∧
        Q.Lexer = Rest ∧
        Q.Out.Calls = P.Out.Calls ++
          Ops.map (fun T => StreamerCall.EmitSymbolAttribute T.Str Attr) ∧
        Q.Diags = P.Diags ∧
        Q.Ctx.Section = P.Ctx.Section ∧ Q.Ctx.SymbolValue = P.Ctx.SymbolValue ∧
        ∀ S, Q.Ctx.isExternal S = true ↔
          P.Ctx.isExternal S = true ∨
            (S ∈ Ops.map (fun T => T.Str) ∧ P.Ctx.getSection S = none ∧
              P.Ctx.GetSymbolValue S = none)) ∧
    (∀ (fuel : Nat) (Attr : MCStreamer.SymbolAttr) (P : AsmParser),
      P.is .Identifier = true →
      AsmParser.ParseDirectiveSymbolAttributeLoop (fuel + 1) Attr P =
        (if ((P.Lex.markUse P.getTok.Str).emit
            (.EmitSymbolAttribute P.getTok.Str Attr)).is .EndOfStatement then
          .ok () ((P.Lex.markUse P.getTok.Str).emit (.EmitSymbolAttribute P.getTok.Str Attr))
        else if ((P.Lex.markUse P.getTok.Str).emit
            (.EmitSymbolAttribute P.getTok.Str Attr)).isNot .Comma then
          .error (((P.Lex.markUse P.getTok.Str).emit
            (.EmitSymbolAttribute P.getTok.Str Attr)).TokError "unexpected token in directive")
        else AsmParser.ParseDirectiveSymbolAttributeLoop fuel Attr
          ((P.Lex.markUse P.getTok.Str).emit
            (.EmitSymbolAttribute P.getTok.Str Attr)).Lex) ∧
      (P.Lex.markUse P.getTok.Str).Out = P.Out ∧
      (P.Ctx.getSection P.getTok.Str = none → P.Ctx.GetSymbolValue P.getTok.Str = none →
        (P.Lex.markUse P.getTok.Str).Ctx.isExternal P.getTok.Str = true)) ∧
    (∃ Q, AsmParser.Run 100 (AsmParser.start (AsmToken.stream
        [.ident "b", .punct .Colon, .ident ".globl", .ident "a", .punct .Comma, .ident "b",
          .eol, .ident ".weak", .eol])) = .ok false Q ∧
      Q.Out.Calls = [.EmitLabel "b", .EmitSymbolAttribute "a" .Global,
        .EmitSymbolAttribute "b" .Global] ∧
      Q.Diags = [] ∧ Q.Ctx.isExternal "a" = true ∧ Q.Ctx.isExternal "b" = false) := by
  have disp : ∀ D ∈ AsmParser.symbolAttributeDirectives,
      ∀ (fuel : Nat) (L : SMLoc) (P : AsmParser),
      AsmParser.ParseDirective fuel D.1 L P =
        AsmParser.ParseDirectiveSymbolAttribute fuel D.2 P := by
    intro D hD fuel L P
    simp only [AsmParser.symbolAttributeDirectives] at hD
    fin_cases hD <;> rfl
  refine ⟨disp, ?_, ?_, ?_, ?_, ⟨_, rfl, rfl, rfl, rfl, rfl⟩⟩
  · intro D hD fuel P hId hStr hColon hEqual
    have hDot : D.1.front = '.' := by
      simp only [AsmParser.symbolAttributeDirectives] at hD
      fin_cases hD <;> decide
    rw [AsmParser.ParseStatement_directive fuel P hId (by rw [hStr]; exact hDot) hColon hEqual,
      hStr]
    exact disp D hD fuel _ _
  · intro fuel Attr P hE
    simp [AsmParser.ParseDirectiveSymbolAttribute, AsmParser.isNot_eq_false_of_is hE]
  · intro fuel Attr P Toks Ops Eol Rest hList hL hE hf
    obtain ⟨Q, hQ, hQL, hQC, hQD, hQS, hQV, hQE⟩ :=
      AsmParser.ParseDirectiveSymbolAttributeLoop_marks Attr Toks Ops hList fuel P Eol Rest
        hL hE hf
    have hne : P.isNot .EndOfStatement = true := by
      cases hList with
      | one T hT =>
        have := (AsmParser.getKind_cons P T _ (by simpa using hL)).1
        simp [AsmParser.isNot, this, hT]
      | more T C Toks Ops hT hC _ =>
        have := (AsmParser.getKind_cons P T _ (by simpa using hL)).1
        simp [AsmParser.isNot, this, hT]
    refine ⟨Q.Lex, ?_, ?_, ?_, ?_, ?_, ?_, ?_⟩
    · simp [AsmParser.ParseDirectiveSymbolAttribute, hne, hQ, Result.andThen]
    · exact AsmParser.Lex_cons Q Eol Rest hQL (by simp [hE])
    · rw [AsmParser.Lex_Out, hQC]
    · rw [AsmParser.Lex_Diags, hQD]
    · rw [AsmParser.Lex_Ctx, hQS]
    · rw [AsmParser.Lex_Ctx, hQV]
    · intro S
      rw [AsmParser.Lex_Ctx]
      exact hQE S
  · intro fuel Attr P hId
    refine ⟨?_, ?_, ?_⟩
    · conv_lhs => unfold AsmParser.ParseDirectiveSymbolAttributeLoop
      simp only [AsmParser.isNot_eq_false_of_is hId]
      rfl
    · rw [AsmParser.markUse_Out, AsmParser.Lex_Out]
    · intro h₁ h₂
      exact (AsmParser.markUse_External P.Lex _ _).2
        (Or.inr ⟨rfl, by simpa [AsmParser.Lex_Ctx] using h₁,
          by simpa [AsmParser.Lex_Ctx] using h₂⟩)

/-- C26: a statement `.comm sym, size` or `.comm sym, size, align` (the same
for `.lcomm`) with absolute operands followed by the end of the statement,
`IsLocal` being false for `.comm` and true for `.lcomm`: the directive
succeeds exactly when `0 ≤ size`, `0 ≤ align` and `sym` has neither a
section nor a value; then it has made the one call
`EmitCommonSymbol(sym, size, align, IsLocal)`, with 0 for an omitted
alignment, and printed nothing.  Otherwise it returns an error with one
message and the streamer as it was.  A size of 0 is accepted. -/
theorem C26_comm_directive (fuel : Nat) (IsLocal : Bool) (P P₁ : AsmParser) (Size : Int)
    (hId : P.is .Identifier = true) (hC : P.Lex.is .Comma = true)
    (hS : AsmParser.ParseAbsoluteExpression fuel P.Lex.Lex = .ok Size P₁) :
    (P₁.is .EndOfStatement = true →
      AsmParser.ParseDirectiveComm fuel IsLocal P =
        (if Size < 0 then
          .error (P₁.Lex.Error P.Lex.Lex.getLoc
            "invalid '.comm' or '.lcomm' directive size, can't be less than zero")
        else if (P.Ctx.getSection P.getTok.Str).isSome ||
            (P.Ctx.GetSymbolValue P.getTok.Str).isSome then
          .error (P₁.Lex.Error P.getLoc "invalid symbol redefinition")
        else .ok () (P₁.Lex.emit (.EmitCommonSymbol P.getTok.Str Size 0 IsLocal))) ∧
      ((∃ Q, AsmParser.ParseDirectiveComm fuel IsLocal P = .ok () Q) ↔
        0 ≤ Size ∧ P.Ctx.getSection P.getTok.Str = none ∧
          P.Ctx.GetSymbolValue P.getTok.Str = none) ∧
      (∀ Q, AsmParser.ParseDirectiveComm fuel IsLocal P = .ok () Q →
        Q.Out.Calls = P.Out.Calls ++ [.EmitCommonSymbol P.getTok.Str Size 0 IsLocal] ∧
        Q.Diags = P₁.Diags) ∧
      (∀ Q, AsmParser.ParseDirectiveComm fuel IsLocal P = .error Q →
        Q.Out = P.Out ∧ ∃ L M, Q.Diags = P₁.Diags ++ [⟨L, M, "error"⟩])) ∧
    (∀ (Align : Int) (P₂ : AsmParser), P₁.is .Comma = true →
      AsmParser.ParseAbsoluteExpression fuel P₁.Lex = .ok Align P₂ →
      P₂.is .EndOfStatement = true →
      AsmParser.ParseDirectiveComm fuel IsLocal P =
        (if Size < 0 then
          .error (P₂.Lex.Error P.Lex.Lex.getLoc
            "invalid '.comm' or '.lcomm' directive size, can't be less than zero")
        else if Align < 0 then
          .error (P₂.Lex.Error P₁.Lex.getLoc
            "invalid '.comm' or '.lcomm' directive alignment, can't be less than zero")
        else if (P.Ctx.getSection P.getTok.Str).isSome ||
            (P.Ctx.GetSymbolValue P.getTok.Str).isSome then
          .error (P₂.Lex.Error P.getLoc "invalid symbol redefinition")
        else .ok () (P₂.Lex.emit (.EmitCommonSymbol P.getTok.Str Size Align IsLocal))) ∧
      ((∃ Q, AsmParser.ParseDirectiveComm fuel IsLocal P = .ok () Q) ↔
        0 ≤ Size ∧ 0 ≤ Align ∧ P.Ctx.getSection P.getTok.Str = none ∧
          P.Ctx.GetSymbolValue P.getTok.Str = none) ∧
      (∀ Q, AsmParser.ParseDirectiveComm fuel IsLocal P = .ok () Q →
        Q.Out.Calls = P.Out.Calls ++ [.EmitCommonSymbol P.getTok.Str Size Align IsLocal] ∧
        Q.Diags = P₂.Diags) ∧
      (∀ Q, AsmParser.ParseDirectiveComm fuel IsLocal P = .error Q →
        Q.Out = P.Out ∧ ∃ L M, Q.Diags = P₂.Diags ++ [⟨L, M, "error"⟩])) ∧
    (∀ (g : Nat) (L : SMLoc) (R : AsmParser),
      AsmParser.ParseDirective g ".comm" L R = AsmParser.ParseDirectiveComm g false R ∧
      AsmParser.ParseDirective g ".lcomm" L R = AsmParser.ParseDirectiveComm g true R) ∧
    (∃ Q, AsmParser.Run 100 (AsmParser.start (AsmToken.stream
        [.ident ".comm", .ident "x", .punct .Comma, .int "0" 0, .eol,
          .ident ".lcomm", .ident "y", .punct .Comma, .int "8" 8, .punct .Comma, .int "2" 2,
          .eol])) = .ok false Q ∧
      Q.Out.Calls = [.EmitCommonSymbol "x" 0 0 false, .EmitCommonSymbol "y" 8 2 true] ∧
      Q.Diags = []) := by
  have h₁ := AsmParser.ParseAbsoluteExpression_Out hS
  have hF₁ := AsmParser.ParseAbsoluteExpression_frame hS
  have hIdN := AsmParser.isNot_eq_false_of_is hId
  have hCN := AsmParser.isNot_eq_false_of_is hC
  have hSect₁ : P₁.Ctx.Section = P.Ctx.Section := by
    rw [hF₁.sect, AsmParser.Lex_Ctx, AsmParser.Lex_Ctx]
  have hVal₁ : P₁.Ctx.SymbolValue = P.Ctx.SymbolValue := by
    rw [hF₁.value, AsmParser.Lex_Ctx, AsmParser.Lex_Ctx]
  have hOut₁ : P₁.Out = P.Out := by
    rw [h₁, AsmParser.Lex_Out, AsmParser.Lex_Out]
  refine ⟨?_, ?_, fun g L R => ⟨rfl, rfl⟩, ⟨_, rfl, rfl, rfl⟩⟩
  · intro hE
    have hEN := AsmParser.isNot_eq_false_of_is hE
    have hNC : P₁.is .Comma = false := by
      simp only [AsmParser.is, decide_eq_true_eq] at hE
      simp [AsmParser.is, hE]
    have hEq : AsmParser.ParseDirectiveComm fuel IsLocal P =
        (if Size < 0 then
          .error (P₁.Lex.Error P.Lex.Lex.getLoc
            "invalid '.comm' or '.lcomm' directive size, can't be less than zero")
        else if (P.Ctx.getSection P.getTok.Str).isSome ||
            (P.Ctx.GetSymbolValue P.getTok.Str).isSome then
          .error (P₁.Lex.Error P.getLoc "invalid symbol redefinition")
        else .ok () (P₁.Lex.emit (.EmitCommonSymbol P.getTok.Str Size 0 IsLocal))) := by
      unfold AsmParser.ParseDirectiveComm
      simp [hIdN, hCN, hS, Result.andThen, AsmParser.ParseOptionalPow2Alignment, hNC, hEN,
        AsmParser.Lex_Ctx, MCContext.getSection, MCContext.GetSymbolValue, hSect₁, hVal₁]
    refine ⟨hEq, ?_, ?_, ?_⟩
    · rw [hEq]
      by_cases hs : Size < 0
      · simp [hs]
      · cases hSec : P.Ctx.getSection P.getTok.Str <;>
          cases hV : P.Ctx.GetSymbolValue P.getTok.Str <;> simp [hs]
        omega
    · intro Q hQ
      rw [hEq] at hQ
      split at hQ
      · cases hQ
      · split at hQ
        · cases hQ
        · cases hQ
          simp [hOut₁]
    · intro Q hQ
      rw [hEq] at hQ
      split at hQ
      · cases hQ
        exact ⟨by simp [hOut₁], _, _, by simp [AsmParser.Error]; exact ⟨rfl, rfl⟩⟩
      · split at hQ
        · cases hQ
          exact ⟨by simp [hOut₁], _, _, by simp [AsmParser.Error]; exact ⟨rfl, rfl⟩⟩
        · cases hQ
  · intro Align P₂ hC₁ hA hE
    have h₂ := AsmParser.ParseAbsoluteExpression_Out hA
    have hF₂ := AsmParser.ParseAbsoluteExpression_frame hA
    have hEN := AsmParser.isNot_eq_false_of_is hE
    have hSect₂ : P₂.Ctx.Section = P.Ctx.Section := by
      rw [hF₂.sect, AsmParser.Lex_Ctx, hSect₁]
    have hVal₂ : P₂.Ctx.SymbolValue = P.Ctx.SymbolValue := by
      rw [hF₂.value, AsmParser.Lex_Ctx, hVal₁]
    have hOut₂ : P₂.Out = P.Out := by
      rw [h₂, AsmParser.Lex_Out, hOut₁]
    have hEq : AsmParser.ParseDirectiveComm fuel IsLocal P =
        (if Size < 0 then
          .error (P₂.Lex.Error P.Lex.Lex.getLoc
            "invalid '.comm' or '.lcomm' directive size, can't be less than zero")
        else if Align < 0 then
          .error (P₂.Lex.Error P₁.Lex.getLoc
            "invalid '.comm' or '.lcomm' directive alignment, can't be less than zero")
        else if (P.Ctx.getSection P.getTok.Str).isSome ||
            (P.Ctx.GetSymbolValue P.getTok.Str).isSome then
          .error (P₂.Lex.Error P.getLoc "invalid symbol redefinition")
        else .ok () (P₂.Lex.emit (.EmitCommonSymbol P.getTok.Str Size Align IsLocal))) := by
      unfold AsmParser.ParseDirectiveComm
      simp [hIdN, hCN, hS, Result.andThen, AsmParser.ParseOptionalPow2Alignment, hC₁, hA,
        hEN, AsmParser.Lex_Ctx, MCContext.getSection, MCContext.GetSymbolValue, hSect₂, hVal₂]
    refine ⟨hEq, ?_, ?_, ?_⟩
    · rw [hEq]
      by_cases hs : Size < 0
      · simp [hs]
      · by_cases ha : Align < 0
        · simp [hs, ha]
        · cases hSec : P.Ctx.getSection P.getTok.Str <;>
            cases hV : P.Ctx.GetSymbolValue P.getTok.Str <;> simp [hs, ha]
          omega
    · intro Q hQ
      rw [hEq] at hQ
      split at hQ
      · cases hQ
      · split at hQ
        · cases hQ
        · split at hQ
          · cases hQ
          · cases hQ
            simp [hOut₂]
    · intro Q hQ
      rw [hEq] at hQ
      split at hQ
      · cases hQ
        exact ⟨by simp [hOut₂], _, _, by simp [AsmParser.Error]; exact ⟨rfl, rfl⟩⟩
      · split at hQ
        · cases hQ
          exact ⟨by simp [hOut₂], _, _, by simp [AsmParser.Error]; exact ⟨rfl, rfl⟩⟩
        · split at hQ
          · cases hQ
            exact ⟨by simp [hOut₂], _, _, by simp [AsmParser.Error]; exact ⟨rfl, rfl⟩⟩
          · cases hQ

/-- C26 at `x, 0`: success after the one call
`EmitCommonSymbol(x, 0, 0, false)`. -/
theorem C26_comm_directive_witness :
    ∃ Q, AsmParser.ParseDirectiveComm 100 false (AsmParser.start (AsmToken.stream
        [.ident "x", .punct .Comma, .int "0" 0, .eol])) = .ok () Q ∧
      Q.Out.Calls = [] ++ [.EmitCommonSymbol "x" 0 0 false] ∧ Q.Diags = [] := by
  have h := (C26_comm_directive 100 false
    (AsmParser.start (AsmToken.stream [.ident "x", .punct .Comma, .int "0" 0, .eol]))
    (AsmParser.start (AsmToken.stream
      [.ident "x", .punct .Comma, .int "0" 0, .eol])).Lex.Lex.Lex
    0 rfl rfl rfl).1 rfl
  obtain ⟨Q, hQ⟩ := h.2.1.2 ⟨by decide, rfl, rfl⟩
  exact ⟨Q, hQ, h.2.2.1 Q hQ⟩

/-- C27: a statement `.space n` or `.space n, f` with absolute operands (`n`
an `int64_t`) followed by the end of the statement: when `0 < n` the
directive succeeds after exactly `n` calls `EmitValue(f, 1)`, with `f = 0`
when the fill operand is omitted; when `n ≤ 0` it returns the error "invalid
number of bytes in '.space' directive" and leaves the streamer as it was. -/
theorem C27_space_directive (fuel : Nat) (P P₁ : AsmParser) (n : Int)
    (hN : AsmParser.ParseAbsoluteExpression fuel P = .ok n P₁) (hn' : n < 2 ^ 63) :
    (P₁.is .EndOfStatement = true →
      (0 < n →
        ∃ Q, AsmParser.ParseDirectiveSpace fuel P = .ok () Q ∧
          Q.Out.Calls = P.Out.Calls ++ List.replicate n.toNat (.EmitValue (MCValue.get 0) 1) ∧
          Q.Diags = P₁.Diags) ∧
      (n ≤ 0 →
        ∃ Q, AsmParser.ParseDirectiveSpace fuel P = .error Q ∧ Q.Out = P.Out ∧
          Q.Diags = P₁.Diags ++
            [⟨P₁.Lex.getLoc, "invalid number of bytes in '.space' directive", "error"⟩])) ∧
    (∀ (f : Int) (P₂ : AsmParser), P₁.is .Comma = true →
      AsmParser.ParseAbsoluteExpression fuel P₁.Lex = .ok f P₂ →
      P₂.is .EndOfStatement = true →
      (0 < n →
        ∃ Q, AsmParser.ParseDirectiveSpace fuel P = .ok () Q ∧
          Q.Out.Calls = P.Out.Calls ++ List.replicate n.toNat (.EmitValue (MCValue.get f) 1) ∧
          Q.Diags = P₂.Diags) ∧
      (n ≤ 0 →
        ∃ Q, AsmParser.ParseDirectiveSpace fuel P = .error Q ∧ Q.Out = P.Out ∧
          Q.Diags = P₂.Diags ++
            [⟨P₂.Lex.getLoc, "invalid number of bytes in '.space' directive", "error"⟩])) ∧
    (∀ (g : Nat) (L : SMLoc) (R : AsmParser),
      AsmParser.ParseDirective g ".space" L R = AsmParser.ParseDirectiveSpace g R) ∧
    (∃ Q, AsmParser.Run 100 (AsmParser.start (AsmToken.stream
        [.ident ".space", .int "3" 3, .eol, .ident ".space", .int "2" 2, .punct .Comma,
          .int "7" 7, .eol])) = .ok false Q ∧
      Q.Out.Calls = [.EmitValue (MCValue.get 0) 1, .EmitValue (MCValue.get 0) 1,
        .EmitValue (MCValue.get 0) 1, .EmitValue (MCValue.get 7) 1,
        .EmitValue (MCValue.get 7) 1] ∧
      Q.Diags = []) ∧
    (∃ Q, AsmParser.Run 100 (AsmParser.start (AsmToken.stream
        [.ident ".space", .int "0" 0, .eol])) = .ok true Q ∧
      Q.Out.Calls = [] ∧
      Q.Diags.map Diag.Msg = ["invalid number of bytes in '.space' directive"]) := by
  have h₁ := AsmParser.ParseAbsoluteExpression_Out hN
  have hmod : 0 < n → (n % 18446744073709551616).toNat = n.toNat := by
    intro hn
    rw [Int.emod_eq_of_lt (le_of_lt hn) (by omega)]
  refine ⟨?_, ?_, fun g L R => rfl, ⟨_, rfl, rfl, rfl⟩, ⟨_, rfl, rfl, rfl⟩⟩
  · intro hE
    have hEN := AsmParser.isNot_eq_false_of_is hE
    constructor
    · intro hn
      have hEq : AsmParser.ParseDirectiveSpace fuel P = .ok ()
          (P₁.Lex.emitValues n (MCValue.get 0) 1) := by
        simp [AsmParser.ParseDirectiveSpace, hN, Result.andThen, hEN, not_le.mpr hn]
      exact ⟨_, hEq, by simp [AsmParser.emitValues, hmod hn, h₁],
        by simp [AsmParser.emitValues]⟩
    · intro hn
      have hEq : AsmParser.ParseDirectiveSpace fuel P = .error
          (P₁.Lex.TokError "invalid number of bytes in '.space' directive") := by
        simp [AsmParser.ParseDirectiveSpace, hN, Result.andThen, hEN, hn]
      exact ⟨_, hEq, by simp [h₁], by simp [AsmParser.TokError]⟩
  · intro f P₂ hC hF hE
    have h₂ := AsmParser.ParseAbsoluteExpression_Out hF
    have hEN := AsmParser.isNot_eq_false_of_is hE
    have hCN := AsmParser.isNot_eq_false_of_is hC
    have hCE : P₁.isNot .EndOfStatement = true := AsmParser.isNot_of_is hC (by decide)
    constructor
    · intro hn
      have hEq : AsmParser.ParseDirectiveSpace fuel P = .ok ()
          (P₂.Lex.emitValues n (MCValue.get f) 1) := by
        simp [AsmParser.ParseDirectiveSpace, hN, hF, Result.andThen, hEN, hCN, hCE,
          not_le.mpr hn]
      exact ⟨_, hEq, by simp [AsmParser.emitValues, hmod hn, h₁, h₂],
        by simp [AsmParser.emitValues]⟩
    · intro hn
      have hEq : AsmParser.ParseDirectiveSpace fuel P = .error
          (P₂.Lex.TokError "invalid number of bytes in '.space' directive") := by
        simp [AsmParser.ParseDirectiveSpace, hN, hF, Result.andThen, hEN, hCN, hCE, hn]
      exact ⟨_, hEq, by simp [h₁, h₂], by simp [AsmParser.TokError]⟩

/-- C27 at the operand `3` of `.space`: success after the three calls
`EmitValue(0, 1)`. -/
theorem C27_space_directive_witness :
    ∃ Q, AsmParser.ParseDirectiveSpace 100 (AsmParser.start (AsmToken.stream
        [.int "3" 3, .eol])) = .ok () Q ∧
      Q.Out.Calls = [] ++ List.replicate (3 : Int).toNat (.EmitValue (MCValue.get 0) 1) ∧
      Q.Diags = [] :=
  ((C27_space_directive 100 (AsmParser.start (AsmToken.stream [.int "3" 3, .eol]))
    (AsmParser.start (AsmToken.stream [.int "3" 3, .eol])).Lex 3 rfl (by decide)).1 rfl).1
    (by decide)

/-- C28: a successful `ParseAssignment(Name, IsDotSet)` has parsed an
expression up to the end of the statement and made exactly one call,
`EmitAssignment(Name, Value, IsDotSet)`, `Value` being the relocatable value
of that expression.  `ParseStatement` calls it with `IsDotSet = false` for
`name = expr`, and `ParseDirectiveSet`, to which `.set` is dispatched, calls
it with `IsDotSet = true` for `.set name, expr` and succeeds in no other
way. -/
theorem C28_assignment_call :
    (∀ (fuel : Nat) (Name : String) (IsDotSet : Bool) (P Q : AsmParser),
      AsmParser.ParseAssignment fuel Name IsDotSet P = .ok () Q →
      ∃ E Value P₁, AsmParser.ParseExpression fuel P = .ok E P₁ ∧
        E.EvaluateAsRelocatable = some Value ∧ P₁.is .EndOfStatement = true ∧
        Q.Out.Calls = P.Out.Calls ++ [.EmitAssignment Name Value IsDotSet] ∧
        Q.Diags = P₁.Diags ∧ Q.Lexer = P₁.Lex.Lexer) ∧
    (∀ (fuel : Nat) (P : AsmParser), P.getKind = .Identifier → P.Lex.getKind = .Equal →
      AsmParser.ParseStatement (fuel + 1) P =
        AsmParser.ParseAssignment fuel P.getTok.Str false P.Lex.Lex) ∧
    (∀ (fuel : Nat) (P : AsmParser), P.getKind = .Identifier → P.getTok.Str = ".set" →
      P.Lex.getKind ≠ .Colon → P.Lex.getKind ≠ .Equal →
      AsmParser.ParseStatement (fuel + 1) P = AsmParser.ParseDirectiveSet fuel P.Lex) ∧
    (∀ (fuel : Nat) (P : AsmParser), P.is .Identifier = true → P.Lex.is .Comma = true →
      AsmParser.ParseDirectiveSet fuel P =
        AsmParser.ParseAssignment fuel P.getTok.Str true P.Lex.Lex) ∧
    (∀ (fuel : Nat) (P Q : AsmParser), AsmParser.ParseDirectiveSet fuel P = .ok () Q →
      P.is .Identifier = true ∧ P.Lex.is .Comma = true) ∧
    (∃ Q, AsmParser.Run 100 (AsmParser.start (AsmToken.stream
        [.ident "x", .punct .Equal, .int "5" 5, .punct .Plus, .ident "l", .eol,
          .ident ".set", .ident "y", .punct .Comma, .int "7" 7, .eol])) = .ok false Q ∧
      Q.Out.Calls = [.EmitAssignment "x" ⟨5, some "l", none⟩ false,
        .EmitAssignment "y" ⟨7, none, none⟩ true] ∧
      Q.Diags = []) := by
  refine ⟨?_, ?_, ?_, ?_, ?_, ⟨_, rfl, rfl, rfl⟩⟩
  · intro fuel Name IsDotSet P Q h
    obtain ⟨Value, P₁, hP, hE, rfl⟩ := AsmParser.ParseAssignment_ok h
    obtain ⟨E, hE₁, hE₂⟩ := AsmParser.ParseRelocatableExpression_ok hP
    have hQ := AsmParser.ParseRelocatableExpression_quiet fuel P
    rw [hP] at hQ
    have hQ : P₁.Out = P.Out := hQ
    refine ⟨E, Value, P₁, hE₁, hE₂, hE, ?_, ?_, rfl⟩
    · simp [AsmParser.EmitAssignment, AsmParser.Lex_Out, hQ]
    · simp [AsmParser.EmitAssignment, AsmParser.Lex_Diags]
  · intro fuel P hId hEq
    unfold AsmParser.ParseStatement
    simp only [hId, hEq]
  · intro fuel P hId hStr hColon hEqual
    rw [AsmParser.ParseStatement_directive fuel P hId (by rw [hStr]; decide) hColon hEqual,
      hStr]
    rfl
  · intro fuel P hId hC
    simp [AsmParser.ParseDirectiveSet, AsmParser.isNot_eq_false_of_is hId,
      AsmParser.isNot_eq_false_of_is hC]
  · intro fuel P Q h
    unfold AsmParser.ParseDirectiveSet at h
    split at h
    · cases h
    · rename_i hId
      simp only at h
      split at h
      · cases h
      · rename_i hC
        exact ⟨by simpa [AsmParser.isNot, AsmParser.is] using hId,
          by simpa [AsmParser.isNot, AsmParser.is] using hC⟩

/-- C29: when a primary expression `E₀` is followed by binary operators that
all have the precedence `k`, each with a primary expression as its operand,
and then by a token that is no binary operator, `ParseExpression` returns
the left-nested tree `(...((E₀ op₁ E₁) op₂ E₂)... opₙ Eₙ)` and stops after
the last operand, for every fuel that covers the length of the input. -/
theorem C29_same_precedence_nests_left (k : Nat) (fuel : Nat) (P P₁ Q : AsmParser)
    (E₀ : AsmExpr) (Ops : List (AsmBinaryExpr.Opcode × AsmExpr))
    (hFirst : AsmParser.ParsePrimaryExpr fuel P = .ok E₀ P₁)
    (hChain : AsmParser.OperatorChain k P₁ Ops Q) (hk : 1 ≤ k)
    (hEnd : (getBinOpPrecedence Q.getKind .Add).1 = 0) :
    ∀ f, 3 * P.Lexer.length + 2 ≤ f →
      AsmParser.ParseExpression f P = .ok (E₀.leftNest Ops) Q := by
  obtain ⟨g, hg⟩ := AsmParser.ParseBinOpRHS_chain hChain 1 E₀ hk (by omega)
  have hE : AsmParser.ParseExpression (max fuel g + 1) P = .ok (E₀.leftNest Ops) Q := by
    rw [AsmParser.ParseExpression]
    simp only [AsmParser.ParsePrimaryExpr_fuel hFirst (le_max_left fuel g), Result.andThen]
    exact AsmParser.ParseBinOpRHS_fuel hg (le_max_right fuel g)
  intro f hf
  have hFine := (AsmParser.expr_fine f).2.2.1 P
  rcases (AsmParser.expr_fuel_le (Nat.le_max_left f (max fuel g + 1))).2.1 P with h | h
  · rw [h] at hFine
    exact (hFine hf).elim
  · rw [h]
    exact AsmParser.ParseExpression_fuel hE (Nat.le_max_right f (max fuel g + 1))

/-- C29 at `a - b - c`: the tree is `Binary(Sub, Binary(Sub, a, b), c)`. -/
theorem C29_same_precedence_nests_left_witness :
    AsmParser.ParseExpression 100 (AsmParser.start (AsmToken.stream
        [.ident "a", .punct .Minus, .ident "b", .punct .Minus, .ident "c", .eol])) =
      .ok (.Binary .Sub (.Binary .Sub (.SymbolRef "a") (.SymbolRef "b")) (.SymbolRef "c"))
        ((((((AsmParser.start (AsmToken.stream
        [.ident "a", .punct .Minus, .ident "b", .punct .Minus, .ident "c", .eol])).markUse
          "a").Lex.Lex.markUse "b").Lex).Lex.markUse "c").Lex) :=
  C29_same_precedence_nests_left 2 1
    (AsmParser.start (AsmToken.stream
      [.ident "a", .punct .Minus, .ident "b", .punct .Minus, .ident "c", .eol]))
    _ _ (.SymbolRef "a") [(.Sub, .SymbolRef "b"), (.Sub, .SymbolRef "c")] rfl
    (.next 1 _ _ _ .Sub (.SymbolRef "b") _ rfl rfl
      (.next 1 _ _ _ .Sub (.SymbolRef "c") _ rfl rfl (.done _)))
    (by decide) rfl 100 (by decide)

/-- C30: `ParseBinOpRHS(Precedence, Res)` parses all binary operators of a
precedence of at least `Precedence`.  When it returns successfully the
current token has a precedence below `Precedence`, the tokens it consumed are
a sequence of operators of a precedence of at least `Precedence`, each with
the primary expression that is its operand, and the expression it returns is
a tree of these operators over `Res` and these operands, in the order of the
tokens.  When the token at entry has a precedence below `Precedence` it
returns successfully at once, with `Res` and the parser state as they were; a
token that is none of the 19 operators has the precedence 0, so this is the
case for every such token when `Precedence` is at least 1.  An error is the
error of `ParsePrimaryExpr` for the operand of such an operator, and with a
`Precedence` of at least 1 and a fuel that covers the input the method
returns.  At `- b` with `Res = a` it returns `Binary(Sub, a, b)`, at
`+ b * c` it returns `Binary(Add, a, Binary(Mul, b, c))`, at `* b + c` it
returns `Binary(Add, Binary(Mul, a, b), c)`, at `- b - c` it returns
`Binary(Sub, Binary(Sub, a, b), c)`, and at `- b * c - d` it returns
`Binary(Sub, a, Binary(Sub, Binary(Mul, b, c), d))`. -/
theorem C30_ParseBinOpRHS_contract :
    (∀ (fuel Prec : Nat) (Res : AsmExpr) (P : AsmParser) (E : AsmExpr) (Q : AsmParser),
      AsmParser.ParseBinOpRHS fuel Prec Res P = .ok E Q →
      (getBinOpPrecedence Q.getKind .Add).1 < Prec) ∧
    (∀ (fuel Prec : Nat) (Res : AsmExpr) (P : AsmParser),
      (getBinOpPrecedence P.getKind .Add).1 < Prec →
      AsmParser.ParseBinOpRHS (fuel + 1) Prec Res P = .ok Res P) ∧
    (∀ (K : AsmToken.TokenKind) (Kind : AsmBinaryExpr.Opcode),
      K ∉ [.AmpAmp, .PipePipe, .Plus, .Minus, .EqualEqual, .ExclaimEqual, .LessGreater, .Less,
        .LessEqual, .Greater, .GreaterEqual, .Pipe, .Caret, .Amp, .Star, .Slash, .Percent,
        .LessLess, .GreaterGreater] →
      getBinOpPrecedence K Kind = (0, Kind)) ∧
    (∀ (fuel Prec : Nat) (Res : AsmExpr) (P : AsmParser), 1 ≤ Prec →
      P.getKind ∉ [.AmpAmp, .PipePipe, .Plus, .Minus, .EqualEqual, .ExclaimEqual, .LessGreater,
        .Less, .LessEqual, .Greater, .GreaterEqual, .Pipe, .Caret, .Amp, .Star, .Slash,
        .Percent, .LessLess, .GreaterGreater] →
      AsmParser.ParseBinOpRHS (fuel + 1) Prec Res P = .ok Res P) ∧
    (∀ (fuel Prec : Nat) (Res : AsmExpr) (P : AsmParser) (E : AsmExpr) (Q : AsmParser),
      AsmParser.ParseBinOpRHS fuel Prec Res P = .ok E Q →
      ∃ Ops, AsmParser.OperatorSequence Prec P Ops Q ∧ E.Brackets Res Ops) ∧
    (∀ (fuel Prec : Nat) (Res : AsmExpr) (P Q : AsmParser),
      AsmParser.ParseBinOpRHS fuel Prec Res P = .error Q →
      ∃ Ops P' f, AsmParser.OperatorSequence Prec P Ops P' ∧
        Prec ≤ (getBinOpPrecedence P'.getKind .Add).1 ∧
        AsmParser.ParsePrimaryExpr f P'.Lex = .error Q) ∧
    (∀ (fuel Prec : Nat) (Res : AsmExpr) (P : AsmParser), 1 ≤ Prec →
      3 * P.Lexer.length + 1 ≤ fuel →
      AsmParser.ParseBinOpRHS fuel Prec Res P ≠ .outOfFuel) ∧
    (∀ (E Res : AsmExpr), E.Brackets Res [] → E = Res) ∧
    (∀ (E Res R : AsmExpr) (Op : AsmBinaryExpr.Opcode),
      E.Brackets Res [(Op, R)] → E = .Binary Op Res R) ∧
    AsmParser.ParseBinOpRHS 100 1 (.SymbolRef "a")
        (AsmParser.start (AsmToken.stream [.punct .Minus, .ident "b", .eol])) =
      .ok (.Binary .Sub (.SymbolRef "a") (.SymbolRef "b"))
        ((AsmParser.start (AsmToken.stream
          [.punct .Minus, .ident "b", .eol])).Lex.markUse "b").Lex ∧
    AsmParser.ParseBinOpRHS 100 1 (.SymbolRef "a")
        (AsmParser.start (AsmToken.stream
          [.punct .Plus, .ident "b", .punct .Star, .ident "c", .eol])) =
      .ok (.Binary .Add (.SymbolRef "a") (.Binary .Mul (.SymbolRef "b") (.SymbolRef "c")))
        ((((AsmParser.start (AsmToken.stream
          [.punct .Plus, .ident "b", .punct .Star, .ident "c", .eol])).Lex.markUse
            "b").Lex.Lex.markUse "c").Lex) ∧
    AsmParser.ParseBinOpRHS 100 1 (.SymbolRef "a")
        (AsmParser.start (AsmToken.stream
          [.punct .Star, .ident "b", .punct .Plus, .ident "c", .eol])) =
      .ok (.Binary .Add (.Binary .Mul (.SymbolRef "a") (.SymbolRef "b")) (.SymbolRef "c"))
        ((((AsmParser.start (AsmToken.stream
          [.punct .Star, .ident "b", .punct .Plus, .ident "c", .eol])).Lex.markUse
            "b").Lex.Lex.markUse "c").Lex) ∧
    AsmParser.ParseBinOpRHS 100 1 (.SymbolRef "a")
        (AsmParser.start (AsmToken.stream
          [.punct .Minus, .ident "b", .punct .Minus, .ident "c", .eol])) =
      .ok (.Binary .Sub (.Binary .Sub (.SymbolRef "a") (.SymbolRef "b")) (.SymbolRef "c"))
        ((((AsmParser.start (AsmToken.stream
          [.punct .Minus, .ident "b", .punct .Minus, .ident "c", .eol])).Lex.markUse
            "b").Lex.Lex.markUse "c").Lex) ∧
    AsmParser.ParseBinOpRHS 100 1 (.SymbolRef "a")
        (AsmParser.start (AsmToken.stream
          [.punct .Minus, .ident "b", .punct .Star, .ident "c", .punct .Minus, .ident "d",
            .eol])) =
      .ok (.Binary .Sub (.SymbolRef "a")
          (.Binary .Sub (.Binary .Mul (.SymbolRef "b") (.SymbolRef "c")) (.SymbolRef "d")))
        ((((((AsmParser.start (AsmToken.stream
          [.punct .Minus, .ident "b", .punct .Star, .ident "c", .punct .Minus, .ident "d",
            .eol])).Lex.markUse "b").Lex.Lex.markUse "c").Lex.Lex.markUse "d").Lex)) := by
  have nonOp : ∀ (K : AsmToken.TokenKind) (Kind : AsmBinaryExpr.Opcode),
      K ∉ [.AmpAmp, .PipePipe, .Plus, .Minus, .EqualEqual, .ExclaimEqual, .LessGreater, .Less,
        .LessEqual, .Greater, .GreaterEqual, .Pipe, .Caret, .Amp, .Star, .Slash, .Percent,
        .LessLess, .GreaterGreater] →
      getBinOpPrecedence K Kind = (0, Kind) := by
    intro K Kind hK
    cases K <;> first | rfl | (exfalso; revert hK; decide)
  refine ⟨fun fuel => AsmParser.ParseBinOpRHS_stops fuel, ?_, nonOp, ?_,
    fun fuel => AsmParser.ParseBinOpRHS_brackets fuel,
    fun fuel => AsmParser.ParseBinOpRHS_error fuel, ?_, ?_, ?_, rfl, rfl, rfl, rfl, rfl⟩
  · intro fuel Prec Res P h
    simp [AsmParser.ParseBinOpRHS, h]
  · intro fuel Prec Res P hPrec hK
    have := nonOp P.getKind .Add hK
    simp [AsmParser.ParseBinOpRHS, this]
    omega
  · intro fuel Prec Res P hPrec hf h
    have hFine := (AsmParser.expr_fine fuel).2.2.2 Prec Res P hPrec
    rw [h] at hFine
    exact hFine hf
  · intro E Res h
    exact h.bracketsNil
  · intro E Res R Op h
    exact h.bracketsSingle

/-- C31: for `.asciz s1, ..., sn` the parser makes exactly `2 * n` calls
`EmitBytes`: for each string operand in order one call with the text of the
token without its first and last character, then one call with a single zero
byte; for `.ascii` it makes exactly the `n` calls with the contents and none
with a zero byte.  With no operands both directives succeed and make no
call.  The dispatch hands `.ascii` and `.asciz` to `ParseDirectiveAscii` with
`ZeroTerminated` false and true. -/
theorem C31_ascii_calls_per_operand :
    (∀ (Z : Bool) (Toks Ops : List AsmToken),
      AsmToken.IsList (fun T => T.Kind = .String) Toks Ops →
      ∀ (fuel : Nat) (P : AsmParser) (Eol : AsmToken) (Rest : List AsmToken),
        P.Lexer = Toks ++ Eol :: Rest → Eol.Kind = .EndOfStatement → Ops.length ≤ fuel →
        ∃ Q Calls, AsmParser.ParseDirectiveAscii fuel Z P = .ok () Q ∧ Q.Lexer = Rest ∧
          Q.Out.Calls = P.Out.Calls ++ Calls ∧ Q.Diags = P.Diags ∧
          Calls = (if Z then
            Ops.flatMap (fun T => [StreamerCall.EmitBytes (AsmParser.stripQuotes T.Str),
              StreamerCall.EmitBytes (String.mk [Char.ofNat 0])])
            else Ops.map (fun T => StreamerCall.EmitBytes (AsmParser.stripQuotes T.Str))) ∧
          Calls.length = (if Z then 2 * Ops.length else Ops.length)) ∧
    (∀ (Z : Bool) (fuel : Nat) (P : AsmParser), P.is .EndOfStatement = true →
      AsmParser.ParseDirectiveAscii fuel Z P = .ok () P.Lex ∧
        P.Lex.Out.Calls = P.Out.Calls ∧ P.Lex.Diags = P.Diags) ∧
    (∀ (fuel : Nat) (L : SMLoc) (P : AsmParser),
      AsmParser.ParseDirective fuel ".ascii" L P = AsmParser.ParseDirectiveAscii fuel false P ∧
      AsmParser.ParseDirective fuel ".asciz" L P = AsmParser.ParseDirectiveAscii fuel true P) ∧
    (∃ Q, AsmParser.Run 100 (AsmParser.start (AsmToken.stream
        [.ident ".asciz", .string "\"ab\"", .punct .Comma, .string "\"c\"", .eol,
          .ident ".ascii", .string "\"ab\"", .punct .Comma, .string "\"c\"", .eol,
          .ident ".asciz", .eol, .ident ".ascii", .eol])) = .ok false Q ∧
      Q.Out.Calls = [.EmitBytes "ab", .EmitBytes (String.mk [Char.ofNat 0]),
        .EmitBytes "c", .EmitBytes (String.mk [Char.ofNat 0]),
        .EmitBytes "ab", .EmitBytes "c"] ∧
      Q.Diags = []) := by
  refine ⟨?_, ?_, ?_, ⟨_, rfl, rfl, rfl⟩⟩
  · intro Z Toks Ops hList fuel P Eol Rest hL hE hf
    obtain ⟨Q, hQ, hQL, hQC, hQD⟩ :=
      AsmParser.ParseDirectiveAsciiLoop_strings Z Toks Ops hList fuel P Eol Rest hL hE hf
    have hne : P.isNot .EndOfStatement = true := by
      cases hList with
      | one T hT =>
        have hk := AsmParser.getKind_cons P T _ (by simpa using hL)
        simp [AsmParser.isNot, AsmParser.is, hk.1, hT]
      | more T C Toks Ops hT hC _ =>
        have hk := AsmParser.getKind_cons P T _ (by simpa using hL)
        simp [AsmParser.isNot, AsmParser.is, hk.1, hT]
    have hLx : Q.Lex.Lexer = Rest := AsmParser.Lex_cons Q Eol _ hQL (by simp [hE])
    refine ⟨Q.Lex, _, ?_, hLx, ?_, ?_, rfl, ?_⟩
    · simp [AsmParser.ParseDirectiveAscii, hne, hQ, Result.andThen]
    · rw [AsmParser.Lex_Out, hQC]
      cases Z
      · simp only [Bool.false_eq_true, if_false]
        rw [AsmParser.flatMap_single]
      · simp only [if_true]
    · rw [AsmParser.Lex_Diags, hQD]
    · cases Z
      · simp
      · simp only [if_true]
        exact AsmParser.flatMap_pair_length _ _ Ops
  · intro Z fuel P hE
    refine ⟨?_, by rw [AsmParser.Lex_Out], AsmParser.Lex_Diags P⟩
    simp [AsmParser.ParseDirectiveAscii, AsmParser.isNot_eq_false_of_is hE]
  · intro fuel L P
    exact ⟨rfl, rfl⟩

/-- C32: on a token stream in which no token is the identifier `.include`,
`Run` returns, at `Eof`, when the fuel is at least `3 * length + 2`.  A pass
through the loop of `Run` leaves fewer tokens: a statement that is accepted
consumed a token, and after a statement that is rejected
`EatToEndOfStatement` has.  The recursive calls are made on states with fewer
tokens: `ParseStatement` calls itself after the identifier and the colon of a
label; `ParsePrimaryExpr` calls itself after a unary operator and calls
`ParseParenExpr` after the opening parenthesis, which leads back to
`ParsePrimaryExpr` through `ParseExpression`; a primary expression that parses
consumed a token; and `ParseBinOpRHS`, entered with a precedence of at least 1,
returns at a token of lower precedence and otherwise consumes the operator and
a primary expression before it calls itself. -/
theorem C32_Run_terminates_without_include :
    (∀ (fuel : Nat) (P : AsmParser), AsmToken.NoIncludeDirective P.Lexer →
      3 * P.Lexer.length + 2 ≤ fuel →
      ∃ b Q, AsmParser.Run fuel P = .ok b Q ∧ Q.getKind = .Eof) ∧
    (∀ (fuel : Nat) (P : AsmParser), AsmToken.NoIncludeDirective P.Lexer →
      P.isNot .Eof = true →
      (∀ Q, AsmParser.ParseStatement fuel P = .ok () Q →
        Q.Lexer.length < P.Lexer.length) ∧
      (∀ Q, AsmParser.ParseStatement fuel P = .error Q →
        Q.EatToEndOfStatement.Lexer.length < P.Lexer.length) ∧
      (∀ (HadError : Bool), AsmParser.RunLoop (fuel + 1) HadError P =
        match AsmParser.ParseStatement fuel P with
        | .ok _ Q => AsmParser.RunLoop fuel HadError Q
        | .error Q => AsmParser.RunLoop fuel true Q.EatToEndOfStatement
        | .outOfFuel => .outOfFuel)) ∧
    (∀ (fuel : Nat) (P : AsmParser), P.getKind = .Identifier → P.Lex.getKind = .Colon →
      (P.Lex.Lex.Ctx.getSection P.getTok.Str).isSome = false →
      (P.Lex.Lex.Ctx.GetSymbolValue P.getTok.Str).isSome = false →
      AsmParser.ParseStatement (fuel + 1) P =
        AsmParser.ParseStatement fuel (P.Lex.Lex.EmitLabel P.getTok.Str) ∧
      (P.Lex.Lex.EmitLabel P.getTok.Str).Lexer.length + 2 = P.Lexer.length) ∧
    (∀ (fuel : Nat) (P : AsmParser),
      P.getKind = .Exclaim ∨ P.getKind = .Minus ∨ P.getKind = .Plus ∨ P.getKind = .Tilde →
      P.Lex.Lexer.length + 1 = P.Lexer.length ∧
      ∃ Op, AsmParser.ParsePrimaryExpr (fuel + 1) P =
        (AsmParser.ParsePrimaryExpr fuel P.Lex).andThen fun Res P => .ok (.Unary Op Res) P) ∧
    (∀ (fuel : Nat) (P : AsmParser), P.getKind = .LParen →
      P.Lex.Lexer.length + 1 = P.Lexer.length ∧
      AsmParser.ParsePrimaryExpr (fuel + 1) P = AsmParser.ParseParenExpr fuel P.Lex ∧
      AsmParser.ParseParenExpr (fuel + 2) P.Lex =
        ((AsmParser.ParsePrimaryExpr fuel P.Lex).andThen fun Res P =>
          AsmParser.ParseBinOpRHS fuel 1 Res P).andThen fun Res P =>
          if P.isNot .RParen then
            .error (P.TokError "expected ')' in parentheses expression")
          else .ok Res P.Lex) ∧
    (∀ (fuel : Nat) (P Q : AsmParser) (E : AsmExpr),
      AsmParser.ParsePrimaryExpr fuel P = .ok E Q → Q.Lexer.length < P.Lexer.length) ∧
    (∀ (fuel Precedence : Nat) (Res : AsmExpr) (P : AsmParser),
      (getBinOpPrecedence P.getKind .Add).1 < Precedence →
      AsmParser.ParseBinOpRHS (fuel + 1) Precedence Res P = .ok Res P) ∧
    (∀ (fuel Precedence : Nat) (Res : AsmExpr) (P : AsmParser), 1 ≤ Precedence →
      Precedence ≤ (getBinOpPrecedence P.getKind .Add).1 →
      P.Lex.Lexer.length + 1 = P.Lexer.length ∧
      AsmParser.ParseBinOpRHS (fuel + 1) Precedence Res P =
        ((AsmParser.ParsePrimaryExpr fuel P.Lex).andThen fun RHS P₁ =>
          (if (getBinOpPrecedence P.getKind .Add).1 < (getBinOpPrecedence P₁.getKind .Add).1
            then AsmParser.ParseBinOpRHS fuel (Precedence + 1) RHS P₁
            else .ok RHS P₁).andThen fun RHS P₂ =>
            AsmParser.ParseBinOpRHS fuel Precedence
              (.Binary (getBinOpPrecedence P.getKind .Add).2 Res RHS) P₂) ∧
      ∀ RHS P₁, AsmParser.ParsePrimaryExpr fuel P.Lex = .ok RHS P₁ →
        P₁.Lexer.length + 2 ≤ P.Lexer.length ∧
        ∀ RHS' P₂, AsmParser.ParseBinOpRHS fuel (Precedence + 1) RHS P₁ = .ok RHS' P₂ →
          P₂.Lexer.length ≤ P₁.Lexer.length) ∧
    (∃ Q, AsmParser.Run 44 (AsmParser.start (AsmToken.stream
        [.ident "a", .punct .Colon, .ident "b", .punct .Colon, .ident ".long",
          .punct .Minus, .punct .LParen, .int "1" 1, .punct .Plus, .int "2" 2,
          .punct .RParen, .punct .Star, .int "3" 3, .eol])) = .ok false Q ∧
      (AsmToken.stream
        [.ident "a", .punct .Colon, .ident "b", .punct .Colon, .ident ".long",
          .punct .Minus, .punct .LParen, .int "1" 1, .punct .Plus, .int "2" 2,
          .punct .RParen, .punct .Star, .int "3" 3, .eol]).length = 14 ∧
      Q.Lexer = [] ∧
      Q.Out.Calls = [.EmitLabel "a", .EmitLabel "b", .EmitValue ⟨-9, none, none⟩ 4]) := by
  refine ⟨?_, ?_, ?_, ?_, ?_, ?_, ?_, ?_, ⟨_, rfl, rfl, rfl, rfl⟩⟩
  · intro fuel P hN hf
    obtain ⟨b, Q, hQ, hE, -⟩ := AsmParser.RunLoop_terminates fuel false P hN hf
    exact ⟨b, Q, hQ, hE⟩
  · intro fuel P hN hk
    have hk' : P.getKind ≠ .Eof := by simpa [AsmParser.isNot] using hk
    have hP := AsmParser.RunLoop_pass fuel P hN hk'
    refine ⟨fun Q h => (hP.1 Q h).2, fun Q h => (hP.2 Q h).2, fun HadError => ?_⟩
    rw [AsmParser.RunLoop]
    simp only [hk, if_true]
  · intro fuel P hId hColon hS hV
    have h₁ := P.Lex_length (by rw [hId]; decide)
    have h₂ := P.Lex.Lex_length (by rw [hColon]; decide)
    refine ⟨?_, ?_⟩
    · rw [AsmParser.ParseStatement]
      simp only [AsmParser.Lex_Ctx] at hS hV
      simp [hId, hColon, hS, hV]
    · have : (P.Lex.Lex.EmitLabel P.getTok.Str).Lexer = P.Lex.Lex.Lexer := rfl
      rw [this]
      omega
  · intro fuel P hk
    rcases hk with hk | hk | hk | hk
    · exact ⟨P.Lex_length (by rw [hk]; decide), .LNot, by rw [AsmParser.ParsePrimaryExpr]; simp [hk]⟩
    · exact ⟨P.Lex_length (by rw [hk]; decide), .Minus, by rw [AsmParser.ParsePrimaryExpr]; simp [hk]⟩
    · exact ⟨P.Lex_length (by rw [hk]; decide), .Plus, by rw [AsmParser.ParsePrimaryExpr]; simp [hk]⟩
    · exact ⟨P.Lex_length (by rw [hk]; decide), .Not, by rw [AsmParser.ParsePrimaryExpr]; simp [hk]⟩
  · intro fuel P hk
    refine ⟨P.Lex_length (by rw [hk]; decide), ?_, ?_⟩
    · rw [AsmParser.ParsePrimaryExpr]
      simp [hk]
    · rw [AsmParser.ParseParenExpr, AsmParser.ParseExpression]
  · intro fuel P Q E h
    exact (AsmParser.ParsePrimaryExpr_consumes h).2
  · intro fuel Precedence Res P h
    rw [AsmParser.ParseBinOpRHS]
    simp only [h, if_true]
  · intro fuel Precedence Res P h₁ h₂
    have hk : P.getKind ≠ .Eof := by
      intro hE
      rw [hE, getBinOpPrecedence_Eof] at h₂
      omega
    have hl := P.Lex_length hk
    refine ⟨hl, ?_, ?_⟩
    · rw [AsmParser.ParseBinOpRHS]
      simp only [not_lt.mpr h₂, if_false]
    · intro RHS P₁ hP
      have := (AsmParser.ParsePrimaryExpr_consumes hP).2
      refine ⟨by omega, ?_⟩
      intro RHS' P₂ hB
      have hF := (AsmParser.expr_fine fuel).2.2.2 (Precedence + 1) RHS P₁ (by omega)
      rw [hB] at hF
      exact (Frame.lexer hF).length_le

set_option maxRecDepth 100000 in
/-- C33: for every sequence of calls of `getNodePredicate`,
`getPatternPredicate`, `getComplexPat` or `getNodeXFormID` on a new emitter,
the vector holds the keys in the order of their first occurrence and the
number returned for a key is its position there.  So equal keys get equal
numbers, distinct keys distinct numbers, the numbers in use are exactly those
below the number of distinct keys, and the vector holds the key at the index
returned.  The maps of an emitter stay interned through `EmitMatcherList`,
and the vectors only grow at their ends; so the number that `EmitMatcher`
writes into the table for a predicate, a complex pattern or a node transform
is, in any later state of the emitter, the `case` of `EmitPredicateFunctions`
that names it. -/
theorem C33_callback_ids_are_interned :
    (∀ Keys : List String,
      (MatcherTableEmitter.calls MatcherTableEmitter.getNodePredicate
        MatcherTableEmitter.new Keys).2.NodePredicates = firstOccurrences Keys ∧
      (MatcherTableEmitter.calls MatcherTableEmitter.getNodePredicate
        MatcherTableEmitter.new Keys).1 =
        Keys.map fun k => (firstOccurrences Keys).indexOf k) ∧
    (∀ Keys : List String,
      (MatcherTableEmitter.calls MatcherTableEmitter.getPatternPredicate
        MatcherTableEmitter.new Keys).2.PatternPredicates = firstOccurrences Keys ∧
      (MatcherTableEmitter.calls MatcherTableEmitter.getPatternPredicate
        MatcherTableEmitter.new Keys).1 =
        Keys.map fun k => (firstOccurrences Keys).indexOf k) ∧
    (∀ Keys : List ComplexPattern,
      (MatcherTableEmitter.calls MatcherTableEmitter.getComplexPat
        MatcherTableEmitter.new Keys).2.ComplexPatterns = firstOccurrences Keys ∧
      (MatcherTableEmitter.calls MatcherTableEmitter.getComplexPat
        MatcherTableEmitter.new Keys).1 =
        Keys.map fun k => (firstOccurrences Keys).indexOf k) ∧
    (∀ Keys : List Record,
      (MatcherTableEmitter.calls MatcherTableEmitter.getNodeXFormID
        MatcherTableEmitter.new Keys).2.NodeXForms = firstOccurrences Keys ∧
      (MatcherTableEmitter.calls MatcherTableEmitter.getNodeXFormID
        MatcherTableEmitter.new Keys).1 =
        Keys.map fun k => (firstOccurrences Keys).indexOf k) ∧
    (∀ (κ : Type) [DecidableEq κ] (Keys : List κ),
      (firstOccurrences Keys).Nodup ∧
      (∀ k, k ∈ firstOccurrences Keys ↔ k ∈ Keys) ∧
      (∀ k ∈ Keys, ∀ k' ∈ Keys,
        (firstOccurrences Keys).indexOf k = (firstOccurrences Keys).indexOf k' ↔ k = k') ∧
      (∀ n, n < (firstOccurrences Keys).length ↔
        ∃ k ∈ Keys, (firstOccurrences Keys).indexOf k = n) ∧
      (∀ k ∈ Keys, (firstOccurrences Keys)[(firstOccurrences Keys).indexOf k]? = some k)) ∧
    (MatcherTableEmitter.new.Interned ∧
      ∀ (E : MatcherTableEmitter) (N : MatcherNode) (Indent Size : Nat), E.Interned →
        (MatcherTableEmitter.EmitMatcherListLoop N Indent Size E).2.Interned ∧
        MatcherTableEmitter.Extends E
          (MatcherTableEmitter.EmitMatcherListLoop N Indent Size E).2) ∧
    (∀ (E F : MatcherTableEmitter) (Indent : Nat), E.Interned →
      (∀ Pred,
        MatcherTableEmitter.Extends (E.EmitMatcher (.CheckPatternPredicate Pred) Indent).2 F →
        ∃ id, (E.EmitMatcher (.CheckPatternPredicate Pred) Indent).2.OS =
            E.OS ++ [.Opcode "OPC_CheckPatternPredicate", .Num id, .Comment Pred] ∧
          F.PatternPredicates[id]? = some Pred ∧
          F.PatternPredicateCases[id]? =
            some ("  case " ++ toString id ++ ": return " ++ Pred ++ ";\n")) ∧
      (∀ Pred, MatcherTableEmitter.Extends (E.EmitMatcher (.CheckPredicate Pred) Indent).2 F →
        ∃ id, (E.EmitMatcher (.CheckPredicate Pred) Indent).2.OS =
            E.OS ++ [.Opcode "OPC_CheckPredicate", .Num id, .Comment Pred] ∧
          F.NodePredicates[id]? = some Pred ∧
          F.NodePredicateCases[id]? =
            some ("  case " ++ toString id ++ ": return " ++ Pred ++ "(N);\n")) ∧
      (∀ Pattern,
        MatcherTableEmitter.Extends (E.EmitMatcher (.CheckComplexPat Pattern) Indent).2 F →
        ∃ id, (E.EmitMatcher (.CheckComplexPat Pattern) Indent).2.OS =
            E.OS ++ [.Opcode "OPC_CheckComplexPat", .Num id,
              .Comment (Pattern.SelectFunc ++ ": " ++ toString Pattern.NumOperands ++
                " operands" ++
                (if Pattern.HasChain then " + chain result and input" else ""))] ∧
          F.ComplexPatterns[id]? = some Pattern ∧
          F.ComplexPatternCases[id]? =
            some ("  case " ++ toString id ++ ":\n" ++
              "    Result.resize(Result.size()+" ++
              toString (Pattern.NumOperands + (if Pattern.HasChain then 1 else 0)) ++ ");\n" ++
              "    return " ++ Pattern.SelectFunc ++ (if Pattern.HasChain then "XXX" else "") ++
              "(Root, N" ++
              String.join ((List.range
                (Pattern.NumOperands + (if Pattern.HasChain then 1 else 0))).map fun i =>
                ", Result[Result.size()-" ++
                  toString (Pattern.NumOperands + (if Pattern.HasChain then 1 else 0) - i) ++
                  "]") ++
              ");\n")) ∧
      (∀ Slot Rec,
        MatcherTableEmitter.Extends (E.EmitMatcher (.EmitNodeXForm Slot Rec) Indent).2 F →
        ∃ id, (E.EmitMatcher (.EmitNodeXForm Slot Rec) Indent).2.OS =
            E.OS ++ [.Opcode "OPC_EmitNodeXForm", .Num id, .Num Slot, .Comment Rec.Name] ∧
          F.NodeXForms[id]? = some Rec ∧
          F.NodeXFormCases[id]? =
            some ("  case " ++ toString id ++ ": return Transform_" ++ Rec.Name ++
              "(V.getNode());\n"))) ∧
    ((EmitMatcherTable MatcherNode.internExample).OS =
        [.Opcode "OPC_CheckPredicate", .Num 0, .Comment "isA",
          .Opcode "OPC_CheckPatternPredicate", .Num 0, .Comment "HasX",
          .Opcode "OPC_CheckPredicate", .Num 1, .Comment "isB",
          .Opcode "OPC_CheckPredicate", .Num 0, .Comment "isA",
          .Opcode "OPC_CheckComplexPat", .Num 0,
          .Comment "SelectAddr: 2 operands + chain result and input",
          .Opcode "OPC_EmitNodeXForm", .Num 0, .Num 3, .Comment "XF",
          .Num 0, .Comment "Total Array size is 14 bytes"] ∧
      (EmitMatcherTable MatcherNode.internExample).EmitPredicateFunctions =
        ["bool CheckPatternPredicate(unsigned PredNo) const \x7b\n",
          "  switch (PredNo) \x7b\n",
          "  default: assert(0 && \"Invalid predicate in table?\");\n",
          "  case 0: return HasX;\n",
          "  \x7d\n", "\x7d\n\n",
          "bool CheckNodePredicate(SDNode *N, unsigned PredNo) const \x7b\n",
          "  switch (PredNo) \x7b\n",
          "  default: assert(0 && \"Invalid predicate in table?\");\n",
          "  case 0: return isA(N);\n",
          "  case 1: return isB(N);\n",
          "  \x7d\n", "\x7d\n\n",
          "bool CheckComplexPattern(SDNode *Root, SDValue N,\n",
          "      unsigned PatternNo, SmallVectorImpl<SDValue> &Result) \x7b\n",
          "  switch (PatternNo) \x7b\n",
          "  default: assert(0 && \"Invalid pattern # in table?\");\n",
          "  case 0:\n    Result.resize(Result.size()+3);\n    return SelectAddrXXX(Root, N, Result[Result.size()-3], Result[Result.size()-2], Result[Result.size()-1]);\n",
          "  \x7d\n", "\x7d\n\n",
          "SDValue RunSDNodeXForm(SDValue V, unsigned XFormNo) \x7b\n",
          "  switch (XFormNo) \x7b\n",
          "  default: assert(0 && \"Invalid xform # in table?\");\n",
          "  case 0: return Transform_XF(V.getNode());\n",
          "  \x7d\n", "\x7d\n\n"]) := by
  refine ⟨?_, ?_, ?_, ?_, ?_, ⟨MatcherTableEmitter.new_interned, ?_⟩, ?_, ⟨by decide, by decide⟩⟩
  · exact MatcherTableEmitter.calls_new _ (fun E => E.NodePredicateMap)
      (fun E => E.NodePredicates) MatcherTableEmitter.getNodePredicate_get
      MatcherTableEmitter.new_interned.node rfl
  · exact MatcherTableEmitter.calls_new _ (fun E => E.PatternPredicateMap)
      (fun E => E.PatternPredicates) MatcherTableEmitter.getPatternPredicate_get
      MatcherTableEmitter.new_interned.pattern rfl
  · exact MatcherTableEmitter.calls_new _ (fun E => E.ComplexPatternMap)
      (fun E => E.ComplexPatterns) MatcherTableEmitter.getComplexPat_get
      MatcherTableEmitter.new_interned.complex rfl
  · exact MatcherTableEmitter.calls_new _ (fun E => E.NodeXFormMap)
      (fun E => E.NodeXForms) MatcherTableEmitter.getNodeXFormID_get
      MatcherTableEmitter.new_interned.xform rfl
  · intro κ _ Keys
    exact firstOccurrences_ids Keys
  · intro E N Indent Size h
    exact MatcherTableEmitter.EmitMatcherListLoop_interned N Indent Size E h
  · intro E F Indent h
    refine ⟨?_, ?_, ?_, ?_⟩
    · intro Pred hF
      obtain ⟨-, -, h₃⟩ := MatcherTableEmitter.getPatternPredicate_interned E Pred h
      have hv := getElem_of_prefix hF.pattern h₃
      refine ⟨(E.getPatternPredicate Pred).1, ?_, hv, enum_map_getElem _ _ _ _ hv⟩
      simp only [MatcherTableEmitter.EmitMatcher, MatcherTableEmitter.write_OS,
        MatcherTableEmitter.getPatternPredicate_OS]
    · intro Pred hF
      obtain ⟨-, -, h₃⟩ := MatcherTableEmitter.getNodePredicate_interned E Pred h
      have hv := getElem_of_prefix hF.node h₃
      refine ⟨(E.getNodePredicate Pred).1, ?_, hv, enum_map_getElem _ _ _ _ hv⟩
      simp only [MatcherTableEmitter.EmitMatcher, MatcherTableEmitter.write_OS,
        MatcherTableEmitter.getNodePredicate_OS]
    · intro Pattern hF
      obtain ⟨-, -, h₃⟩ := MatcherTableEmitter.getComplexPat_interned E Pattern h
      have hv := getElem_of_prefix hF.complex h₃
      refine ⟨(E.getComplexPat Pattern).1, ?_, hv, enum_map_getElem _ _ _ _ hv⟩
      simp only [MatcherTableEmitter.EmitMatcher, MatcherTableEmitter.write_OS,
        MatcherTableEmitter.getComplexPat_OS]
    · intro Slot Rec hF
      obtain ⟨-, -, h₃⟩ := MatcherTableEmitter.getNodeXFormID_interned E Rec h
      have hv := getElem_of_prefix hF.xform h₃
      refine ⟨(E.getNodeXFormID Rec).1, ?_, hv, enum_map_getElem _ _ _ _ hv⟩
      simp only [MatcherTableEmitter.EmitMatcher, MatcherTableEmitter.write_OS,
        MatcherTableEmitter.getNodeXFormID_OS]

set_option maxRecDepth 8192 in
/-- C34: an alignment directive with a max-bytes operand `m < 1`, after a
fill operand or with the fill omitted (`n,,m`): `ParseDirectiveAlign` returns
success, the only message added is the warning at the place of the max-bytes
operand, and the streamer gets no call.  A statement that succeeds leaves the
error flag of `Run` as it was: `.align 2, 0, 0` and `.balign 4,,-1` give two
warnings, no call and the result false. -/
theorem C34_max_bytes_below_one_drops_the_directive :
    (∀ (fuel : Nat) (IsPow2 : Bool) (ValueSize : Nat) (P P₁ P₂ P₃ : AsmParser) (n f m : Int),
      AsmParser.ParseAbsoluteExpression fuel P = .ok n P₁ →
      P₁.is .Comma = true → P₁.Lex.isNot .Comma = true →
      AsmParser.ParseAbsoluteExpression fuel P₁.Lex = .ok f P₂ → P₂.is .Comma = true →
      AsmParser.ParseAbsoluteExpression fuel P₂.Lex = .ok m P₃ →
      P₃.is .EndOfStatement = true → m < 1 →
      ∃ Q, AsmParser.ParseDirectiveAlign fuel IsPow2 ValueSize P = .ok () Q ∧
        Q.Out.Calls = P.Out.Calls ∧
        Q.Diags = P₃.Diags ++ [⟨P₂.Lex.getLoc,
          "alignment directive can never be satisfied in this many bytes, ignoring",
          "warning"⟩] ∧
        Q.Lexer = P₃.Lex.Lexer) ∧
    (∀ (fuel : Nat) (IsPow2 : Bool) (ValueSize : Nat) (P P₁ P₃ : AsmParser) (n m : Int),
      AsmParser.ParseAbsoluteExpression fuel P = .ok n P₁ →
      P₁.is .Comma = true → P₁.Lex.is .Comma = true →
      AsmParser.ParseAbsoluteExpression fuel P₁.Lex.Lex = .ok m P₃ →
      P₃.is .EndOfStatement = true → m < 1 →
      ∃ Q, AsmParser.ParseDirectiveAlign fuel IsPow2 ValueSize P = .ok () Q ∧
        Q.Out.Calls = P.Out.Calls ∧
        Q.Diags = P₃.Diags ++ [⟨P₁.Lex.Lex.getLoc,
          "alignment directive can never be satisfied in this many bytes, ignoring",
          "warning"⟩] ∧
        Q.Lexer = P₃.Lex.Lexer) ∧
    (∀ (fuel : Nat) (HadError : Bool) (P Q : AsmParser), P.isNot .Eof = true →
      AsmParser.ParseStatement fuel P = .ok () Q →
      AsmParser.RunLoop (fuel + 1) HadError P = AsmParser.RunLoop fuel HadError Q) ∧
    (∃ Q, AsmParser.Run 100 (AsmParser.start (AsmToken.stream
        [.ident ".align", .int "2" 2, .punct .Comma, .int "0" 0, .punct .Comma, .int "0" 0,
          .eol,
          .ident ".balign", .int "4" 4, .punct .Comma, .punct .Comma, .punct .Minus,
          .int "1" 1, .eol])) = .ok false Q ∧
      Q.Out.Calls = [] ∧
      Q.Diags = [⟨some 5,
          "alignment directive can never be satisfied in this many bytes, ignoring",
          "warning"⟩,
        ⟨some 11,
          "alignment directive can never be satisfied in this many bytes, ignoring",
          "warning"⟩]) := by
  refine ⟨?_, ?_, AsmParser.RunLoop_ok, ⟨_, rfl, rfl, rfl⟩⟩
  · intro fuel IsPow2 ValueSize P P₁ P₂ P₃ n f m hParse hC hNC hF hC₂ hM hE hm
    have h₁ := AsmParser.ParseAbsoluteExpression_Out hParse
    have h₂ := AsmParser.ParseAbsoluteExpression_Out hF
    have h₃ := AsmParser.ParseAbsoluteExpression_Out hM
    have hCE : P₁.isNot .EndOfStatement = true := AsmParser.isNot_of_is hC (by decide)
    have hCE₂ : P₂.isNot .EndOfStatement = true := AsmParser.isNot_of_is hC₂ (by decide)
    have hEq : AsmParser.ParseDirectiveAlign fuel IsPow2 ValueSize P = .ok ()
        (P₃.Lex.Warning P₂.Lex.getLoc
          "alignment directive can never be satisfied in this many bytes, ignoring") := by
      unfold AsmParser.ParseDirectiveAlign
      simp [hParse, Result.andThen, hCE, hCE₂,
        AsmParser.isNot_eq_false_of_is hC, hNC, hF,
        AsmParser.isNot_eq_false_of_is hC₂, hM, AsmParser.isNot_eq_false_of_is hE,
        AsmParser.getLoc, hm]
    refine ⟨_, hEq, ?_, ?_, rfl⟩
    · simp [AsmParser.Warning, AsmParser.Lex_Out, h₁, h₂, h₃]
    · simp [AsmParser.Warning, AsmParser.Lex_Diags]
  · intro fuel IsPow2 ValueSize P P₁ P₃ n m hParse hC hC₂ hM hE hm
    have h₁ := AsmParser.ParseAbsoluteExpression_Out hParse
    have h₃ := AsmParser.ParseAbsoluteExpression_Out hM
    have hCE : P₁.isNot .EndOfStatement = true := AsmParser.isNot_of_is hC (by decide)
    have hCE₂ : P₁.Lex.isNot .EndOfStatement = true := AsmParser.isNot_of_is hC₂ (by decide)
    have hEq : AsmParser.ParseDirectiveAlign fuel IsPow2 ValueSize P = .ok ()
        (P₃.Lex.Warning P₁.Lex.Lex.getLoc
          "alignment directive can never be satisfied in this many bytes, ignoring") := by
      unfold AsmParser.ParseDirectiveAlign
      simp [hParse, Result.andThen, hCE, hCE₂,
        AsmParser.isNot_eq_false_of_is hC, AsmParser.isNot_eq_false_of_is hC₂,
        hM, AsmParser.isNot_eq_false_of_is hE, AsmParser.getLoc, hm]
    refine ⟨_, hEq, ?_, ?_, rfl⟩
    · simp [AsmParser.Warning, AsmParser.Lex_Out, h₁, h₃]
    · simp [AsmParser.Warning, AsmParser.Lex_Diags]

/-- C35: a statement that begins with an identifier whose first character
is `.`, that is none of the names the dispatch compares with, and that is not
followed by `:` or `=`: `ParseStatement` returns success, adds the warning
"ignoring directive for now" at the identifier, consumes the tokens through
the end of the statement, and leaves the streamer and the symbols as they
were.  The error flag of `Run` is kept, and the statement after it is parsed
as usual: after `.foo 1, x +` the line `.byte 7` gives `EmitValue(7, 1)`. -/
theorem C35_unknown_directive_is_skipped :
    (∀ (fuel : Nat) (P : AsmParser), P.getKind = .Identifier → P.getTok.Str.front = '.' →
      P.getTok.Str ∉ AsmParser.directiveNames →
      P.Lex.getKind ≠ .Colon → P.Lex.getKind ≠ .Equal →
      ∃ Q, AsmParser.ParseStatement (fuel + 1) P = .ok () Q ∧
        Q = (P.Lex.Warning (some P.getTok.Loc)
          "ignoring directive for now").EatToEndOfStatement ∧
        Q.Out = P.Out ∧ Q.Ctx = P.Ctx ∧
        Q.Diags = P.Diags ++ [⟨some P.getTok.Loc, "ignoring directive for now", "warning"⟩] ∧
        (∀ (Toks : List AsmToken) (Eol : AsmToken) (Rest : List AsmToken),
          P.Lex.Lexer = Toks ++ Eol :: Rest →
          (∀ T ∈ Toks, T.Kind ≠ .EndOfStatement ∧ T.Kind ≠ .Eof) →
          Eol.Kind = .EndOfStatement → Q.Lexer = Rest) ∧
        (∀ (HadError : Bool), AsmParser.RunLoop (fuel + 2) HadError P =
          AsmParser.RunLoop (fuel + 1) HadError Q)) ∧
    (∃ Q, AsmParser.Run 100 (AsmParser.start (AsmToken.stream
        [.ident ".foo", .int "1" 1, .punct .Comma, .ident "x", .punct .Plus, .eol,
          .ident ".byte", .int "7" 7, .eol])) = .ok false Q ∧
      Q.Out.Calls = [.EmitValue ⟨7, none, none⟩ 1] ∧
      Q.Diags = [⟨some 0, "ignoring directive for now", "warning"⟩]) := by
  refine ⟨?_, ⟨_, rfl, rfl, rfl⟩⟩
  intro fuel P hId hDot hUnknown hColon hEqual
  have hS : AsmParser.ParseStatement (fuel + 1) P = .ok ()
      (P.Lex.Warning (some P.getTok.Loc) "ignoring directive for now").EatToEndOfStatement := by
    rw [AsmParser.ParseStatement_directive fuel P hId hDot hColon hEqual,
      AsmParser.ParseDirective_unknown _ _ _ _ hUnknown]
  refine ⟨_, hS, rfl, ?_, ?_, ?_, ?_, ?_⟩
  · rw [AsmParser.EatToEndOfStatement_Out]
    simp [AsmParser.Warning, AsmParser.Lex_Out]
  · rw [AsmParser.EatToEndOfStatement_Ctx]
    simp [AsmParser.Warning, AsmParser.Lex_Ctx]
  · rw [AsmParser.EatToEndOfStatement_Diags]
    simp [AsmParser.Warning, AsmParser.Lex_Diags]
  · intro Toks Eol Rest hL hT hE
    exact AsmParser.EatToEndOfStatement_append _ Toks Eol Rest hL hT hE
  · intro HadError
    exact AsmParser.RunLoop_ok _ _ _ _ (by simp [AsmParser.isNot, AsmParser.is, hId]) hS

/-- C36: `getInterference` gives the same result in both argument orders, in
every state.  After `createGraph` the matrix is well formed and no two live
ranges interfere.  For two distinct live ranges with nodes in a well-formed
graph, `getInterference` returns 0 or 1; `setInterference` succeeds and keeps
the graph well formed, after it `getInterference` returns 1 in both argument
orders, and a second `setInterference` in either argument order returns the
same matrix and the same nodes, adjacency lists included. -/
theorem C36_interference_symmetric_and_idempotent :
    (∀ (G : InterferenceGraph) (Nodes : Nat → Option IGNode) (LR1 LR2 : LiveRange),
      G.getInterference Nodes LR1 LR2 = G.getInterference Nodes LR2 LR1) ∧
    (∀ (G : InterferenceGraph), G.createGraph.WellFormed ∧
      G.createGraph.Size = G.IGNodeList.length ∧
      ∀ (Nodes : Nat → Option IGNode) (LR1 LR2 : LiveRange), LR1.Addr ≠ LR2.Addr →
        G.createGraph.InGraph Nodes LR1 → G.createGraph.InGraph Nodes LR2 →
        G.createGraph.getInterference Nodes LR1 LR2 = some 0) ∧
    (∀ (G : InterferenceGraph) (Nodes : Nat → Option IGNode) (LR1 LR2 : LiveRange),
      G.WellFormed → LR1.Addr ≠ LR2.Addr → G.InGraph Nodes LR1 → G.InGraph Nodes LR2 →
      (∃ v, v ≤ 1 ∧ G.getInterference Nodes LR1 LR2 = some v ∧
        G.getInterference Nodes LR2 LR1 = some v) ∧
      ∃ G' Nodes', G.setInterference Nodes LR1 LR2 = some (G', Nodes') ∧
        G'.WellFormed ∧ G'.InGraph Nodes' LR1 ∧ G'.InGraph Nodes' LR2 ∧
        G'.getInterference Nodes' LR1 LR2 = some 1 ∧
        G'.getInterference Nodes' LR2 LR1 = some 1 ∧
        G'.setInterference Nodes' LR1 LR2 = some (G', Nodes') ∧
        G'.setInterference Nodes' LR2 LR1 = some (G', Nodes')) ∧
    (∃ G' Nodes',
      InterferenceGraph.threeNodes.getInterference IGNode.threeNodes
        ⟨100, some 12⟩ ⟨101, some 10⟩ = some 0 ∧
      InterferenceGraph.threeNodes.setInterference IGNode.threeNodes
        ⟨100, some 12⟩ ⟨101, some 10⟩ = some (G', Nodes') ∧
      G'.IG = some [[0, 0, 0], [0, 0, 0], [1, 0, 0]] ∧
      Nodes' 10 = some ⟨0, [12]⟩ ∧ Nodes' 11 = some ⟨1, []⟩ ∧ Nodes' 12 = some ⟨2, [10]⟩ ∧
      G'.getInterference Nodes' ⟨100, some 12⟩ ⟨101, some 10⟩ = some 1 ∧
      G'.getInterference Nodes' ⟨101, some 10⟩ ⟨100, some 12⟩ = some 1 ∧
      ∃ G'' Nodes'', G'.setInterference Nodes' ⟨101, some 10⟩ ⟨100, some 12⟩ =
          some (G'', Nodes'') ∧
        G''.IG = some [[0, 0, 0], [0, 0, 0], [1, 0, 0]] ∧
        Nodes'' 10 = some ⟨0, [12]⟩ ∧ Nodes'' 11 = some ⟨1, []⟩ ∧
        Nodes'' 12 = some ⟨2, [10]⟩) := by
  refine ⟨InterferenceGraph.getInterference_comm, ?_, ?_,
    ⟨_, _, rfl, rfl, rfl, rfl, rfl, rfl, rfl, rfl, _, _, rfl, rfl, rfl, rfl, rfl⟩⟩
  · intro G
    refine ⟨InterferenceGraph.createGraph_wellFormed G, rfl, ?_⟩
    intro Nodes LR1 LR2 hne h₁ h₂
    obtain ⟨p₁, N1, hp₁, hn₁, hi₁⟩ := h₁
    obtain ⟨p₂, N2, hp₂, hn₂, hi₂⟩ := h₂
    obtain ⟨IG, hIG, hc⟩ := InterferenceGraph.createGraph_zero G
      (max N1.Index N2.Index) (min N1.Index N2.Index) (max_lt hi₁ hi₂)
      (lt_of_le_of_lt (min_le_left _ _) hi₁)
    rw [InterferenceGraph.getInterference_of hne hp₁ hp₂ hn₁ hn₂ hIG, hc]
  · intro G Nodes LR1 LR2 hG hne h₁ h₂
    exact InterferenceGraph.setInterference_spec G Nodes LR1 LR2 hG hne h₁ h₂

/-- C37: for `1 ≤ N ≤ 2 ^ 31` the recursion of `NextPowerOfTwo<N>` ends
within 32 instantiations at `2 ^ k`, the least power of two that is at least
`N`; `NextPowerOfTwo` of that value is the value itself; and the constructor
of `SmallPtrSet` passes it to `SmallPtrSetImpl`, whose assertion it
satisfies. -/
theorem C37_NextPowerOfTwo_rounds_up (N : Nat) (h₀ : 1 ≤ N) (h₁ : N ≤ 2 ^ 31) :
    ∃ k, k ≤ 31 ∧ N ≤ 2 ^ k ∧ (∀ j, N ≤ 2 ^ j → 2 ^ k ≤ 2 ^ j) ∧
      ∀ fuel, 32 ≤ fuel →
        NextPowerOfTwo fuel N = some (2 ^ k) ∧
        NextPowerOfTwo fuel (2 ^ k) = some (2 ^ k) ∧
        SmallPtrSetImpl.new (2 ^ k) = some (2 ^ k) ∧
        SmallPtrSet.new fuel N = some (2 ^ k) := by
  -- the least `k` with `N ≤ 2 ^ k`
  have hex : ∃ k, N ≤ 2 ^ k := ⟨31, h₁⟩
  classical
  let k := Nat.find hex
  have hk : N ≤ 2 ^ k := Nat.find_spec hex
  have hk31 : k ≤ 31 := Nat.find_min' hex h₁
  have hmin : ∀ j, N ≤ 2 ^ j → k ≤ j := fun j hj => Nat.find_min' hex hj
  have hlt : 2 ^ k < 2 * N := by
    rcases Nat.eq_zero_or_pos k with h | h
    · rw [h]
      simp
      omega
    · have hnot : ¬ N ≤ 2 ^ (k - 1) := fun hc => by
        have := hmin _ hc
        omega
      have : 2 ^ k = 2 * 2 ^ (k - 1) := by
        rw [← pow_succ']
        congr 1
        omega
      omega
  obtain ⟨t, r, hr, hN⟩ := Nat.exists_eq_two_pow_mul_odd (n := N) (by omega)
  obtain ⟨m, rfl⟩ := hr
  refine ⟨k, hk31, hk, fun j hj => Nat.pow_le_pow_right (by decide) (hmin j hj), ?_⟩
  intro fuel hf
  have hA := NextPowerOfTwo_spec fuel N k t m hN hk hlt hk31 (by omega)
  have hB := NextPowerOfTwo_spec fuel (2 ^ k) k k 0 (by simp) (le_refl _)
    (by have := Nat.two_pow_pos k; omega) hk31 (by omega)
  have hC : SmallPtrSetImpl.new (2 ^ k) = some (2 ^ k) := by
    have hpos := Nat.two_pow_pos k
    have h32 : (2 : Nat) ^ k < 2 ^ 32 :=
      Nat.pow_lt_pow_right (by decide) (by omega)
    have hand : 2 ^ k &&& (2 ^ k - 1) = 0 := by
      have := land_pred k 0
      simp only [Nat.mul_zero, Nat.zero_add, Nat.mul_one] at this
      exact this
    simp [SmallPtrSetImpl.new, unsignedPred_eq _ hpos h32, hand, hpos.ne']
  exact ⟨hA, hB, hC, by simp [SmallPtrSet.new, hA, hB, hC]⟩

/-- C37 at `N = 24`: the value is a power of two that is at least 24, and
no power of two below it is. -/
theorem C37_NextPowerOfTwo_rounds_up_witness :
    ∃ k, k ≤ 31 ∧ 24 ≤ 2 ^ k ∧ (∀ j, 24 ≤ 2 ^ j → 2 ^ k ≤ 2 ^ j) ∧
      ∀ fuel, 32 ≤ fuel →
        NextPowerOfTwo fuel 24 = some (2 ^ k) ∧
        NextPowerOfTwo fuel (2 ^ k) = some (2 ^ k) ∧
        SmallPtrSetImpl.new (2 ^ k) = some (2 ^ k) ∧
        SmallPtrSet.new fuel 24 = some (2 ^ k) :=
  C37_NextPowerOfTwo_rounds_up 24 (by decide) (by decide)
